import Mathlib

/-!
# smart-ptr: shared / weak handles over a detached control block

A shallow embedding of the non-intrusive shared-ownership subsystem of the
repository (`src/shared/sw_fwd.h`, `src/weak/shared.h`, `src/weak/weak.h`,
`src/shared-from-this/sw_fwd.h`, `src/shared-from-this/shared.h`).

Memory is explicit.  A control block pointer is `Option Nat` (`none` is
`nullptr`, `some c` the `c`-th block ever allocated with `new`).  An object
pointer is a `Nat` with `0` for `nullptr`; a non-null number names one object
for the whole run.  The world records the addresses on which `delete` is
undefined behaviour (objects already deleted, storage that no `new T`
returned), so deleting an object twice is a fault.  Every `SharedPtr` / `WeakPtr`
instance lives in a slot of the world and a method receives the slot number of
`*this` (and of `other`), so reference semantics and self-assignment checks are
the ones of the source.  `size_t` counters are naturals reduced modulo `2 ^ 64`.
-/

set_option autoImplicit false

/-- Ways in which running a piece of the program fails to produce a state. -/
inductive Fault where
  /-- The exception `BadWeakPtr` of `sw_fwd.h` was thrown. -/
  | BadWeakPtr
  /-- A freed, null or non-existent object was dereferenced (undefined behaviour). -/
  | undefined
  /-- The recursion budget of the teardown chain was exhausted. -/
  | outOfFuel
  deriving DecidableEq, Repr

/-- Number of values of `size_t`. -/
def sizeMod : Nat := 2 ^ 64

/-- The operator `++` on a `size_t`. -/
def incSize (n : Nat) : Nat := (n + 1) % sizeMod

/-- The operator `--` on a `size_t`: a counter at 0 wraps to `2 ^ 64 - 1`. -/
def decSize (n : Nat) : Nat := if n = 0 then sizeMod - 1 else n - 1

/-- Conversion `size_t -> int` performed by `return cnt_strong_ref_;` in a function returning `int`. -/
def sizeToInt (n : Nat) : Int :=
  if n % 2 ^ 32 < 2 ^ 31 then ((n % 2 ^ 32 : Nat) : Int) else ((n % 2 ^ 32 : Nat) : Int) - 2 ^ 32

/-- Conversion `int -> size_t` performed by `return ControlGetCntStrong();` in a function returning `size_t`. -/
def intToSize (i : Int) : Nat := (i % (2 ^ 64 : Int)).toNat

/-- Fields of `SharedPtr<T>`: `control_` and `ptr_`. -/
structure SharedPtr where
  control_ : Option Nat
  ptr_ : Nat
  deriving DecidableEq, Repr

/-- Fields of `WeakPtr<T>`: `control_` and `ptr_`. -/
structure WeakPtr where
  control_ : Option Nat
  ptr_ : Nat
  deriving DecidableEq, Repr

/-- Number of `SharedPtr` instances in `l` whose `control_` is block `c`. -/
def cntS (c : Nat) (l : List SharedPtr) : Nat := l.countP (fun s => s.control_ == some c)

/-- Number of `WeakPtr` instances in `l` whose `control_` is block `c`. -/
def cntW (c : Nat) (l : List WeakPtr) : Nat := l.countP (fun s => s.control_ == some c)

/-- The derived part of a control block: `ControlBlockPointer<T>` holds `ptr_`,
`ControlBlockEmplace<T>` holds `storage_` (its address is what `GetPtr()` returns) and `alive_`. -/
inductive Storage where
  | pointer (ptr_ : Nat)
  | emplace (storage_ : Nat) (alive_ : Bool)
  deriving DecidableEq, Repr

/-- The managed object is still held by the derived part (`ptr_ != nullptr`, resp. `alive_`). -/
def Storage.live : Storage → Bool
  | .pointer p => decide (p ≠ 0)
  | .emplace _ a => a

/-- The derived part after the body shared by `DeleteSource` and the derived destructor:
`if (ptr_) { delete ptr_; ptr_ = nullptr; }`, resp. `if (alive_) { GetPtr()->~T(); alive_ = false; }`. -/
def Storage.drop : Storage → Storage
  | .pointer _ => .pointer 0
  | .emplace a _ => .emplace a false

/-- The heap object that the derived part deletes when it releases: the one `ptr_` points to. -/
def Storage.held : Storage → List Nat
  | .pointer p => if p = 0 then [] else [p]
  | .emplace _ _ => []

/-- The expression `delete p` on a non-null object pointer, `h` being the record of the addresses
on which `delete` is undefined behaviour: undefined on an address of the record, otherwise the
object ends and its address joins the record. -/
def deleteObject (h : List Nat) (p : Nat) : Except Fault (List Nat) :=
  if p ∈ h then .error .undefined else .ok (p :: h)

/-- The release of the managed object by the derived part: `delete ptr_`, resp. the in-place
destructor call `GetPtr()->~T()`, which returns no memory. -/
def Storage.release : Storage → List Nat → Except Fault (List Nat)
  | .pointer p, h => deleteObject h p
  | .emplace _ _, h => .ok h

/-- The object whose destructor the derived part runs when it releases, if it still holds one. -/
def Storage.object : Storage → Option Nat
  | .pointer p => if p = 0 then none else some p
  | .emplace a alive => if alive then some a else none

/-- The four counting methods of `ControlBlockBase` that the handles call. -/
inductive BlockCall where
  | IncreaseStrong
  | DecreaseStrong
  | IncreaseWeak
  | DecreaseWeak
  deriving DecidableEq, Repr

/-! ## Variant without destruction lock: `src/shared/sw_fwd.h`, `src/weak/shared.h`, `src/weak/weak.h` -/

namespace Weak

/-- A control block of `src/shared/sw_fwd.h`: the two counters of `ControlBlockBase`, the derived
part, and ghost fields recording what happened to it: `managed` (it was constructed holding an
object), `freed` (`delete this` has returned its memory), `releases` (how many times the managed
object was released) and `deletes` (how many times `delete this` ran). -/
structure ControlBlock where
  cnt_strong_ref_ : Nat
  cnt_weak_ref_ : Nat
  derived : Storage
  managed : Bool
  freed : Bool
  releases : Nat
  deletes : Nat
  deriving DecidableEq, Repr

/-- The constructor `ControlBlockPointer(T* ptr) : ControlBlockBase(), ptr_(ptr)`. -/
def ControlBlockPointer (ptr : Nat) : ControlBlock :=
  { cnt_strong_ref_ := 1, cnt_weak_ref_ := 0, derived := .pointer ptr,
    managed := decide (ptr ≠ 0), freed := false, releases := 0, deletes := 0 }

/-- The constructor `ControlBlockEmplace(Args&&...)`: the object is built in `storage_`, `alive_ = true`. -/
def ControlBlockEmplace (storage : Nat) : ControlBlock :=
  { cnt_strong_ref_ := 1, cnt_weak_ref_ := 0, derived := .emplace storage true,
    managed := true, freed := false, releases := 0, deletes := 0 }

namespace ControlBlock

/-- Assignment to the member `cnt_strong_ref_`. -/
def setStrong (b : ControlBlock) (n : Nat) : ControlBlock := { b with cnt_strong_ref_ := n }

/-- Assignment to the member `cnt_weak_ref_`. -/
def setWeak (b : ControlBlock) (n : Nat) : ControlBlock := { b with cnt_weak_ref_ := n }

/-- The method `IncreaseStrong`: `++cnt_strong_ref_`. -/
def IncreaseStrong (b : ControlBlock) : ControlBlock := b.setStrong (incSize b.cnt_strong_ref_)

/-- The method `DeleteSource` of both derived classes, run with the record `h` of the addresses on
which `delete` is undefined: `if (ptr_) { delete ptr_; ptr_ = nullptr; }`, resp.
`if (alive_) { GetPtr()->~T(); alive_ = false; }`. -/
def DeleteSource (b : ControlBlock) (h : List Nat) : Except Fault (ControlBlock × List Nat) :=
  if b.derived.live then do
    let h1 ← b.derived.release h
    pure ({ b with derived := b.derived.drop, releases := b.releases + 1 }, h1)
  else pure (b, h)

/-- The statement `delete this`: the derived destructor (same body as `DeleteSource`) runs and the
memory of the block is returned. -/
def deleteThis (b : ControlBlock) (h : List Nat) : Except Fault (ControlBlock × List Nat) := do
  let r ← b.DeleteSource h
  pure ({ r.1 with freed := true, deletes := b.deletes + 1 }, r.2)

/-- The method `DecreaseStrong`. -/
def DecreaseStrong (b : ControlBlock) (h : List Nat) : Except Fault (ControlBlock × List Nat) := do
  let b1 := b.setStrong (decSize b.cnt_strong_ref_)
  let r ← (if b1.cnt_strong_ref_ = 0 then b1.DeleteSource h else pure (b1, h))
  if r.1.cnt_strong_ref_ = 0 ∧ r.1.cnt_weak_ref_ = 0 then r.1.deleteThis r.2 else pure r

/-- The method `GetCntStrong`, which returns the `size_t` counter as an `int`. -/
def GetCntStrong (b : ControlBlock) : Int := sizeToInt b.cnt_strong_ref_

/-- The method `IncreaseWeak`: `++cnt_weak_ref_`. -/
def IncreaseWeak (b : ControlBlock) : ControlBlock := b.setWeak (incSize b.cnt_weak_ref_)

/-- The method `DecreaseWeak`. -/
def DecreaseWeak (b : ControlBlock) (h : List Nat) : Except Fault (ControlBlock × List Nat) :=
  let b1 := b.setWeak (decSize b.cnt_weak_ref_)
  if b1.cnt_strong_ref_ = 0 ∧ b1.cnt_weak_ref_ = 0 then b1.deleteThis h else pure (b1, h)

/-- The method `IsResourceAlive`: `cnt_strong_ref_ != 0`. -/
def IsResourceAlive (b : ControlBlock) : Bool := decide (b.cnt_strong_ref_ ≠ 0)

/-- The method `GetPtr` of `ControlBlockEmplace`: the address of `storage_`. -/
def GetPtr (b : ControlBlock) : Nat :=
  match b.derived with
  | .emplace a _ => a
  | .pointer _ => 0

end ControlBlock

/-- The memory of a program: every control block ever allocated, every handle instance, and the
record `dead` of the object addresses on which `delete` is undefined behaviour: the objects that
were deleted and the in-place storage of the `ControlBlockEmplace` blocks. -/
structure World where
  blocks : List ControlBlock
  shared : List SharedPtr
  weak : List WeakPtr
  dead : List Nat
  deriving DecidableEq, Repr

namespace World

/-- Dereference of a control block pointer; undefined when the block does not exist or was freed. -/
def block (w : World) (c : Nat) : Except Fault ControlBlock :=
  match w.blocks[c]? with
  | some b => if b.freed then .error .undefined else .ok b
  | none => .error .undefined

/-- A call `control_->f()` of a member function that updates the block. -/
def call (w : World) (c : Nat) (f : ControlBlock → ControlBlock) : Except Fault World := do
  let b ← w.block c
  pure { w with blocks := w.blocks.set c (f b) }

/-- The statement `if (control_) { control_->f(); }`. -/
def callIf (w : World) (control : Option Nat) (f : ControlBlock → ControlBlock) : Except Fault World :=
  match control with
  | some c => w.call c f
  | none => pure w

/-- A call `control_->f()` of a member function that may delete the managed object. -/
def callDel (w : World) (c : Nat)
    (f : ControlBlock → List Nat → Except Fault (ControlBlock × List Nat)) : Except Fault World := do
  let b ← w.block c
  let r ← f b w.dead
  pure { w with blocks := w.blocks.set c r.1, dead := r.2 }

/-- The statement `if (control_) { control_->f(); }` for such a member function. -/
def callDelIf (w : World) (control : Option Nat)
    (f : ControlBlock → List Nat → Except Fault (ControlBlock × List Nat)) : Except Fault World :=
  match control with
  | some c => w.callDel c f
  | none => pure w

/-- Read of the `SharedPtr` instance in slot `i`. -/
def sharedAt (w : World) (i : Nat) : Except Fault SharedPtr :=
  match w.shared[i]? with
  | some s => .ok s
  | none => .error .undefined

/-- Read of the `WeakPtr` instance in slot `i`. -/
def weakAt (w : World) (i : Nat) : Except Fault WeakPtr :=
  match w.weak[i]? with
  | some s => .ok s
  | none => .error .undefined

/-- Storage for a new `SharedPtr` instance, with its member initialisers applied. -/
def newShared (w : World) (s : SharedPtr) : World := { w with shared := w.shared ++ [s] }

/-- Storage for a new `WeakPtr` instance, with its member initialisers applied. -/
def newWeak (w : World) (s : WeakPtr) : World := { w with weak := w.weak ++ [s] }

/-- Assignment to both fields of the `SharedPtr` in slot `i`. -/
def setShared (w : World) (i : Nat) (s : SharedPtr) : World := { w with shared := w.shared.set i s }

/-- Assignment to both fields of the `WeakPtr` in slot `i`. -/
def setWeak (w : World) (i : Nat) (s : WeakPtr) : World := { w with weak := w.weak.set i s }

/-- End of the storage of the most recent `SharedPtr` temporary. -/
def popShared (w : World) : World := { w with shared := w.shared.dropLast }

/-- End of the storage of the most recent `WeakPtr` temporary. -/
def popWeak (w : World) : World := { w with weak := w.weak.dropLast }

end World

/-! ### `SharedPtr<T>` of `src/weak/shared.h`

Every method takes the world and the slot of `*this`; a constructor appends the slot of the new
instance, which is therefore the last `SharedPtr` slot of the world it returns. -/

/-- The method `SharedPtr::ControlIncreaseStrong`. -/
def SharedPtr.ControlIncreaseStrong (w : World) (self : Nat) : Except Fault World := do
  let s ← w.sharedAt self
  w.callIf s.control_ ControlBlock.IncreaseStrong

/-- The method `SharedPtr::ControlDecreaseStrong`. -/
def SharedPtr.ControlDecreaseStrong (w : World) (self : Nat) : Except Fault World := do
  let s ← w.sharedAt self
  w.callDelIf s.control_ ControlBlock.DecreaseStrong

/-- The method `SharedPtr::ControlGetCntStrong`, of return type `int`. -/
def SharedPtr.ControlGetCntStrong (w : World) (self : Nat) : Except Fault Int := do
  let s ← w.sharedAt self
  match s.control_ with
  | some c => do
    let b ← w.block c
    pure b.GetCntStrong
  | none => pure 0

/-- The method `SharedPtr::Clear`. -/
def SharedPtr.Clear (w : World) (self : Nat) : Except Fault World := do
  let w1 ← SharedPtr.ControlDecreaseStrong w self
  pure (w1.setShared self { control_ := none, ptr_ := 0 })

/-- The constructors `SharedPtr()` and `SharedPtr(std::nullptr_t)`. -/
def SharedPtr.construct (w : World) : World := w.newShared { control_ := none, ptr_ := 0 }

/-- The constructor `SharedPtr(Y* ptr)`: `control_(new ControlBlockPointer(ptr)), ptr_(ptr)`.
Nothing is checked about `ptr`: a pointer that another block holds, or whose object was deleted,
is wrapped all the same, and the fault occurs when the new block deletes it. -/
def SharedPtr.fromRaw (w : World) (ptr : Nat) : World :=
  World.newShared { w with blocks := w.blocks ++ [ControlBlockPointer ptr] }
    { control_ := some w.blocks.length, ptr_ := ptr }

/-- The copy constructors `SharedPtr(const SharedPtr&)` and `SharedPtr(const SharedPtr<Y>&)`. -/
def SharedPtr.copy (w : World) (other : Nat) : Except Fault World := do
  let o ← w.sharedAt other
  SharedPtr.ControlIncreaseStrong (w.newShared { control_ := o.control_, ptr_ := o.ptr_ }) w.shared.length

/-- The move constructors `SharedPtr(SharedPtr&&)` and `SharedPtr(SharedPtr<Y>&&)`. -/
def SharedPtr.move (w : World) (other : Nat) : Except Fault World := do
  let o ← w.sharedAt other
  pure ((w.newShared { control_ := o.control_, ptr_ := o.ptr_ }).setShared other { control_ := none, ptr_ := 0 })

/-- The aliasing constructor `SharedPtr(const SharedPtr<Y>& other, T* ptr)`. -/
def SharedPtr.aliasing (w : World) (other ptr : Nat) : Except Fault World := do
  let o ← w.sharedAt other
  SharedPtr.ControlIncreaseStrong (w.newShared { control_ := o.control_, ptr_ := ptr }) w.shared.length

/-- The constructor `SharedPtr(T* ptr, ControlBlockBase* block)`. -/
def SharedPtr.fromBlock (w : World) (ptr : Nat) (block : Option Nat) : World :=
  w.newShared { control_ := block, ptr_ := ptr }

/-- The promoting constructor `SharedPtr(const WeakPtr<T>& other)`. -/
def SharedPtr.fromWeak (w : World) (other : Nat) : Except Fault World := do
  let o ← w.weakAt other
  match o.control_ with
  | none => throw Fault.BadWeakPtr
  | some c => do
    let b ← w.block c
    if b.IsResourceAlive then
      SharedPtr.ControlIncreaseStrong (w.newShared { control_ := o.control_, ptr_ := o.ptr_ }) w.shared.length
    else throw Fault.BadWeakPtr

/-- The copy assignment `operator=(const SharedPtr& other)`. -/
def SharedPtr.assign (w : World) (self other : Nat) : Except Fault World :=
  if other = self then pure w else do
    let w1 ← SharedPtr.Clear w self
    let o ← w1.sharedAt other
    SharedPtr.ControlIncreaseStrong (w1.setShared self { control_ := o.control_, ptr_ := o.ptr_ }) self

/-- The move assignment `operator=(SharedPtr&& other)`. -/
def SharedPtr.moveAssign (w : World) (self other : Nat) : Except Fault World :=
  if other = self then pure w else do
    let w1 ← SharedPtr.Clear w self
    let o ← w1.sharedAt other
    pure ((w1.setShared self { control_ := o.control_, ptr_ := o.ptr_ }).setShared other
      { control_ := none, ptr_ := 0 })

/-- The destructor `~SharedPtr`: `Clear()`. -/
def SharedPtr.destroy (w : World) (self : Nat) : Except Fault World := SharedPtr.Clear w self

/-- The method `Reset()`: `Clear()`. -/
def SharedPtr.Reset (w : World) (self : Nat) : Except Fault World := SharedPtr.Clear w self

/-- The method `Reset(Y* ptr)`: `Clear(); *this = std::move(SharedPtr<Y>(ptr));`, the temporary
being destroyed at the end of the statement. -/
def SharedPtr.ResetPtr (w : World) (self ptr : Nat) : Except Fault World := do
  let w1 ← SharedPtr.Clear w self
  let tmp := w1.shared.length
  let w2 ← SharedPtr.moveAssign (SharedPtr.fromRaw w1 ptr) self tmp
  let w3 ← SharedPtr.destroy w2 tmp
  pure w3.popShared

/-- The method `Swap(SharedPtr& other)`, with its local `tmp` destroyed at the end. -/
def SharedPtr.Swap (w : World) (self other : Nat) : Except Fault World := do
  let tmp := w.shared.length
  let w1 ← SharedPtr.move w self
  let w2 ← SharedPtr.moveAssign w1 self other
  let w3 ← SharedPtr.moveAssign w2 other tmp
  let w4 ← SharedPtr.destroy w3 tmp
  pure w4.popShared

/-- The method `Get`: `ptr_`. -/
def SharedPtr.Get (w : World) (self : Nat) : Except Fault Nat := do
  let s ← w.sharedAt self
  pure s.ptr_

/-- The method `UseCount`: `ControlGetCntStrong()` converted from `int` to `size_t`. -/
def SharedPtr.UseCount (w : World) (self : Nat) : Except Fault Nat := do
  let n ← SharedPtr.ControlGetCntStrong w self
  pure (intToSize n)

/-- The conversion `operator bool`: `control_ != nullptr`. -/
def SharedPtr.toBool (w : World) (self : Nat) : Except Fault Bool := do
  let s ← w.sharedAt self
  pure s.control_.isSome

/-- The function `MakeShared`: `new ControlBlockEmplace<T>(args...)` whose in-place storage is at
address `storage`, then `SharedPtr<T>(block->GetPtr(), block)`.  The storage is part of the block
and no `new T` returned it, so `delete` on its address is undefined from now on. -/
def MakeShared (w : World) (storage : Nat) : World :=
  SharedPtr.fromBlock
    { w with blocks := w.blocks ++ [ControlBlockEmplace storage], dead := storage :: w.dead }
    (ControlBlockEmplace storage).GetPtr (some w.blocks.length)

/-! ### `WeakPtr<T>` of `src/weak/weak.h` -/

/-- The method `WeakPtr::ControlIncreaseWeak`. -/
def WeakPtr.ControlIncreaseWeak (w : World) (self : Nat) : Except Fault World := do
  let s ← w.weakAt self
  w.callIf s.control_ ControlBlock.IncreaseWeak

/-- The method `WeakPtr::ControlDecreaseWeak`. -/
def WeakPtr.ControlDecreaseWeak (w : World) (self : Nat) : Except Fault World := do
  let s ← w.weakAt self
  w.callDelIf s.control_ ControlBlock.DecreaseWeak

/-- The method `WeakPtr::ControlGetCntStrong`, of return type `int`. -/
def WeakPtr.ControlGetCntStrong (w : World) (self : Nat) : Except Fault Int := do
  let s ← w.weakAt self
  match s.control_ with
  | some c => do
    let b ← w.block c
    pure b.GetCntStrong
  | none => pure 0

/-- The method `WeakPtr::Clear`. -/
def WeakPtr.Clear (w : World) (self : Nat) : Except Fault World := do
  let w1 ← WeakPtr.ControlDecreaseWeak w self
  pure (w1.setWeak self { control_ := none, ptr_ := 0 })

/-- The destructor `~WeakPtr`: `Clear()`. -/
def WeakPtr.destroy (w : World) (self : Nat) : Except Fault World := WeakPtr.Clear w self

/-- The constructor `WeakPtr()`. -/
def WeakPtr.construct (w : World) : World := w.newWeak { control_ := none, ptr_ := 0 }

/-- The copy constructors `WeakPtr(const WeakPtr&)` and `WeakPtr(const WeakPtr<Y>&)`. -/
def WeakPtr.copy (w : World) (other : Nat) : Except Fault World := do
  let o ← w.weakAt other
  WeakPtr.ControlIncreaseWeak (w.newWeak { control_ := o.control_, ptr_ := o.ptr_ }) w.weak.length

/-- The move constructors `WeakPtr(WeakPtr&&)` and `WeakPtr(WeakPtr<Y>&&)`. -/
def WeakPtr.move (w : World) (other : Nat) : Except Fault World := do
  let o ← w.weakAt other
  pure ((w.newWeak { control_ := o.control_, ptr_ := o.ptr_ }).setWeak other { control_ := none, ptr_ := 0 })

/-- The constructor `WeakPtr(const SharedPtr<Y>& other)`. -/
def WeakPtr.fromShared (w : World) (other : Nat) : Except Fault World := do
  let o ← w.sharedAt other
  WeakPtr.ControlIncreaseWeak (w.newWeak { control_ := o.control_, ptr_ := o.ptr_ }) w.weak.length

/-- The copy assignment `operator=(const WeakPtr& other)`. -/
def WeakPtr.assign (w : World) (self other : Nat) : Except Fault World :=
  if other = self then pure w else do
    let w1 ← WeakPtr.Clear w self
    let o ← w1.weakAt other
    WeakPtr.ControlIncreaseWeak (w1.setWeak self { control_ := o.control_, ptr_ := o.ptr_ }) self

/-- The move assignment `operator=(WeakPtr&& other)`. -/
def WeakPtr.moveAssign (w : World) (self other : Nat) : Except Fault World :=
  if other = self then pure w else do
    let w1 ← WeakPtr.Clear w self
    let o ← w1.weakAt other
    pure ((w1.setWeak self { control_ := o.control_, ptr_ := o.ptr_ }).setWeak other
      { control_ := none, ptr_ := 0 })

/-- The method `Reset()`: `Clear()`. -/
def WeakPtr.Reset (w : World) (self : Nat) : Except Fault World := WeakPtr.Clear w self

/-- The method `Swap(WeakPtr& other)`, with its local `tmp` destroyed at the end. -/
def WeakPtr.Swap (w : World) (self other : Nat) : Except Fault World := do
  let tmp := w.weak.length
  let w1 ← WeakPtr.move w self
  let w2 ← WeakPtr.moveAssign w1 self other
  let w3 ← WeakPtr.moveAssign w2 other tmp
  let w4 ← WeakPtr.destroy w3 tmp
  pure w4.popWeak

/-- The method `WeakPtr::UseCount`: `ControlGetCntStrong()` converted from `int` to `size_t`. -/
def WeakPtr.UseCount (w : World) (self : Nat) : Except Fault Nat := do
  let n ← WeakPtr.ControlGetCntStrong w self
  pure (intToSize n)

/-- The method `Expired`: `ControlGetCntStrong() == 0`. -/
def WeakPtr.Expired (w : World) (self : Nat) : Except Fault Bool := do
  let n ← WeakPtr.ControlGetCntStrong w self
  pure (decide (n = 0))

/-- The method `Lock`; the returned `SharedPtr` is the last `SharedPtr` slot of the result. -/
def WeakPtr.Lock (w : World) (self : Nat) : Except Fault World := do
  let s ← w.weakAt self
  match s.control_ with
  | some c => do
    let b ← w.block c
    if b.IsResourceAlive then do
      let w1 ← w.call c ControlBlock.IncreaseStrong
      pure (SharedPtr.fromBlock w1 s.ptr_ (some c))
    else pure (SharedPtr.fromBlock w 0 none)
  | none => pure (SharedPtr.fromBlock w 0 none)

/-! ### Programs: finite sequences of handle operations -/

/-- One operation of a client program on the handles of the world; slot numbers name the
instances. -/
inductive Op where
  | sharedDefault
  | sharedFromRaw (ptr : Nat)
  | makeShared (storage : Nat)
  | sharedCopy (other : Nat)
  | sharedMove (other : Nat)
  | sharedAliasing (other ptr : Nat)
  | sharedFromWeak (other : Nat)
  | sharedAssign (self other : Nat)
  | sharedMoveAssign (self other : Nat)
  | sharedReset (self : Nat)
  | sharedResetPtr (self ptr : Nat)
  | sharedSwap (self other : Nat)
  | sharedDestroy (self : Nat)
  | weakDefault
  | weakCopy (other : Nat)
  | weakMove (other : Nat)
  | weakFromShared (other : Nat)
  | weakAssign (self other : Nat)
  | weakMoveAssign (self other : Nat)
  | weakReset (self : Nat)
  | weakSwap (self other : Nat)
  | weakDestroy (self : Nat)
  | weakLock (self : Nat)
  deriving DecidableEq, Repr

/-- The instances an operation names exist in the world. -/
def Op.wellFormed (w : World) : Op → Bool
  | .sharedDefault | .sharedFromRaw _ | .makeShared _ | .weakDefault => true
  | .sharedCopy o | .sharedMove o | .sharedAliasing o _ | .weakFromShared o
  | .sharedReset o | .sharedResetPtr o _ | .sharedDestroy o => decide (o < w.shared.length)
  | .sharedAssign s o | .sharedMoveAssign s o | .sharedSwap s o =>
    decide (s < w.shared.length) && decide (o < w.shared.length)
  | .sharedFromWeak o | .weakCopy o | .weakMove o | .weakReset o | .weakDestroy o | .weakLock o =>
    decide (o < w.weak.length)
  | .weakAssign s o | .weakMoveAssign s o | .weakSwap s o =>
    decide (s < w.weak.length) && decide (o < w.weak.length)

/-- The `SharedPtr` instances an operation names. -/
def Op.namesShared : Op → List Nat
  | .sharedCopy o | .sharedMove o | .sharedAliasing o _ | .weakFromShared o
  | .sharedReset o | .sharedResetPtr o _ | .sharedDestroy o => [o]
  | .sharedAssign s o | .sharedMoveAssign s o | .sharedSwap s o => [s, o]
  | _ => []

/-- The `WeakPtr` instances an operation names. -/
def Op.namesWeak : Op → List Nat
  | .sharedFromWeak o | .weakCopy o | .weakMove o | .weakReset o | .weakDestroy o | .weakLock o =>
    [o]
  | .weakAssign s o | .weakMoveAssign s o | .weakSwap s o => [s, o]
  | _ => []

/-- The `SharedPtr` instance whose lifetime an operation ends. -/
def Op.endsShared : Op → List Nat
  | .sharedDestroy s => [s]
  | _ => []

/-- The `WeakPtr` instance whose lifetime an operation ends. -/
def Op.endsWeak : Op → List Nat
  | .weakDestroy s => [s]
  | _ => []

/-- The code an operation runs, on instances that exist.  A `BadWeakPtr` thrown by the promoting
constructor is caught by the client, no instance having been constructed. -/
def Op.exec (w : World) : Op → Except Fault World
  | .sharedDefault => pure (SharedPtr.construct w)
  | .sharedFromRaw p => pure (SharedPtr.fromRaw w p)
  | .makeShared a => pure (MakeShared w a)
  | .sharedCopy o => SharedPtr.copy w o
  | .sharedMove o => SharedPtr.move w o
  | .sharedAliasing o p => SharedPtr.aliasing w o p
  | .sharedFromWeak o =>
    match SharedPtr.fromWeak w o with
    | .error .BadWeakPtr => pure w
    | r => r
  | .sharedAssign s o => SharedPtr.assign w s o
  | .sharedMoveAssign s o => SharedPtr.moveAssign w s o
  | .sharedReset s => SharedPtr.Reset w s
  | .sharedResetPtr s p => SharedPtr.ResetPtr w s p
  | .sharedSwap s o => SharedPtr.Swap w s o
  | .sharedDestroy s => SharedPtr.destroy w s
  | .weakDefault => pure (WeakPtr.construct w)
  | .weakCopy o => WeakPtr.copy w o
  | .weakMove o => WeakPtr.move w o
  | .weakFromShared o => WeakPtr.fromShared w o
  | .weakAssign s o => WeakPtr.assign w s o
  | .weakMoveAssign s o => WeakPtr.moveAssign w s o
  | .weakReset s => WeakPtr.Reset w s
  | .weakSwap s o => WeakPtr.Swap w s o
  | .weakDestroy s => WeakPtr.destroy w s
  | .weakLock s => WeakPtr.Lock w s

/-- The state of a client program: the world, and the slots of the handle instances whose
lifetime has ended because their destructor has run. -/
structure Client where
  world : World
  endedShared : List Nat
  endedWeak : List Nat
  deriving DecidableEq, Repr

/-- A client that has destroyed no instance yet. -/
def Client.start (w : World) : Client := { world := w, endedShared := [], endedWeak := [] }

/-- No instance the operation names has ended its lifetime. -/
def Op.alive (c : Client) (op : Op) : Bool :=
  op.namesShared.all (fun s => decide (s ∉ c.endedShared)) &&
  op.namesWeak.all (fun s => decide (s ∉ c.endedWeak))

/-- Execution of one operation.  An operation naming an instance that does not exist, or one
whose lifetime has ended, is not part of any program and is skipped. -/
def step (c : Client) (op : Op) : Except Fault Client :=
  if op.wellFormed c.world && op.alive c then do
    let w ← op.exec c.world
    pure { world := w, endedShared := op.endsShared ++ c.endedShared,
           endedWeak := op.endsWeak ++ c.endedWeak }
  else pure c

/-- Execution of a program, operation after operation. -/
def run : List Op → Client → Except Fault Client
  | [], c => pure c
  | op :: ops, c => do
    let c1 ← step c op
    run ops c1

/-- One call `control->m()` of a counting method on block `c`. -/
def World.callBlock (w : World) (c : Nat) : BlockCall → Except Fault World
  | .IncreaseStrong => w.call c ControlBlock.IncreaseStrong
  | .DecreaseStrong => w.callDel c ControlBlock.DecreaseStrong
  | .IncreaseWeak => w.call c ControlBlock.IncreaseWeak
  | .DecreaseWeak => w.callDel c ControlBlock.DecreaseWeak

/-- A sequence of calls of counting methods on block `c`. -/
def callSeq (c : Nat) : List BlockCall → World → Except Fault World
  | [], w => pure w
  | m :: ms, w => do
    let w1 ← w.callBlock c m
    callSeq c ms w1

/-- The world before the program creates anything. -/
def World.empty : World := { blocks := [], shared := [], weak := [], dead := [] }

/-- The objects an operation brings under management: the non-null raw pointer it wraps in a new
`ControlBlockPointer`, or the in-place storage of the `ControlBlockEmplace` it creates. -/
def Op.objects : Op → List Nat
  | .sharedFromRaw p => if p = 0 then [] else [p]
  | .sharedResetPtr _ p => if p = 0 then [] else [p]
  | .makeShared a => [a]
  | _ => []

/-- The objects a program brings under management, in program order. -/
def objects : List Op → List Nat
  | [] => []
  | op :: ops => op.objects ++ objects ops

/-- The blocks after the guarded call `if (control_) control_->f()`, for a `control_` that is null
or designates an existing block. -/
def applyBlocks (bl : List ControlBlock) (control : Option Nat) (f : ControlBlock → ControlBlock) :
    List ControlBlock :=
  match control with
  | some c =>
    match bl[c]? with
    | some b => bl.set c (f b)
    | none => bl
  | none => bl

/-- The control pointer is null or designates a block that exists and is not freed. -/
def Usable (bl : List ControlBlock) (oc : Option Nat) : Prop :=
  ∀ c, oc = some c → ∃ b, bl[c]? = some b ∧ b.freed = false

/-- What the counters and ghost fields of a block must be when `ns` `SharedPtr` and `nw` `WeakPtr`
instances reference it. -/
def Good (b : ControlBlock) (ns nw : Nat) : Prop :=
  b.cnt_strong_ref_ = ns ∧ b.cnt_weak_ref_ = nw ∧
  (b.freed = true ↔ ns = 0 ∧ nw = 0) ∧
  b.deletes = (if b.freed then 1 else 0) ∧
  b.releases = (if b.managed = true ∧ ns = 0 then 1 else 0) ∧
  (b.derived.live = true ↔ b.managed = true ∧ ns ≠ 0)

/-- The state of block `c`, if it exists, agrees with the handles that reference it; no handle
references a block that was never allocated. -/
def InvAt (ob : Option ControlBlock) (ns nw : Nat) : Prop :=
  match ob with
  | some b => Good b ns nw
  | none => ns = 0 ∧ nw = 0

/-- The counting invariant of a world. -/
def Inv (w : World) : Prop :=
  ∀ c, InvAt (w.blocks[c]?) (cntS c w.shared) (cntW c w.weak)

/-- What a call on block `b` may do to the object it holds and to the record of dead addresses:
an address joins the record only if `b` held it, and a block that still holds its object after
the call has left the record alone. -/
def Handover (b : ControlBlock) (h : List Nat) (b2 : ControlBlock) (h2 : List Nat) : Prop :=
  (∀ q, q ∈ h2 → q ∈ h ∨ (q ≠ 0 ∧ b.derived = .pointer q)) ∧
  (∀ q, b2.derived = .pointer q → q ≠ 0 → b.derived = .pointer q ∧ h2 = h)

/-- Object ownership, `U` listing the objects brought under management so far: an object held by
a `ControlBlockPointer` is in `U` and was not deleted, no two blocks hold the same object, and
every dead address is in `U`. -/
def Owns (U : List Nat) (w : World) : Prop :=
  (∀ (c : Nat) (b : ControlBlock) (p : Nat), w.blocks[c]? = some b → b.derived = .pointer p →
    p ≠ 0 → p ∉ w.dead ∧ p ∈ U) ∧
  (∀ (c d : Nat) (b b2 : ControlBlock) (p : Nat), w.blocks[c]? = some b → w.blocks[d]? = some b2 →
    b.derived = .pointer p → b2.derived = .pointer p → p ≠ 0 → c = d) ∧
  (∀ q, q ∈ w.dead → q ∈ U)

/-- The counting invariant together with object ownership. -/
def Safe (U : List Nat) (w : World) : Prop := Inv w ∧ Owns U w

/-- No block whose strong count is 0 still holds its object. -/
def Idle (w : World) : Prop :=
  ∀ (d : Nat) (y : ControlBlock), w.blocks[d]? = some y → y.cnt_strong_ref_ = 0 →
    y.derived.live = false

/-- Every block of `w` still exists in `w2`, with the same record of whether it was constructed
holding an object. -/
def Extends (w w2 : World) : Prop :=
  ∀ (c : Nat) (b : ControlBlock), w.blocks[c]? = some b →
    ∃ b2 : ControlBlock, w2.blocks[c]? = some b2 ∧ b2.managed = b.managed

/-- The fields `control_` and `ptr_` of a handle are both present or both absent. -/
def bothOrNeither (control : Option Nat) (ptr : Nat) : Bool := control.isSome == decide (ptr ≠ 0)

/-- Every `SharedPtr` and every `WeakPtr` instance of the world has its two fields both present
or both absent. -/
def World.consistent (w : World) : Bool :=
  w.shared.all (fun s => bothOrNeither s.control_ s.ptr_) &&
  w.weak.all (fun s => bothOrNeither s.control_ s.ptr_)

/-- The operation is not the aliasing constructor and gives no null address a control block: the
raw pointer passed to `SharedPtr(Y*)` or to `Reset(Y*)` is not null, and neither is the address
of the in-place storage of a `ControlBlockEmplace`. -/
def Op.nonAliasing : Op → Bool
  | .sharedAliasing _ _ => false
  | .sharedFromRaw p | .sharedResetPtr _ p | .makeShared p => decide (p ≠ 0)
  | _ => true

end Weak

/-! ## Exclusive owner: `src/unique/unique.h` -/

namespace Unique

/-- The pair `CompressedPair<T*, Deleter> data_` of a `UniquePtr`: `first` is what `data_.First()`
designates, `second` the deleter value that `data_.Second()` designates. -/
structure UniquePtr where
  first : Nat
  second : Nat
  deriving DecidableEq, Repr

/-- One invocation `data_.Second().operator()(arg)`: which deleter value ran, on which pointer, and
what the invoking handle held in `data_.First()` at that moment. -/
structure DeleterCall where
  deleter : Nat
  arg : Nat
  held : Nat
  deriving DecidableEq, Repr

/-- The `UniquePtr` instance at every address, and the deleter invocations so far, oldest first. -/
structure World where
  mem : Nat → UniquePtr
  calls : List DeleterCall

/-- The assignment `data_.First() = p` in the instance at `self`. -/
def setFirst (w : World) (self p : Nat) : World :=
  { w with mem := Function.update w.mem self { first := p, second := (w.mem self).second } }

/-- The call `data_.Second().operator()(p)` made by the instance at `self`. -/
def invokeDeleter (w : World) (self p : Nat) : World :=
  { w with calls := w.calls ++ [{ deleter := (w.mem self).second, arg := p, held := (w.mem self).first }] }

/-- The call `std::swap(data_, other.data_)`. -/
def swapData (w : World) (self other : Nat) : World :=
  { w with mem := Function.update (Function.update w.mem self (w.mem other)) other (w.mem self) }

/-- The method `Clear` (same body in the primary template and in the array specialisation). -/
def Clear (w : World) (self : Nat) : World :=
  let w1 := if (w.mem self).first ≠ 0 then invokeDeleter w self (w.mem self).first else w
  setFirst w1 self 0

/-- The move assignment `operator=(UniquePtr&& other)`. -/
def moveAssign (w : World) (self other : Nat) : World :=
  if other = self then w else swapData (Clear w self) self other

/-- The destructor `~UniquePtr`: `Clear()`. -/
def destroy (w : World) (self : Nat) : World := Clear w self

/-- The method `Release`: the returned pointer and the world afterwards. -/
def Release (w : World) (self : Nat) : Nat × World :=
  ((w.mem self).first, setFirst w self 0)

/-- The method `Reset(T* ptr)` (same body in the primary template and in the array specialisation). -/
def Reset (w : World) (self ptr : Nat) : World :=
  let old_ptr := (w.mem self).first
  let w1 := setFirst w self ptr
  if old_ptr ≠ 0 then invokeDeleter w1 self old_ptr else w1

/-- The method `Get`: `data_.First()`. -/
def Get (w : World) (self : Nat) : Nat := (w.mem self).first

/-- The conversion `operator bool`: `data_.First() != nullptr`. -/
def toBool (w : World) (self : Nat) : Bool := decide ((w.mem self).first ≠ 0)

end Unique


/-! ## Intrusive counting: `src/intrusive/intrusive.h` -/

namespace Intrusive

/-- The class `SimpleCounter`: one `size_t` member `count_`. -/
structure SimpleCounter where
  count_ : Nat
  deriving DecidableEq, Repr

namespace SimpleCounter

/-- The method `IncRef`: `++count_`. -/
def IncRef (c : SimpleCounter) : SimpleCounter := { count_ := incSize c.count_ }

/-- The method `DecRef`: `--count_`. -/
def DecRef (c : SimpleCounter) : SimpleCounter := { count_ := decSize c.count_ }

/-- The method `RefCount`: `return count_`. -/
def RefCount (c : SimpleCounter) : Nat := c.count_

/-- The method `Reset`: `count_ = 0`. -/
def Reset (_c : SimpleCounter) : SimpleCounter := { count_ := 0 }

end SimpleCounter

/-- An object of a class deriving from `RefCounted<Derived, SimpleCounter, Deleter>`: the member
`counter_` and a ghost count of the invocations of `Deleter::Destroy` on it. -/
structure RefCounted where
  counter_ : SimpleCounter
  destroys : Nat
  deriving DecidableEq, Repr

namespace RefCounted

/-- The method `IncRef`: `counter_.IncRef()`. -/
def IncRef (o : RefCounted) : RefCounted := { o with counter_ := o.counter_.IncRef }

/-- The method `DecRef`: `counter_.DecRef()`, then `Deleter::Destroy(this)` when the count is 0. -/
def DecRef (o : RefCounted) : RefCounted :=
  let o1 : RefCounted := { o with counter_ := o.counter_.DecRef }
  if o1.counter_.RefCount = 0 then { o1 with destroys := o1.destroys + 1 } else o1

/-- The method `RefCount`: `counter_.RefCount()`. -/
def RefCount (o : RefCounted) : Nat := o.counter_.RefCount

/-- The body of `operator=` past the identity test: `counter_.Reset(); counter_.IncRef();`. -/
def resetToOne (o : RefCounted) : RefCounted := { o with counter_ := o.counter_.Reset.IncRef }

/-- The operator `operator=(const RefCounted& other)` on the objects at addresses `self` and
`other` of the object memory `objs`. -/
def assign (objs : Nat → RefCounted) (self other : Nat) : Nat → RefCounted :=
  if other = self then objs else Function.update objs self (resetToOne (objs self))

end RefCounted

/-! ### `IntrusivePtr<T>`

Objects live in the list `objs`: the address `p` (not 0) of an object is its position plus one,
address 0 is `nullptr`.  An object on which `Deleter::Destroy` has run is gone: every later access
to it is undefined behaviour. -/

/-- The memory of a program using `IntrusivePtr`: the objects deriving from `RefCounted`, the
member `ptr_` of every `IntrusivePtr` instance, and the ghost record `adopted` of the addresses
that an `IntrusivePtr` has called `IncRef` on. -/
structure World where
  objs : List RefCounted
  ptrs : List Nat
  adopted : List Nat
  deriving DecidableEq, Repr

namespace World

/-- Dereference of an object pointer: undefined on `nullptr`, on an address where no object was
constructed, and on a destroyed object. -/
def object (w : World) (p : Nat) : Except Fault RefCounted :=
  if p = 0 then .error .undefined
  else match w.objs[p - 1]? with
    | some o => if o.destroys = 0 then .ok o else .error .undefined
    | none => .error .undefined

/-- Read of the member `ptr_` of the instance in slot `i`. -/
def ptrAt (w : World) (i : Nat) : Except Fault Nat :=
  match w.ptrs[i]? with
  | some p => .ok p
  | none => .error .undefined

/-- A call `p->f()` of a member function of `RefCounted`. -/
def callObj (w : World) (p : Nat) (f : RefCounted → RefCounted) : Except Fault World := do
  let o ← w.object p
  pure { w with objs := w.objs.set (p - 1) (f o) }

/-- The expression `new T`: an object with `count_ = 0`; its address is the new length of `objs`. -/
def newObject (w : World) : World :=
  { w with objs := w.objs ++ [{ counter_ := { count_ := 0 }, destroys := 0 }] }

/-- End of the storage of the most recent temporary instance. -/
def popPtr (w : World) : World := { w with ptrs := w.ptrs.dropLast }

end World

namespace IntrusivePtr

/-- The method `IntrusivePtr::IncRef`: `if (ptr_) { ptr_->IncRef(); }`. -/
def IncRef (w : World) (self : Nat) : Except Fault World := do
  let p ← w.ptrAt self
  if p ≠ 0 then do
    let w1 ← w.callObj p RefCounted.IncRef
    pure { w1 with adopted := p :: w1.adopted }
  else pure w

/-- The method `IntrusivePtr::RefCount`: `ptr_ ? ptr_->RefCount() : 0`. -/
def RefCount (w : World) (self : Nat) : Except Fault Nat := do
  let p ← w.ptrAt self
  if p ≠ 0 then do
    let o ← w.object p
    pure o.RefCount
  else pure 0

/-- The constructors `IntrusivePtr()` and `IntrusivePtr(std::nullptr_t)`. -/
def construct (w : World) : World := { w with ptrs := w.ptrs ++ [0] }

/-- The constructor `IntrusivePtr(T* ptr)`: `ptr_(ptr)`, then `IncRef()`. -/
def fromRaw (w : World) (ptr : Nat) : Except Fault World :=
  IncRef { w with ptrs := w.ptrs ++ [ptr] } w.ptrs.length

/-- The copy constructors: `ptr_(other.ptr_)`, then `IncRef()`. -/
def copy (w : World) (other : Nat) : Except Fault World := do
  let p ← w.ptrAt other
  IncRef { w with ptrs := w.ptrs ++ [p] } w.ptrs.length

/-- The move constructors: `ptr_(other.ptr_)`, then `other.ptr_ = nullptr`. -/
def move (w : World) (other : Nat) : Except Fault World := do
  let p ← w.ptrAt other
  pure { w with ptrs := (w.ptrs ++ [p]).set other 0 }

/-- The method `Clear`: `T* to_delete = ptr_; ptr_ = nullptr; if (to_delete) to_delete->DecRef();`. -/
def Clear (w : World) (self : Nat) : Except Fault World := do
  let to_delete ← w.ptrAt self
  let w1 : World := { w with ptrs := w.ptrs.set self 0 }
  if to_delete ≠ 0 then w1.callObj to_delete RefCounted.DecRef else pure w1

/-- The copy assignment `operator=(const IntrusivePtr& other)`. -/
def assign (w : World) (self other : Nat) : Except Fault World :=
  if other = self then pure w else do
    let w1 ← Clear w self
    let p ← w1.ptrAt other
    IncRef { w1 with ptrs := w1.ptrs.set self p } self

/-- The move assignment `operator=(IntrusivePtr&& other)`. -/
def moveAssign (w : World) (self other : Nat) : Except Fault World :=
  if other = self then pure w else do
    let w1 ← Clear w self
    let p ← w1.ptrAt other
    pure { w1 with ptrs := (w1.ptrs.set self p).set other 0 }

/-- The destructor `~IntrusivePtr`: `Clear()`. -/
def destroy (w : World) (self : Nat) : Except Fault World := Clear w self

/-- The method `Reset()`: `Clear()`. -/
def Reset (w : World) (self : Nat) : Except Fault World := Clear w self

/-- The method `Reset(T* ptr)`: `Clear(); *this = std::move(IntrusivePtr<T>(ptr));`, the temporary
destroyed at the end of the statement. -/
def ResetPtr (w : World) (self ptr : Nat) : Except Fault World := do
  let w1 ← Clear w self
  let tmp := w1.ptrs.length
  let w2 ← fromRaw w1 ptr
  let w3 ← moveAssign w2 self tmp
  let w4 ← destroy w3 tmp
  pure w4.popPtr

/-- The method `Swap(IntrusivePtr& other)`, with its local `tmp` destroyed at the end. -/
def Swap (w : World) (self other : Nat) : Except Fault World := do
  let tmp := w.ptrs.length
  let w1 ← move w self
  let w2 ← moveAssign w1 self other
  let w3 ← moveAssign w2 other tmp
  let w4 ← destroy w3 tmp
  pure w4.popPtr

/-- The method `Get`: `ptr_`. -/
def Get (w : World) (self : Nat) : Except Fault Nat := w.ptrAt self

/-- The method `UseCount`: `RefCount()`. -/
def UseCount (w : World) (self : Nat) : Except Fault Nat := RefCount w self

/-- The conversion `operator bool`: `ptr_ != nullptr`. -/
def toBool (w : World) (self : Nat) : Except Fault Bool := do
  let p ← w.ptrAt self
  pure (decide (p ≠ 0))

end IntrusivePtr

/-- The function `MakeIntrusive`: `IntrusivePtr<T>(new T{args...})`. -/
def MakeIntrusive (w : World) : Except Fault World :=
  IntrusivePtr.fromRaw w.newObject (w.objs.length + 1)

/-- The memory before the program creates anything. -/
def World.empty : World := { objs := [], ptrs := [], adopted := [] }

/-! ### Programs over `IntrusivePtr` -/

/-- One operation of a client program; slot numbers name the `IntrusivePtr` instances. -/
inductive Op where
  | newObject
  | makeIntrusive
  | construct
  | fromRaw (ptr : Nat)
  | copy (other : Nat)
  | move (other : Nat)
  | assign (self other : Nat)
  | moveAssign (self other : Nat)
  | reset (self : Nat)
  | resetPtr (self ptr : Nat)
  | swap (self other : Nat)
  | destroy (self : Nat)
  deriving DecidableEq, Repr

/-- The instances an operation names. -/
def Op.names : Op → List Nat
  | .copy o | .move o | .reset o | .resetPtr o _ | .destroy o => [o]
  | .assign s o | .moveAssign s o | .swap s o => [s, o]
  | _ => []

/-- The instance whose lifetime an operation ends. -/
def Op.ends : Op → List Nat
  | .destroy s => [s]
  | _ => []

/-- The code an operation runs. -/
def Op.exec (w : World) : Op → Except Fault World
  | .newObject => pure w.newObject
  | .makeIntrusive => MakeIntrusive w
  | .construct => pure (IntrusivePtr.construct w)
  | .fromRaw p => IntrusivePtr.fromRaw w p
  | .copy o => IntrusivePtr.copy w o
  | .move o => IntrusivePtr.move w o
  | .assign s o => IntrusivePtr.assign w s o
  | .moveAssign s o => IntrusivePtr.moveAssign w s o
  | .reset s => IntrusivePtr.Reset w s
  | .resetPtr s p => IntrusivePtr.ResetPtr w s p
  | .swap s o => IntrusivePtr.Swap w s o
  | .destroy s => IntrusivePtr.destroy w s

/-- The state of a client program: the memory, and the slots of the instances whose destructor
has run. -/
structure Client where
  world : World
  ended : List Nat
  deriving DecidableEq, Repr

/-- A client that has destroyed no instance yet. -/
def Client.start (w : World) : Client := { world := w, ended := [] }

/-- Every instance the operation names exists and its lifetime has not ended. -/
def Op.usable (c : Client) (op : Op) : Bool :=
  op.names.all (fun s => decide (s < c.world.ptrs.length) && decide (s ∉ c.ended))

/-- Execution of one operation.  An operation naming an instance that does not exist, or one
whose lifetime has ended, is not part of any program and is skipped. -/
def step (c : Client) (op : Op) : Except Fault Client :=
  if op.usable c then do
    let w ← op.exec c.world
    pure { world := w, ended := op.ends ++ c.ended }
  else pure c

/-- Execution of a program, operation after operation. -/
def run : List Op → Client → Except Fault Client
  | [], c => pure c
  | op :: ops, c => do
    let c1 ← step c op
    run ops c1

/-- Number of instances in `l` whose `ptr_` is `p`. -/
def cntP (p : Nat) (l : List Nat) : Nat := l.countP (fun q => q == p)

/-- What the counter and the ghost field of an object must be when `n` instances reference it and
`ad` says whether an instance ever did: a living object counts its instances, and the object was
destroyed (once) exactly if it was referenced and no instance references it any more. -/
def GoodObj (o : RefCounted) (n : Nat) (ad : Prop) : Prop :=
  (o.destroys = 0 → o.counter_.count_ = n) ∧
  (o.destroys = 1 ∨ o.destroys = 0) ∧ (o.destroys = 1 ↔ ad ∧ n = 0) ∧ (n ≠ 0 → ad)

/-- The counting invariant of a memory: every object agrees with the instances that reference it,
and no instance and no record references an address without object. -/
def Inv (w : World) : Prop :=
  ∀ p, match w.objs[p]? with
    | some o => GoodObj o (cntP (p + 1) w.ptrs) (p + 1 ∈ w.adopted)
    | none => cntP (p + 1) w.ptrs = 0 ∧ p + 1 ∉ w.adopted

end Intrusive


/-! ## Variant with destruction lock and `EnableSharedFromThis`:
`src/shared-from-this/sw_fwd.h`, `src/shared-from-this/shared.h`, with the `WeakPtr` of
`src/weak/weak.h`

The managed object may be of a type deriving from `EnableSharedFromThis`: it then has a member
`weak_this_`, a `WeakPtr` that lives in a slot of the world like every other instance, and its
destructor destroys that member.  Releasing the object can therefore call back into the control
block (`DecreaseWeak`), which is what the destruction lock of this variant is for. -/

namespace Sft

/-- A control block of `src/shared-from-this/sw_fwd.h`: the members of `ControlBlockBase`, the
derived part, and the same ghost fields as in the variant without lock. -/
structure ControlBlock where
  cnt_strong_ref_ : Nat
  cnt_weak_ref_ : Nat
  destruction_is_locked_ : Bool
  derived : Storage
  managed : Bool
  freed : Bool
  releases : Nat
  deletes : Nat
  deriving DecidableEq, Repr

/-- The constructor `ControlBlockPointer(T* ptr) : ControlBlockBase(), ptr_(ptr)`. -/
def ControlBlockPointer (ptr : Nat) : ControlBlock :=
  { cnt_strong_ref_ := 1, cnt_weak_ref_ := 0, destruction_is_locked_ := false,
    derived := .pointer ptr, managed := decide (ptr ≠ 0), freed := false, releases := 0,
    deletes := 0 }

/-- The members of a new `ControlBlockEmplace`, its object built in `storage_`, `alive_ = true`. -/
def ControlBlockEmplace (storage : Nat) : ControlBlock :=
  { cnt_strong_ref_ := 1, cnt_weak_ref_ := 0, destruction_is_locked_ := false,
    derived := .emplace storage true, managed := true, freed := false, releases := 0,
    deletes := 0 }

namespace ControlBlock

/-- Assignment to the member `cnt_strong_ref_`. -/
def setStrong (b : ControlBlock) (n : Nat) : ControlBlock := { b with cnt_strong_ref_ := n }

/-- Assignment to the member `cnt_weak_ref_`. -/
def setWeak (b : ControlBlock) (n : Nat) : ControlBlock := { b with cnt_weak_ref_ := n }

/-- Assignment to the member `destruction_is_locked_`. -/
def setLock (b : ControlBlock) (l : Bool) : ControlBlock := { b with destruction_is_locked_ := l }

/-- The method `IncreaseStrong`: `++cnt_strong_ref_`. -/
def IncreaseStrong (b : ControlBlock) : ControlBlock := b.setStrong (incSize b.cnt_strong_ref_)

/-- The method `IncreaseWeak`: `++cnt_weak_ref_`. -/
def IncreaseWeak (b : ControlBlock) : ControlBlock := b.setWeak (incSize b.cnt_weak_ref_)

/-- The method `GetCntStrong`, which returns the `size_t` counter as an `int`. -/
def GetCntStrong (b : ControlBlock) : Int := sizeToInt b.cnt_strong_ref_

/-- The method `IsResourceAlive`: `cnt_strong_ref_ != 0`. -/
def IsResourceAlive (b : ControlBlock) : Bool := decide (b.cnt_strong_ref_ ≠ 0)

/-- The method `GetPtr` of `ControlBlockEmplace`: the address of `storage_`. -/
def GetPtr (b : ControlBlock) : Nat :=
  match b.derived with
  | .emplace a _ => a
  | .pointer _ => 0

end ControlBlock

/-- The memory of a program: control blocks, handle instances, the record `dead` of the object
addresses on which `delete` is undefined behaviour, and the living objects of a type deriving
from `EnableSharedFromThis`, each with the slot of its member `weak_this_`. -/
structure World where
  blocks : List ControlBlock
  shared : List SharedPtr
  weak : List WeakPtr
  dead : List Nat
  selfAware : List (Nat × Nat)
  deriving DecidableEq, Repr

namespace World

/-- Dereference of a control block pointer; undefined when the block does not exist or was freed. -/
def block (w : World) (c : Nat) : Except Fault ControlBlock :=
  match w.blocks[c]? with
  | some b => if b.freed then .error .undefined else .ok b
  | none => .error .undefined

/-- Assignment to the members of block `c`. -/
def setBlock (w : World) (c : Nat) (b : ControlBlock) : World :=
  { w with blocks := w.blocks.set c b }

/-- A call `control_->f()` of a member function that only updates the counters. -/
def call (w : World) (c : Nat) (f : ControlBlock → ControlBlock) : Except Fault World := do
  let b ← w.block c
  pure (w.setBlock c (f b))

/-- The statement `if (control_) { control_->f(); }`. -/
def callIf (w : World) (control : Option Nat) (f : ControlBlock → ControlBlock) : Except Fault World :=
  match control with
  | some c => w.call c f
  | none => pure w

/-- Read of the `SharedPtr` instance in slot `i`. -/
def sharedAt (w : World) (i : Nat) : Except Fault SharedPtr :=
  match w.shared[i]? with
  | some s => .ok s
  | none => .error .undefined

/-- Read of the `WeakPtr` instance in slot `i`. -/
def weakAt (w : World) (i : Nat) : Except Fault WeakPtr :=
  match w.weak[i]? with
  | some s => .ok s
  | none => .error .undefined

/-- Storage for a new `SharedPtr` instance, with its member initialisers applied. -/
def newShared (w : World) (s : SharedPtr) : World := { w with shared := w.shared ++ [s] }

/-- Storage for a new `WeakPtr` instance, with its member initialisers applied. -/
def newWeak (w : World) (s : WeakPtr) : World := { w with weak := w.weak ++ [s] }

/-- Assignment to both fields of the `SharedPtr` in slot `i`. -/
def setShared (w : World) (i : Nat) (s : SharedPtr) : World := { w with shared := w.shared.set i s }

/-- Assignment to both fields of the `WeakPtr` in slot `i`. -/
def setWeak (w : World) (i : Nat) (s : WeakPtr) : World := { w with weak := w.weak.set i s }

/-- End of the storage of the most recent `SharedPtr` temporary. -/
def popShared (w : World) : World := { w with shared := w.shared.dropLast }

/-- End of the storage of the most recent `WeakPtr` temporary. -/
def popWeak (w : World) : World := { w with weak := w.weak.dropLast }

/-- The lvalue `e->weak_this_` for a pointer `e` to an object of a type deriving from
`EnableSharedFromThis`: undefined when `e` is null or points to no living such object. -/
def weakThis (w : World) (e : Nat) : Except Fault Nat :=
  if e = 0 then .error .undefined
  else match w.selfAware.lookup e with
    | some k => .ok k
    | none => .error .undefined

/-- The constructor of an object of a type deriving from `EnableSharedFromThis` at address `p`:
the member `weak_this_` is default-constructed. -/
def newSelfAware (w : World) (p : Nat) : World :=
  { w with weak := w.weak ++ [{ control_ := none, ptr_ := 0 }],
           selfAware := (p, w.weak.length) :: w.selfAware }

/-- Recursion budget that the teardown chain of this world cannot exhaust: every nested release
goes through the destructor of another block. -/
def fuel (w : World) : Nat := w.blocks.length + 1

end World

/-! ### Teardown

`DecreaseWeak` can destroy the block, whose destructor can release an object, whose destructor
destroys its `weak_this_`, which calls `DecreaseWeak` again.  The functions below take that
innermost call as the parameter `dw`; `DecreaseWeak` then closes the recursion. -/

/-- The method `WeakPtr::Clear`: `ControlDecreaseWeak(); control_ = nullptr; ptr_ = nullptr;`. -/
def WeakPtr.ClearK (dw : World → Nat → Except Fault World) (w : World) (self : Nat) :
    Except Fault World := do
  let s ← w.weakAt self
  let w1 ← (match s.control_ with
    | some c => dw w c
    | none => pure w)
  pure (w1.setWeak self { control_ := none, ptr_ := 0 })

/-- The destructor `~T()` of the object at `p`: when its type derives from
`EnableSharedFromThis`, the member `weak_this_` is destroyed (`~WeakPtr` is `Clear()`) and the
object is no longer living. -/
def destructK (dw : World → Nat → Except Fault World) (w : World) (p : Nat) : Except Fault World :=
  match w.selfAware.lookup p with
  | some k => do
    let w1 ← WeakPtr.ClearK dw w k
    pure { w1 with selfAware := w1.selfAware.filter (fun o => o.1 ≠ p) }
  | none => pure w

/-- The expression `delete p` on a non-null object pointer: undefined on a dead address;
otherwise the destructor runs and the memory is returned. -/
def deleteK (dw : World → Nat → Except Fault World) (w : World) (p : Nat) : Except Fault World := do
  let h ← deleteObject w.dead p
  destructK dw { w with dead := h } p

/-- The method `DeleteSource` of both derived classes (and the body of their destructors):
`if (ptr_) { T* to_delete = ptr_; ptr_ = nullptr; delete to_delete; }`, resp.
`if (alive_) { alive_ = false; GetPtr()->~T(); }`. -/
def DeleteSourceK (dw : World → Nat → Except Fault World) (w : World) (c : Nat) :
    Except Fault World := do
  let b ← w.block c
  match b.derived with
  | .pointer p =>
    if p ≠ 0 then
      deleteK dw (w.setBlock c { b with derived := .pointer 0, releases := b.releases + 1 }) p
    else pure w
  | .emplace a alive =>
    if alive then
      destructK dw (w.setBlock c { b with derived := .emplace a false, releases := b.releases + 1 }) a
    else pure w

/-- The statement `delete this`: the derived destructor runs, then the memory of the block is
returned. -/
def deleteThisK (dw : World → Nat → Except Fault World) (w : World) (c : Nat) :
    Except Fault World := do
  let w1 ← DeleteSourceK dw w c
  let b ← w1.block c
  pure (w1.setBlock c { b with freed := true, deletes := b.deletes + 1 })

/-- The body of the method `DecreaseWeak`. -/
def DecreaseWeakK (dw : World → Nat → Except Fault World) (w : World) (c : Nat) :
    Except Fault World := do
  let b ← w.block c
  let b1 := b.setWeak (decSize b.cnt_weak_ref_)
  let w1 := w.setBlock c b1
  if b1.destruction_is_locked_ = false ∧ b1.cnt_strong_ref_ = 0 ∧ b1.cnt_weak_ref_ = 0 then
    deleteThisK dw w1 c
  else pure w1

/-- The method `DecreaseWeak`, with a recursion budget. -/
def DecreaseWeakFuel : Nat → World → Nat → Except Fault World
  | 0, _, _ => .error .outOfFuel
  | n + 1, w, c => DecreaseWeakK (DecreaseWeakFuel n) w c

/-- The method `DecreaseWeak` of block `c`. -/
def ControlBlock.DecreaseWeak (w : World) (c : Nat) : Except Fault World :=
  DecreaseWeakFuel w.fuel w c

/-- The method `DeleteSource` of block `c`. -/
def ControlBlock.DeleteSource (w : World) (c : Nat) : Except Fault World :=
  DeleteSourceK (DecreaseWeakFuel w.fuel) w c

/-- The method `DecreaseStrong` of block `c`. -/
def ControlBlock.DecreaseStrong (w : World) (c : Nat) : Except Fault World := do
  let b ← w.block c
  let b1 := b.setStrong (decSize b.cnt_strong_ref_)
  let w1 := w.setBlock c b1
  let w2 ← (if b1.cnt_strong_ref_ = 0 then do
      let wd ← DeleteSourceK (DecreaseWeakFuel w.fuel) (w1.setBlock c (b1.setLock true)) c
      let bd ← wd.block c
      pure (wd.setBlock c (bd.setLock false))
    else pure w1)
  let b2 ← w2.block c
  if b2.destruction_is_locked_ = false ∧ b2.cnt_strong_ref_ = 0 ∧ b2.cnt_weak_ref_ = 0 then
    deleteThisK (DecreaseWeakFuel w.fuel) w2 c
  else pure w2

/-! ### `WeakPtr<T>` (the code of `src/weak/weak.h`) -/

/-- The method `WeakPtr::ControlIncreaseWeak`. -/
def WeakPtr.ControlIncreaseWeak (w : World) (self : Nat) : Except Fault World := do
  let s ← w.weakAt self
  w.callIf s.control_ ControlBlock.IncreaseWeak

/-- The method `WeakPtr::ControlGetCntStrong`, of return type `int`. -/
def WeakPtr.ControlGetCntStrong (w : World) (self : Nat) : Except Fault Int := do
  let s ← w.weakAt self
  match s.control_ with
  | some c => do
    let b ← w.block c
    pure b.GetCntStrong
  | none => pure 0

/-- The method `WeakPtr::Clear`. -/
def WeakPtr.Clear (w : World) (self : Nat) : Except Fault World :=
  WeakPtr.ClearK (DecreaseWeakFuel w.fuel) w self

/-- The destructor `~WeakPtr`: `Clear()`. -/
def WeakPtr.destroy (w : World) (self : Nat) : Except Fault World := WeakPtr.Clear w self

/-- The constructor `WeakPtr()`. -/
def WeakPtr.construct (w : World) : World := w.newWeak { control_ := none, ptr_ := 0 }

/-- The copy constructors `WeakPtr(const WeakPtr&)` and `WeakPtr(const WeakPtr<Y>&)`. -/
def WeakPtr.copy (w : World) (other : Nat) : Except Fault World := do
  let o ← w.weakAt other
  WeakPtr.ControlIncreaseWeak (w.newWeak { control_ := o.control_, ptr_ := o.ptr_ }) w.weak.length

/-- The move constructors `WeakPtr(WeakPtr&&)` and `WeakPtr(WeakPtr<Y>&&)`. -/
def WeakPtr.move (w : World) (other : Nat) : Except Fault World := do
  let o ← w.weakAt other
  pure ((w.newWeak { control_ := o.control_, ptr_ := o.ptr_ }).setWeak other { control_ := none, ptr_ := 0 })

/-- The constructor `WeakPtr(const SharedPtr<Y>& other)`. -/
def WeakPtr.fromShared (w : World) (other : Nat) : Except Fault World := do
  let o ← w.sharedAt other
  WeakPtr.ControlIncreaseWeak (w.newWeak { control_ := o.control_, ptr_ := o.ptr_ }) w.weak.length

/-- The copy assignment `operator=(const WeakPtr& other)`. -/
def WeakPtr.assign (w : World) (self other : Nat) : Except Fault World :=
  if other = self then pure w else do
    let w1 ← WeakPtr.Clear w self
    let o ← w1.weakAt other
    WeakPtr.ControlIncreaseWeak (w1.setWeak self { control_ := o.control_, ptr_ := o.ptr_ }) self

/-- The move assignment `operator=(WeakPtr&& other)`. -/
def WeakPtr.moveAssign (w : World) (self other : Nat) : Except Fault World :=
  if other = self then pure w else do
    let w1 ← WeakPtr.Clear w self
    let o ← w1.weakAt other
    pure ((w1.setWeak self { control_ := o.control_, ptr_ := o.ptr_ }).setWeak other
      { control_ := none, ptr_ := 0 })

/-- The method `Reset()`: `Clear()`. -/
def WeakPtr.Reset (w : World) (self : Nat) : Except Fault World := WeakPtr.Clear w self

/-- The method `WeakPtr::UseCount`: `ControlGetCntStrong()` converted from `int` to `size_t`. -/
def WeakPtr.UseCount (w : World) (self : Nat) : Except Fault Nat := do
  let n ← WeakPtr.ControlGetCntStrong w self
  pure (intToSize n)

/-- The method `Expired`: `ControlGetCntStrong() == 0`. -/
def WeakPtr.Expired (w : World) (self : Nat) : Except Fault Bool := do
  let n ← WeakPtr.ControlGetCntStrong w self
  pure (decide (n = 0))

/-! ### `SharedPtr<T>` of `src/shared-from-this/shared.h`

The parameter `esft` of a constructor says whether the pointee type `T` of the handle is
convertible to `EnableSharedFromThisBase`, which is what `if constexpr` tests. -/

/-- The method `SharedPtr::ControlIncreaseStrong`. -/
def SharedPtr.ControlIncreaseStrong (w : World) (self : Nat) : Except Fault World := do
  let s ← w.sharedAt self
  w.callIf s.control_ ControlBlock.IncreaseStrong

/-- The method `SharedPtr::ControlDecreaseStrong`. -/
def SharedPtr.ControlDecreaseStrong (w : World) (self : Nat) : Except Fault World := do
  let s ← w.sharedAt self
  match s.control_ with
  | some c => ControlBlock.DecreaseStrong w c
  | none => pure w

/-- The method `SharedPtr::ControlGetCntStrong`, of return type `int`. -/
def SharedPtr.ControlGetCntStrong (w : World) (self : Nat) : Except Fault Int := do
  let s ← w.sharedAt self
  match s.control_ with
  | some c => do
    let b ← w.block c
    pure b.GetCntStrong
  | none => pure 0

/-- The method `InitWeakThis`: `e->weak_this_ = *this;`.  A temporary `WeakPtr` is made from
`*this` by the converting constructor, move-assigned to the member, and destroyed. -/
def SharedPtr.InitWeakThis (w : World) (self e : Nat) : Except Fault World := do
  let k ← w.weakThis e
  let tmp := w.weak.length
  let w1 ← WeakPtr.fromShared w self
  let w2 ← WeakPtr.moveAssign w1 k tmp
  let w3 ← WeakPtr.destroy w2 tmp
  pure w3.popWeak

/-- The method `PerhapsInitWeakThis`: `if constexpr (...) { InitWeakThis(this->ptr_); }`. -/
def SharedPtr.PerhapsInitWeakThis (esft : Bool) (w : World) (self : Nat) : Except Fault World :=
  if esft then do
    let s ← w.sharedAt self
    SharedPtr.InitWeakThis w self s.ptr_
  else pure w

/-- The method `SharedPtr::Clear`. -/
def SharedPtr.Clear (w : World) (self : Nat) : Except Fault World := do
  let w1 ← SharedPtr.ControlDecreaseStrong w self
  pure (w1.setShared self { control_ := none, ptr_ := 0 })

/-- The constructors `SharedPtr()` and `SharedPtr(std::nullptr_t)`. -/
def SharedPtr.construct (esft : Bool) (w : World) : Except Fault World :=
  SharedPtr.PerhapsInitWeakThis esft (w.newShared { control_ := none, ptr_ := 0 }) w.shared.length

/-- The constructor `SharedPtr(Y* ptr)`: `control_(new ControlBlockPointer(ptr)), ptr_(ptr)`, then
`PerhapsInitWeakThis()`. -/
def SharedPtr.fromRaw (esft : Bool) (w : World) (ptr : Nat) : Except Fault World :=
  SharedPtr.PerhapsInitWeakThis esft
    (World.newShared { w with blocks := w.blocks ++ [ControlBlockPointer ptr] }
      { control_ := some w.blocks.length, ptr_ := ptr })
    w.shared.length

/-- The copy constructors `SharedPtr(const SharedPtr&)` and `SharedPtr(const SharedPtr<Y>&)`. -/
def SharedPtr.copy (esft : Bool) (w : World) (other : Nat) : Except Fault World := do
  let o ← w.sharedAt other
  let w1 ← SharedPtr.ControlIncreaseStrong (w.newShared { control_ := o.control_, ptr_ := o.ptr_ })
    w.shared.length
  SharedPtr.PerhapsInitWeakThis esft w1 w.shared.length

/-- The move constructors `SharedPtr(SharedPtr&&)` and `SharedPtr(SharedPtr<Y>&&)`. -/
def SharedPtr.move (w : World) (other : Nat) : Except Fault World := do
  let o ← w.sharedAt other
  pure ((w.newShared { control_ := o.control_, ptr_ := o.ptr_ }).setShared other { control_ := none, ptr_ := 0 })

/-- The aliasing constructor `SharedPtr(const SharedPtr<Y>& other, T* ptr)`. -/
def SharedPtr.aliasing (esft : Bool) (w : World) (other ptr : Nat) : Except Fault World := do
  let o ← w.sharedAt other
  let w1 ← SharedPtr.ControlIncreaseStrong (w.newShared { control_ := o.control_, ptr_ := ptr })
    w.shared.length
  SharedPtr.PerhapsInitWeakThis esft w1 w.shared.length

/-- The constructor `SharedPtr(T* ptr, ControlBlockBase* block)`. -/
def SharedPtr.fromBlock (esft : Bool) (w : World) (ptr : Nat) (block : Option Nat) :
    Except Fault World :=
  SharedPtr.PerhapsInitWeakThis esft (w.newShared { control_ := block, ptr_ := ptr }) w.shared.length

/-- The promoting constructor `SharedPtr(const WeakPtr<T>& other)`. -/
def SharedPtr.fromWeak (w : World) (other : Nat) : Except Fault World := do
  let o ← w.weakAt other
  match o.control_ with
  | none => throw Fault.BadWeakPtr
  | some c => do
    let b ← w.block c
    if b.IsResourceAlive then
      SharedPtr.ControlIncreaseStrong (w.newShared { control_ := o.control_, ptr_ := o.ptr_ }) w.shared.length
    else throw Fault.BadWeakPtr

/-- The copy assignment `operator=(const SharedPtr& other)`. -/
def SharedPtr.assign (w : World) (self other : Nat) : Except Fault World :=
  if other = self then pure w else do
    let w1 ← SharedPtr.Clear w self
    let o ← w1.sharedAt other
    SharedPtr.ControlIncreaseStrong (w1.setShared self { control_ := o.control_, ptr_ := o.ptr_ }) self

/-- The move assignment `operator=(SharedPtr&& other)`. -/
def SharedPtr.moveAssign (w : World) (self other : Nat) : Except Fault World :=
  if other = self then pure w else do
    let w1 ← SharedPtr.Clear w self
    let o ← w1.sharedAt other
    pure ((w1.setShared self { control_ := o.control_, ptr_ := o.ptr_ }).setShared other
      { control_ := none, ptr_ := 0 })

/-- The destructor `~SharedPtr`: `Clear()`. -/
def SharedPtr.destroy (w : World) (self : Nat) : Except Fault World := SharedPtr.Clear w self

/-- The method `Reset()`: `Clear()`. -/
def SharedPtr.Reset (w : World) (self : Nat) : Except Fault World := SharedPtr.Clear w self

/-- The method `Get`: `ptr_`. -/
def SharedPtr.Get (w : World) (self : Nat) : Except Fault Nat := do
  let s ← w.sharedAt self
  pure s.ptr_

/-- The method `UseCount`: `ControlGetCntStrong()` converted from `int` to `size_t`. -/
def SharedPtr.UseCount (w : World) (self : Nat) : Except Fault Nat := do
  let n ← SharedPtr.ControlGetCntStrong w self
  pure (intToSize n)

/-- The conversion `operator bool`: `control_ != nullptr`. -/
def SharedPtr.toBool (w : World) (self : Nat) : Except Fault Bool := do
  let s ← w.sharedAt self
  pure s.control_.isSome

/-- The function `operator==`: `left.control_ && right.control_ && left.control_ == right.control_`. -/
def SharedPtr.eq (left right : SharedPtr) : Bool :=
  left.control_.isSome && right.control_.isSome && decide (left.control_ = right.control_)

/-- The function `MakeShared`: `new ControlBlockEmplace<T>(args...)`, whose constructor builds the
object in the in-place storage at address `storage`, then `SharedPtr<T>(block->GetPtr(), block)`. -/
def MakeShared (esft : Bool) (w : World) (storage : Nat) : Except Fault World :=
  let w1 : World := if esft then w.newSelfAware storage else w
  SharedPtr.fromBlock esft
    { w1 with blocks := w1.blocks ++ [ControlBlockEmplace storage], dead := storage :: w1.dead }
    (ControlBlockEmplace storage).GetPtr (some w.blocks.length)

/-- The method `WeakPtr::Lock`; the returned `SharedPtr` is the last `SharedPtr` slot of the result. -/
def WeakPtr.Lock (esft : Bool) (w : World) (self : Nat) : Except Fault World := do
  let s ← w.weakAt self
  match s.control_ with
  | some c => do
    let b ← w.block c
    if b.IsResourceAlive then do
      let w1 ← w.call c ControlBlock.IncreaseStrong
      SharedPtr.fromBlock esft w1 s.ptr_ (some c)
    else SharedPtr.fromBlock esft w 0 none
  | none => SharedPtr.fromBlock esft w 0 none

/-! ### `EnableSharedFromThis<T>` -/

/-- The method `SharedFromThis` of the object at `e`: `return SharedPtr<T>(weak_this_);`. -/
def SharedFromThis (w : World) (e : Nat) : Except Fault World := do
  let k ← w.weakThis e
  SharedPtr.fromWeak w k

/-- The method `WeakFromThis` of the object at `e`: `return WeakPtr<T>(weak_this_);`. -/
def WeakFromThis (w : World) (e : Nat) : Except Fault World := do
  let k ← w.weakThis e
  WeakPtr.copy w k

/-- One call `control->m()` of a counting method on block `c`. -/
def World.callBlock (w : World) (c : Nat) : BlockCall → Except Fault World
  | .IncreaseStrong => w.call c ControlBlock.IncreaseStrong
  | .DecreaseStrong => ControlBlock.DecreaseStrong w c
  | .IncreaseWeak => w.call c ControlBlock.IncreaseWeak
  | .DecreaseWeak => ControlBlock.DecreaseWeak w c

/-- A sequence of calls of counting methods on block `c`. -/
def callSeq (c : Nat) : List BlockCall → World → Except Fault World
  | [], w => pure w
  | m :: ms, w => do
    let w1 ← w.callBlock c m
    callSeq c ms w1

/-- The members that a block of this variant has in common with a block of `src/shared/sw_fwd.h`:
all but `destruction_is_locked_`. -/
def ControlBlock.unlocked (b : ControlBlock) : Weak.ControlBlock :=
  { cnt_strong_ref_ := b.cnt_strong_ref_, cnt_weak_ref_ := b.cnt_weak_ref_, derived := b.derived,
    managed := b.managed, freed := b.freed, releases := b.releases, deletes := b.deletes }

/-- The memory of a program of this variant as a memory of the variant without lock: the blocks
without their lock, the handles and the record of dead addresses. -/
def World.unlocked (w : World) : Weak.World :=
  { blocks := w.blocks.map ControlBlock.unlocked, shared := w.shared, weak := w.weak,
    dead := w.dead }

/-- A block of `src/shared/sw_fwd.h` with the additional member `destruction_is_locked_`. -/
def ControlBlock.locked (x : Weak.ControlBlock) (l : Bool) : ControlBlock :=
  { cnt_strong_ref_ := x.cnt_strong_ref_, cnt_weak_ref_ := x.cnt_weak_ref_,
    destruction_is_locked_ := l, derived := x.derived, managed := x.managed, freed := x.freed,
    releases := x.releases, deletes := x.deletes }

/-- State of block `c` in which the two variants of `ControlBlockBase` are compared: the lock is
clear, and the object the block would release is not of a type deriving from
`EnableSharedFromThis`, so its destructor does not call back into a control block. -/
def Plain (w : World) (c : Nat) : Prop :=
  ∀ b, w.blocks[c]? = some b → b.destruction_is_locked_ = false ∧
    ∀ p, b.derived.object = some p → w.selfAware.lookup p = none

/-- Block `c` exists, holds no object any more, and has released its object `n` times. -/
def Released (w : World) (c n : Nat) : Prop :=
  ∃ b, w.blocks[c]? = some b ∧ b.derived.live = false ∧ b.releases = n

/-- The world before the program creates anything. -/
def World.empty : World := { blocks := [], shared := [], weak := [], dead := [], selfAware := [] }

/-- The method `Reset(Y* ptr)`: `Clear(); *this = std::move(SharedPtr<Y>(ptr));`, the temporary
being destroyed at the end of the statement; `esft` is about the pointee type `Y`. -/
def SharedPtr.ResetPtr (esft : Bool) (w : World) (self ptr : Nat) : Except Fault World := do
  let w1 ← SharedPtr.Clear w self
  let tmp := w1.shared.length
  let w2 ← SharedPtr.fromRaw esft w1 ptr
  let w3 ← SharedPtr.moveAssign w2 self tmp
  let w4 ← SharedPtr.destroy w3 tmp
  pure w4.popShared

/-- The method `Swap(SharedPtr& other)`, with its local `tmp` destroyed at the end. -/
def SharedPtr.Swap (w : World) (self other : Nat) : Except Fault World := do
  let tmp := w.shared.length
  let w1 ← SharedPtr.move w self
  let w2 ← SharedPtr.moveAssign w1 self other
  let w3 ← SharedPtr.moveAssign w2 other tmp
  let w4 ← SharedPtr.destroy w3 tmp
  pure w4.popShared

/-- The method `Swap(WeakPtr& other)`, with its local `tmp` destroyed at the end. -/
def WeakPtr.Swap (w : World) (self other : Nat) : Except Fault World := do
  let tmp := w.weak.length
  let w1 ← WeakPtr.move w self
  let w2 ← WeakPtr.moveAssign w1 self other
  let w3 ← WeakPtr.moveAssign w2 other tmp
  let w4 ← WeakPtr.destroy w3 tmp
  pure w4.popWeak

/-! ### Programs: finite sequences of handle operations -/

/-- One operation of a client program.  Slot numbers name the handle instances, addresses name the
objects; `esft` says whether the pointee type of the `SharedPtr` being constructed derives from
`EnableSharedFromThis`. -/
inductive Op where
  | newObject (p : Nat)
  | sharedDefault (esft : Bool)
  | sharedFromRaw (esft : Bool) (ptr : Nat)
  | makeShared (esft : Bool) (storage : Nat)
  | sharedCopy (esft : Bool) (other : Nat)
  | sharedMove (other : Nat)
  | sharedAliasing (esft : Bool) (other ptr : Nat)
  | sharedFromWeak (other : Nat)
  | sharedFromThis (e : Nat)
  | sharedAssign (self other : Nat)
  | sharedMoveAssign (self other : Nat)
  | sharedReset (self : Nat)
  | sharedResetPtr (esft : Bool) (self ptr : Nat)
  | sharedSwap (self other : Nat)
  | sharedDestroy (self : Nat)
  | weakDefault
  | weakCopy (other : Nat)
  | weakMove (other : Nat)
  | weakFromShared (other : Nat)
  | weakFromThis (e : Nat)
  | weakAssign (self other : Nat)
  | weakMoveAssign (self other : Nat)
  | weakReset (self : Nat)
  | weakSwap (self other : Nat)
  | weakDestroy (self : Nat)
  | weakLock (esft : Bool) (self : Nat)
  deriving DecidableEq, Repr

/-- The address is the one of a living object of a type deriving from `EnableSharedFromThis`. -/
def World.isSelfAware (w : World) (e : Nat) : Bool :=
  decide (e ≠ 0) && (w.selfAware.lookup e).isSome

/-- The instances and objects an operation names exist in the world; `new` returns an address at
which no object lives. -/
def Op.wellFormed (w : World) : Op → Bool
  | .newObject p => decide (p ≠ 0) && (w.selfAware.lookup p).isNone
  | .sharedDefault _ | .sharedFromRaw _ _ | .makeShared _ _ | .weakDefault => true
  | .sharedFromThis e | .weakFromThis e => w.isSelfAware e
  | .sharedCopy _ o | .sharedMove o | .sharedAliasing _ o _ | .weakFromShared o
  | .sharedReset o | .sharedResetPtr _ o _ | .sharedDestroy o => decide (o < w.shared.length)
  | .sharedAssign s o | .sharedMoveAssign s o | .sharedSwap s o =>
    decide (s < w.shared.length) && decide (o < w.shared.length)
  | .sharedFromWeak o | .weakCopy o | .weakMove o | .weakReset o | .weakDestroy o
  | .weakLock _ o => decide (o < w.weak.length)
  | .weakAssign s o | .weakMoveAssign s o | .weakSwap s o =>
    decide (s < w.weak.length) && decide (o < w.weak.length)

/-- The `SharedPtr` instances an operation names. -/
def Op.namesShared : Op → List Nat
  | .sharedCopy _ o | .sharedMove o | .sharedAliasing _ o _ | .weakFromShared o
  | .sharedReset o | .sharedResetPtr _ o _ | .sharedDestroy o => [o]
  | .sharedAssign s o | .sharedMoveAssign s o | .sharedSwap s o => [s, o]
  | _ => []

/-- The `WeakPtr` instances an operation names. -/
def Op.namesWeak : Op → List Nat
  | .sharedFromWeak o | .weakCopy o | .weakMove o | .weakReset o | .weakDestroy o
  | .weakLock _ o => [o]
  | .weakAssign s o | .weakMoveAssign s o | .weakSwap s o => [s, o]
  | _ => []

/-- The `SharedPtr` instance whose lifetime an operation ends. -/
def Op.endsShared : Op → List Nat
  | .sharedDestroy s => [s]
  | _ => []

/-- The `WeakPtr` instance whose lifetime an operation ends. -/
def Op.endsWeak : Op → List Nat
  | .weakDestroy s => [s]
  | _ => []

/-- A call that may throw `BadWeakPtr`, the exception being caught by the client, no instance
having been constructed. -/
def caught (w : World) (r : Except Fault World) : Except Fault World :=
  match r with
  | .error .BadWeakPtr => pure w
  | r => r

/-- The code an operation runs, on instances that exist. -/
def Op.exec (w : World) : Op → Except Fault World
  | .newObject p => pure (w.newSelfAware p)
  | .sharedDefault e => SharedPtr.construct e w
  | .sharedFromRaw e p => SharedPtr.fromRaw e w p
  | .makeShared e a => MakeShared e w a
  | .sharedCopy e o => SharedPtr.copy e w o
  | .sharedMove o => SharedPtr.move w o
  | .sharedAliasing e o p => SharedPtr.aliasing e w o p
  | .sharedFromWeak o => caught w (SharedPtr.fromWeak w o)
  | .sharedFromThis e => caught w (SharedFromThis w e)
  | .sharedAssign s o => SharedPtr.assign w s o
  | .sharedMoveAssign s o => SharedPtr.moveAssign w s o
  | .sharedReset s => SharedPtr.Reset w s
  | .sharedResetPtr e s p => SharedPtr.ResetPtr e w s p
  | .sharedSwap s o => SharedPtr.Swap w s o
  | .sharedDestroy s => SharedPtr.destroy w s
  | .weakDefault => pure (WeakPtr.construct w)
  | .weakCopy o => WeakPtr.copy w o
  | .weakMove o => WeakPtr.move w o
  | .weakFromShared o => WeakPtr.fromShared w o
  | .weakFromThis e => WeakFromThis w e
  | .weakAssign s o => WeakPtr.assign w s o
  | .weakMoveAssign s o => WeakPtr.moveAssign w s o
  | .weakReset s => WeakPtr.Reset w s
  | .weakSwap s o => WeakPtr.Swap w s o
  | .weakDestroy s => WeakPtr.destroy w s
  | .weakLock e s => WeakPtr.Lock e w s

/-- The state of a client program: the world, and the slots of the handle instances whose
lifetime has ended, because their destructor has run or because the object they are a member of
was destroyed. -/
structure Client where
  world : World
  endedShared : List Nat
  endedWeak : List Nat
  deriving DecidableEq, Repr

/-- A client that has destroyed no instance yet. -/
def Client.start (w : World) : Client := { world := w, endedShared := [], endedWeak := [] }

/-- The slots of the members `weak_this_` of the objects of `w` that no longer live in `w2`. -/
def goneSlots (w w2 : World) : List Nat :=
  (w.selfAware.filter (fun o => decide (o ∉ w2.selfAware))).map Prod.snd

/-- No instance the operation names has ended its lifetime, and the instance it destroys is not a
member of a living object. -/
def Op.alive (c : Client) (op : Op) : Bool :=
  op.namesShared.all (fun s => decide (s ∉ c.endedShared)) &&
  op.namesWeak.all (fun s => decide (s ∉ c.endedWeak)) &&
  op.endsWeak.all (fun s => decide (s ∉ c.world.selfAware.map Prod.snd))

/-- Execution of one operation.  An operation naming an instance or object that does not exist, or
an instance whose lifetime has ended, is not part of any program and is skipped. -/
def step (c : Client) (op : Op) : Except Fault Client :=
  if op.wellFormed c.world && op.alive c then do
    let w ← op.exec c.world
    pure { world := w, endedShared := op.endsShared ++ c.endedShared,
           endedWeak := op.endsWeak ++ goneSlots c.world w ++ c.endedWeak }
  else pure c

/-- Execution of a program, operation after operation. -/
def run : List Op → Client → Except Fault Client
  | [], c => pure c
  | op :: ops, c => do
    let c1 ← step c op
    run ops c1

/-- The objects an operation brings under management: the non-null raw pointer it wraps in a new
`ControlBlockPointer`, or the in-place storage of the `ControlBlockEmplace` it creates. -/
def Op.objects : Op → List Nat
  | .sharedFromRaw _ p => if p = 0 then [] else [p]
  | .sharedResetPtr _ _ p => if p = 0 then [] else [p]
  | .makeShared _ a => [a]
  | _ => []

/-- The objects a program brings under management, in program order. -/
def objects : List Op → List Nat
  | [] => []
  | op :: ops => op.objects ++ objects ops

/-- No `SharedPtr` the operation constructs has a pointee type deriving from
`EnableSharedFromThis`. -/
def Op.plain : Op → Bool
  | .sharedDefault e | .sharedFromRaw e _ | .makeShared e _ | .sharedCopy e _
  | .sharedAliasing e _ _ | .sharedResetPtr e _ _ | .weakLock e _ => !e
  | _ => true

/-- The memory of a program of the variant without lock as a memory of this variant: every lock
clear, `sa` the living objects of a type deriving from `EnableSharedFromThis`. -/
def World.locked (v : Weak.World) (sa : List (Nat × Nat)) : World :=
  { blocks := v.blocks.map (fun x => ControlBlock.locked x false), shared := v.shared,
    weak := v.weak, dead := v.dead, selfAware := sa }

/-- The invariant of a world of this variant: without the locks it satisfies the counting and
ownership invariant of the variant without lock, the members `weak_this_` counting as `WeakPtr`
instances; no lock is set; the member `weak_this_` of every living object exists. -/
def Valid (U : List Nat) (w : World) : Prop :=
  Weak.Safe U w.unlocked ∧ (∀ b, b ∈ w.blocks → b.destruction_is_locked_ = false) ∧
  (∀ p k, (p, k) ∈ w.selfAware → k < w.weak.length)

end Sft

/-! # Theorems -/

/-! ## Arithmetic of `size_t` counters -/

theorem incSize_of_lt {n : Nat} (h : n + 1 < sizeMod) : incSize n = n + 1 := by
  unfold incSize
  exact Nat.mod_eq_of_lt h

theorem decSize_succ (n : Nat) : decSize (n + 1) = n := by
  simp [decSize]

theorem sizeMod_pos : 1 < sizeMod := by
  unfold sizeMod
  norm_num

theorem live_drop (s : Storage) : s.drop.live = false := by
  cases s <;> simp [Storage.drop, Storage.live]

/-! ## Counting handles -/

theorem cntS_push (c : Nat) (l : List SharedPtr) (s : SharedPtr) :
    cntS c (l ++ [s]) = cntS c l + (if s.control_ = some c then 1 else 0) := by
  simp [cntS, List.countP_append, List.countP_cons]

theorem cntW_push (c : Nat) (l : List WeakPtr) (s : WeakPtr) :
    cntW c (l ++ [s]) = cntW c l + (if s.control_ = some c then 1 else 0) := by
  simp [cntW, List.countP_append, List.countP_cons]

theorem cntS_le_length (c : Nat) (l : List SharedPtr) : cntS c l ≤ l.length := by
  unfold cntS
  exact List.countP_le_length _

theorem cntW_le_length (c : Nat) (l : List WeakPtr) : cntW c l ≤ l.length := by
  unfold cntW
  exact List.countP_le_length _

theorem cntS_set (c : Nat) (l : List SharedPtr) (i : Nat) (old s : SharedPtr)
    (h : l[i]? = some old) :
    cntS c (l.set i s) + (if old.control_ = some c then 1 else 0) =
      cntS c l + (if s.control_ = some c then 1 else 0) := by
  induction l generalizing i with
  | nil => simp at h
  | cons x l ih =>
    cases i with
    | zero =>
      simp at h
      subst h
      simp [cntS, List.countP_cons]
      omega
    | succ i =>
      simp at h
      have := ih i h
      simp [cntS, List.countP_cons] at this ⊢
      omega

theorem cntW_set (c : Nat) (l : List WeakPtr) (i : Nat) (old s : WeakPtr)
    (h : l[i]? = some old) :
    cntW c (l.set i s) + (if old.control_ = some c then 1 else 0) =
      cntW c l + (if s.control_ = some c then 1 else 0) := by
  induction l generalizing i with
  | nil => simp at h
  | cons x l ih =>
    cases i with
    | zero =>
      simp at h
      subst h
      simp [cntW, List.countP_cons]
      omega
    | succ i =>
      simp at h
      have := ih i h
      simp [cntW, List.countP_cons] at this ⊢
      omega

theorem cntS_pos_of_mem (c : Nat) (l : List SharedPtr) (i : Nat) (s : SharedPtr)
    (h : l[i]? = some s) (hc : s.control_ = some c) : 0 < cntS c l := by
  unfold cntS
  rw [List.countP_pos_iff]
  exact ⟨s, List.getElem?_mem h, by simp [hc]⟩

theorem cntW_pos_of_mem (c : Nat) (l : List WeakPtr) (i : Nat) (s : WeakPtr)
    (h : l[i]? = some s) (hc : s.control_ = some c) : 0 < cntW c l := by
  unfold cntW
  rw [List.countP_pos_iff]
  exact ⟨s, List.getElem?_mem h, by simp [hc]⟩

theorem cntS_dropLast (c : Nat) (l : List SharedPtr) (s : SharedPtr)
    (h : l[l.length - 1]? = some s) (hs : s.control_ = none) :
    cntS c l.dropLast = cntS c l := by
  rcases List.eq_nil_or_concat l with hl | ⟨l0, a, hl⟩
  · subst hl; simp
  · subst hl
    simp at h
    subst h
    simp [cntS, List.countP_append, List.countP_cons, hs]

theorem cntW_dropLast (c : Nat) (l : List WeakPtr) (s : WeakPtr)
    (h : l[l.length - 1]? = some s) (hs : s.control_ = none) :
    cntW c l.dropLast = cntW c l := by
  rcases List.eq_nil_or_concat l with hl | ⟨l0, a, hl⟩
  · subst hl; simp
  · subst hl
    simp at h
    subst h
    simp [cntW, List.countP_append, List.countP_cons, hs]

/-! ## One control block (variant without destruction lock) -/

namespace Weak

theorem good_new_pointer (p : Nat) : Good (ControlBlockPointer p) 1 0 := by
  simp [Good, ControlBlockPointer, Storage.live]

theorem good_new_emplace (a : Nat) : Good (ControlBlockEmplace a) 1 0 := by
  simp [Good, ControlBlockEmplace, Storage.live]

theorem good_inc_strong {b : ControlBlock} {ns nw : Nat} (h : Good b ns nw) (hpos : ns ≠ 0)
    (hb : ns + 1 < sizeMod) : Good b.IncreaseStrong (ns + 1) nw := by
  obtain ⟨h1, h2, h3, h4, h5, h6⟩ := h
  have hf : b.freed = false := by
    cases hfr : b.freed
    · rfl
    · exact absurd (h3.1 hfr).1 hpos
  subst h1
  simp [Good, ControlBlock.IncreaseStrong, ControlBlock.setStrong, incSize_of_lt hb, h2, hf] at *
  refine ⟨h4, ?_, ?_⟩
  · simpa [hpos] using h5
  · simpa [hpos] using h6

theorem good_inc_weak {b : ControlBlock} {ns nw : Nat} (h : Good b ns nw)
    (hpos : ns ≠ 0 ∨ nw ≠ 0) (hb : nw + 1 < sizeMod) : Good b.IncreaseWeak ns (nw + 1) := by
  obtain ⟨h1, h2, h3, h4, h5, h6⟩ := h
  have hf : b.freed = false := by
    cases hfr : b.freed
    · rfl
    · have := h3.1 hfr
      omega
  subst h2
  simp [Good, ControlBlock.IncreaseWeak, ControlBlock.setWeak, incSize_of_lt hb, h1, hf] at *
  exact ⟨h4, h5, h6⟩

theorem delete_source_pointer {b : ControlBlock} {h : List Nat} {p : Nat}
    (hp : b.derived = .pointer p) (h0 : p ≠ 0) (hd : p ∉ h) :
    b.DeleteSource h = .ok ({ b with derived := .pointer 0, releases := b.releases + 1 }, p :: h) := by
  simp [ControlBlock.DeleteSource, hp, Storage.live, Storage.release, Storage.drop, deleteObject,
    h0, hd, bind, Except.bind, pure, Except.pure]

theorem delete_source_emplace {b : ControlBlock} {h : List Nat} {a : Nat}
    (hp : b.derived = .emplace a true) :
    b.DeleteSource h = .ok ({ b with derived := .emplace a false, releases := b.releases + 1 }, h) := by
  simp [ControlBlock.DeleteSource, hp, Storage.live, Storage.release, Storage.drop,
    bind, Except.bind, pure, Except.pure]

theorem delete_source_idle {b : ControlBlock} {h : List Nat} (hl : b.derived.live = false) :
    b.DeleteSource h = .ok (b, h) := by
  simp [ControlBlock.DeleteSource, hl, pure, Except.pure]

/-- `DeleteSource` on a block whose object, if it holds one, is not dead. -/
theorem delete_source_ok (b : ControlBlock) (h : List Nat)
    (hd : ∀ p, b.derived = .pointer p → p ≠ 0 → p ∉ h) :
    ∃ b2 h2, b.DeleteSource h = .ok (b2, h2) ∧ b2.cnt_strong_ref_ = b.cnt_strong_ref_ ∧
      b2.cnt_weak_ref_ = b.cnt_weak_ref_ ∧ b2.managed = b.managed ∧ b2.freed = b.freed ∧
      b2.deletes = b.deletes ∧ b2.derived.live = false ∧
      b2.releases = b.releases + (if b.derived.live then 1 else 0) ∧ Handover b h b2 h2 := by
  cases hder : b.derived with
  | pointer p =>
    by_cases h0 : p = 0
    · subst h0
      refine ⟨b, h, delete_source_idle (by simp [hder, Storage.live]), rfl, rfl, rfl, rfl, rfl,
        by simp [hder, Storage.live], by simp [hder, Storage.live], ?_, ?_⟩
      · intro q hq; exact Or.inl hq
      · intro q hq hq0; exact ⟨hq, rfl⟩
    · refine ⟨_, _, delete_source_pointer hder h0 (hd p hder h0), rfl, rfl, rfl, rfl, rfl,
        by simp [Storage.live], by simp [hder, Storage.live, h0], ?_, ?_⟩
      · intro q hq
        rcases List.mem_cons.mp hq with hq | hq
        · subst hq; exact Or.inr ⟨h0, hder⟩
        · exact Or.inl hq
      · intro q hq hq0
        simp at hq
        exact absurd hq.symm hq0
  | emplace a alive =>
    cases alive with
    | false =>
      refine ⟨b, h, delete_source_idle (by simp [hder, Storage.live]), rfl, rfl, rfl, rfl, rfl,
        by simp [hder, Storage.live], by simp [hder, Storage.live], ?_, ?_⟩
      · intro q hq; exact Or.inl hq
      · intro q hq hq0; exact ⟨hq, rfl⟩
    | true =>
      refine ⟨_, _, delete_source_emplace hder, rfl, rfl, rfl, rfl, rfl,
        by simp [Storage.live], by simp [hder, Storage.live], ?_, ?_⟩
      · intro q hq; exact Or.inl hq
      · intro q hq hq0
        simp at hq

/-- The block and the record of dead addresses after `DeleteSource`, for a block whose object, if
it holds one, is not dead. -/
theorem delete_source_eq (b : ControlBlock) (h : List Nat)
    (hd : ∀ p, b.derived = .pointer p → p ≠ 0 → p ∉ h) :
    b.DeleteSource h = .ok
      (if b.derived.live then { b with derived := b.derived.drop, releases := b.releases + 1 }
        else b, b.derived.held ++ h) := by
  cases hder : b.derived with
  | pointer p =>
    by_cases h0 : p = 0
    · subst h0
      simp [ControlBlock.DeleteSource, hder, Storage.live, Storage.held, pure, Except.pure]
    · have := hd p hder h0
      simp [ControlBlock.DeleteSource, hder, Storage.live, Storage.held, Storage.release,
        Storage.drop, deleteObject, h0, this, bind, Except.bind, pure, Except.pure]
  | emplace a alive =>
    cases alive <;>
      simp [ControlBlock.DeleteSource, hder, Storage.live, Storage.held, Storage.release,
        Storage.drop, bind, Except.bind, pure, Except.pure]

/-- `DeleteSource` on a block that holds a dead object is undefined behaviour. -/
theorem delete_source_dead {b : ControlBlock} {h : List Nat} {p : Nat}
    (hp : b.derived = .pointer p) (h0 : p ≠ 0) (hd : p ∈ h) :
    b.DeleteSource h = .error Fault.undefined := by
  simp [ControlBlock.DeleteSource, hp, Storage.live, Storage.release, deleteObject, h0, hd, bind,
    Except.bind]

theorem handover_refl (b : ControlBlock) (h : List Nat) : Handover b h b h :=
  ⟨fun _ hq => Or.inl hq, fun _ hq _ => ⟨hq, rfl⟩⟩

theorem handover_trans {a b c : ControlBlock} {h h2 h3 : List Nat} (h12 : Handover a h b h2)
    (h23 : Handover b h2 c h3) : Handover a h c h3 := by
  refine ⟨fun q hq => ?_, fun q hq hq0 => ?_⟩
  · rcases h23.1 q hq with hq2 | ⟨hq0, hb⟩
    · exact h12.1 q hq2
    · exact Or.inr ⟨hq0, (h12.2 q hb hq0).1⟩
  · obtain ⟨hb, e3⟩ := h23.2 q hq hq0
    obtain ⟨ha, e2⟩ := h12.2 q hb hq0
    exact ⟨ha, e3.trans e2⟩

theorem handover_of_derived_eq {a b c : ControlBlock} {h h2 : List Nat}
    (he : b.derived = a.derived) (hh : Handover b h c h2) : Handover a h c h2 := by
  unfold Handover at hh ⊢
  rw [he] at hh
  exact hh

/-- The statement `delete this` on a block whose object, if it holds one, is not dead. -/
theorem delete_this_ok (b : ControlBlock) (h : List Nat)
    (hd : ∀ p, b.derived = .pointer p → p ≠ 0 → p ∉ h) :
    ∃ b2 h2, b.deleteThis h = .ok (b2, h2) ∧ b2.cnt_strong_ref_ = b.cnt_strong_ref_ ∧
      b2.cnt_weak_ref_ = b.cnt_weak_ref_ ∧ b2.managed = b.managed ∧ b2.freed = true ∧
      b2.deletes = b.deletes + 1 ∧ b2.derived.live = false ∧
      b2.releases = b.releases + (if b.derived.live then 1 else 0) ∧ Handover b h b2 h2 := by
  obtain ⟨b2, h2, e, h1, h3, h4, _, _, h7, h8, h9⟩ := delete_source_ok b h hd
  refine ⟨{ b2 with freed := true, deletes := b.deletes + 1 }, h2, ?_, h1, h3, h4, rfl, rfl, h7, h8,
    h9⟩
  simp [ControlBlock.deleteThis, e, bind, Except.bind, pure, Except.pure]

theorem not_held_of_not_live {b : ControlBlock} (hl : b.derived.live = false) (h : List Nat) :
    ∀ p, b.derived = .pointer p → p ≠ 0 → p ∉ h := by
  intro p hp h0
  simp [hp, Storage.live, h0] at hl

theorem good_dec_strong {b : ControlBlock} {ns nw : Nat} {h : List Nat} (hg : Good b (ns + 1) nw)
    (hb : ns + 1 < sizeMod) (hd : ∀ p, b.derived = .pointer p → p ≠ 0 → p ∉ h) :
    ∃ b2 h2, b.DecreaseStrong h = .ok (b2, h2) ∧ Good b2 ns nw ∧ b2.managed = b.managed ∧
      Handover b h b2 h2 := by
  obtain ⟨h1, h2, h3, h4, h5, h6⟩ := hg
  have hf : b.freed = false := by
    cases hfr : b.freed
    · rfl
    · have := h3.1 hfr
      omega
  have hlive : b.derived.live = b.managed := by
    cases hm : b.managed <;> cases hl : b.derived.live <;> simp [hm, hl] at h6 ⊢
  have hrel : b.releases = 0 := by simpa using h5
  have hdel : b.deletes = 0 := by simpa [hf] using h4
  by_cases hns : ns = 0
  · subst hns
    obtain ⟨b2, g2, e2, s2, w2, m2, f2, d2, l2, r2, ho2⟩ :=
      delete_source_ok (b.setStrong 0) h hd
    have s2b : b2.cnt_strong_ref_ = 0 := s2
    have w2b : b2.cnt_weak_ref_ = nw := w2.trans h2
    have m2b : b2.managed = b.managed := m2
    have f2b : b2.freed = false := f2.trans hf
    have d2b : b2.deletes = 0 := d2.trans hdel
    have r2b : b2.releases = (if b.managed then 1 else 0) := by
      have : (b.setStrong 0).derived.live = b.managed := hlive
      rw [r2, this]
      simp [ControlBlock.setStrong, hrel]
    have ho2b : Handover b h b2 g2 := handover_of_derived_eq rfl ho2
    by_cases hnw : nw = 0
    · subst hnw
      obtain ⟨b3, g3, e3, s3, w3, m3, f3, d3, l3, r3, ho3⟩ :=
        delete_this_ok b2 g2 (not_held_of_not_live l2 g2)
      refine ⟨b3, g3, ?_, ?_, m3.trans m2b, handover_trans ho2b ho3⟩
      · simp [ControlBlock.DecreaseStrong, ControlBlock.setStrong, h1, decSize_succ, bind,
          Except.bind, pure, Except.pure]
        have e2b : ControlBlock.DeleteSource
            { cnt_strong_ref_ := 0, cnt_weak_ref_ := b.cnt_weak_ref_, derived := b.derived,
              managed := b.managed, freed := b.freed, releases := b.releases,
              deletes := b.deletes } h = .ok (b2, g2) := e2
        simp [e2b, s2b, w2b, e3]
      · refine ⟨s3.trans s2b, w3.trans w2b, by simp [f3], by simp [f3, d3, d2b], ?_, ?_⟩
        · rw [r3, l2, r2b, m3, m2b]
          cases b.managed <;> simp
        · simp [l3]
    · refine ⟨b2, g2, ?_, ?_, m2b, ho2b⟩
      · simp [ControlBlock.DecreaseStrong, ControlBlock.setStrong, h1, decSize_succ, bind,
          Except.bind, pure, Except.pure]
        have e2b : ControlBlock.DeleteSource
            { cnt_strong_ref_ := 0, cnt_weak_ref_ := b.cnt_weak_ref_, derived := b.derived,
              managed := b.managed, freed := b.freed, releases := b.releases,
              deletes := b.deletes } h = .ok (b2, g2) := e2
        simp [e2b, s2b, w2b, hnw, pure, Except.pure]
      · refine ⟨s2b, w2b, by simp [f2b, hnw], by simp [f2b, d2b], ?_, ?_⟩
        · rw [r2b, m2b]
          cases b.managed <;> simp
        · simp [l2]
  · refine ⟨b.setStrong ns, h, ?_, ?_, rfl, handover_refl _ _⟩
    · simp [ControlBlock.DecreaseStrong, ControlBlock.setStrong, h1, decSize_succ, hns, bind,
        Except.bind, pure, Except.pure]
    · refine ⟨rfl, h2, ?_, ?_, ?_, ?_⟩
      · simp [ControlBlock.setStrong, hf, hns]
      · simp [ControlBlock.setStrong, hf, hdel]
      · simp [ControlBlock.setStrong, hrel, hns]
      · simpa [ControlBlock.setStrong, hns] using h6

theorem good_dec_weak {b : ControlBlock} {ns nw : Nat} {h : List Nat} (hg : Good b ns (nw + 1))
    (hb : nw + 1 < sizeMod) :
    ∃ b2 h2, b.DecreaseWeak h = .ok (b2, h2) ∧ Good b2 ns nw ∧ b2.managed = b.managed ∧
      Handover b h b2 h2 := by
  obtain ⟨h1, h2, h3, h4, h5, h6⟩ := hg
  have hf : b.freed = false := by
    cases hfr : b.freed
    · rfl
    · have := h3.1 hfr
      omega
  have hdel : b.deletes = 0 := by simpa [hf] using h4
  by_cases hz : ns = 0 ∧ nw = 0
  · obtain ⟨hns, hnw⟩ := hz
    subst hns
    subst hnw
    have hlive : b.derived.live = false := by
      cases hl : b.derived.live
      · rfl
      · simp [hl] at h6
    have hlive1 : (b.setWeak 0).derived.live = false := hlive
    obtain ⟨b3, g3, e3, s3, w3, m3, f3, d3, l3, r3, ho3⟩ :=
      delete_this_ok (b.setWeak 0) h (not_held_of_not_live hlive1 h)
    refine ⟨b3, g3, ?_, ?_, m3, handover_of_derived_eq rfl ho3⟩
    · simp [ControlBlock.DecreaseWeak, ControlBlock.setWeak, h1, h2, decSize_succ]
      simpa [ControlBlock.setWeak, h1] using e3
    · refine ⟨s3.trans h1, w3, by simp [f3], by simp [f3, d3, ControlBlock.setWeak, hdel], ?_, ?_⟩
      · rw [r3, hlive1, m3]
        simpa [ControlBlock.setWeak] using h5
      · simp [l3]
  · refine ⟨b.setWeak nw, h, ?_, ?_, rfl, handover_refl _ _⟩
    · have : ¬ (b.cnt_strong_ref_ = 0 ∧ nw = 0) := by rw [h1]; exact hz
      simp [ControlBlock.DecreaseWeak, ControlBlock.setWeak, h2, decSize_succ, this, pure,
        Except.pure]
    · refine ⟨h1, rfl, ?_, ?_, ?_, ?_⟩
      · simp [ControlBlock.setWeak, hf]
        exact fun a b => hz ⟨a, b⟩
      · simp [ControlBlock.setWeak, hf, hdel]
      · simpa [ControlBlock.setWeak] using h5
      · simpa [ControlBlock.setWeak] using h6

theorem ok_of_match {α : Type} {r : Except Fault α} {P : α → Prop}
    (h : match r with
      | .ok x => P x
      | .error _ => False) : ∃ x, r = .ok x ∧ P x := by
  cases r with
  | ok x => exact ⟨x, rfl, h⟩
  | error e => exact h.elim

/-- What `DecreaseStrong` does to a block with a non-zero strong count whose object, if it holds
one, is not dead. -/
theorem dec_strong_spec (b : ControlBlock) (h : List Nat) (hpos : b.cnt_strong_ref_ ≠ 0)
    (hd : ∀ p, b.derived = .pointer p → p ≠ 0 → p ∉ h) :
    ∃ r, b.DecreaseStrong h = .ok r ∧
      r.1.cnt_strong_ref_ + 1 = b.cnt_strong_ref_ ∧ r.1.cnt_weak_ref_ = b.cnt_weak_ref_ ∧
      r.1.releases =
        b.releases + (if b.cnt_strong_ref_ = 1 ∧ b.derived.live = true then 1 else 0) ∧
      r.2 = (if b.cnt_strong_ref_ = 1 then b.derived.held ++ h else h) ∧
      r.1.deletes =
        b.deletes + (if b.cnt_strong_ref_ = 1 ∧ b.cnt_weak_ref_ = 0 then 1 else 0) := by
  apply ok_of_match
  obtain ⟨n, hn⟩ : ∃ n, b.cnt_strong_ref_ = n + 1 := ⟨b.cnt_strong_ref_ - 1, by omega⟩
  by_cases hn0 : n = 0
  · subst hn0
    cases hder : b.derived with
    | pointer p =>
      by_cases h0 : p = 0
      · by_cases hw : b.cnt_weak_ref_ = 0 <;>
          simp [ControlBlock.DecreaseStrong, ControlBlock.setStrong, hn, decSize_succ, hw, hder, h0,
            bind, Except.bind, pure, Except.pure, ControlBlock.deleteThis,
            ControlBlock.DeleteSource, Storage.live, Storage.held]
      · have hnd := hd p hder h0
        by_cases hw : b.cnt_weak_ref_ = 0 <;>
          simp [ControlBlock.DecreaseStrong, ControlBlock.setStrong, hn, decSize_succ, hw, hder, h0,
            hnd, bind, Except.bind, pure, Except.pure, ControlBlock.deleteThis,
            ControlBlock.DeleteSource, Storage.live, Storage.held, Storage.drop, Storage.release,
            deleteObject]
    | emplace a alive =>
      cases alive <;> by_cases hw : b.cnt_weak_ref_ = 0 <;>
        simp [ControlBlock.DecreaseStrong, ControlBlock.setStrong, hn, decSize_succ, hw, hder,
          bind, Except.bind, pure, Except.pure, ControlBlock.deleteThis,
          ControlBlock.DeleteSource, Storage.live, Storage.held, Storage.drop, Storage.release]
  · simp [ControlBlock.DecreaseStrong, ControlBlock.setStrong, hn, decSize_succ, hn0, bind,
      Except.bind, pure, Except.pure]

end Weak

/-! ## Worlds (variant without destruction lock) -/

namespace Weak

theorem block_ok {w : World} {c : Nat} {b : ControlBlock} (hb : w.blocks[c]? = some b)
    (hf : b.freed = false) : w.block c = .ok b := by
  simp [World.block, hb, hf]

theorem call_ok {w : World} {c : Nat} {b : ControlBlock} (f : ControlBlock → ControlBlock)
    (hb : w.blocks[c]? = some b) (hf : b.freed = false) :
    w.call c f = .ok
      { blocks := w.blocks.set c (f b), shared := w.shared, weak := w.weak, dead := w.dead } := by
  simp [World.call, block_ok hb hf, bind, Except.bind, pure, Except.pure]

theorem callDel_ok {w : World} {c : Nat} {b b2 : ControlBlock} {h2 : List Nat}
    (f : ControlBlock → List Nat → Except Fault (ControlBlock × List Nat))
    (hb : w.blocks[c]? = some b) (hf : b.freed = false) (e : f b w.dead = .ok (b2, h2)) :
    w.callDel c f = .ok
      { blocks := w.blocks.set c b2, shared := w.shared, weak := w.weak, dead := h2 } := by
  simp [World.callDel, block_ok hb hf, e, bind, Except.bind, pure, Except.pure]

theorem sharedAt_ok {w : World} {i : Nat} {s : SharedPtr} (h : w.shared[i]? = some s) :
    w.sharedAt i = .ok s := by
  simp [World.sharedAt, h]

theorem weakAt_ok {w : World} {i : Nat} {s : WeakPtr} (h : w.weak[i]? = some s) :
    w.weakAt i = .ok s := by
  simp [World.weakAt, h]

theorem inv_block_of_shared {w : World} (hinv : Inv w) {i c : Nat} {s : SharedPtr}
    (hs : w.shared[i]? = some s) (hc : s.control_ = some c) :
    ∃ b, w.blocks[c]? = some b ∧ b.freed = false ∧ Good b (cntS c w.shared) (cntW c w.weak) := by
  have hpos := cntS_pos_of_mem c w.shared i s hs hc
  have h := hinv c
  cases hb : w.blocks[c]? with
  | none =>
    rw [hb] at h
    simp [InvAt] at h
    omega
  | some b =>
    rw [hb] at h
    refine ⟨b, rfl, ?_, h⟩
    cases hfr : b.freed
    · rfl
    · have := (h.2.2.1.1 hfr).1
      omega

theorem inv_block_of_weak {w : World} (hinv : Inv w) {i c : Nat} {s : WeakPtr}
    (hs : w.weak[i]? = some s) (hc : s.control_ = some c) :
    ∃ b, w.blocks[c]? = some b ∧ b.freed = false ∧ Good b (cntS c w.shared) (cntW c w.weak) := by
  have hpos := cntW_pos_of_mem c w.weak i s hs hc
  have h := hinv c
  cases hb : w.blocks[c]? with
  | none =>
    rw [hb] at h
    simp [InvAt] at h
    omega
  | some b =>
    rw [hb] at h
    refine ⟨b, rfl, ?_, h⟩
    cases hfr : b.freed
    · rfl
    · have := (h.2.2.1.1 hfr).2
      omega

/-- Replacing block `c` by a block that agrees with the new handle lists, the count of references
to every other block being unchanged, keeps the invariant. -/
theorem inv_update {w : World} (hinv : Inv w) {c : Nat} {b : ControlBlock} (b2 : ControlBlock)
    (sh : List SharedPtr) (we : List WeakPtr) (h : List Nat) (hb : w.blocks[c]? = some b)
    (hgood : Good b2 (cntS c sh) (cntW c we))
    (hS : ∀ d, d ≠ c → cntS d sh = cntS d w.shared)
    (hW : ∀ d, d ≠ c → cntW d we = cntW d w.weak) :
    Inv { blocks := w.blocks.set c b2, shared := sh, weak := we, dead := h } := by
  intro d
  by_cases hd : d = c
  · subst hd
    have hlt : d < w.blocks.length := by
      by_contra hn
      rw [List.getElem?_eq_none (by omega)] at hb
      cases hb
    simp [List.getElem?_set, hlt, InvAt]
    exact hgood
  · have := hinv d
    simp only [List.getElem?_set_ne (Ne.symm hd), hS d hd, hW d hd]
    exact this

/-- Changing the handle lists without changing any count keeps the invariant. -/
theorem inv_same_counts {w : World} (hinv : Inv w) (sh : List SharedPtr) (we : List WeakPtr)
    (h : List Nat) (hS : ∀ d, cntS d sh = cntS d w.shared) (hW : ∀ d, cntW d we = cntW d w.weak) :
    Inv { blocks := w.blocks, shared := sh, weak := we, dead := h } := by
  intro d
  have := hinv d
  simp only [hS d, hW d]
  exact this

/-- A freshly allocated block with its first `SharedPtr` keeps the invariant. -/
theorem inv_new_block {w : World} (hinv : Inv w) (b2 : ControlBlock) (p : Nat) (h : List Nat)
    (hgood : Good b2 1 0) :
    Inv { blocks := w.blocks ++ [b2],
          shared := w.shared ++ [{ control_ := some w.blocks.length, ptr_ := p }],
          weak := w.weak, dead := h } := by
  intro d
  have hd := hinv d
  by_cases hlt : d < w.blocks.length
  · have hne : w.blocks.length ≠ d := by omega
    simp only [List.getElem?_append_left hlt, cntS_push]
    simpa [hne] using hd
  · by_cases heq : d = w.blocks.length
    · subst heq
      have hnone : w.blocks[w.blocks.length]? = none := List.getElem?_eq_none (by omega)
      rw [hnone] at hd
      simp [InvAt] at hd
      simp [cntS_push, InvAt, hd.1, hd.2]
      exact hgood
    · have hnone : w.blocks[d]? = none := List.getElem?_eq_none (by omega)
      have hnone2 : (w.blocks ++ [b2])[d]? = none :=
        List.getElem?_eq_none (by simp; omega)
      rw [hnone] at hd
      have hne : w.blocks.length ≠ d := fun h => heq h.symm
      rw [hnone2]
      simpa [cntS_push, InvAt, hne] using hd

theorem inv_empty : Inv World.empty := by
  intro d
  simp [World.empty, InvAt, cntS, cntW]

/-! ### Frames -/

theorem lt_of_getElem? {α : Type} {l : List α} {i : Nat} {a : α} (h : l[i]? = some a) :
    i < l.length := by
  by_contra hn
  rw [List.getElem?_eq_none (by omega)] at h
  cases h

theorem extends_refl (w : World) : Extends w w := fun _ b hb => ⟨b, hb, rfl⟩

theorem extends_trans {w1 w2 w3 : World} (h12 : Extends w1 w2) (h23 : Extends w2 w3) :
    Extends w1 w3 := by
  intro c b hb
  obtain ⟨b2, hb2, hm2⟩ := h12 c b hb
  obtain ⟨b3, hb3, hm3⟩ := h23 c b2 hb2
  exact ⟨b3, hb3, hm3.trans hm2⟩

theorem extends_of_blocks_eq {w w2 : World} (h : w2.blocks = w.blocks) : Extends w w2 := by
  intro c b hb
  exact ⟨b, by rw [h]; exact hb, rfl⟩

theorem extends_set (w : World) {c : Nat} {b : ControlBlock} (b2 : ControlBlock)
    (hb : w.blocks[c]? = some b) (hm : b2.managed = b.managed) (sh : List SharedPtr)
    (we : List WeakPtr) (h : List Nat) :
    Extends w { blocks := w.blocks.set c b2, shared := sh, weak := we, dead := h } := by
  intro d bd hd
  by_cases hcd : c = d
  · subst hcd
    rw [hb] at hd
    cases hd
    exact ⟨b2, by simp [List.getElem?_set, lt_of_getElem? hb], hm⟩
  · exact ⟨bd, by simp [List.getElem?_set_ne hcd, hd], rfl⟩

theorem extends_push (w : World) (b2 : ControlBlock) (sh : List SharedPtr) (we : List WeakPtr)
    (h : List Nat) :
    Extends w { blocks := w.blocks ++ [b2], shared := sh, weak := we, dead := h } := by
  intro c b hb
  have hlt : c < w.blocks.length := lt_of_getElem? hb
  exact ⟨b, by simp [List.getElem?_append_left hlt, hb], rfl⟩

/-! ### Object ownership -/

theorem owns_mono {U U2 : List Nat} {w : World} (hown : Owns U w) (hsub : ∀ q, q ∈ U → q ∈ U2) :
    Owns U2 w :=
  ⟨fun c b p hb hp h0 => ⟨(hown.1 c b p hb hp h0).1, hsub p (hown.1 c b p hb hp h0).2⟩, hown.2.1,
    fun q hq => hsub q (hown.2.2 q hq)⟩

theorem owns_empty : Owns [] World.empty := by
  refine ⟨?_, ?_, ?_⟩
  · intro c b p hb
    simp [World.empty] at hb
  · intro c d b b2 p hb
    simp [World.empty] at hb
  · intro q hq
    simp [World.empty] at hq

/-- Ownership depends on the blocks and on the record of dead addresses only. -/
theorem owns_of_eq {U : List Nat} {w w2 : World} (hown : Owns U w) (hb : w2.blocks = w.blocks)
    (hd : w2.dead = w.dead) : Owns U w2 := by
  unfold Owns at hown ⊢
  rw [hb, hd]
  exact hown

/-- A call on block `c` that hands its object over to the record of dead addresses, or leaves
both alone, keeps ownership. -/
theorem owns_handover {U : List Nat} {w : World} (hown : Owns U w) {c : Nat}
    {b b2 : ControlBlock} {h2 : List Nat} (hb : w.blocks[c]? = some b)
    (ho : Handover b w.dead b2 h2) (sh : List SharedPtr) (we : List WeakPtr) :
    Owns U { blocks := w.blocks.set c b2, shared := sh, weak := we, dead := h2 } := by
  have hlt := lt_of_getElem? hb
  -- every holder in the new world held the same object in the old one
  have old : ∀ (d : Nat) (x : ControlBlock) (p : Nat), (w.blocks.set c b2)[d]? = some x →
      x.derived = .pointer p → p ≠ 0 →
      ∃ y, w.blocks[d]? = some y ∧ y.derived = .pointer p ∧ (d = c → h2 = w.dead) := by
    intro d x p hx hp h0
    by_cases hdc : c = d
    · subst hdc
      rw [List.getElem?_set_self hlt] at hx
      cases hx
      exact ⟨b, hb, (ho.2 p hp h0).1, fun _ => (ho.2 p hp h0).2⟩
    · rw [List.getElem?_set_ne hdc] at hx
      exact ⟨x, hx, hp, fun h => absurd h.symm hdc⟩
  refine ⟨?_, ?_, ?_⟩
  · intro d x p hx hp h0
    obtain ⟨y, hy, hyp, hdead⟩ := old d x p hx hp h0
    have hold := hown.1 d y p hy hyp h0
    refine ⟨fun hin => ?_, hold.2⟩
    rcases ho.1 p hin with hin2 | ⟨_, hbp⟩
    · exact hold.1 hin2
    · have hcd : c = d := hown.2.1 c d b y p hb hy hbp hyp h0
      rw [hdead hcd.symm] at hin
      exact hold.1 hin
  · intro d e x x2 p hx hx2 hp hp2 h0
    obtain ⟨y, hy, hyp, _⟩ := old d x p hx hp h0
    obtain ⟨y2, hy2, hyp2, _⟩ := old e x2 p hx2 hp2 h0
    exact hown.2.1 d e y y2 p hy hy2 hyp hyp2 h0
  · intro q hq
    rcases ho.1 q hq with hq2 | ⟨h0, hbp⟩
    · exact hown.2.2 q hq2
    · exact (hown.1 c b q hb hbp h0).2

theorem handover_of_same {b b2 : ControlBlock} (h : List Nat) (he : b2.derived = b.derived) :
    Handover b h b2 h :=
  ⟨fun _ hq => Or.inl hq, fun q hq _ => ⟨by rw [← he]; exact hq, rfl⟩⟩

/-- A new `ControlBlockPointer` over a null pointer, or over an object that was never brought
under management, keeps ownership. -/
theorem owns_new_pointer {U U2 : List Nat} {w : World} (hown : Owns U w) (p : Nat)
    (hsub : ∀ q, q ∈ U → q ∈ U2) (hfresh : p ≠ 0 → p ∉ U ∧ p ∈ U2) (sh : List SharedPtr)
    (we : List WeakPtr) :
    Owns U2 { blocks := w.blocks ++ [ControlBlockPointer p], shared := sh, weak := we,
              dead := w.dead } := by
  have old : ∀ (d : Nat) (x : ControlBlock) (q : Nat),
      (w.blocks ++ [ControlBlockPointer p])[d]? = some x → x.derived = .pointer q → q ≠ 0 →
      (w.blocks[d]? = some x) ∨ (d = w.blocks.length ∧ q = p) := by
    intro d x q hx hq h0
    by_cases hlt : d < w.blocks.length
    · rw [List.getElem?_append_left hlt] at hx
      exact Or.inl hx
    · have hd : d = w.blocks.length := by
        have := lt_of_getElem? hx
        simp at this
        omega
      subst hd
      simp at hx
      subst hx
      simp [ControlBlockPointer] at hq
      exact Or.inr ⟨rfl, hq.symm⟩
  refine ⟨?_, ?_, ?_⟩
  · intro d x q hx hq h0
    rcases old d x q hx hq h0 with hx2 | ⟨_, hqp⟩
    · exact ⟨(hown.1 d x q hx2 hq h0).1, hsub q (hown.1 d x q hx2 hq h0).2⟩
    · subst hqp
      exact ⟨fun hin => (hfresh h0).1 (hown.2.2 q hin), (hfresh h0).2⟩
  · intro d e x x2 q hx hx2 hq hq2 h0
    rcases old d x q hx hq h0 with hx3 | ⟨hd, hqp⟩ <;>
      rcases old e x2 q hx2 hq2 h0 with hx4 | ⟨he, hqp2⟩
    · exact hown.2.1 d e x x2 q hx3 hx4 hq hq2 h0
    · subst hqp2
      exact absurd (hown.1 d x q hx3 hq h0).2 (hfresh h0).1
    · subst hqp
      exact absurd (hown.1 e x2 q hx4 hq2 h0).2 (hfresh h0).1
    · rw [hd, he]
  · intro q hq
    exact hsub q (hown.2.2 q hq)

/-- A new `ControlBlockEmplace` whose storage was never brought under management keeps
ownership. -/
theorem owns_new_emplace {U U2 : List Nat} {w : World} (hown : Owns U w) (a : Nat)
    (hsub : ∀ q, q ∈ U → q ∈ U2) (hfresh : a ∉ U) (ha : a ∈ U2) (sh : List SharedPtr)
    (we : List WeakPtr) :
    Owns U2 { blocks := w.blocks ++ [ControlBlockEmplace a], shared := sh, weak := we,
              dead := a :: w.dead } := by
  have old : ∀ (d : Nat) (x : ControlBlock) (q : Nat),
      (w.blocks ++ [ControlBlockEmplace a])[d]? = some x → x.derived = .pointer q →
      w.blocks[d]? = some x := by
    intro d x q hx hq
    by_cases hlt : d < w.blocks.length
    · rw [List.getElem?_append_left hlt] at hx
      exact hx
    · have hd : d = w.blocks.length := by
        have := lt_of_getElem? hx
        simp at this
        omega
      subst hd
      simp at hx
      subst hx
      simp [ControlBlockEmplace] at hq
  refine ⟨?_, ?_, ?_⟩
  · intro d x q hx hq h0
    have hx2 := old d x q hx hq
    have hold := hown.1 d x q hx2 hq h0
    refine ⟨fun hin => ?_, hsub q hold.2⟩
    rcases List.mem_cons.mp hin with hqa | hin2
    · subst hqa
      exact hfresh hold.2
    · exact hold.1 hin2
  · intro d e x x2 q hx hx2 hq hq2 h0
    exact hown.2.1 d e x x2 q (old d x q hx hq) (old e x2 q hx2 hq2) hq hq2 h0
  · intro q hq
    rcases List.mem_cons.mp hq with hqa | hq2
    · subst hqa
      exact ha
    · exact hsub q (hown.2.2 q hq2)

theorem safe_empty : Safe [] World.empty := ⟨inv_empty, owns_empty⟩

theorem safe_mono {U U2 : List Nat} {w : World} (hs : Safe U w) (hsub : ∀ q, q ∈ U → q ∈ U2) :
    Safe U2 w := ⟨hs.1, owns_mono hs.2 hsub⟩

end Weak

/-! ## Guarded calls on the control block -/

namespace Weak

@[simp] theorem applyBlocks_length (bl : List ControlBlock) (oc : Option Nat)
    (f : ControlBlock → ControlBlock) : (applyBlocks bl oc f).length = bl.length := by
  unfold applyBlocks
  split
  · split <;> simp
  · rfl

@[simp] theorem applyBlocks_none (bl : List ControlBlock) (f : ControlBlock → ControlBlock) :
    applyBlocks bl none f = bl := rfl

theorem applyBlocks_some {bl : List ControlBlock} {c : Nat} {b : ControlBlock}
    (f : ControlBlock → ControlBlock) (hb : bl[c]? = some b) :
    applyBlocks bl (some c) f = bl.set c (f b) := by
  simp [applyBlocks, hb]

theorem usable_none (bl : List ControlBlock) : Usable bl none := by
  intro c h
  cases h

theorem usable_of_shared {w : World} (hinv : Inv w) {i : Nat} {s : SharedPtr}
    (hs : w.shared[i]? = some s) : Usable w.blocks s.control_ := by
  intro c hc
  obtain ⟨b, hb, hf, _⟩ := inv_block_of_shared hinv hs hc
  exact ⟨b, hb, hf⟩

theorem usable_of_weak {w : World} (hinv : Inv w) {i : Nat} {s : WeakPtr}
    (hs : w.weak[i]? = some s) : Usable w.blocks s.control_ := by
  intro c hc
  obtain ⟨b, hb, hf, _⟩ := inv_block_of_weak hinv hs hc
  exact ⟨b, hb, hf⟩

theorem callIf_ok {w : World} {oc : Option Nat} (f : ControlBlock → ControlBlock)
    (hu : Usable w.blocks oc) :
    w.callIf oc f = .ok
      { blocks := applyBlocks w.blocks oc f, shared := w.shared, weak := w.weak, dead := w.dead } := by
  cases oc with
  | none => rfl
  | some c =>
    obtain ⟨b, hb, hf⟩ := hu c rfl
    simp [World.callIf, call_ok f hb hf, applyBlocks_some f hb]

theorem inv_apply_inc_strong {w : World} (hinv : Inv w) (oc : Option Nat) (sh : List SharedPtr)
    (hpos : ∀ c, oc = some c → cntS c w.shared ≠ 0)
    (hcount : ∀ d, cntS d sh = cntS d w.shared + (if oc = some d then 1 else 0))
    (hbound : w.shared.length + 1 < sizeMod) :
    Inv { blocks := applyBlocks w.blocks oc ControlBlock.IncreaseStrong, shared := sh,
          weak := w.weak, dead := w.dead } := by
  cases oc with
  | none =>
    simp only [applyBlocks_none]
    exact inv_same_counts hinv sh w.weak _ (fun d => by simpa using hcount d) (fun _ => rfl)
  | some c =>
    have hc := hcount c
    simp at hc
    have hp := hpos c rfl
    have hi := hinv c
    cases hb : w.blocks[c]? with
    | none =>
      rw [hb] at hi
      simp [InvAt] at hi
      omega
    | some b =>
      rw [hb] at hi
      rw [applyBlocks_some _ hb]
      refine inv_update hinv _ sh w.weak _ hb ?_ ?_ (fun _ _ => rfl)
      · have hle := cntS_le_length c w.shared
        rw [hc]
        exact good_inc_strong hi hp (by omega)
      · intro d hd
        have := hcount d
        have hne : ¬ (c = d) := fun h => hd h.symm
        simpa [hne] using this

theorem inv_apply_inc_weak {w : World} (hinv : Inv w) (oc : Option Nat) (we : List WeakPtr)
    (hpos : ∀ c, oc = some c → cntS c w.shared ≠ 0 ∨ cntW c w.weak ≠ 0)
    (hcount : ∀ d, cntW d we = cntW d w.weak + (if oc = some d then 1 else 0))
    (hbound : w.weak.length + 1 < sizeMod) :
    Inv { blocks := applyBlocks w.blocks oc ControlBlock.IncreaseWeak, shared := w.shared,
          weak := we, dead := w.dead } := by
  cases oc with
  | none =>
    simp only [applyBlocks_none]
    exact inv_same_counts hinv w.shared we _ (fun _ => rfl) (fun d => by simpa using hcount d)
  | some c =>
    have hc := hcount c
    simp at hc
    have hp := hpos c rfl
    have hi := hinv c
    cases hb : w.blocks[c]? with
    | none =>
      rw [hb] at hi
      simp [InvAt] at hi
      omega
    | some b =>
      rw [hb] at hi
      rw [applyBlocks_some _ hb]
      refine inv_update hinv _ w.shared we _ hb ?_ (fun _ _ => rfl) ?_
      · have hle := cntW_le_length c w.weak
        rw [hc]
        exact good_inc_weak hi hp (by omega)
      · intro d hd
        have := hcount d
        have hne : ¬ (c = d) := fun h => hd h.symm
        simpa [hne] using this

/-- A guarded call of a member function that leaves the derived part alone keeps ownership. -/
theorem owns_applyBlocks {U : List Nat} {w : World} (hown : Owns U w) (oc : Option Nat)
    (f : ControlBlock → ControlBlock) (hf : ∀ b, (f b).derived = b.derived)
    (sh : List SharedPtr) (we : List WeakPtr) :
    Owns U { blocks := applyBlocks w.blocks oc f, shared := sh, weak := we, dead := w.dead } := by
  cases oc with
  | none => exact hown
  | some c =>
    cases hb : w.blocks[c]? with
    | none =>
      have : applyBlocks w.blocks (some c) f = w.blocks := by simp [applyBlocks, hb]
      rw [this]
      exact hown
    | some b =>
      rw [applyBlocks_some f hb]
      exact owns_handover hown hb (handover_of_same w.dead (hf b)) sh we

theorem extends_applyBlocks (w : World) (oc : Option Nat) (f : ControlBlock → ControlBlock)
    (hf : ∀ b, (f b).managed = b.managed) (sh : List SharedPtr) (we : List WeakPtr)
    (h : List Nat) :
    Extends w { blocks := applyBlocks w.blocks oc f, shared := sh, weak := we, dead := h } := by
  cases oc with
  | none => exact extends_of_blocks_eq rfl
  | some d =>
    cases hd : w.blocks[d]? with
    | none =>
      have : applyBlocks w.blocks (some d) f = w.blocks := by simp [applyBlocks, hd]
      exact extends_of_blocks_eq this
    | some bd =>
      rw [applyBlocks_some f hd]
      exact extends_set w (f bd) hd (hf bd) sh we h

theorem managed_inc_strong (b : ControlBlock) : b.IncreaseStrong.managed = b.managed := rfl

theorem managed_inc_weak (b : ControlBlock) : b.IncreaseWeak.managed = b.managed := rfl

theorem derived_inc_strong (b : ControlBlock) : b.IncreaseStrong.derived = b.derived := rfl

theorem derived_inc_weak (b : ControlBlock) : b.IncreaseWeak.derived = b.derived := rfl

/-- The guarded call `if (control_) control_->IncreaseStrong()` for a new reference to a block that
has one already. -/
theorem safe_apply_inc_strong {U : List Nat} {w : World} (hs : Safe U w) (oc : Option Nat)
    (sh : List SharedPtr) (hpos : ∀ c, oc = some c → cntS c w.shared ≠ 0)
    (hcount : ∀ d, cntS d sh = cntS d w.shared + (if oc = some d then 1 else 0))
    (hbound : w.shared.length + 1 < sizeMod) :
    Safe U { blocks := applyBlocks w.blocks oc ControlBlock.IncreaseStrong, shared := sh,
             weak := w.weak, dead := w.dead } :=
  ⟨inv_apply_inc_strong hs.1 oc sh hpos hcount hbound,
    owns_applyBlocks hs.2 oc _ derived_inc_strong sh w.weak⟩

/-- The guarded call `if (control_) control_->IncreaseWeak()` for a new observer of a block that is
referenced already. -/
theorem safe_apply_inc_weak {U : List Nat} {w : World} (hs : Safe U w) (oc : Option Nat)
    (we : List WeakPtr) (hpos : ∀ c, oc = some c → cntS c w.shared ≠ 0 ∨ cntW c w.weak ≠ 0)
    (hcount : ∀ d, cntW d we = cntW d w.weak + (if oc = some d then 1 else 0))
    (hbound : w.weak.length + 1 < sizeMod) :
    Safe U { blocks := applyBlocks w.blocks oc ControlBlock.IncreaseWeak, shared := w.shared,
             weak := we, dead := w.dead } :=
  ⟨inv_apply_inc_weak hs.1 oc we hpos hcount hbound,
    owns_applyBlocks hs.2 oc _ derived_inc_weak w.shared we⟩

/-- Changing the handle lists without changing any count keeps the invariant and ownership. -/
theorem safe_same_counts {U : List Nat} {w : World} (hs : Safe U w) (sh : List SharedPtr)
    (we : List WeakPtr) (hS : ∀ d, cntS d sh = cntS d w.shared)
    (hW : ∀ d, cntW d we = cntW d w.weak) :
    Safe U { blocks := w.blocks, shared := sh, weak := we, dead := w.dead } :=
  ⟨inv_same_counts hs.1 sh we w.dead hS hW, hs.2⟩

/-- The guarded call `if (control_) control_->DecreaseStrong()` made by a `SharedPtr` that stops
referencing its block: it returns, the object being deleted at most once. -/
theorem safe_dec_strong {U : List Nat} {w : World} (hs : Safe U w) (oc : Option Nat)
    (sh : List SharedPtr)
    (hcount : ∀ d, cntS d sh + (if oc = some d then 1 else 0) = cntS d w.shared)
    (hbound : w.shared.length < sizeMod) :
    ∃ bl h, w.callDelIf oc ControlBlock.DecreaseStrong = .ok
        { blocks := bl, shared := w.shared, weak := w.weak, dead := h } ∧
      Safe U { blocks := bl, shared := sh, weak := w.weak, dead := h } ∧
      Extends w { blocks := bl, shared := sh, weak := w.weak, dead := h } := by
  cases oc with
  | none =>
    exact ⟨w.blocks, w.dead, rfl,
      safe_same_counts hs sh w.weak (fun d => by simpa using hcount d) (fun _ => rfl),
      extends_of_blocks_eq rfl⟩
  | some c =>
    have hc := hcount c
    simp at hc
    have hi := hs.1 c
    cases hb : w.blocks[c]? with
    | none =>
      rw [hb] at hi
      simp [InvAt] at hi
      omega
    | some b =>
      rw [hb] at hi
      have hle := cntS_le_length c w.shared
      have hg : Good b (cntS c sh + 1) (cntW c w.weak) := by rw [hc]; exact hi
      have hf : b.freed = false := by
        cases hfr : b.freed
        · rfl
        · have := hi.2.2.1.1 hfr
          omega
      obtain ⟨b2, h2, e, hg2, hm, ho⟩ :=
        good_dec_strong hg (by omega) (fun p hp h0 => (hs.2.1 c b p hb hp h0).1)
      refine ⟨w.blocks.set c b2, h2, callDel_ok _ hb hf e, ⟨?_, ?_⟩, ?_⟩
      · refine inv_update hs.1 _ sh w.weak _ hb hg2 ?_ (fun _ _ => rfl)
        intro d hd
        have := hcount d
        have hne : ¬ (c = d) := fun h => hd h.symm
        simpa [hne] using this
      · exact owns_handover hs.2 hb ho sh w.weak
      · exact extends_set w b2 hb hm sh w.weak h2

/-- The guarded call `if (control_) control_->DecreaseWeak()` made by a `WeakPtr` that stops
observing its block. -/
theorem safe_dec_weak {U : List Nat} {w : World} (hs : Safe U w) (oc : Option Nat)
    (we : List WeakPtr)
    (hcount : ∀ d, cntW d we + (if oc = some d then 1 else 0) = cntW d w.weak)
    (hbound : w.weak.length < sizeMod) :
    ∃ bl h, w.callDelIf oc ControlBlock.DecreaseWeak = .ok
        { blocks := bl, shared := w.shared, weak := w.weak, dead := h } ∧
      Safe U { blocks := bl, shared := w.shared, weak := we, dead := h } ∧
      Extends w { blocks := bl, shared := w.shared, weak := we, dead := h } := by
  cases oc with
  | none =>
    exact ⟨w.blocks, w.dead, rfl,
      safe_same_counts hs w.shared we (fun _ => rfl) (fun d => by simpa using hcount d),
      extends_of_blocks_eq rfl⟩
  | some c =>
    have hc := hcount c
    simp at hc
    have hi := hs.1 c
    cases hb : w.blocks[c]? with
    | none =>
      rw [hb] at hi
      simp [InvAt] at hi
      omega
    | some b =>
      rw [hb] at hi
      have hle := cntW_le_length c w.weak
      have hg : Good b (cntS c w.shared) (cntW c we + 1) := by rw [hc]; exact hi
      have hf : b.freed = false := by
        cases hfr : b.freed
        · rfl
        · have := hi.2.2.1.1 hfr
          omega
      obtain ⟨b2, h2, e, hg2, hm, ho⟩ := good_dec_weak (h := w.dead) hg (by omega)
      refine ⟨w.blocks.set c b2, h2, callDel_ok _ hb hf e, ⟨?_, ?_⟩, ?_⟩
      · refine inv_update hs.1 _ w.shared we _ hb hg2 (fun _ _ => rfl) ?_
        intro d hd
        have := hcount d
        have hne : ¬ (c = d) := fun h => hd h.symm
        simpa [hne] using this
      · exact owns_handover hs.2 hb ho w.shared we
      · exact extends_set w b2 hb hm w.shared we h2

end Weak

/-! ## What each method computes -/

namespace Weak

theorem shared_incr_new_eq (w : World) (x : SharedPtr) (hu : Usable w.blocks x.control_) :
    SharedPtr.ControlIncreaseStrong (w.newShared x) w.shared.length = .ok
      { blocks := applyBlocks w.blocks x.control_ ControlBlock.IncreaseStrong,
        shared := w.shared ++ [x], weak := w.weak, dead := w.dead } := by
  have hx : (w.newShared x).shared[w.shared.length]? = some x := by
    simp [World.newShared]
  have hu2 : Usable (w.newShared x).blocks x.control_ := hu
  unfold SharedPtr.ControlIncreaseStrong
  rw [sharedAt_ok hx]
  simp only [bind, Except.bind]
  rw [callIf_ok _ hu2]
  rfl

theorem weak_incr_new_eq (w : World) (x : WeakPtr) (hu : Usable w.blocks x.control_) :
    WeakPtr.ControlIncreaseWeak (w.newWeak x) w.weak.length = .ok
      { blocks := applyBlocks w.blocks x.control_ ControlBlock.IncreaseWeak,
        shared := w.shared, weak := w.weak ++ [x], dead := w.dead } := by
  have hx : (w.newWeak x).weak[w.weak.length]? = some x := by
    simp [World.newWeak]
  have hu2 : Usable (w.newWeak x).blocks x.control_ := hu
  unfold WeakPtr.ControlIncreaseWeak
  rw [weakAt_ok hx]
  simp only [bind, Except.bind]
  rw [callIf_ok _ hu2]
  rfl

theorem shared_copy_eq {w : World} {other : Nat} {o : SharedPtr} (ho : w.shared[other]? = some o)
    (hu : Usable w.blocks o.control_) :
    SharedPtr.copy w other = .ok
      { blocks := applyBlocks w.blocks o.control_ ControlBlock.IncreaseStrong,
        shared := w.shared ++ [{ control_ := o.control_, ptr_ := o.ptr_ }], weak := w.weak, dead := w.dead } := by
  simp [SharedPtr.copy, sharedAt_ok ho, bind, Except.bind]
  exact shared_incr_new_eq w _ hu

theorem shared_aliasing_eq {w : World} {other : Nat} {o : SharedPtr} (p : Nat)
    (ho : w.shared[other]? = some o) (hu : Usable w.blocks o.control_) :
    SharedPtr.aliasing w other p = .ok
      { blocks := applyBlocks w.blocks o.control_ ControlBlock.IncreaseStrong,
        shared := w.shared ++ [{ control_ := o.control_, ptr_ := p }], weak := w.weak, dead := w.dead } := by
  simp [SharedPtr.aliasing, sharedAt_ok ho, bind, Except.bind]
  exact shared_incr_new_eq w _ hu

theorem shared_move_eq {w : World} {other : Nat} {o : SharedPtr} (ho : w.shared[other]? = some o) :
    SharedPtr.move w other = .ok
      { blocks := w.blocks,
        shared := (w.shared ++ [({ control_ := o.control_, ptr_ := o.ptr_ } : SharedPtr)]).set other
          { control_ := none, ptr_ := 0 },
        weak := w.weak, dead := w.dead } := by
  simp [SharedPtr.move, sharedAt_ok ho, bind, Except.bind, pure, Except.pure, World.newShared,
    World.setShared]

theorem weak_copy_eq {w : World} {other : Nat} {o : WeakPtr} (ho : w.weak[other]? = some o)
    (hu : Usable w.blocks o.control_) :
    WeakPtr.copy w other = .ok
      { blocks := applyBlocks w.blocks o.control_ ControlBlock.IncreaseWeak,
        shared := w.shared, weak := w.weak ++ [{ control_ := o.control_, ptr_ := o.ptr_ }], dead := w.dead } := by
  simp [WeakPtr.copy, weakAt_ok ho, bind, Except.bind]
  exact weak_incr_new_eq w _ hu

theorem weak_from_shared_eq {w : World} {other : Nat} {o : SharedPtr}
    (ho : w.shared[other]? = some o) (hu : Usable w.blocks o.control_) :
    WeakPtr.fromShared w other = .ok
      { blocks := applyBlocks w.blocks o.control_ ControlBlock.IncreaseWeak,
        shared := w.shared, weak := w.weak ++ [{ control_ := o.control_, ptr_ := o.ptr_ }], dead := w.dead } := by
  simp [WeakPtr.fromShared, sharedAt_ok ho, bind, Except.bind]
  exact weak_incr_new_eq w { control_ := o.control_, ptr_ := o.ptr_ } hu

theorem weak_move_eq {w : World} {other : Nat} {o : WeakPtr} (ho : w.weak[other]? = some o) :
    WeakPtr.move w other = .ok
      { blocks := w.blocks, shared := w.shared,
        weak := (w.weak ++ [({ control_ := o.control_, ptr_ := o.ptr_ } : WeakPtr)]).set other
          { control_ := none, ptr_ := 0 }, dead := w.dead } := by
  simp [WeakPtr.move, weakAt_ok ho, bind, Except.bind, pure, Except.pure, World.newWeak,
    World.setWeak]

end Weak

/-! ## Every method keeps the invariant -/

namespace Weak

/-- Postcondition shared by the methods: the call returns a world that satisfies the invariant,
keeps the blocks of the old one, and has the stated handle lists. -/
theorem shared_clear_inv {U : List Nat} {w : World} (hinv : Safe U w)
    (hbound : w.shared.length < sizeMod)
    {self : Nat} {s : SharedPtr} (hs : w.shared[self]? = some s) :
    ∃ w2, SharedPtr.Clear w self = .ok w2 ∧ Safe U w2 ∧ Extends w w2 ∧
      w2.shared = w.shared.set self { control_ := none, ptr_ := 0 } ∧ w2.weak = w.weak := by
  obtain ⟨bl, h, e, hsafe, hext⟩ := safe_dec_strong hinv s.control_
    (w.shared.set self { control_ := none, ptr_ := 0 })
    (fun d => by
      have := cntS_set d w.shared self s { control_ := none, ptr_ := 0 } hs
      simpa using this) hbound
  refine ⟨_, ?_, hsafe, hext, rfl, rfl⟩
  simp [SharedPtr.Clear, SharedPtr.ControlDecreaseStrong, sharedAt_ok hs, e, bind, Except.bind,
    pure, Except.pure, World.setShared]

theorem weak_clear_inv {U : List Nat} {w : World} (hinv : Safe U w)
    (hbound : w.weak.length < sizeMod)
    {self : Nat} {s : WeakPtr} (hs : w.weak[self]? = some s) :
    ∃ w2, WeakPtr.Clear w self = .ok w2 ∧ Safe U w2 ∧ Extends w w2 ∧
      w2.shared = w.shared ∧ w2.weak = w.weak.set self { control_ := none, ptr_ := 0 } := by
  obtain ⟨bl, h, e, hsafe, hext⟩ := safe_dec_weak hinv s.control_
    (w.weak.set self { control_ := none, ptr_ := 0 })
    (fun d => by
      have := cntW_set d w.weak self s { control_ := none, ptr_ := 0 } hs
      simpa using this) hbound
  refine ⟨_, ?_, hsafe, hext, rfl, rfl⟩
  simp [WeakPtr.Clear, WeakPtr.ControlDecreaseWeak, weakAt_ok hs, e, bind, Except.bind,
    pure, Except.pure, World.setWeak]

theorem shared_copy_inv {U : List Nat} {w : World} (hinv : Safe U w) (hbound : w.shared.length + 1 < sizeMod)
    {other : Nat} {o : SharedPtr} (ho : w.shared[other]? = some o) :
    ∃ w2, SharedPtr.copy w other = .ok w2 ∧ Safe U w2 ∧ Extends w w2 ∧
      w2.shared = w.shared ++ [{ control_ := o.control_, ptr_ := o.ptr_ }] ∧ w2.weak = w.weak := by
  refine ⟨_, shared_copy_eq ho (usable_of_shared hinv.1 ho), ?_, ?_, rfl, rfl⟩
  · apply safe_apply_inc_strong hinv
    · intro c hc
      exact Nat.pos_iff_ne_zero.mp (cntS_pos_of_mem c w.shared other o ho hc)
    · intro d
      simp [cntS_push]
    · exact hbound
  · exact extends_applyBlocks w _ _ managed_inc_strong _ _ _

theorem shared_aliasing_inv {U : List Nat} {w : World} (hinv : Safe U w) (hbound : w.shared.length + 1 < sizeMod)
    {other : Nat} {o : SharedPtr} (p : Nat) (ho : w.shared[other]? = some o) :
    ∃ w2, SharedPtr.aliasing w other p = .ok w2 ∧ Safe U w2 ∧ Extends w w2 ∧
      w2.shared = w.shared ++ [{ control_ := o.control_, ptr_ := p }] ∧ w2.weak = w.weak := by
  refine ⟨_, shared_aliasing_eq p ho (usable_of_shared hinv.1 ho), ?_, ?_, rfl, rfl⟩
  · apply safe_apply_inc_strong hinv
    · intro c hc
      exact Nat.pos_iff_ne_zero.mp (cntS_pos_of_mem c w.shared other o ho hc)
    · intro d
      simp [cntS_push]
    · exact hbound
  · exact extends_applyBlocks w _ _ managed_inc_strong _ _ _

theorem cntS_move (d : Nat) (l : List SharedPtr) (other : Nat) (o : SharedPtr)
    (ho : l[other]? = some o) :
    cntS d ((l ++ [({ control_ := o.control_, ptr_ := o.ptr_ } : SharedPtr)]).set other
      { control_ := none, ptr_ := 0 }) = cntS d l := by
  have hlt : other < l.length := by
    by_contra hn
    rw [List.getElem?_eq_none (by omega)] at ho
    cases ho
  have h1 : (l ++ [({ control_ := o.control_, ptr_ := o.ptr_ } : SharedPtr)])[other]? = some o := by
    rw [List.getElem?_append_left hlt]; exact ho
  have := cntS_set d _ other o { control_ := none, ptr_ := 0 } h1
  simp [cntS_push] at this
  omega

theorem cntW_move (d : Nat) (l : List WeakPtr) (other : Nat) (o : WeakPtr)
    (ho : l[other]? = some o) :
    cntW d ((l ++ [({ control_ := o.control_, ptr_ := o.ptr_ } : WeakPtr)]).set other
      { control_ := none, ptr_ := 0 }) = cntW d l := by
  have hlt : other < l.length := by
    by_contra hn
    rw [List.getElem?_eq_none (by omega)] at ho
    cases ho
  have h1 : (l ++ [({ control_ := o.control_, ptr_ := o.ptr_ } : WeakPtr)])[other]? = some o := by
    rw [List.getElem?_append_left hlt]; exact ho
  have := cntW_set d _ other o { control_ := none, ptr_ := 0 } h1
  simp [cntW_push] at this
  omega

theorem shared_move_inv {U : List Nat} {w : World} (hinv : Safe U w) {other : Nat} {o : SharedPtr}
    (ho : w.shared[other]? = some o) :
    ∃ w2, SharedPtr.move w other = .ok w2 ∧ Safe U w2 ∧ Extends w w2 ∧
      w2.shared = (w.shared ++ [({ control_ := o.control_, ptr_ := o.ptr_ } : SharedPtr)]).set other
        { control_ := none, ptr_ := 0 } ∧ w2.weak = w.weak := by
  refine ⟨_, shared_move_eq ho, ?_, extends_of_blocks_eq rfl, rfl, rfl⟩
  exact safe_same_counts hinv _ _ (fun d => cntS_move d w.shared other o ho) (fun _ => rfl)

theorem weak_move_inv {U : List Nat} {w : World} (hinv : Safe U w) {other : Nat} {o : WeakPtr}
    (ho : w.weak[other]? = some o) :
    ∃ w2, WeakPtr.move w other = .ok w2 ∧ Safe U w2 ∧ Extends w w2 ∧ w2.shared = w.shared ∧
      w2.weak = (w.weak ++ [({ control_ := o.control_, ptr_ := o.ptr_ } : WeakPtr)]).set other
        { control_ := none, ptr_ := 0 } := by
  refine ⟨_, weak_move_eq ho, ?_, extends_of_blocks_eq rfl, rfl, rfl⟩
  exact safe_same_counts hinv _ _ (fun _ => rfl) (fun d => cntW_move d w.weak other o ho)

theorem weak_copy_inv {U : List Nat} {w : World} (hinv : Safe U w) (hbound : w.weak.length + 1 < sizeMod)
    {other : Nat} {o : WeakPtr} (ho : w.weak[other]? = some o) :
    ∃ w2, WeakPtr.copy w other = .ok w2 ∧ Safe U w2 ∧ Extends w w2 ∧ w2.shared = w.shared ∧
      w2.weak = w.weak ++ [{ control_ := o.control_, ptr_ := o.ptr_ }] := by
  refine ⟨_, weak_copy_eq ho (usable_of_weak hinv.1 ho), ?_, ?_, rfl, rfl⟩
  · apply safe_apply_inc_weak hinv
    · intro c hc
      exact Or.inr (Nat.pos_iff_ne_zero.mp (cntW_pos_of_mem c w.weak other o ho hc))
    · intro d
      simp [cntW_push]
    · exact hbound
  · exact extends_applyBlocks w _ _ managed_inc_weak _ _ _

theorem weak_from_shared_inv {U : List Nat} {w : World} (hinv : Safe U w) (hbound : w.weak.length + 1 < sizeMod)
    {other : Nat} {o : SharedPtr} (ho : w.shared[other]? = some o) :
    ∃ w2, WeakPtr.fromShared w other = .ok w2 ∧ Safe U w2 ∧ Extends w w2 ∧ w2.shared = w.shared ∧
      w2.weak = w.weak ++ [{ control_ := o.control_, ptr_ := o.ptr_ }] := by
  refine ⟨_, weak_from_shared_eq ho (usable_of_shared hinv.1 ho), ?_, ?_, rfl, rfl⟩
  · apply safe_apply_inc_weak hinv
    · intro c hc
      exact Or.inl (Nat.pos_iff_ne_zero.mp (cntS_pos_of_mem c w.shared other o ho hc))
    · intro d
      simp [cntW_push]
    · exact hbound
  · exact extends_applyBlocks w _ _ managed_inc_weak _ _ _

theorem shared_from_raw_inv {U U2 : List Nat} {w : World} (hinv : Safe U w) (p : Nat)
    (hsub : ∀ q, q ∈ U → q ∈ U2) (hfresh : p ≠ 0 → p ∉ U ∧ p ∈ U2) :
    Safe U2 (SharedPtr.fromRaw w p) ∧ Extends w (SharedPtr.fromRaw w p) ∧
      (SharedPtr.fromRaw w p).shared = w.shared ++ [{ control_ := some w.blocks.length, ptr_ := p }] ∧
      (SharedPtr.fromRaw w p).weak = w.weak :=
  ⟨⟨inv_new_block hinv.1 _ p _ (good_new_pointer p), owns_new_pointer hinv.2 p hsub hfresh _ _⟩,
    extends_push w _ _ _ _, rfl, rfl⟩

theorem make_shared_inv {U U2 : List Nat} {w : World} (hinv : Safe U w) (a : Nat)
    (hsub : ∀ q, q ∈ U → q ∈ U2) (hfresh : a ∉ U) (ha : a ∈ U2) :
    Safe U2 (MakeShared w a) ∧ Extends w (MakeShared w a) ∧
      (MakeShared w a).shared = w.shared ++ [{ control_ := some w.blocks.length, ptr_ := a }] ∧
      (MakeShared w a).weak = w.weak :=
  ⟨⟨inv_new_block hinv.1 _ a _ (good_new_emplace a), owns_new_emplace hinv.2 a hsub hfresh ha _ _⟩,
    extends_push w _ _ _ _, rfl, rfl⟩

theorem shared_construct_inv {U : List Nat} {w : World} (hinv : Safe U w) :
    Safe U (SharedPtr.construct w) ∧ Extends w (SharedPtr.construct w) := by
  refine ⟨?_, extends_of_blocks_eq rfl⟩
  exact safe_same_counts hinv _ _ (fun d => by simp [cntS_push]) (fun _ => rfl)

theorem weak_construct_inv {U : List Nat} {w : World} (hinv : Safe U w) :
    Safe U (WeakPtr.construct w) ∧ Extends w (WeakPtr.construct w) := by
  refine ⟨?_, extends_of_blocks_eq rfl⟩
  exact safe_same_counts hinv _ _ (fun _ => rfl) (fun d => by simp [cntW_push])

end Weak

/-! ## Assignment, promotion and `Lock` keep the invariant -/

namespace Weak

theorem usable_of_pos {w : World} (hinv0 : Inv w) {oc : Option Nat}
    (hpos : ∀ c, oc = some c → cntS c w.shared ≠ 0 ∨ cntW c w.weak ≠ 0) : Usable w.blocks oc := by
  intro c hc
  have hp := hpos c hc
  have hi := hinv0 c
  cases hb : w.blocks[c]? with
  | none =>
    rw [hb] at hi
    simp [InvAt] at hi
    omega
  | some b =>
    rw [hb] at hi
    refine ⟨b, rfl, ?_⟩
    cases hfr : b.freed
    · rfl
    · have := hi.2.2.1.1 hfr
      omega

theorem shared_attach_eq {w : World} {self : Nat} (x : SharedPtr) (hlt : self < w.shared.length)
    (hu : Usable w.blocks x.control_) :
    SharedPtr.ControlIncreaseStrong (w.setShared self x) self = .ok
      { blocks := applyBlocks w.blocks x.control_ ControlBlock.IncreaseStrong,
        shared := w.shared.set self x, weak := w.weak, dead := w.dead } := by
  have hx : (w.setShared self x).shared[self]? = some x := by
    simp [World.setShared, List.getElem?_set, hlt]
  have hu2 : Usable (w.setShared self x).blocks x.control_ := hu
  unfold SharedPtr.ControlIncreaseStrong
  rw [sharedAt_ok hx]
  simp only [bind, Except.bind]
  rw [callIf_ok _ hu2]
  rfl

theorem weak_attach_eq {w : World} {self : Nat} (x : WeakPtr) (hlt : self < w.weak.length)
    (hu : Usable w.blocks x.control_) :
    WeakPtr.ControlIncreaseWeak (w.setWeak self x) self = .ok
      { blocks := applyBlocks w.blocks x.control_ ControlBlock.IncreaseWeak,
        shared := w.shared, weak := w.weak.set self x, dead := w.dead } := by
  have hx : (w.setWeak self x).weak[self]? = some x := by
    simp [World.setWeak, List.getElem?_set, hlt]
  have hu2 : Usable (w.setWeak self x).blocks x.control_ := hu
  unfold WeakPtr.ControlIncreaseWeak
  rw [weakAt_ok hx]
  simp only [bind, Except.bind]
  rw [callIf_ok _ hu2]
  rfl

theorem shared_attach_inv {U : List Nat} {w : World} (hinv : Safe U w) (hbound : w.shared.length + 1 < sizeMod)
    {self : Nat} {old : SharedPtr} (hs : w.shared[self]? = some old) (hold : old.control_ = none)
    (x : SharedPtr) (hpos : ∀ c, x.control_ = some c → cntS c w.shared ≠ 0) :
    ∃ w2, SharedPtr.ControlIncreaseStrong (w.setShared self x) self = .ok w2 ∧ Safe U w2 ∧
      Extends w w2 ∧ w2.shared = w.shared.set self x ∧ w2.weak = w.weak := by
  have hu : Usable w.blocks x.control_ := usable_of_pos hinv.1 (fun c hc => Or.inl (hpos c hc))
  refine ⟨_, shared_attach_eq x (lt_of_getElem? hs) hu, ?_, ?_, rfl, rfl⟩
  · apply safe_apply_inc_strong hinv _ _ hpos
    · intro d
      have := cntS_set d w.shared self old x hs
      simpa [hold] using this
    · exact hbound
  · exact extends_applyBlocks w _ _ managed_inc_strong _ _ _

theorem weak_attach_inv {U : List Nat} {w : World} (hinv : Safe U w) (hbound : w.weak.length + 1 < sizeMod)
    {self : Nat} {old : WeakPtr} (hs : w.weak[self]? = some old) (hold : old.control_ = none)
    (x : WeakPtr) (hpos : ∀ c, x.control_ = some c → cntS c w.shared ≠ 0 ∨ cntW c w.weak ≠ 0) :
    ∃ w2, WeakPtr.ControlIncreaseWeak (w.setWeak self x) self = .ok w2 ∧ Safe U w2 ∧
      Extends w w2 ∧ w2.shared = w.shared ∧ w2.weak = w.weak.set self x := by
  have hu : Usable w.blocks x.control_ := usable_of_pos hinv.1 hpos
  refine ⟨_, weak_attach_eq x (lt_of_getElem? hs) hu, ?_, ?_, rfl, rfl⟩
  · apply safe_apply_inc_weak hinv _ _ hpos
    · intro d
      have := cntW_set d w.weak self old x hs
      simpa [hold] using this
    · exact hbound
  · exact extends_applyBlocks w _ _ managed_inc_weak _ _ _

theorem shared_assign_inv {U : List Nat} {w : World} (hinv : Safe U w) (hbound : w.shared.length + 1 < sizeMod)
    {self other : Nat} {s o : SharedPtr} (hne : other ≠ self) (hs : w.shared[self]? = some s)
    (ho : w.shared[other]? = some o) :
    ∃ w2, SharedPtr.assign w self other = .ok w2 ∧ Safe U w2 ∧ Extends w w2 ∧
      w2.shared = w.shared.set self { control_ := o.control_, ptr_ := o.ptr_ } ∧
      w2.weak = w.weak := by
  obtain ⟨w1, h1, hinv1, hext1, hsh1, hwe1⟩ := shared_clear_inv hinv (by omega) hs
  have hlt := lt_of_getElem? hs
  have ho1 : w1.shared[other]? = some o := by
    rw [hsh1, List.getElem?_set_ne (Ne.symm hne)]; exact ho
  have hs1 : w1.shared[self]? = some { control_ := none, ptr_ := 0 } := by
    rw [hsh1]; simp [List.getElem?_set, hlt]
  have hlen1 : w1.shared.length = w.shared.length := by rw [hsh1]; simp
  obtain ⟨w2, h2, hinv2, hext2, hsh2, hwe2⟩ :=
    shared_attach_inv hinv1 (by omega) hs1 rfl { control_ := o.control_, ptr_ := o.ptr_ }
      (fun c hc => Nat.pos_iff_ne_zero.mp (cntS_pos_of_mem c w1.shared other o ho1 hc))
  refine ⟨w2, ?_, hinv2, extends_trans hext1 hext2, ?_, by rw [hwe2, hwe1]⟩
  · simp [SharedPtr.assign, hne, h1, bind, Except.bind, sharedAt_ok ho1, h2]
  · rw [hsh2, hsh1]; simp

theorem weak_assign_inv {U : List Nat} {w : World} (hinv : Safe U w) (hbound : w.weak.length + 1 < sizeMod)
    {self other : Nat} {s o : WeakPtr} (hne : other ≠ self) (hs : w.weak[self]? = some s)
    (ho : w.weak[other]? = some o) :
    ∃ w2, WeakPtr.assign w self other = .ok w2 ∧ Safe U w2 ∧ Extends w w2 ∧
      w2.shared = w.shared ∧
      w2.weak = w.weak.set self { control_ := o.control_, ptr_ := o.ptr_ } := by
  obtain ⟨w1, h1, hinv1, hext1, hsh1, hwe1⟩ := weak_clear_inv hinv (by omega) hs
  have hlt := lt_of_getElem? hs
  have ho1 : w1.weak[other]? = some o := by
    rw [hwe1, List.getElem?_set_ne (Ne.symm hne)]; exact ho
  have hs1 : w1.weak[self]? = some { control_ := none, ptr_ := 0 } := by
    rw [hwe1]; simp [List.getElem?_set, hlt]
  have hlen1 : w1.weak.length = w.weak.length := by rw [hwe1]; simp
  obtain ⟨w2, h2, hinv2, hext2, hsh2, hwe2⟩ :=
    weak_attach_inv hinv1 (by omega) hs1 rfl { control_ := o.control_, ptr_ := o.ptr_ }
      (fun c hc => Or.inr (Nat.pos_iff_ne_zero.mp (cntW_pos_of_mem c w1.weak other o ho1 hc)))
  refine ⟨w2, ?_, hinv2, extends_trans hext1 hext2, by rw [hsh2, hsh1], ?_⟩
  · simp [WeakPtr.assign, hne, h1, bind, Except.bind, weakAt_ok ho1, h2]
  · rw [hwe2, hwe1]; simp

theorem cntS_transfer (d : Nat) (l : List SharedPtr) (self other : Nat) (old o : SharedPtr)
    (hne : other ≠ self) (hs : l[self]? = some old) (hold : old.control_ = none)
    (ho : l[other]? = some o) :
    cntS d ((l.set self { control_ := o.control_, ptr_ := o.ptr_ }).set other
      { control_ := none, ptr_ := 0 }) = cntS d l := by
  have h1 := cntS_set d l self old { control_ := o.control_, ptr_ := o.ptr_ } hs
  have ho2 : (l.set self ({ control_ := o.control_, ptr_ := o.ptr_ } : SharedPtr))[other]? = some o := by
    rw [List.getElem?_set_ne (Ne.symm hne)]; exact ho
  have h2 := cntS_set d _ other o { control_ := none, ptr_ := 0 } ho2
  simp [hold] at h1 h2
  omega

theorem cntW_transfer (d : Nat) (l : List WeakPtr) (self other : Nat) (old o : WeakPtr)
    (hne : other ≠ self) (hs : l[self]? = some old) (hold : old.control_ = none)
    (ho : l[other]? = some o) :
    cntW d ((l.set self { control_ := o.control_, ptr_ := o.ptr_ }).set other
      { control_ := none, ptr_ := 0 }) = cntW d l := by
  have h1 := cntW_set d l self old { control_ := o.control_, ptr_ := o.ptr_ } hs
  have ho2 : (l.set self ({ control_ := o.control_, ptr_ := o.ptr_ } : WeakPtr))[other]? = some o := by
    rw [List.getElem?_set_ne (Ne.symm hne)]; exact ho
  have h2 := cntW_set d _ other o { control_ := none, ptr_ := 0 } ho2
  simp [hold] at h1 h2
  omega

theorem shared_move_assign_inv {U : List Nat} {w : World} (hinv : Safe U w) (hbound : w.shared.length < sizeMod)
    {self other : Nat} {s o : SharedPtr} (hne : other ≠ self) (hs : w.shared[self]? = some s)
    (ho : w.shared[other]? = some o) :
    ∃ w2, SharedPtr.moveAssign w self other = .ok w2 ∧ Safe U w2 ∧ Extends w w2 ∧
      w2.shared = (w.shared.set self { control_ := o.control_, ptr_ := o.ptr_ }).set other
        { control_ := none, ptr_ := 0 } ∧
      w2.weak = w.weak := by
  obtain ⟨w1, h1, hinv1, hext1, hsh1, hwe1⟩ := shared_clear_inv hinv hbound hs
  have hlt := lt_of_getElem? hs
  have ho1 : w1.shared[other]? = some o := by
    rw [hsh1, List.getElem?_set_ne (Ne.symm hne)]; exact ho
  have hs1 : w1.shared[self]? = some { control_ := none, ptr_ := 0 } := by
    rw [hsh1]; simp [List.getElem?_set, hlt]
  refine ⟨{ blocks := w1.blocks,
            shared := (w1.shared.set self { control_ := o.control_, ptr_ := o.ptr_ }).set other
              { control_ := none, ptr_ := 0 },
            weak := w1.weak, dead := w1.dead }, ?_, ?_, ?_, ?_, hwe1⟩
  · simp [SharedPtr.moveAssign, hne, h1, bind, Except.bind, sharedAt_ok ho1, pure, Except.pure,
      World.setShared]
  · exact safe_same_counts hinv1 _ _
      (fun d => cntS_transfer d w1.shared self other _ o hne hs1 rfl ho1) (fun _ => rfl)
  · exact extends_trans hext1 (extends_of_blocks_eq rfl)
  · simp [hsh1]

theorem weak_move_assign_inv {U : List Nat} {w : World} (hinv : Safe U w) (hbound : w.weak.length < sizeMod)
    {self other : Nat} {s o : WeakPtr} (hne : other ≠ self) (hs : w.weak[self]? = some s)
    (ho : w.weak[other]? = some o) :
    ∃ w2, WeakPtr.moveAssign w self other = .ok w2 ∧ Safe U w2 ∧ Extends w w2 ∧
      w2.shared = w.shared ∧
      w2.weak = (w.weak.set self { control_ := o.control_, ptr_ := o.ptr_ }).set other
        { control_ := none, ptr_ := 0 } := by
  obtain ⟨w1, h1, hinv1, hext1, hsh1, hwe1⟩ := weak_clear_inv hinv hbound hs
  have hlt := lt_of_getElem? hs
  have ho1 : w1.weak[other]? = some o := by
    rw [hwe1, List.getElem?_set_ne (Ne.symm hne)]; exact ho
  have hs1 : w1.weak[self]? = some { control_ := none, ptr_ := 0 } := by
    rw [hwe1]; simp [List.getElem?_set, hlt]
  refine ⟨{ blocks := w1.blocks, shared := w1.shared,
            weak := (w1.weak.set self { control_ := o.control_, ptr_ := o.ptr_ }).set other
              { control_ := none, ptr_ := 0 }, dead := w1.dead }, ?_, ?_, ?_, hsh1, ?_⟩
  · simp [WeakPtr.moveAssign, hne, h1, bind, Except.bind, weakAt_ok ho1, pure, Except.pure,
      World.setWeak]
  · exact safe_same_counts hinv1 _ _ (fun _ => rfl)
      (fun d => cntW_transfer d w1.weak self other _ o hne hs1 rfl ho1)
  · exact extends_trans hext1 (extends_of_blocks_eq rfl)
  · simp [hwe1]

end Weak

/-! ## `Lock`, promotion, `Swap` and `Reset(ptr)` -/

namespace Weak

theorem weak_lock_alive_eq {w : World} {self c : Nat} {s : WeakPtr} {b : ControlBlock}
    (hs : w.weak[self]? = some s) (hc : s.control_ = some c) (hb : w.blocks[c]? = some b)
    (hf : b.freed = false) (ha : b.cnt_strong_ref_ ≠ 0) :
    WeakPtr.Lock w self = .ok
      { blocks := w.blocks.set c b.IncreaseStrong,
        shared := w.shared ++ [{ control_ := some c, ptr_ := s.ptr_ }], weak := w.weak, dead := w.dead } := by
  simp [WeakPtr.Lock, weakAt_ok hs, hc, block_ok hb hf, call_ok _ hb hf, bind, Except.bind,
    ControlBlock.IsResourceAlive, ha, pure, Except.pure, SharedPtr.fromBlock, World.newShared]

theorem weak_lock_dead_eq {w : World} {self c : Nat} {s : WeakPtr} {b : ControlBlock}
    (hs : w.weak[self]? = some s) (hc : s.control_ = some c) (hb : w.blocks[c]? = some b)
    (hf : b.freed = false) (ha : b.cnt_strong_ref_ = 0) :
    WeakPtr.Lock w self = .ok
      { blocks := w.blocks, shared := w.shared ++ [{ control_ := none, ptr_ := 0 }],
        weak := w.weak, dead := w.dead } := by
  simp [WeakPtr.Lock, weakAt_ok hs, hc, block_ok hb hf, bind, Except.bind,
    ControlBlock.IsResourceAlive, ha, pure, Except.pure, SharedPtr.fromBlock, World.newShared]

theorem weak_lock_absent_eq {w : World} {self : Nat} {s : WeakPtr}
    (hs : w.weak[self]? = some s) (hc : s.control_ = none) :
    WeakPtr.Lock w self = .ok
      { blocks := w.blocks, shared := w.shared ++ [{ control_ := none, ptr_ := 0 }],
        weak := w.weak, dead := w.dead } := by
  simp [WeakPtr.Lock, weakAt_ok hs, hc, bind, Except.bind, pure, Except.pure,
    SharedPtr.fromBlock, World.newShared]

theorem shared_from_weak_alive_eq {w : World} {other c : Nat} {s : WeakPtr} {b : ControlBlock}
    (hs : w.weak[other]? = some s) (hc : s.control_ = some c) (hb : w.blocks[c]? = some b)
    (hf : b.freed = false) (ha : b.cnt_strong_ref_ ≠ 0) :
    SharedPtr.fromWeak w other = .ok
      { blocks := w.blocks.set c b.IncreaseStrong,
        shared := w.shared ++ [{ control_ := some c, ptr_ := s.ptr_ }], weak := w.weak, dead := w.dead } := by
  have hu : Usable w.blocks (some c) := by
    intro d hd
    cases hd
    exact ⟨b, hb, hf⟩
  have h := shared_incr_new_eq w { control_ := some c, ptr_ := s.ptr_ } hu
  simp only [applyBlocks_some _ hb] at h
  simp [SharedPtr.fromWeak, weakAt_ok hs, hc, block_ok hb hf, bind, Except.bind,
    ControlBlock.IsResourceAlive, ha, h]

theorem shared_from_weak_dead_eq {w : World} {other c : Nat} {s : WeakPtr} {b : ControlBlock}
    (hs : w.weak[other]? = some s) (hc : s.control_ = some c) (hb : w.blocks[c]? = some b)
    (hf : b.freed = false) (ha : b.cnt_strong_ref_ = 0) :
    SharedPtr.fromWeak w other = .error Fault.BadWeakPtr := by
  simp [SharedPtr.fromWeak, weakAt_ok hs, hc, block_ok hb hf, bind, Except.bind,
    ControlBlock.IsResourceAlive, ha, throw, throwThe, MonadExceptOf.throw]

theorem shared_from_weak_absent_eq {w : World} {other : Nat} {s : WeakPtr}
    (hs : w.weak[other]? = some s) (hc : s.control_ = none) :
    SharedPtr.fromWeak w other = .error Fault.BadWeakPtr := by
  simp [SharedPtr.fromWeak, weakAt_ok hs, hc, bind, Except.bind, throw, throwThe,
    MonadExceptOf.throw]

theorem inv_lock_alive {U : List Nat} {w : World} (hinv : Safe U w)
    (hbound : w.shared.length + 1 < sizeMod)
    {c : Nat} {b : ControlBlock} (hb : w.blocks[c]? = some b) (ha : b.cnt_strong_ref_ ≠ 0)
    (p : Nat) :
    Safe U { blocks := w.blocks.set c b.IncreaseStrong,
             shared := w.shared ++ [{ control_ := some c, ptr_ := p }], weak := w.weak,
             dead := w.dead } := by
  have hi := hinv.1 c
  rw [hb] at hi
  have h := safe_apply_inc_strong hinv (some c) (w.shared ++ [{ control_ := some c, ptr_ := p }])
    (fun d hd => by cases hd; rw [← hi.1]; exact ha) (fun d => by simp [cntS_push]) hbound
  simpa [applyBlocks_some _ hb] using h

theorem inv_push_absent {U : List Nat} {w : World} (hinv : Safe U w) :
    Safe U { blocks := w.blocks, shared := w.shared ++ [{ control_ := none, ptr_ := 0 }],
             weak := w.weak, dead := w.dead } :=
  safe_same_counts hinv _ _ (fun d => by simp [cntS_push]) (fun _ => rfl)

theorem weak_lock_inv {U : List Nat} {w : World} (hinv : Safe U w) (hbound : w.shared.length + 1 < sizeMod)
    {self : Nat} {s : WeakPtr} (hs : w.weak[self]? = some s) :
    ∃ w2, WeakPtr.Lock w self = .ok w2 ∧ Safe U w2 ∧ Extends w w2 ∧
      w2.shared.length = w.shared.length + 1 ∧ w2.weak = w.weak := by
  cases hc : s.control_ with
  | none =>
    exact ⟨_, weak_lock_absent_eq hs hc, inv_push_absent hinv, extends_of_blocks_eq rfl,
      by simp, rfl⟩
  | some c =>
    obtain ⟨b, hb, hf, _⟩ := inv_block_of_weak hinv.1 hs hc
    by_cases ha : b.cnt_strong_ref_ = 0
    · exact ⟨_, weak_lock_dead_eq hs hc hb hf ha, inv_push_absent hinv,
        extends_of_blocks_eq rfl, by simp, rfl⟩
    · exact ⟨_, weak_lock_alive_eq hs hc hb hf ha, inv_lock_alive hinv hbound hb ha _,
        extends_set w b.IncreaseStrong hb rfl _ _ _, by simp, rfl⟩

theorem shared_from_weak_inv {U : List Nat} {w : World} (hinv : Safe U w) (hbound : w.shared.length + 1 < sizeMod)
    {other : Nat} {s : WeakPtr} (hs : w.weak[other]? = some s) :
    SharedPtr.fromWeak w other = .error Fault.BadWeakPtr ∨
    ∃ w2, SharedPtr.fromWeak w other = .ok w2 ∧ Safe U w2 ∧ Extends w w2 ∧
      w2.shared.length = w.shared.length + 1 ∧ w2.weak = w.weak := by
  cases hc : s.control_ with
  | none => exact Or.inl (shared_from_weak_absent_eq hs hc)
  | some c =>
    obtain ⟨b, hb, hf, _⟩ := inv_block_of_weak hinv.1 hs hc
    by_cases ha : b.cnt_strong_ref_ = 0
    · exact Or.inl (shared_from_weak_dead_eq hs hc hb hf ha)
    · exact Or.inr ⟨_, shared_from_weak_alive_eq hs hc hb hf ha,
        inv_lock_alive hinv hbound hb ha _, extends_set w b.IncreaseStrong hb rfl _ _ _, by simp, rfl⟩

end Weak

/-! ## `Swap` and `Reset(ptr)`: methods with a temporary -/

namespace Weak

theorem inv_pop_shared {U : List Nat} {w : World} (hinv : Safe U w) {s : SharedPtr}
    (h : w.shared[w.shared.length - 1]? = some s) (hs : s.control_ = none) :
    Safe U w.popShared :=
  safe_same_counts hinv _ _ (fun d => cntS_dropLast d w.shared s h hs) (fun _ => rfl)

theorem inv_pop_weak {U : List Nat} {w : World} (hinv : Safe U w) {s : WeakPtr}
    (h : w.weak[w.weak.length - 1]? = some s) (hs : s.control_ = none) :
    Safe U w.popWeak :=
  safe_same_counts hinv _ _ (fun _ => rfl) (fun d => cntW_dropLast d w.weak s h hs)

/-- The tail shared by `Swap` and `Reset(ptr)`: move-assign from the temporary in the last slot,
destroy the temporary, release its storage. -/
theorem shared_take_tmp_inv {U : List Nat} {w : World} (hinv : Safe U w) (hbound : w.shared.length < sizeMod)
    {self : Nat} {s t : SharedPtr} (hlt : self + 1 < w.shared.length)
    (hs : w.shared[self]? = some s) (ht : w.shared[w.shared.length - 1]? = some t) :
    ∃ w2 w3, SharedPtr.moveAssign w self (w.shared.length - 1) = .ok w2 ∧
      SharedPtr.destroy w2 (w.shared.length - 1) = .ok w3 ∧ Safe U w3.popShared ∧
      Extends w w3.popShared ∧ w3.popShared.shared.length + 1 = w.shared.length ∧
      w3.popShared.weak = w.weak := by
  have hne : w.shared.length - 1 ≠ self := by omega
  obtain ⟨w2, h2, hinv2, hext2, hsh2, hwe2⟩ := shared_move_assign_inv hinv hbound hne hs ht
  have hlen2 : w2.shared.length = w.shared.length := by rw [hsh2]; simp
  have ht2 : w2.shared[w.shared.length - 1]? = some { control_ := none, ptr_ := 0 } := by
    rw [hsh2]
    exact List.getElem?_set_self (by simp; omega)
  obtain ⟨w3, h3, hinv3, hext3, hsh3, hwe3⟩ := shared_clear_inv hinv2 (by omega) ht2
  have hlen3 : w3.shared.length = w.shared.length := by rw [hsh3]; simp [hlen2]
  have ht3 : w3.shared[w3.shared.length - 1]? = some { control_ := none, ptr_ := 0 } := by
    rw [hlen3, hsh3]
    exact List.getElem?_set_self (by omega)
  refine ⟨w2, w3, h2, h3, inv_pop_shared hinv3 ht3 rfl, ?_, ?_, ?_⟩
  · exact extends_trans hext2 (extends_trans hext3 (extends_of_blocks_eq rfl))
  · have hl : w3.popShared.shared.length = w3.shared.length - 1 := by simp [World.popShared]
    rw [hl, hlen3]
    omega
  · simp [World.popShared, hwe3, hwe2]

theorem weak_take_tmp_inv {U : List Nat} {w : World} (hinv : Safe U w) (hbound : w.weak.length < sizeMod)
    {self : Nat} {s t : WeakPtr} (hlt : self + 1 < w.weak.length)
    (hs : w.weak[self]? = some s) (ht : w.weak[w.weak.length - 1]? = some t) :
    ∃ w2 w3, WeakPtr.moveAssign w self (w.weak.length - 1) = .ok w2 ∧
      WeakPtr.destroy w2 (w.weak.length - 1) = .ok w3 ∧ Safe U w3.popWeak ∧
      Extends w w3.popWeak ∧ w3.popWeak.weak.length + 1 = w.weak.length ∧
      w3.popWeak.shared = w.shared := by
  have hne : w.weak.length - 1 ≠ self := by omega
  obtain ⟨w2, h2, hinv2, hext2, hsh2, hwe2⟩ := weak_move_assign_inv hinv hbound hne hs ht
  have hlen2 : w2.weak.length = w.weak.length := by rw [hwe2]; simp
  have ht2 : w2.weak[w.weak.length - 1]? = some { control_ := none, ptr_ := 0 } := by
    rw [hwe2]
    exact List.getElem?_set_self (by simp; omega)
  obtain ⟨w3, h3, hinv3, hext3, hsh3, hwe3⟩ := weak_clear_inv hinv2 (by omega) ht2
  have hlen3 : w3.weak.length = w.weak.length := by rw [hwe3]; simp [hlen2]
  have ht3 : w3.weak[w3.weak.length - 1]? = some { control_ := none, ptr_ := 0 } := by
    rw [hlen3, hwe3]
    exact List.getElem?_set_self (by omega)
  refine ⟨w2, w3, h2, h3, inv_pop_weak hinv3 ht3 rfl, ?_, ?_, ?_⟩
  · exact extends_trans hext2 (extends_trans hext3 (extends_of_blocks_eq rfl))
  · have hl : w3.popWeak.weak.length = w3.weak.length - 1 := by simp [World.popWeak]
    rw [hl, hlen3]
    omega
  · simp [World.popWeak, hsh3, hsh2]

theorem shared_swap_inv {U : List Nat} {w : World} (hinv : Safe U w) (hbound : w.shared.length + 1 < sizeMod)
    {self other : Nat} {s o : SharedPtr} (hs : w.shared[self]? = some s)
    (ho : w.shared[other]? = some o) :
    ∃ w2, SharedPtr.Swap w self other = .ok w2 ∧ Safe U w2 ∧ Extends w w2 ∧
      w2.shared.length = w.shared.length ∧ w2.weak = w.weak := by
  have hls := lt_of_getElem? hs
  have hlo := lt_of_getElem? ho
  obtain ⟨w1, h1, hinv1, hext1, hsh1, hwe1⟩ := shared_move_inv hinv hs
  have hlen1 : w1.shared.length = w.shared.length + 1 := by rw [hsh1]; simp
  have hs1 : w1.shared[self]? = some { control_ := none, ptr_ := 0 } := by
    rw [hsh1]; simp [List.getElem?_set]; omega
  have ht1 : w1.shared[w.shared.length]? = some { control_ := s.control_, ptr_ := s.ptr_ } := by
    rw [hsh1, List.getElem?_set_ne (by omega)]
    simp
  -- second statement: `*this = std::move(other)`
  have hstep2 : ∃ w2, SharedPtr.moveAssign w1 self other = .ok w2 ∧ Safe U w2 ∧ Extends w1 w2 ∧
      w2.shared.length = w.shared.length + 1 ∧
      w2.shared[w.shared.length]? = some { control_ := s.control_, ptr_ := s.ptr_ } ∧
      w2.weak = w1.weak := by
    by_cases hne : other = self
    · exact ⟨w1, by simp [SharedPtr.moveAssign, hne, pure, Except.pure], hinv1, extends_refl w1,
        hlen1, ht1, rfl⟩
    · have ho1 : w1.shared[other]? = some o := by
        rw [hsh1, List.getElem?_set_ne (fun h => hne h.symm), List.getElem?_append_left hlo]
        exact ho
      obtain ⟨w2, h2, hinv2, hext2, hsh2, hwe2⟩ :=
        shared_move_assign_inv hinv1 (by omega) hne hs1 ho1
      refine ⟨w2, h2, hinv2, hext2, by rw [hsh2]; simp [hlen1], ?_, hwe2⟩
      rw [hsh2, List.getElem?_set_ne (by omega), List.getElem?_set_ne (by omega)]
      exact ht1
  obtain ⟨w2, h2, hinv2, hext2, hlen2, ht2, hwe2⟩ := hstep2
  obtain ⟨x, hx⟩ : ∃ x, w2.shared[other]? = some x := by
    have : other < w2.shared.length := by omega
    exact ⟨w2.shared[other], List.getElem?_eq_getElem this⟩
  have ht2b : w2.shared[w2.shared.length - 1]? = some { control_ := s.control_, ptr_ := s.ptr_ } := by
    rw [hlen2]; simpa using ht2
  obtain ⟨w3, w4, h3, h4, hinv5, hext5, hlen5, hwe5⟩ :=
    shared_take_tmp_inv hinv2 (by omega) (by omega) hx ht2b
  rw [hlen2] at h3 h4
  simp only [Nat.add_sub_cancel] at h3 h4
  refine ⟨w4.popShared, ?_, hinv5, extends_trans hext1 (extends_trans hext2 hext5), by omega, ?_⟩
  · simp [SharedPtr.Swap, h1, h2, h3, h4, bind, Except.bind, pure, Except.pure]
  · rw [hwe5, hwe2, hwe1]

theorem weak_swap_inv {U : List Nat} {w : World} (hinv : Safe U w) (hbound : w.weak.length + 1 < sizeMod)
    {self other : Nat} {s o : WeakPtr} (hs : w.weak[self]? = some s)
    (ho : w.weak[other]? = some o) :
    ∃ w2, WeakPtr.Swap w self other = .ok w2 ∧ Safe U w2 ∧ Extends w w2 ∧
      w2.weak.length = w.weak.length ∧ w2.shared = w.shared := by
  have hls := lt_of_getElem? hs
  have hlo := lt_of_getElem? ho
  obtain ⟨w1, h1, hinv1, hext1, hsh1, hwe1⟩ := weak_move_inv hinv hs
  have hlen1 : w1.weak.length = w.weak.length + 1 := by rw [hwe1]; simp
  have hs1 : w1.weak[self]? = some { control_ := none, ptr_ := 0 } := by
    rw [hwe1]; simp [List.getElem?_set]; omega
  have ht1 : w1.weak[w.weak.length]? = some { control_ := s.control_, ptr_ := s.ptr_ } := by
    rw [hwe1, List.getElem?_set_ne (by omega)]
    simp
  have hstep2 : ∃ w2, WeakPtr.moveAssign w1 self other = .ok w2 ∧ Safe U w2 ∧ Extends w1 w2 ∧
      w2.weak.length = w.weak.length + 1 ∧
      w2.weak[w.weak.length]? = some { control_ := s.control_, ptr_ := s.ptr_ } ∧
      w2.shared = w1.shared := by
    by_cases hne : other = self
    · exact ⟨w1, by simp [WeakPtr.moveAssign, hne, pure, Except.pure], hinv1, extends_refl w1,
        hlen1, ht1, rfl⟩
    · have ho1 : w1.weak[other]? = some o := by
        rw [hwe1, List.getElem?_set_ne (fun h => hne h.symm), List.getElem?_append_left hlo]
        exact ho
      obtain ⟨w2, h2, hinv2, hext2, hsh2, hwe2⟩ :=
        weak_move_assign_inv hinv1 (by omega) hne hs1 ho1
      refine ⟨w2, h2, hinv2, hext2, by rw [hwe2]; simp [hlen1], ?_, hsh2⟩
      rw [hwe2, List.getElem?_set_ne (by omega), List.getElem?_set_ne (by omega)]
      exact ht1
  obtain ⟨w2, h2, hinv2, hext2, hlen2, ht2, hsh2⟩ := hstep2
  obtain ⟨x, hx⟩ : ∃ x, w2.weak[other]? = some x := by
    have : other < w2.weak.length := by omega
    exact ⟨w2.weak[other], List.getElem?_eq_getElem this⟩
  have ht2b : w2.weak[w2.weak.length - 1]? = some { control_ := s.control_, ptr_ := s.ptr_ } := by
    rw [hlen2]; simpa using ht2
  obtain ⟨w3, w4, h3, h4, hinv5, hext5, hlen5, hsh5⟩ :=
    weak_take_tmp_inv hinv2 (by omega) (by omega) hx ht2b
  rw [hlen2] at h3 h4
  simp only [Nat.add_sub_cancel] at h3 h4
  refine ⟨w4.popWeak, ?_, hinv5, extends_trans hext1 (extends_trans hext2 hext5), by omega, ?_⟩
  · simp [WeakPtr.Swap, h1, h2, h3, h4, bind, Except.bind, pure, Except.pure]
  · rw [hsh5, hsh2, hsh1]

theorem shared_reset_ptr_inv {U U2 : List Nat} {w : World} (hinv : Safe U w)
    (hbound : w.shared.length + 1 < sizeMod)
    {self : Nat} {s : SharedPtr} (p : Nat) (hs : w.shared[self]? = some s)
    (hsub : ∀ q, q ∈ U → q ∈ U2) (hfresh : p ≠ 0 → p ∉ U ∧ p ∈ U2) :
    ∃ w2, SharedPtr.ResetPtr w self p = .ok w2 ∧ Safe U2 w2 ∧ Extends w w2 ∧
      w2.shared.length = w.shared.length ∧ w2.weak = w.weak := by
  have hls := lt_of_getElem? hs
  obtain ⟨w1, h1, hinv1, hext1, hsh1, hwe1⟩ := shared_clear_inv hinv (by omega) hs
  have hlen1 : w1.shared.length = w.shared.length := by rw [hsh1]; simp
  obtain ⟨hinvr, hextr, hshr, hwer⟩ := shared_from_raw_inv hinv1 p hsub hfresh
  have hlenr : (SharedPtr.fromRaw w1 p).shared.length = w.shared.length + 1 := by
    rw [hshr]; simp [hlen1]
  have hsr : (SharedPtr.fromRaw w1 p).shared[self]? = some { control_ := none, ptr_ := 0 } := by
    rw [hshr, List.getElem?_append_left (by omega), hsh1]
    simp [List.getElem?_set, hls]
  have htr : (SharedPtr.fromRaw w1 p).shared[(SharedPtr.fromRaw w1 p).shared.length - 1]? =
      some { control_ := some w1.blocks.length, ptr_ := p } := by
    rw [hlenr, hshr]
    simp [← hlen1]
  obtain ⟨w3, w4, h3, h4, hinv5, hext5, hlen5, hwe5⟩ :=
    shared_take_tmp_inv hinvr (by omega) (by omega) hsr htr
  rw [hlenr] at h3 h4
  simp only [Nat.add_sub_cancel] at h3 h4
  refine ⟨w4.popShared, ?_, hinv5, extends_trans hext1 (extends_trans hextr hext5), by omega, ?_⟩
  · simp [SharedPtr.ResetPtr, h1, hlen1, h3, h4, bind, Except.bind, pure, Except.pure]
  · rw [hwe5, hwer, hwe1]

end Weak

/-! ## Programs keep the invariant -/

namespace Weak

theorem exists_getElem? {α : Type} (l : List α) {i : Nat} (h : i < l.length) :
    ∃ a, l[i]? = some a := ⟨l[i], List.getElem?_eq_getElem h⟩

/-- The code of one operation, run on existing instances in a world that satisfies the invariant
and holds fewer than `2 ^ 64 - 1` handles of each kind, on objects that were not brought under
management before, returns a world that satisfies the invariant again. -/
theorem exec_inv {U : List Nat} {w : World} (hinv : Safe U w)
    (hbS : w.shared.length + 1 < sizeMod)
    (hbW : w.weak.length + 1 < sizeMod) (op : Op) (hwf : op.wellFormed w = true)
    (hfresh : ∀ q, q ∈ op.objects → q ∉ U) :
    ∃ w2, op.exec w = .ok w2 ∧ Safe (op.objects ++ U) w2 ∧ Extends w w2 ∧
      w2.shared.length ≤ w.shared.length + 1 ∧ w2.weak.length ≤ w.weak.length + 1 := by
  have hsub : ∀ q, q ∈ U → q ∈ op.objects ++ U := fun q hq => List.mem_append_right _ hq
  cases op with
  | sharedDefault =>
    exact ⟨_, by simp [Op.exec, pure, Except.pure],
      safe_mono (shared_construct_inv hinv).1 hsub, (shared_construct_inv hinv).2,
      by simp [SharedPtr.construct, World.newShared],
      by simp [SharedPtr.construct, World.newShared]⟩
  | sharedFromRaw p =>
    obtain ⟨h1, h2, h3, h4⟩ := shared_from_raw_inv hinv p hsub (fun h0 =>
      ⟨hfresh p (by simp [Op.objects, h0]), by simp [Op.objects, h0]⟩)
    exact ⟨_, by simp [Op.exec, pure, Except.pure], h1, h2, by rw [h3]; simp,
      by rw [h4]; omega⟩
  | makeShared a =>
    obtain ⟨h1, h2, h3, h4⟩ := make_shared_inv hinv a hsub
      (hfresh a (by simp [Op.objects])) (by simp [Op.objects])
    exact ⟨_, by simp [Op.exec, pure, Except.pure], h1, h2, by rw [h3]; simp,
      by rw [h4]; omega⟩
  | sharedCopy o =>
    simp [Op.wellFormed] at hwf
    obtain ⟨x, hx⟩ := exists_getElem? w.shared hwf
    obtain ⟨w2, h, h1, h2, h3, h4⟩ := shared_copy_inv hinv hbS hx
    exact ⟨w2, by simp [Op.exec, h], safe_mono h1 hsub, h2, by rw [h3]; simp,
      by rw [h4]; omega⟩
  | sharedMove o =>
    simp [Op.wellFormed] at hwf
    obtain ⟨x, hx⟩ := exists_getElem? w.shared hwf
    obtain ⟨w2, h, h1, h2, h3, h4⟩ := shared_move_inv hinv hx
    exact ⟨w2, by simp [Op.exec, h], safe_mono h1 hsub, h2, by rw [h3]; simp,
      by rw [h4]; omega⟩
  | sharedAliasing o p =>
    simp [Op.wellFormed] at hwf
    obtain ⟨x, hx⟩ := exists_getElem? w.shared hwf
    obtain ⟨w2, h, h1, h2, h3, h4⟩ := shared_aliasing_inv hinv hbS p hx
    exact ⟨w2, by simp [Op.exec, h], safe_mono h1 hsub, h2, by rw [h3]; simp,
      by rw [h4]; omega⟩
  | sharedFromWeak o =>
    simp [Op.wellFormed] at hwf
    obtain ⟨x, hx⟩ := exists_getElem? w.weak hwf
    rcases shared_from_weak_inv hinv hbS hx with h | ⟨w2, h, h1, h2, h3, h4⟩
    · exact ⟨w, by simp [Op.exec, h, pure, Except.pure], safe_mono hinv hsub,
        extends_refl w, by omega, by omega⟩
    · exact ⟨w2, by simp [Op.exec, h], safe_mono h1 hsub, h2, by omega,
        by rw [h4]; omega⟩
  | sharedAssign s o =>
    simp [Op.wellFormed] at hwf
    obtain ⟨x, hx⟩ := exists_getElem? w.shared hwf.1
    obtain ⟨y, hy⟩ := exists_getElem? w.shared hwf.2
    by_cases hne : o = s
    · exact ⟨w, by simp [Op.exec, SharedPtr.assign, hne, pure, Except.pure],
        safe_mono hinv hsub, extends_refl w, by omega, by omega⟩
    · obtain ⟨w2, h, h1, h2, h3, h4⟩ := shared_assign_inv hinv hbS hne hx hy
      exact ⟨w2, by simp [Op.exec, h], safe_mono h1 hsub, h2, by rw [h3]; simp,
        by rw [h4]; omega⟩
  | sharedMoveAssign s o =>
    simp [Op.wellFormed] at hwf
    obtain ⟨x, hx⟩ := exists_getElem? w.shared hwf.1
    obtain ⟨y, hy⟩ := exists_getElem? w.shared hwf.2
    by_cases hne : o = s
    · exact ⟨w, by simp [Op.exec, SharedPtr.moveAssign, hne, pure, Except.pure],
        safe_mono hinv hsub, extends_refl w, by omega, by omega⟩
    · obtain ⟨w2, h, h1, h2, h3, h4⟩ := shared_move_assign_inv hinv (by omega) hne hx hy
      exact ⟨w2, by simp [Op.exec, h], safe_mono h1 hsub, h2, by rw [h3]; simp,
        by rw [h4]; omega⟩
  | sharedReset s =>
    simp [Op.wellFormed] at hwf
    obtain ⟨x, hx⟩ := exists_getElem? w.shared hwf
    obtain ⟨w2, h, h1, h2, h3, h4⟩ := shared_clear_inv hinv (by omega) hx
    exact ⟨w2, by simp [Op.exec, SharedPtr.Reset, h], safe_mono h1 hsub, h2, by rw [h3]; simp,
      by rw [h4]; omega⟩
  | sharedResetPtr s p =>
    simp [Op.wellFormed] at hwf
    obtain ⟨x, hx⟩ := exists_getElem? w.shared hwf
    obtain ⟨w2, h, h1, h2, h3, h4⟩ := shared_reset_ptr_inv hinv hbS p hx hsub (fun h0 =>
      ⟨hfresh p (by simp [Op.objects, h0]), by simp [Op.objects, h0]⟩)
    exact ⟨w2, by simp [Op.exec, h], h1, h2, by omega, by rw [h4]; omega⟩
  | sharedSwap s o =>
    simp [Op.wellFormed] at hwf
    obtain ⟨x, hx⟩ := exists_getElem? w.shared hwf.1
    obtain ⟨y, hy⟩ := exists_getElem? w.shared hwf.2
    obtain ⟨w2, h, h1, h2, h3, h4⟩ := shared_swap_inv hinv hbS hx hy
    exact ⟨w2, by simp [Op.exec, h], safe_mono h1 hsub, h2, by omega, by rw [h4]; omega⟩
  | sharedDestroy s =>
    simp [Op.wellFormed] at hwf
    obtain ⟨x, hx⟩ := exists_getElem? w.shared hwf
    obtain ⟨w2, h, h1, h2, h3, h4⟩ := shared_clear_inv hinv (by omega) hx
    exact ⟨w2, by simp [Op.exec, SharedPtr.destroy, h], safe_mono h1 hsub, h2,
      by rw [h3]; simp, by rw [h4]; omega⟩
  | weakDefault =>
    exact ⟨_, by simp [Op.exec, pure, Except.pure],
      safe_mono (weak_construct_inv hinv).1 hsub, (weak_construct_inv hinv).2,
      by simp [WeakPtr.construct, World.newWeak],
      by simp [WeakPtr.construct, World.newWeak]⟩
  | weakCopy o =>
    simp [Op.wellFormed] at hwf
    obtain ⟨x, hx⟩ := exists_getElem? w.weak hwf
    obtain ⟨w2, h, h1, h2, h3, h4⟩ := weak_copy_inv hinv hbW hx
    exact ⟨w2, by simp [Op.exec, h], safe_mono h1 hsub, h2, by rw [h3]; omega,
      by rw [h4]; simp⟩
  | weakMove o =>
    simp [Op.wellFormed] at hwf
    obtain ⟨x, hx⟩ := exists_getElem? w.weak hwf
    obtain ⟨w2, h, h1, h2, h3, h4⟩ := weak_move_inv hinv hx
    exact ⟨w2, by simp [Op.exec, h], safe_mono h1 hsub, h2, by rw [h3]; omega,
      by rw [h4]; simp⟩
  | weakFromShared o =>
    simp [Op.wellFormed] at hwf
    obtain ⟨x, hx⟩ := exists_getElem? w.shared hwf
    obtain ⟨w2, h, h1, h2, h3, h4⟩ := weak_from_shared_inv hinv hbW hx
    exact ⟨w2, by simp [Op.exec, h], safe_mono h1 hsub, h2, by rw [h3]; omega,
      by rw [h4]; simp⟩
  | weakAssign s o =>
    simp [Op.wellFormed] at hwf
    obtain ⟨x, hx⟩ := exists_getElem? w.weak hwf.1
    obtain ⟨y, hy⟩ := exists_getElem? w.weak hwf.2
    by_cases hne : o = s
    · exact ⟨w, by simp [Op.exec, WeakPtr.assign, hne, pure, Except.pure],
        safe_mono hinv hsub, extends_refl w, by omega, by omega⟩
    · obtain ⟨w2, h, h1, h2, h3, h4⟩ := weak_assign_inv hinv hbW hne hx hy
      exact ⟨w2, by simp [Op.exec, h], safe_mono h1 hsub, h2, by rw [h3]; omega,
        by rw [h4]; simp⟩
  | weakMoveAssign s o =>
    simp [Op.wellFormed] at hwf
    obtain ⟨x, hx⟩ := exists_getElem? w.weak hwf.1
    obtain ⟨y, hy⟩ := exists_getElem? w.weak hwf.2
    by_cases hne : o = s
    · exact ⟨w, by simp [Op.exec, WeakPtr.moveAssign, hne, pure, Except.pure],
        safe_mono hinv hsub, extends_refl w, by omega, by omega⟩
    · obtain ⟨w2, h, h1, h2, h3, h4⟩ := weak_move_assign_inv hinv (by omega) hne hx hy
      exact ⟨w2, by simp [Op.exec, h], safe_mono h1 hsub, h2, by rw [h3]; omega,
        by rw [h4]; simp⟩
  | weakReset s =>
    simp [Op.wellFormed] at hwf
    obtain ⟨x, hx⟩ := exists_getElem? w.weak hwf
    obtain ⟨w2, h, h1, h2, h3, h4⟩ := weak_clear_inv hinv (by omega) hx
    exact ⟨w2, by simp [Op.exec, WeakPtr.Reset, h], safe_mono h1 hsub, h2, by rw [h3]; omega,
      by rw [h4]; simp⟩
  | weakSwap s o =>
    simp [Op.wellFormed] at hwf
    obtain ⟨x, hx⟩ := exists_getElem? w.weak hwf.1
    obtain ⟨y, hy⟩ := exists_getElem? w.weak hwf.2
    obtain ⟨w2, h, h1, h2, h3, h4⟩ := weak_swap_inv hinv hbW hx hy
    exact ⟨w2, by simp [Op.exec, h], safe_mono h1 hsub, h2, by rw [h4]; omega, by omega⟩
  | weakDestroy s =>
    simp [Op.wellFormed] at hwf
    obtain ⟨x, hx⟩ := exists_getElem? w.weak hwf
    obtain ⟨w2, h, h1, h2, h3, h4⟩ := weak_clear_inv hinv (by omega) hx
    exact ⟨w2, by simp [Op.exec, WeakPtr.destroy, h], safe_mono h1 hsub, h2,
      by rw [h3]; omega, by rw [h4]; simp⟩
  | weakLock s =>
    simp [Op.wellFormed] at hwf
    obtain ⟨x, hx⟩ := exists_getElem? w.weak hwf
    obtain ⟨w2, h, h1, h2, h3, h4⟩ := weak_lock_inv hinv hbS hx
    exact ⟨w2, by simp [Op.exec, h], safe_mono h1 hsub, h2, by omega, by rw [h4]; omega⟩

/-- One operation of a client keeps the invariant of the world. -/
theorem step_inv {U : List Nat} {c : Client} (hinv : Safe U c.world)
    (hbS : c.world.shared.length + 1 < sizeMod)
    (hbW : c.world.weak.length + 1 < sizeMod) (op : Op) (hfresh : ∀ q, q ∈ op.objects → q ∉ U) :
    ∃ c2, step c op = .ok c2 ∧ Safe (op.objects ++ U) c2.world ∧ Extends c.world c2.world ∧
      c2.world.shared.length ≤ c.world.shared.length + 1 ∧
      c2.world.weak.length ≤ c.world.weak.length + 1 := by
  by_cases hgo : (op.wellFormed c.world && op.alive c) = true
  · have hwf : op.wellFormed c.world = true := by
      simp only [Bool.and_eq_true] at hgo
      exact hgo.1
    obtain ⟨w2, h, h1, h2, h3, h4⟩ := exec_inv hinv hbS hbW op hwf hfresh
    refine ⟨{ world := w2, endedShared := op.endsShared ++ c.endedShared,
              endedWeak := op.endsWeak ++ c.endedWeak }, ?_, h1, h2, h3, h4⟩
    simp only [step, hgo, h, bind, Except.bind, pure, Except.pure, if_true]
  · exact ⟨c, by simp [step, hgo, pure, Except.pure],
      safe_mono hinv (fun q hq => List.mem_append_right _ hq), extends_refl _, by omega, by omega⟩

theorem objects_cons (op : Op) (ops : List Op) : objects (op :: ops) = op.objects ++ objects ops :=
  rfl

/-- A program of `n` operations, started in a world that satisfies the invariant and has room for
`n` more handles of each kind below `2 ^ 64`, and bringing under management only objects that are
new and pairwise different, runs to completion and ends in a world that satisfies the
invariant. -/
theorem run_inv (ops : List Op) :
    ∀ (U : List Nat) (w : Client), Safe U w.world →
      w.world.shared.length + ops.length < sizeMod →
      w.world.weak.length + ops.length < sizeMod → (objects ops).Nodup →
      (∀ q, q ∈ objects ops → q ∉ U) →
      ∃ w2 U2, run ops w = .ok w2 ∧ Safe U2 w2.world ∧ Extends w.world w2.world := by
  induction ops with
  | nil =>
    intro U w hinv _ _ _ _
    exact ⟨w, U, rfl, hinv, extends_refl _⟩
  | cons op ops ih =>
    intro U w hinv hS hW hnd hfresh
    simp only [List.length_cons] at hS hW
    rw [objects_cons] at hnd hfresh
    obtain ⟨w1, h1, hinv1, hext1, hl1, hl2⟩ := step_inv hinv (by omega) (by omega) op
      (fun q hq => hfresh q (List.mem_append_left _ hq))
    obtain ⟨w2, U2, h2, hinv2, hext2⟩ := ih (op.objects ++ U) w1 hinv1 (by omega) (by omega)
      (List.Nodup.of_append_right hnd) (fun q hq hin => by
        rcases List.mem_append.mp hin with hin | hin
        · exact (List.disjoint_of_nodup_append hnd) hin hq
        · exact hfresh q (List.mem_append_right _ hq) hin)
    exact ⟨w2, U2, by simp [run, h1, h2, bind, Except.bind], hinv2, extends_trans hext1 hext2⟩

end Weak

/-! ## Claims about the variant without destruction lock -/

namespace Weak

/-- Wrapping the same raw pointer in two control blocks is undefined behaviour when the second
block deletes the object. -/
theorem double_wrap_undefined (p : Nat) (hp : p ≠ 0) :
    run [.sharedFromRaw p, .sharedDestroy 0, .sharedDestroy 1]
      (Client.start (SharedPtr.fromRaw World.empty p)) = .error Fault.undefined := by
  simp [run, step, Op.wellFormed, Op.alive, Op.namesShared, Op.namesWeak, Op.endsShared,
    Op.endsWeak, Op.exec, Client.start, SharedPtr.fromRaw, World.empty, World.newShared,
    SharedPtr.destroy, SharedPtr.Clear, SharedPtr.ControlDecreaseStrong, World.sharedAt,
    World.callDelIf, World.callDel, World.block, World.setShared, ControlBlockPointer,
    ControlBlock.DecreaseStrong, ControlBlock.DeleteSource, ControlBlock.deleteThis,
    ControlBlock.setStrong, Storage.live, Storage.drop, Storage.release, deleteObject, decSize,
    hp, bind, Except.bind, pure, Except.pure]

/-- `Reset(p)` on the handle that already owns `p` deletes `p` and wraps it again: the destructor
then deletes it a second time, which is undefined behaviour. -/
theorem reset_to_owned_undefined (p : Nat) (hp : p ≠ 0) :
    run [.sharedResetPtr 0 p, .sharedDestroy 0]
      (Client.start (SharedPtr.fromRaw World.empty p)) = .error Fault.undefined := by
  simp [run, step, Op.wellFormed, Op.alive, Op.namesShared, Op.namesWeak, Op.endsShared,
    Op.endsWeak, Op.exec, Client.start, SharedPtr.fromRaw, World.empty, World.newShared,
    SharedPtr.ResetPtr, SharedPtr.moveAssign, World.popShared,
    SharedPtr.destroy, SharedPtr.Clear, SharedPtr.ControlDecreaseStrong, World.sharedAt,
    World.callDelIf, World.callDel, World.block, World.setShared, ControlBlockPointer,
    ControlBlock.DecreaseStrong, ControlBlock.DeleteSource, ControlBlock.deleteThis,
    ControlBlock.setStrong, Storage.live, Storage.drop, Storage.release, deleteObject, decSize,
    hp, bind, Except.bind, pure, Except.pure]

/-- Deleting the in-place storage of a `MakeShared` block through a `ControlBlockPointer` is
undefined behaviour. -/
theorem wrap_of_storage_undefined (a : Nat) (ha : a ≠ 0) :
    run [.sharedFromRaw a, .sharedDestroy 1]
      (Client.start (MakeShared World.empty a)) = .error Fault.undefined := by
  simp [run, step, Op.wellFormed, Op.alive, Op.namesShared, Op.namesWeak, Op.endsShared,
    Op.endsWeak, Op.exec, Client.start, SharedPtr.fromRaw, MakeShared, SharedPtr.fromBlock,
    World.empty, World.newShared,
    SharedPtr.destroy, SharedPtr.Clear, SharedPtr.ControlDecreaseStrong, World.sharedAt,
    World.callDelIf, World.callDel, World.block, World.setShared, ControlBlockPointer,
    ControlBlockEmplace, ControlBlock.GetPtr,
    ControlBlock.DecreaseStrong, ControlBlock.DeleteSource, ControlBlock.deleteThis,
    ControlBlock.setStrong, Storage.live, Storage.drop, Storage.release, deleteObject, decSize,
    ha, bind, Except.bind, pure, Except.pure]

end Weak

/-- C5: `WeakPtr::Lock` on an instance whose `control_` is null, or whose block has strong count 0,
appends an absent `SharedPtr` and leaves every block as it was; otherwise it appends a
`SharedPtr` with the control and pointer of the `WeakPtr`, and of all blocks only that one
changes: its strong count grows by exactly 1 (the counter not being at `2 ^ 64 - 1`) and its weak
count stays.  In no world does `Lock` throw `BadWeakPtr`. -/
theorem weak_lock_spec (w : Weak.World) (self : Nat) (s : WeakPtr)
    (hs : w.weak[self]? = some s) :
    (s.control_ = none →
      Weak.WeakPtr.Lock w self = .ok
        { blocks := w.blocks, shared := w.shared ++ [{ control_ := none, ptr_ := 0 }],
          weak := w.weak, dead := w.dead }) ∧
    (∀ c b, s.control_ = some c → w.blocks[c]? = some b → b.freed = false →
      (b.cnt_strong_ref_ = 0 →
        Weak.WeakPtr.Lock w self = .ok
          { blocks := w.blocks, shared := w.shared ++ [{ control_ := none, ptr_ := 0 }],
            weak := w.weak, dead := w.dead }) ∧
      (b.cnt_strong_ref_ ≠ 0 → b.cnt_strong_ref_ + 1 < sizeMod →
        Weak.WeakPtr.Lock w self = .ok
          { blocks := w.blocks.set c b.IncreaseStrong,
            shared := w.shared ++ [{ control_ := some c, ptr_ := s.ptr_ }], weak := w.weak, dead := w.dead } ∧
        b.IncreaseStrong.cnt_strong_ref_ = b.cnt_strong_ref_ + 1 ∧
        b.IncreaseStrong.cnt_weak_ref_ = b.cnt_weak_ref_)) ∧
    (∀ (w0 : Weak.World) (k : Nat), Weak.WeakPtr.Lock w0 k ≠ .error Fault.BadWeakPtr) := by
  refine ⟨fun hc => Weak.weak_lock_absent_eq hs hc, fun c b hc hb hf => ⟨fun h0 => ?_, fun h0 hlt => ?_⟩, ?_⟩
  · exact Weak.weak_lock_dead_eq hs hc hb hf h0
  · refine ⟨Weak.weak_lock_alive_eq hs hc hb hf h0, ?_, rfl⟩
    simp [Weak.ControlBlock.IncreaseStrong, Weak.ControlBlock.setStrong, incSize_of_lt hlt]
  · intro w0 k
    cases hk : w0.weak[k]? with
    | none => simp [Weak.WeakPtr.Lock, Weak.World.weakAt, hk, bind, Except.bind]
    | some x =>
      cases hx : x.control_ with
      | none =>
        simp [Weak.WeakPtr.Lock, Weak.World.weakAt, hk, hx, bind, Except.bind, pure, Except.pure]
      | some c =>
        cases hb : w0.blocks[c]? with
        | none =>
          simp [Weak.WeakPtr.Lock, Weak.World.weakAt, Weak.World.block, hk, hx, hb, bind,
            Except.bind]
        | some b =>
          cases hf : b.freed <;> cases ha : b.IsResourceAlive <;>
            simp [Weak.WeakPtr.Lock, Weak.World.weakAt, Weak.World.block, Weak.World.call, hk, hx,
              hb, bind, Except.bind, pure, Except.pure, hf, ha]

/-- Witness for C5: an observer of a block with one strong reference. -/
theorem weak_lock_spec_witness :
    (({ blocks := [{ cnt_strong_ref_ := 1, cnt_weak_ref_ := 1, derived := .pointer 5,
                     managed := true, freed := false, releases := 0, deletes := 0 }],
        shared := [{ control_ := some 0, ptr_ := 5 }],
        weak := [{ control_ := some 0, ptr_ := 5 }], dead := [] } : Weak.World).weak[0]? =
      some { control_ := some 0, ptr_ := 5 }) ∧
    Weak.WeakPtr.Lock
      { blocks := [{ cnt_strong_ref_ := 1, cnt_weak_ref_ := 1, derived := .pointer 5,
                     managed := true, freed := false, releases := 0, deletes := 0 }],
        shared := [{ control_ := some 0, ptr_ := 5 }],
        weak := [{ control_ := some 0, ptr_ := 5 }], dead := [] } 0 = .ok
      { blocks := [{ cnt_strong_ref_ := 2, cnt_weak_ref_ := 1, derived := .pointer 5,
                     managed := true, freed := false, releases := 0, deletes := 0 }],
        shared := [{ control_ := some 0, ptr_ := 5 }, { control_ := some 0, ptr_ := 5 }],
        weak := [{ control_ := some 0, ptr_ := 5 }], dead := [] } :=
  ⟨by decide,
    ((((weak_lock_spec
      { blocks := [{ cnt_strong_ref_ := 1, cnt_weak_ref_ := 1, derived := .pointer 5,
                     managed := true, freed := false, releases := 0, deletes := 0 }],
        shared := [{ control_ := some 0, ptr_ := 5 }],
        weak := [{ control_ := some 0, ptr_ := 5 }], dead := [] } 0 { control_ := some 0, ptr_ := 5 }
      (by decide)).2.1 0 _ rfl rfl rfl).2 (by decide) (by decide)).1)⟩

/-- C7: the end-to-end scenario on a fresh object at address `p`.  `s1 = SharedPtr(p)` has
`UseCount() == 1`; after `s2 = s1` both report 2; `w = WeakPtr(s1)` reports `UseCount() == 2` and
is not expired; after `s1` is destroyed the object is not deleted yet; after `s2` is destroyed too
`w` is expired, reports 0, `Lock()` gives an absent handle, the object has been released exactly
once (`delete` has run on `p` and on nothing else) while the block still exists, and the block is
freed when `w` is destroyed, no further `delete` of an object taking place. -/
theorem end_to_end_scenario (p : Nat) (hp : p ≠ 0) :
    ∃ w2 w3 w4 w5 w6 w7 : Weak.World,
      Weak.SharedPtr.UseCount (Weak.SharedPtr.fromRaw Weak.World.empty p) 0 = .ok 1 ∧
      Weak.SharedPtr.copy (Weak.SharedPtr.fromRaw Weak.World.empty p) 0 = .ok w2 ∧
      Weak.SharedPtr.UseCount w2 0 = .ok 2 ∧ Weak.SharedPtr.UseCount w2 1 = .ok 2 ∧
      Weak.WeakPtr.fromShared w2 0 = .ok w3 ∧
      Weak.WeakPtr.UseCount w3 0 = .ok 2 ∧ Weak.WeakPtr.Expired w3 0 = .ok false ∧
      Weak.SharedPtr.destroy w3 0 = .ok w4 ∧
      w4.blocks = [{ cnt_strong_ref_ := 1, cnt_weak_ref_ := 1, derived := .pointer p,
                     managed := true, freed := false, releases := 0, deletes := 0 }] ∧
      w4.dead = [] ∧
      Weak.SharedPtr.destroy w4 1 = .ok w5 ∧
      Weak.WeakPtr.Expired w5 0 = .ok true ∧ Weak.WeakPtr.UseCount w5 0 = .ok 0 ∧
      w5.blocks = [{ cnt_strong_ref_ := 0, cnt_weak_ref_ := 1, derived := .pointer 0,
                     managed := true, freed := false, releases := 1, deletes := 0 }] ∧
      w5.dead = [p] ∧
      Weak.WeakPtr.Lock w5 0 = .ok w6 ∧ w6.shared[2]? = some { control_ := none, ptr_ := 0 } ∧
      w6.blocks = w5.blocks ∧
      Weak.WeakPtr.destroy w5 0 = .ok w7 ∧
      w7.blocks = [{ cnt_strong_ref_ := 0, cnt_weak_ref_ := 0, derived := .pointer 0,
                     managed := true, freed := true, releases := 1, deletes := 1 }] ∧
      w7.dead = [p] := by
  refine ⟨
    { blocks := [{ cnt_strong_ref_ := 2, cnt_weak_ref_ := 0, derived := .pointer p,
                   managed := true, freed := false, releases := 0, deletes := 0 }],
      shared := [{ control_ := some 0, ptr_ := p }, { control_ := some 0, ptr_ := p }],
      weak := [], dead := [] },
    { blocks := [{ cnt_strong_ref_ := 2, cnt_weak_ref_ := 1, derived := .pointer p,
                   managed := true, freed := false, releases := 0, deletes := 0 }],
      shared := [{ control_ := some 0, ptr_ := p }, { control_ := some 0, ptr_ := p }],
      weak := [{ control_ := some 0, ptr_ := p }], dead := [] },
    { blocks := [{ cnt_strong_ref_ := 1, cnt_weak_ref_ := 1, derived := .pointer p,
                   managed := true, freed := false, releases := 0, deletes := 0 }],
      shared := [{ control_ := none, ptr_ := 0 }, { control_ := some 0, ptr_ := p }],
      weak := [{ control_ := some 0, ptr_ := p }], dead := [] },
    { blocks := [{ cnt_strong_ref_ := 0, cnt_weak_ref_ := 1, derived := .pointer 0,
                   managed := true, freed := false, releases := 1, deletes := 0 }],
      shared := [{ control_ := none, ptr_ := 0 }, { control_ := none, ptr_ := 0 }],
      weak := [{ control_ := some 0, ptr_ := p }], dead := [p] },
    { blocks := [{ cnt_strong_ref_ := 0, cnt_weak_ref_ := 1, derived := .pointer 0,
                   managed := true, freed := false, releases := 1, deletes := 0 }],
      shared := [{ control_ := none, ptr_ := 0 }, { control_ := none, ptr_ := 0 },
                 { control_ := none, ptr_ := 0 }],
      weak := [{ control_ := some 0, ptr_ := p }], dead := [p] },
    { blocks := [{ cnt_strong_ref_ := 0, cnt_weak_ref_ := 0, derived := .pointer 0,
                   managed := true, freed := true, releases := 1, deletes := 1 }],
      shared := [{ control_ := none, ptr_ := 0 }, { control_ := none, ptr_ := 0 }],
      weak := [{ control_ := none, ptr_ := 0 }], dead := [p] }, ?_⟩
  simp [Weak.SharedPtr.UseCount, Weak.SharedPtr.ControlGetCntStrong, Weak.SharedPtr.fromRaw,
    Weak.World.empty, Weak.World.newShared, Weak.World.newWeak, Weak.World.sharedAt,
    Weak.World.weakAt, Weak.World.block, Weak.World.call, Weak.World.callIf, Weak.World.callDel, Weak.World.callDelIf,
    Weak.World.setShared, Weak.World.setWeak, Weak.ControlBlockPointer, bind, Except.bind, pure,
    Except.pure, Weak.ControlBlock.GetCntStrong, sizeToInt, intToSize, Weak.SharedPtr.copy,
    Weak.SharedPtr.ControlIncreaseStrong, Weak.ControlBlock.IncreaseStrong,
    Weak.ControlBlock.setStrong, Weak.ControlBlock.setWeak, incSize, decSize, sizeMod, hp,
    Weak.WeakPtr.fromShared, Weak.WeakPtr.ControlIncreaseWeak, Weak.ControlBlock.IncreaseWeak,
    Weak.WeakPtr.UseCount, Weak.WeakPtr.ControlGetCntStrong, Weak.WeakPtr.Expired,
    Weak.SharedPtr.destroy, Weak.SharedPtr.Clear, Weak.SharedPtr.ControlDecreaseStrong,
    Weak.ControlBlock.DecreaseStrong, Weak.ControlBlock.DeleteSource,
    Weak.ControlBlock.deleteThis, Storage.live, Storage.drop, Storage.release, deleteObject,
    Weak.WeakPtr.Lock,
    Weak.ControlBlock.IsResourceAlive, Weak.SharedPtr.fromBlock, Weak.WeakPtr.destroy,
    Weak.WeakPtr.Clear, Weak.WeakPtr.ControlDecreaseWeak, Weak.ControlBlock.DecreaseWeak]

/-- Witness for C7: the scenario on the object at address 5. -/
theorem end_to_end_scenario_witness :
    (5 : Nat) ≠ 0 ∧
    ∃ w2 w3 w4 w5 w6 w7 : Weak.World,
      Weak.SharedPtr.UseCount (Weak.SharedPtr.fromRaw Weak.World.empty 5) 0 = .ok 1 ∧
      Weak.SharedPtr.copy (Weak.SharedPtr.fromRaw Weak.World.empty 5) 0 = .ok w2 ∧
      Weak.SharedPtr.UseCount w2 0 = .ok 2 ∧ Weak.SharedPtr.UseCount w2 1 = .ok 2 ∧
      Weak.WeakPtr.fromShared w2 0 = .ok w3 ∧
      Weak.WeakPtr.UseCount w3 0 = .ok 2 ∧ Weak.WeakPtr.Expired w3 0 = .ok false ∧
      Weak.SharedPtr.destroy w3 0 = .ok w4 ∧
      w4.blocks = [{ cnt_strong_ref_ := 1, cnt_weak_ref_ := 1, derived := .pointer 5,
                     managed := true, freed := false, releases := 0, deletes := 0 }] ∧
      w4.dead = [] ∧
      Weak.SharedPtr.destroy w4 1 = .ok w5 ∧
      Weak.WeakPtr.Expired w5 0 = .ok true ∧ Weak.WeakPtr.UseCount w5 0 = .ok 0 ∧
      w5.blocks = [{ cnt_strong_ref_ := 0, cnt_weak_ref_ := 1, derived := .pointer 0,
                     managed := true, freed := false, releases := 1, deletes := 0 }] ∧
      w5.dead = [5] ∧
      Weak.WeakPtr.Lock w5 0 = .ok w6 ∧ w6.shared[2]? = some { control_ := none, ptr_ := 0 } ∧
      w6.blocks = w5.blocks ∧
      Weak.WeakPtr.destroy w5 0 = .ok w7 ∧
      w7.blocks = [{ cnt_strong_ref_ := 0, cnt_weak_ref_ := 0, derived := .pointer 0,
                     managed := true, freed := true, releases := 1, deletes := 1 }] ∧
      w7.dead = [5] :=
  ⟨by decide, end_to_end_scenario 5 (by decide)⟩

/-! ## Observers, move construction and `Reset` (variant without destruction lock) -/

/-- C16 (the code at the failing input): whatever the `SharedPtr` instances are, when the strong
count of the block is `2 ^ 32` the block is alive, `IsResourceAlive()` is true, and `Expired()`
returns true, because `GetCntStrong` narrows the `size_t` counter to `int`. -/
theorem expired_wrong_at_two_pow_32 (sh : List SharedPtr) :
    Weak.WeakPtr.Expired
      { blocks := [{ cnt_strong_ref_ := 4294967296, cnt_weak_ref_ := 1, derived := .pointer 5,
                     managed := true, freed := false, releases := 0, deletes := 0 }],
        shared := sh, weak := [{ control_ := some 0, ptr_ := 5 }], dead := [] } 0 = .ok true ∧
    Weak.ControlBlock.IsResourceAlive
      { cnt_strong_ref_ := 4294967296, cnt_weak_ref_ := 1, derived := .pointer 5,
        managed := true, freed := false, releases := 0, deletes := 0 } = true := by
  constructor
  · simp [Weak.WeakPtr.Expired, Weak.WeakPtr.ControlGetCntStrong, Weak.World.weakAt,
      Weak.World.block, Weak.ControlBlock.GetCntStrong, sizeToInt, bind, Except.bind, pure,
      Except.pure]
  · simp [Weak.ControlBlock.IsResourceAlive]

/-- C17 (the code at the failing input): when the strong count of the block is `2 ^ 31`,
`UseCount()` of a `SharedPtr` and of a `WeakPtr` returns `2 ^ 64 - 2 ^ 31`, the counter having been
narrowed to a negative `int` and widened again. -/
theorem use_count_wrong_at_two_pow_31 (rest : List SharedPtr) :
    Weak.SharedPtr.UseCount
      { blocks := [{ cnt_strong_ref_ := 2147483648, cnt_weak_ref_ := 1, derived := .pointer 5,
                     managed := true, freed := false, releases := 0, deletes := 0 }],
        shared := { control_ := some 0, ptr_ := 5 } :: rest,
        weak := [{ control_ := some 0, ptr_ := 5 }], dead := [] } 0 = .ok 18446744071562067968 ∧
    Weak.WeakPtr.UseCount
      { blocks := [{ cnt_strong_ref_ := 2147483648, cnt_weak_ref_ := 1, derived := .pointer 5,
                     managed := true, freed := false, releases := 0, deletes := 0 }],
        shared := { control_ := some 0, ptr_ := 5 } :: rest,
        weak := [{ control_ := some 0, ptr_ := 5 }], dead := [] } 0 = .ok 18446744071562067968 := by
  constructor
  · simp [Weak.SharedPtr.UseCount, Weak.SharedPtr.ControlGetCntStrong, Weak.World.sharedAt,
      Weak.World.block, Weak.ControlBlock.GetCntStrong, sizeToInt, intToSize, bind, Except.bind,
      pure, Except.pure]
  · simp [Weak.WeakPtr.UseCount, Weak.WeakPtr.ControlGetCntStrong, Weak.World.weakAt,
      Weak.World.block, Weak.ControlBlock.GetCntStrong, sizeToInt, intToSize, bind, Except.bind,
      pure, Except.pure]

/-- C28 (the code at the failing input): when the strong count of the block is `2 ^ 32`,
`Expired()` returns true while `Lock()` returns a present `SharedPtr`. -/
theorem expired_lock_disagree_at_two_pow_32 (sh : List SharedPtr) :
    Weak.WeakPtr.Expired
      { blocks := [{ cnt_strong_ref_ := 4294967296, cnt_weak_ref_ := 1, derived := .pointer 5,
                     managed := true, freed := false, releases := 0, deletes := 0 }],
        shared := sh, weak := [{ control_ := some 0, ptr_ := 5 }], dead := [] } 0 = .ok true ∧
    Weak.WeakPtr.Lock
      { blocks := [{ cnt_strong_ref_ := 4294967296, cnt_weak_ref_ := 1, derived := .pointer 5,
                     managed := true, freed := false, releases := 0, deletes := 0 }],
        shared := sh, weak := [{ control_ := some 0, ptr_ := 5 }], dead := [] } 0 = .ok
      { blocks := [{ cnt_strong_ref_ := 4294967297, cnt_weak_ref_ := 1, derived := .pointer 5,
                     managed := true, freed := false, releases := 0, deletes := 0 }],
        shared := sh ++ [{ control_ := some 0, ptr_ := 5 }],
        weak := [{ control_ := some 0, ptr_ := 5 }], dead := [] } := by
  constructor
  · simp [Weak.WeakPtr.Expired, Weak.WeakPtr.ControlGetCntStrong, Weak.World.weakAt,
      Weak.World.block, Weak.ControlBlock.GetCntStrong, sizeToInt, bind, Except.bind, pure,
      Except.pure]
  · simp [Weak.WeakPtr.Lock, Weak.World.weakAt, Weak.World.block, Weak.World.call,
      Weak.ControlBlock.IsResourceAlive, Weak.ControlBlock.IncreaseStrong,
      Weak.ControlBlock.setStrong, incSize, sizeMod, Weak.SharedPtr.fromBlock,
      Weak.World.newShared, bind, Except.bind, pure, Except.pure]

/-- C18: move construction of a `SharedPtr` (same body for the converting constructor) gives the
new instance the control and pointer of the source, leaves the source with both fields null
(`UseCount() == 0`, `operator bool` false) and leaves the blocks, hence every strong and weak
count, and the record of deleted objects untouched; likewise for `WeakPtr`. -/
theorem move_construction_frame (w : Weak.World) (other : Nat) :
    (∀ o : SharedPtr, w.shared[other]? = some o →
      ∃ w2, Weak.SharedPtr.move w other = .ok w2 ∧ w2.blocks = w.blocks ∧ w2.weak = w.weak ∧
        w2.dead = w.dead ∧
        w2.shared[w.shared.length]? = some { control_ := o.control_, ptr_ := o.ptr_ } ∧
        w2.shared[other]? = some { control_ := none, ptr_ := 0 } ∧
        Weak.SharedPtr.UseCount w2 other = .ok 0 ∧ Weak.SharedPtr.toBool w2 other = .ok false) ∧
    (∀ o : WeakPtr, w.weak[other]? = some o →
      ∃ w2, Weak.WeakPtr.move w other = .ok w2 ∧ w2.blocks = w.blocks ∧ w2.shared = w.shared ∧
        w2.dead = w.dead ∧
        w2.weak[w.weak.length]? = some { control_ := o.control_, ptr_ := o.ptr_ } ∧
        w2.weak[other]? = some { control_ := none, ptr_ := 0 } ∧
        Weak.WeakPtr.UseCount w2 other = .ok 0) := by
  constructor
  · intro o ho
    have hlt := Weak.lt_of_getElem? ho
    have h1 : ((w.shared ++ [({ control_ := o.control_, ptr_ := o.ptr_ } : SharedPtr)]).set other
        { control_ := none, ptr_ := 0 })[other]? = some { control_ := none, ptr_ := 0 } :=
      List.getElem?_set_self (by simp; omega)
    refine ⟨_, Weak.shared_move_eq ho, rfl, rfl, rfl, ?_, h1, ?_, ?_⟩
    · rw [List.getElem?_set_ne (by omega)]
      simp
    · simp [Weak.SharedPtr.UseCount, Weak.SharedPtr.ControlGetCntStrong, Weak.World.sharedAt, h1,
        bind, Except.bind, pure, Except.pure, intToSize]
    · simp [Weak.SharedPtr.toBool, Weak.World.sharedAt, h1, bind, Except.bind, pure, Except.pure]
  · intro o ho
    have hlt := Weak.lt_of_getElem? ho
    have h1 : ((w.weak ++ [({ control_ := o.control_, ptr_ := o.ptr_ } : WeakPtr)]).set other
        { control_ := none, ptr_ := 0 })[other]? = some { control_ := none, ptr_ := 0 } :=
      List.getElem?_set_self (by simp; omega)
    refine ⟨_, Weak.weak_move_eq ho, rfl, rfl, rfl, ?_, h1, ?_⟩
    · rw [List.getElem?_set_ne (by omega)]
      simp
    · simp [Weak.WeakPtr.UseCount, Weak.WeakPtr.ControlGetCntStrong, Weak.World.weakAt, h1,
        bind, Except.bind, pure, Except.pure, intToSize]

/-- C22: `Reset()` and the destructor on a present handle whose block has a non-zero strong count
and whose object, if the block still holds one, was not deleted behind its back, leave the handle
with both fields null and `UseCount() == 0`; of all blocks only the one the handle referenced
changes: its strong count is smaller by exactly 1, its weak count is the same, and its object is
released (for a `ControlBlockPointer`, `delete` runs on it) exactly when the count was 1 and the
object was still held.  On an absent handle `Reset()` changes nothing. -/
theorem shared_reset_spec (w : Weak.World) (self c : Nat) (s : SharedPtr) (b : Weak.ControlBlock)
    (hs : w.shared[self]? = some s) (hc : s.control_ = some c) (hb : w.blocks[c]? = some b)
    (hf : b.freed = false) (hpos : b.cnt_strong_ref_ ≠ 0)
    (hd : ∀ p, b.derived = .pointer p → p ≠ 0 → p ∉ w.dead) :
    (∃ w2 b2, Weak.SharedPtr.Reset w self = .ok w2 ∧ Weak.SharedPtr.destroy w self = .ok w2 ∧
      w2.shared = w.shared.set self { control_ := none, ptr_ := 0 } ∧
      w2.shared[self]? = some { control_ := none, ptr_ := 0 } ∧
      Weak.SharedPtr.UseCount w2 self = .ok 0 ∧
      w2.blocks[c]? = some b2 ∧
      b2.cnt_strong_ref_ + 1 = b.cnt_strong_ref_ ∧ b2.cnt_weak_ref_ = b.cnt_weak_ref_ ∧
      b2.releases =
        b.releases + (if b.cnt_strong_ref_ = 1 ∧ b.derived.live = true then 1 else 0) ∧
      w2.dead = (if b.cnt_strong_ref_ = 1 then b.derived.held ++ w.dead else w.dead) ∧
      (∀ d, d ≠ c → w2.blocks[d]? = w.blocks[d]?) ∧ w2.weak = w.weak) ∧
    (∀ (w0 : Weak.World) (k : Nat), w0.shared[k]? = some { control_ := none, ptr_ := 0 } →
      Weak.SharedPtr.Reset w0 k = .ok w0) := by
  have hlt := Weak.lt_of_getElem? hs
  have hltc := Weak.lt_of_getElem? hb
  obtain ⟨r, e, h1, h2, h3, h4, _⟩ := Weak.dec_strong_spec b w.dead hpos hd
  have h5 : (w.shared.set self ({ control_ := none, ptr_ := 0 } : SharedPtr))[self]? =
      some { control_ := none, ptr_ := 0 } := List.getElem?_set_self hlt
  have heq : Weak.SharedPtr.Clear w self = .ok
      { blocks := w.blocks.set c r.1, shared := w.shared.set self { control_ := none, ptr_ := 0 },
        weak := w.weak, dead := r.2 } := by
    simp [Weak.SharedPtr.Clear, Weak.SharedPtr.ControlDecreaseStrong, Weak.sharedAt_ok hs, hc,
      Weak.World.callDelIf, Weak.callDel_ok _ hb hf e, bind, Except.bind, pure, Except.pure,
      Weak.World.setShared]
  refine ⟨⟨_, r.1, heq, heq, rfl, h5, ?_, List.getElem?_set_self hltc, h1, h2, h3, h4, ?_, rfl⟩, ?_⟩
  · simp [Weak.SharedPtr.UseCount, Weak.SharedPtr.ControlGetCntStrong, Weak.World.sharedAt, h5,
      bind, Except.bind, pure, Except.pure, intToSize]
  · intro d hd
    exact List.getElem?_set_ne (Ne.symm hd)
  · intro w0 k hk
    have hset : w0.shared.set k ({ control_ := none, ptr_ := 0 } : SharedPtr) = w0.shared := by
      apply List.ext_getElem?
      intro i
      by_cases hik : k = i
      · subst hik
        rw [List.getElem?_set_self (Weak.lt_of_getElem? hk), hk]
      · rw [List.getElem?_set_ne hik]
    simp [Weak.SharedPtr.Reset, Weak.SharedPtr.Clear, Weak.SharedPtr.ControlDecreaseStrong,
      Weak.sharedAt_ok hk, Weak.World.callDelIf, bind, Except.bind, pure, Except.pure,
      Weak.World.setShared, hset]

/-- Witness for C22: the last `SharedPtr` to a block that a `WeakPtr` still observes. -/
theorem shared_reset_spec_witness :
    (({ blocks := [{ cnt_strong_ref_ := 1, cnt_weak_ref_ := 1, derived := .pointer 5,
                     managed := true, freed := false, releases := 0, deletes := 0 }],
        shared := [{ control_ := some 0, ptr_ := 5 }],
        weak := [{ control_ := some 0, ptr_ := 5 }], dead := [] } : Weak.World).shared[0]? =
      some { control_ := some 0, ptr_ := 5 }) ∧
    (∀ (w0 : Weak.World) (k : Nat), w0.shared[k]? = some { control_ := none, ptr_ := 0 } →
      Weak.SharedPtr.Reset w0 k = .ok w0) :=
  ⟨by decide,
    (shared_reset_spec
      { blocks := [{ cnt_strong_ref_ := 1, cnt_weak_ref_ := 1, derived := .pointer 5,
                     managed := true, freed := false, releases := 0, deletes := 0 }],
        shared := [{ control_ := some 0, ptr_ := 5 }],
        weak := [{ control_ := some 0, ptr_ := 5 }], dead := [] } 0 0
      { control_ := some 0, ptr_ := 5 }
      { cnt_strong_ref_ := 1, cnt_weak_ref_ := 1, derived := .pointer 5,
        managed := true, freed := false, releases := 0, deletes := 0 }
      (by decide) rfl (by decide) rfl (by decide) (by simp)).2⟩

namespace Sft

theorem sft_block_ok {w : World} {c : Nat} {b : ControlBlock} (hb : w.blocks[c]? = some b)
    (hf : b.freed = false) : w.block c = .ok b := by
  simp [World.block, hb, hf]

theorem sft_sharedAt_ok {w : World} {i : Nat} {s : SharedPtr} (h : w.shared[i]? = some s) :
    w.sharedAt i = .ok s := by
  simp [World.sharedAt, h]

theorem sft_weakAt_ok {w : World} {i : Nat} {s : WeakPtr} (h : w.weak[i]? = some s) :
    w.weakAt i = .ok s := by
  simp [World.weakAt, h]

theorem weakThis_ne_zero {w : World} {e k : Nat} (h : w.weakThis e = .ok k) : e ≠ 0 := by
  intro h0
  simp [World.weakThis, h0] at h

theorem weakThis_lookup {w : World} {e k : Nat} (h : w.weakThis e = .ok k) :
    w.selfAware.lookup e = some k := by
  have h0 := weakThis_ne_zero h
  cases hl : w.selfAware.lookup e with
  | none => simp [World.weakThis, h0, hl] at h
  | some j =>
    simp [World.weakThis, h0, hl] at h
    rw [h]

/-- The statement `e->weak_this_ = *this` for a present handle and an object whose `weak_this_`
is still null: the member takes the control and pointer of the handle, and the weak count of the
block grows by one. -/
theorem init_weak_this_unbound {w : World} {i e k c : Nat} {s : SharedPtr} {b : ControlBlock}
    (hs : w.shared[i]? = some s) (hc : s.control_ = some c) (hb : w.blocks[c]? = some b)
    (hf : b.freed = false) (he : w.weakThis e = .ok k)
    (hk : w.weak[k]? = some { control_ := none, ptr_ := 0 }) :
    SharedPtr.InitWeakThis w i e = .ok
      { w with blocks := w.blocks.set c b.IncreaseWeak,
               weak := w.weak.set k { control_ := some c, ptr_ := s.ptr_ } } := by
  have hlt := Weak.lt_of_getElem? hk
  have hne : ¬ (w.weak.length = k) := by omega
  simp [SharedPtr.InitWeakThis, he, WeakPtr.fromShared, sft_sharedAt_ok hs, hc, World.newWeak,
    WeakPtr.ControlIncreaseWeak, World.weakAt, World.callIf, World.call, World.block, hb, hf,
    World.setBlock, WeakPtr.moveAssign, WeakPtr.Clear, WeakPtr.ClearK, WeakPtr.destroy,
    World.setWeak, World.popWeak, bind, Except.bind, pure, Except.pure, hne,
    List.getElem?_append_left hlt, hk, List.getElem?_set, hlt]

/-- The first `SharedPtr` to a living self-aware object whose `weak_this_` is null, made by a
raw-pointer wrap. -/
theorem from_raw_first_eq (w : World) (p k : Nat) (hp : w.weakThis p = .ok k)
    (hk : w.weak[k]? = some { control_ := none, ptr_ := 0 }) :
    SharedPtr.fromRaw true w p = .ok
      { w with
        blocks := w.blocks ++ [{ cnt_strong_ref_ := 1, cnt_weak_ref_ := 1,
                                 destruction_is_locked_ := false, derived := .pointer p,
                                 managed := true, freed := false, releases := 0, deletes := 0 }],
        shared := w.shared ++ [{ control_ := some w.blocks.length, ptr_ := p }],
        weak := w.weak.set k { control_ := some w.blocks.length, ptr_ := p } } := by
  have hp0 := weakThis_ne_zero hp
  have h := init_weak_this_unbound
    (w := World.newShared { w with blocks := w.blocks ++ [ControlBlockPointer p] }
      { control_ := some w.blocks.length, ptr_ := p })
    (i := w.shared.length) (e := p) (k := k) (c := w.blocks.length)
    (s := { control_ := some w.blocks.length, ptr_ := p }) (b := ControlBlockPointer p)
    (by simp [World.newShared]) rfl (by simp [World.newShared]) rfl
    (by simpa [World.weakThis, World.newShared] using hp)
    (by simpa [World.newShared] using hk)
  simp [SharedPtr.fromRaw, SharedPtr.PerhapsInitWeakThis, World.sharedAt,
    World.newShared, bind, Except.bind]
  simp [World.newShared] at h
  rw [h]
  simp [ControlBlockPointer, ControlBlock.IncreaseWeak, ControlBlock.setWeak,
    incSize, sizeMod, hp0]

/-- The `SharedPtr` returned by `MakeShared` for a self-aware type. -/
theorem make_shared_first_eq (w : World) (a : Nat) (ha : a ≠ 0) :
    MakeShared true w a = .ok
      { blocks := w.blocks ++ [{ cnt_strong_ref_ := 1, cnt_weak_ref_ := 1,
                                 destruction_is_locked_ := false, derived := .emplace a true,
                                 managed := true, freed := false, releases := 0, deletes := 0 }],
        shared := w.shared ++ [{ control_ := some w.blocks.length, ptr_ := a }],
        weak := w.weak ++ [{ control_ := some w.blocks.length, ptr_ := a }],
        dead := a :: w.dead,
        selfAware := (a, w.weak.length) :: w.selfAware } := by
  have h := init_weak_this_unbound
    (w := World.newShared
      { blocks := w.blocks ++ [ControlBlockEmplace a], shared := w.shared,
        weak := w.weak ++ [{ control_ := none, ptr_ := 0 }], dead := a :: w.dead,
        selfAware := (a, w.weak.length) :: w.selfAware }
      { control_ := some w.blocks.length, ptr_ := a })
    (i := w.shared.length) (e := a) (k := w.weak.length) (c := w.blocks.length)
    (s := { control_ := some w.blocks.length, ptr_ := a }) (b := ControlBlockEmplace a)
    (by simp [World.newShared]) rfl (by simp [World.newShared]) rfl
    (by simp [World.weakThis, World.newShared, ha, List.lookup])
    (by simp [World.newShared])
  simp [MakeShared, SharedPtr.fromBlock, SharedPtr.PerhapsInitWeakThis,
    World.sharedAt, World.newShared, World.newSelfAware, bind, Except.bind,
    ControlBlockEmplace, ControlBlock.GetPtr]
  simp [World.newShared, ControlBlockEmplace] at h
  rw [h]
  simp [ControlBlock.IncreaseWeak, ControlBlock.setWeak, incSize, sizeMod]

/-! ### The promoting constructor and `Lock` -/

theorem sft_shared_from_weak_alive_eq {w : World} {other c : Nat} {s : WeakPtr} {b : ControlBlock}
    (hs : w.weak[other]? = some s) (hc : s.control_ = some c) (hb : w.blocks[c]? = some b)
    (hf : b.freed = false) (ha : b.cnt_strong_ref_ ≠ 0) :
    SharedPtr.fromWeak w other = .ok
      { w with blocks := w.blocks.set c b.IncreaseStrong,
               shared := w.shared ++ [{ control_ := some c, ptr_ := s.ptr_ }] } := by
  simp [SharedPtr.fromWeak, sft_weakAt_ok hs, hc, sft_block_ok hb hf, bind, Except.bind,
    ControlBlock.IsResourceAlive, ha, SharedPtr.ControlIncreaseStrong, World.sharedAt,
    World.newShared, World.callIf, World.call, World.block, hb, hf, World.setBlock, pure,
    Except.pure]

theorem sft_shared_from_weak_dead_eq {w : World} {other c : Nat} {s : WeakPtr} {b : ControlBlock}
    (hs : w.weak[other]? = some s) (hc : s.control_ = some c) (hb : w.blocks[c]? = some b)
    (hf : b.freed = false) (ha : b.cnt_strong_ref_ = 0) :
    SharedPtr.fromWeak w other = .error Fault.BadWeakPtr := by
  simp [SharedPtr.fromWeak, sft_weakAt_ok hs, hc, sft_block_ok hb hf, bind, Except.bind,
    ControlBlock.IsResourceAlive, ha, throw, throwThe, MonadExceptOf.throw]

theorem use_count_eq {w : World} {self c : Nat} {s : SharedPtr} {b : ControlBlock}
    (hs : w.shared[self]? = some s) (hc : s.control_ = some c) (hb : w.blocks[c]? = some b)
    (hf : b.freed = false) :
    SharedPtr.UseCount w self = .ok (intToSize (sizeToInt b.cnt_strong_ref_)) := by
  simp [SharedPtr.UseCount, SharedPtr.ControlGetCntStrong, sft_sharedAt_ok hs, hc, sft_block_ok hb hf,
    ControlBlock.GetCntStrong, bind, Except.bind, pure, Except.pure]

theorem int_size_two : intToSize (sizeToInt 2) = 2 := by
  simp [intToSize, sizeToInt]

theorem shared_from_this_eq {w : World} {e k : Nat} (he : w.weakThis e = .ok k) :
    SharedFromThis w e = SharedPtr.fromWeak w k := by
  simp [SharedFromThis, he, bind, Except.bind]

theorem weak_from_this_eq {w : World} {e k : Nat} (he : w.weakThis e = .ok k) :
    WeakFromThis w e = WeakPtr.copy w k := by
  simp [WeakFromThis, he, bind, Except.bind]

/-- The handle `SharedFromThis()` returns for an object bound to a block with one strong
reference, and what the two sharers report. -/
theorem shared_from_this_bound {w : World} {e k c i : Nat} {b : ControlBlock}
    (he : w.weakThis e = .ok k) (hk : w.weak[k]? = some { control_ := some c, ptr_ := e })
    (hb : w.blocks[c]? = some b) (hf : b.freed = false) (h1 : b.cnt_strong_ref_ = 1)
    (hi : w.shared[i]? = some { control_ := some c, ptr_ := e }) :
    ∃ w2, SharedFromThis w e = .ok w2 ∧
      w2.shared[i]? = some { control_ := some c, ptr_ := e } ∧
      w2.shared[w.shared.length]? = some { control_ := some c, ptr_ := e } ∧
      SharedPtr.Get w2 i = .ok e ∧ SharedPtr.Get w2 w.shared.length = .ok e ∧
      SharedPtr.toBool w2 w.shared.length = .ok true ∧
      SharedPtr.UseCount w2 i = .ok 2 ∧ SharedPtr.UseCount w2 w.shared.length = .ok 2 := by
  have hlti := Weak.lt_of_getElem? hi
  have hltc := Weak.lt_of_getElem? hb
  have e1 := sft_shared_from_weak_alive_eq hk rfl hb hf (by omega)
  rw [← shared_from_this_eq he] at e1
  have hi2 : (w.shared ++ [({ control_ := some c, ptr_ := e } : SharedPtr)])[i]? =
      some { control_ := some c, ptr_ := e } := by
    rw [List.getElem?_append_left hlti]; exact hi
  have hn2 : (w.shared ++ [({ control_ := some c, ptr_ := e } : SharedPtr)])[w.shared.length]? =
      some { control_ := some c, ptr_ := e } := by simp
  have hb2 : (w.blocks.set c b.IncreaseStrong)[c]? = some b.IncreaseStrong :=
    List.getElem?_set_self hltc
  have hcnt : b.IncreaseStrong.cnt_strong_ref_ = 2 := by
    simp [ControlBlock.IncreaseStrong, ControlBlock.setStrong, h1, incSize, sizeMod]
  refine ⟨_, e1, hi2, hn2, ?_, ?_, ?_, ?_, ?_⟩
  · simp [SharedPtr.Get, World.sharedAt, hi2, bind, Except.bind, pure, Except.pure]
  · simp [SharedPtr.Get, World.sharedAt, bind, Except.bind, pure, Except.pure]
  · simp [SharedPtr.toBool, World.sharedAt, bind, Except.bind, pure, Except.pure]
  · rw [use_count_eq (b := b.IncreaseStrong) hi2 rfl hb2 hf, hcnt, int_size_two]
  · rw [use_count_eq (b := b.IncreaseStrong) hn2 rfl hb2 hf, hcnt, int_size_two]

/-! ### Teardown, layer by layer -/

theorem dw_fuel_succ (n : Nat) (w : World) (c : Nat) :
    DecreaseWeakFuel (n + 1) w c = DecreaseWeakK (DecreaseWeakFuel n) w c := rfl

theorem set_block_get {w : World} {c : Nat} {b : ControlBlock} (b2 : ControlBlock)
    (hb : w.blocks[c]? = some b) : (w.setBlock c b2).blocks[c]? = some b2 := by
  simp [World.setBlock, List.getElem?_set, Weak.lt_of_getElem? hb]

theorem clearK_some {d : World → Nat → Except Fault World} {w w1 : World} {k c : Nat}
    {s : WeakPtr} (hk : w.weak[k]? = some s) (hc : s.control_ = some c) (e : d w c = .ok w1) :
    WeakPtr.ClearK d w k = .ok (w1.setWeak k { control_ := none, ptr_ := 0 }) := by
  simp [WeakPtr.ClearK, sft_weakAt_ok hk, hc, e, bind, Except.bind, pure, Except.pure]

theorem clearK_none {d : World → Nat → Except Fault World} {w : World} {k : Nat}
    {s : WeakPtr} (hk : w.weak[k]? = some s) (hc : s.control_ = none) :
    WeakPtr.ClearK d w k = .ok (w.setWeak k { control_ := none, ptr_ := 0 }) := by
  simp [WeakPtr.ClearK, sft_weakAt_ok hk, hc, bind, Except.bind, pure, Except.pure]

theorem destructK_some {d : World → Nat → Except Fault World} {w w1 : World} {p k : Nat}
    (hk : w.selfAware.lookup p = some k) (e : WeakPtr.ClearK d w k = .ok w1) :
    destructK d w p = .ok { w1 with selfAware := w1.selfAware.filter (fun o => o.1 ≠ p) } := by
  simp [destructK, hk, e, bind, Except.bind, pure, Except.pure]

theorem destructK_none {d : World → Nat → Except Fault World} {w : World} {p : Nat}
    (hk : w.selfAware.lookup p = none) : destructK d w p = .ok w := by
  simp [destructK, hk, pure, Except.pure]

theorem deleteK_eq {d : World → Nat → Except Fault World} {w : World} {p : Nat}
    (hd : p ∉ w.dead) : deleteK d w p = destructK d { w with dead := p :: w.dead } p := by
  simp [deleteK, deleteObject, hd, bind, Except.bind]

theorem deleteK_dead {d : World → Nat → Except Fault World} {w : World} {p : Nat}
    (hd : p ∈ w.dead) : deleteK d w p = .error Fault.undefined := by
  simp [deleteK, deleteObject, hd, bind, Except.bind]

theorem delete_sourceK_pointer {d : World → Nat → Except Fault World} {w : World} {c p : Nat}
    {b : ControlBlock} (hb : w.blocks[c]? = some b) (hf : b.freed = false)
    (hd : b.derived = .pointer p) (hp : p ≠ 0) :
    DeleteSourceK d w c =
      deleteK d (w.setBlock c { b with derived := .pointer 0, releases := b.releases + 1 }) p := by
  simp [DeleteSourceK, sft_block_ok hb hf, hd, hp, bind, Except.bind]

theorem delete_sourceK_emplace {d : World → Nat → Except Fault World} {w : World} {c a : Nat}
    {b : ControlBlock} (hb : w.blocks[c]? = some b) (hf : b.freed = false)
    (hd : b.derived = .emplace a true) :
    DeleteSourceK d w c =
      destructK d
        (w.setBlock c { b with derived := .emplace a false, releases := b.releases + 1 }) a := by
  simp [DeleteSourceK, sft_block_ok hb hf, hd, bind, Except.bind]

theorem delete_sourceK_idle {d : World → Nat → Except Fault World} {w : World} {c : Nat}
    {b : ControlBlock} (hb : w.blocks[c]? = some b) (hf : b.freed = false)
    (hd : b.derived.live = false) : DeleteSourceK d w c = .ok w := by
  cases hder : b.derived with
  | pointer p =>
    have : p = 0 := by simpa [hder, Storage.live] using hd
    simp [DeleteSourceK, sft_block_ok hb hf, hder, this, bind, Except.bind, pure, Except.pure]
  | emplace a alive =>
    have : alive = false := by simpa [hder, Storage.live] using hd
    simp [DeleteSourceK, sft_block_ok hb hf, hder, this, bind, Except.bind, pure, Except.pure]

theorem delete_thisK_idle {d : World → Nat → Except Fault World} {w : World} {c : Nat}
    {b : ControlBlock} (hb : w.blocks[c]? = some b) (hf : b.freed = false)
    (hd : b.derived.live = false) :
    deleteThisK d w c = .ok (w.setBlock c { b with freed := true, deletes := b.deletes + 1 }) := by
  simp [deleteThisK, delete_sourceK_idle hb hf hd, sft_block_ok hb hf, bind, Except.bind, pure,
    Except.pure]

theorem decrease_weakK_keep {d : World → Nat → Except Fault World} {w : World} {c : Nat}
    {b : ControlBlock} (hb : w.blocks[c]? = some b) (hf : b.freed = false)
    (hno : ¬ (b.destruction_is_locked_ = false ∧ b.cnt_strong_ref_ = 0 ∧
      decSize b.cnt_weak_ref_ = 0)) :
    DecreaseWeakK d w c = .ok (w.setBlock c (b.setWeak (decSize b.cnt_weak_ref_))) := by
  have : ¬ ((b.setWeak (decSize b.cnt_weak_ref_)).destruction_is_locked_ = false ∧
      (b.setWeak (decSize b.cnt_weak_ref_)).cnt_strong_ref_ = 0 ∧
      (b.setWeak (decSize b.cnt_weak_ref_)).cnt_weak_ref_ = 0) := hno
  simp only [DecreaseWeakK, sft_block_ok hb hf, bind, Except.bind, this, if_false, pure, Except.pure]

theorem decrease_weakK_last {d : World → Nat → Except Fault World} {w : World} {c : Nat}
    {b : ControlBlock} (hb : w.blocks[c]? = some b) (hf : b.freed = false)
    (hyes : b.destruction_is_locked_ = false ∧ b.cnt_strong_ref_ = 0 ∧
      decSize b.cnt_weak_ref_ = 0) :
    DecreaseWeakK d w c =
      deleteThisK d (w.setBlock c (b.setWeak (decSize b.cnt_weak_ref_))) c := by
  have : ((b.setWeak (decSize b.cnt_weak_ref_)).destruction_is_locked_ = false ∧
      (b.setWeak (decSize b.cnt_weak_ref_)).cnt_strong_ref_ = 0 ∧
      (b.setWeak (decSize b.cnt_weak_ref_)).cnt_weak_ref_ = 0) := hyes
  simp only [DecreaseWeakK, sft_block_ok hb hf, bind, Except.bind, this, if_true]
  simp

/-- The release routine, run with the destruction lock set, of a block whose object holds the only
weak reference to it. -/
theorem delete_source_locked_pointer {w : World} {c p k : Nat} {b : ControlBlock} (n : Nat)
    (hb : w.blocks[c]? = some b) (hf : b.freed = false)
    (hw : b.cnt_weak_ref_ = 1) (hl : b.destruction_is_locked_ = true)
    (hd : b.derived = .pointer p) (hp : p ≠ 0) (hdead : p ∉ w.dead)
    (hk : w.selfAware.lookup p = some k) (hwt : w.weak[k]? = some { control_ := some c, ptr_ := p }) :
    DeleteSourceK (DecreaseWeakFuel (n + 1)) w c = .ok
      { blocks := w.blocks.set c
          { b with cnt_weak_ref_ := 0, derived := .pointer 0, releases := b.releases + 1 },
        shared := w.shared, weak := w.weak.set k { control_ := none, ptr_ := 0 },
        dead := p :: w.dead, selfAware := w.selfAware.filter (fun o => o.1 ≠ p) } := by
  rw [delete_sourceK_pointer hb hf hd hp, deleteK_eq (by simpa [World.setBlock] using hdead)]
  have hb2 := set_block_get (w := w) { b with derived := .pointer 0, releases := b.releases + 1 } hb
  have e1 : DecreaseWeakFuel (n + 1)
      { w.setBlock c { b with derived := .pointer 0, releases := b.releases + 1 } with
        dead := p :: (w.setBlock c
          { b with derived := .pointer 0, releases := b.releases + 1 }).dead } c = .ok _ :=
    decrease_weakK_keep (d := DecreaseWeakFuel n) (b := { b with derived := .pointer 0, releases := b.releases + 1 })
      hb2 hf (by simp [hl])
  have e2 := clearK_some (d := DecreaseWeakFuel (n + 1)) (k := k) (s := { control_ := some c, ptr_ := p })
    (by simpa [World.setBlock] using hwt) rfl e1
  rw [destructK_some (by simpa [World.setBlock] using hk) e2]
  simp [World.setBlock, World.setWeak, ControlBlock.setWeak, hw, decSize]

theorem delete_source_locked_emplace {w : World} {c a k : Nat} {b : ControlBlock} (n : Nat)
    (hb : w.blocks[c]? = some b) (hf : b.freed = false)
    (hw : b.cnt_weak_ref_ = 1) (hl : b.destruction_is_locked_ = true)
    (hd : b.derived = .emplace a true)
    (hk : w.selfAware.lookup a = some k) (hwt : w.weak[k]? = some { control_ := some c, ptr_ := a }) :
    DeleteSourceK (DecreaseWeakFuel (n + 1)) w c = .ok
      { blocks := w.blocks.set c
          { b with cnt_weak_ref_ := 0, derived := .emplace a false, releases := b.releases + 1 },
        shared := w.shared, weak := w.weak.set k { control_ := none, ptr_ := 0 },
        dead := w.dead, selfAware := w.selfAware.filter (fun o => o.1 ≠ a) } := by
  rw [delete_sourceK_emplace hb hf hd]
  have hb2 := set_block_get (w := w)
    { b with derived := .emplace a false, releases := b.releases + 1 } hb
  have e1 : DecreaseWeakFuel (n + 1)
      (w.setBlock c { b with derived := .emplace a false, releases := b.releases + 1 }) c =
        .ok _ :=
    decrease_weakK_keep (d := DecreaseWeakFuel n)
      (b := { b with derived := .emplace a false, releases := b.releases + 1 })
      hb2 hf (by simp [hl])
  have e2 := clearK_some (d := DecreaseWeakFuel (n + 1)) (k := k)
    (s := { control_ := some c, ptr_ := a })
    (by simpa [World.setBlock] using hwt) rfl e1
  rw [destructK_some (by simpa [World.setBlock] using hk) e2]
  simp [World.setBlock, World.setWeak, ControlBlock.setWeak, hw, decSize]

/-- The last `DecreaseStrong` on a `ControlBlockPointer` whose object holds the only weak reference
to it. -/
theorem decrease_strong_self_bound_pointer {w : World} {c p k : Nat} {b : ControlBlock}
    (hb : w.blocks[c]? = some b) (hf : b.freed = false) (hs : b.cnt_strong_ref_ = 1)
    (hw : b.cnt_weak_ref_ = 1) (hl : b.destruction_is_locked_ = false)
    (hd : b.derived = .pointer p) (hp : p ≠ 0) (hdead : p ∉ w.dead)
    (hk : w.selfAware.lookup p = some k)
    (hwt : w.weak[k]? = some { control_ := some c, ptr_ := p }) :
    ControlBlock.DecreaseStrong w c = .ok
      { blocks := w.blocks.set c
          { b with cnt_strong_ref_ := 0, cnt_weak_ref_ := 0, derived := .pointer 0,
                   releases := b.releases + 1, freed := true, deletes := b.deletes + 1 },
        shared := w.shared, weak := w.weak.set k { control_ := none, ptr_ := 0 },
        dead := p :: w.dead, selfAware := w.selfAware.filter (fun o => o.1 ≠ p) } := by
  have hltc := Weak.lt_of_getElem? hb
  have hbl := set_block_get (w := w.setBlock c (b.setStrong 0)) ((b.setStrong 0).setLock true)
    (set_block_get (b.setStrong 0) hb)
  have e1 := delete_source_locked_pointer (w := (w.setBlock c (b.setStrong 0)).setBlock c
    ((b.setStrong 0).setLock true)) (c := c) (p := p) (k := k) w.blocks.length hbl hf hw rfl hd hp
    (by simpa [World.setBlock] using hdead) (by simpa [World.setBlock] using hk)
    (by simpa [World.setBlock] using hwt)
  simp only [ControlBlock.DecreaseStrong, sft_block_ok hb hf, bind, Except.bind, hs, decSize_succ 0,
    World.fuel]
  simp only [ControlBlock.setStrong, if_true] at e1 ⊢
  rw [e1]
  simp [World.block, World.setBlock, hltc, hf, ControlBlock.setLock, hl, hw, deleteThisK,
    DeleteSourceK, bind, Except.bind, pure, Except.pure]

/-- The last `DecreaseStrong` on a `ControlBlockEmplace` whose object holds the only weak reference
to it. -/
theorem decrease_strong_self_bound_emplace {w : World} {c a k : Nat} {b : ControlBlock}
    (hb : w.blocks[c]? = some b) (hf : b.freed = false) (hs : b.cnt_strong_ref_ = 1)
    (hw : b.cnt_weak_ref_ = 1) (hl : b.destruction_is_locked_ = false)
    (hd : b.derived = .emplace a true)
    (hk : w.selfAware.lookup a = some k)
    (hwt : w.weak[k]? = some { control_ := some c, ptr_ := a }) :
    ControlBlock.DecreaseStrong w c = .ok
      { blocks := w.blocks.set c
          { b with cnt_strong_ref_ := 0, cnt_weak_ref_ := 0, derived := .emplace a false,
                   releases := b.releases + 1, freed := true, deletes := b.deletes + 1 },
        shared := w.shared, weak := w.weak.set k { control_ := none, ptr_ := 0 },
        dead := w.dead, selfAware := w.selfAware.filter (fun o => o.1 ≠ a) } := by
  have hltc := Weak.lt_of_getElem? hb
  have hbl := set_block_get (w := w.setBlock c (b.setStrong 0)) ((b.setStrong 0).setLock true)
    (set_block_get (b.setStrong 0) hb)
  have e1 := delete_source_locked_emplace (w := (w.setBlock c (b.setStrong 0)).setBlock c
    ((b.setStrong 0).setLock true)) (c := c) (a := a) (k := k) w.blocks.length hbl hf hw rfl hd
    (by simpa [World.setBlock] using hk) (by simpa [World.setBlock] using hwt)
  simp only [ControlBlock.DecreaseStrong, sft_block_ok hb hf, bind, Except.bind, hs, decSize_succ 0,
    World.fuel]
  simp only [ControlBlock.setStrong, if_true] at e1 ⊢
  rw [e1]
  simp [World.block, World.setBlock, hltc, hf, ControlBlock.setLock, hl, hw, deleteThisK,
    DeleteSourceK, bind, Except.bind, pure, Except.pure]

/-! ### Observers of the member `weak_this_` -/

theorem weak_copy_present_eq {w : World} {other c : Nat} {s : WeakPtr} {b : ControlBlock}
    (hs : w.weak[other]? = some s) (hc : s.control_ = some c) (hb : w.blocks[c]? = some b)
    (hf : b.freed = false) :
    WeakPtr.copy w other = .ok
      { w with blocks := w.blocks.set c b.IncreaseWeak,
               weak := w.weak ++ [{ control_ := some c, ptr_ := s.ptr_ }] } := by
  simp [WeakPtr.copy, hs, hc, WeakPtr.ControlIncreaseWeak, World.weakAt,
    World.newWeak, World.callIf, World.call, World.block, hb, hf, World.setBlock, bind,
    Except.bind, pure, Except.pure]

theorem weak_copy_absent_eq {w : World} {other : Nat} {s : WeakPtr}
    (hs : w.weak[other]? = some s) (hc : s.control_ = none) :
    WeakPtr.copy w other = .ok
      { w with weak := w.weak ++ [{ control_ := none, ptr_ := s.ptr_ }] } := by
  simp [WeakPtr.copy, hs, hc, WeakPtr.ControlIncreaseWeak, World.weakAt,
    World.newWeak, World.callIf, bind, Except.bind, pure, Except.pure]

theorem weak_copy_never_throws (w : World) (other : Nat) :
    WeakPtr.copy w other ≠ .error Fault.BadWeakPtr := by
  cases hk : w.weak[other]? with
  | none => simp [WeakPtr.copy, World.weakAt, hk, bind, Except.bind]
  | some x =>
    cases hx : x.control_ with
    | none => rw [weak_copy_absent_eq hk hx]; simp
    | some c =>
      cases hb : w.blocks[c]? with
      | none =>
        simp [WeakPtr.copy, hk, hx, WeakPtr.ControlIncreaseWeak, World.weakAt,
          World.newWeak, World.callIf, World.call, World.block, hb, bind, Except.bind]
      | some b =>
        cases hf : b.freed
        · rw [weak_copy_present_eq hk hx hb hf]; simp
        · simp [WeakPtr.copy, hk, hx, WeakPtr.ControlIncreaseWeak, World.weakAt,
            World.newWeak, World.callIf, World.call, World.block, hb, hf, bind, Except.bind]

/-- The constructors that call `PerhapsInitWeakThis()` with a null `ptr_`, for a pointee type
deriving from `EnableSharedFromThis`. -/
theorem init_weak_this_null (w : World) (self : Nat) :
    SharedPtr.InitWeakThis w self 0 = .error Fault.undefined := by
  simp [SharedPtr.InitWeakThis, World.weakThis, bind, Except.bind]

theorem from_block_null_undefined (w : World) (block : Option Nat) :
    SharedPtr.fromBlock true w 0 block = .error Fault.undefined := by
  simp [SharedPtr.fromBlock, SharedPtr.PerhapsInitWeakThis, World.sharedAt, World.newShared,
    init_weak_this_null, bind, Except.bind]

theorem from_block_plain_eq (w : World) (p : Nat) (block : Option Nat) :
    SharedPtr.fromBlock false w p block = .ok
      { w with shared := w.shared ++ [{ control_ := block, ptr_ := p }] } := by
  simp [SharedPtr.fromBlock, SharedPtr.PerhapsInitWeakThis, World.newShared, pure, Except.pure]

/-! ### Binding `weak_this_` again -/

theorem dec_inc_size {n : Nat} (h : n < sizeMod) : decSize (incSize n) = n := by
  by_cases h1 : n + 1 < sizeMod
  · rw [incSize_of_lt h1]; exact decSize_succ n
  · have hn : n + 1 = sizeMod := by omega
    have : incSize n = 0 := by
      unfold incSize
      rw [hn]
      exact Nat.mod_self _
    rw [this]
    simp [decSize]
    omega

theorem weak_from_shared_present_eq {w : World} {i c : Nat} {s : SharedPtr} {b : ControlBlock}
    (hs : w.shared[i]? = some s) (hc : s.control_ = some c) (hb : w.blocks[c]? = some b)
    (hf : b.freed = false) :
    WeakPtr.fromShared w i = .ok
      { w with blocks := w.blocks.set c b.IncreaseWeak,
               weak := w.weak ++ [{ control_ := some c, ptr_ := s.ptr_ }] } := by
  simp [WeakPtr.fromShared, hs, hc, WeakPtr.ControlIncreaseWeak, World.weakAt, World.sharedAt,
    World.newWeak, World.callIf, World.call, World.block, hb, hf, World.setBlock, bind,
    Except.bind, pure, Except.pure]

theorem init_weak_this_of_clear {w w2 : World} {i e k c : Nat} {s : SharedPtr} {b : ControlBlock}
    (hs : w.shared[i]? = some s) (hc : s.control_ = some c) (hb : w.blocks[c]? = some b)
    (hf : b.freed = false) (he : w.weakThis e = .ok k) (hklt : k < w.weak.length)
    (hcl : WeakPtr.Clear
      { w with blocks := w.blocks.set c b.IncreaseWeak,
               weak := w.weak ++ [{ control_ := some c, ptr_ := s.ptr_ }] } k = .ok w2)
    (hw2 : w2.weak = (w.weak ++ [({ control_ := some c, ptr_ := s.ptr_ } : WeakPtr)]).set k
      { control_ := none, ptr_ := 0 }) :
    SharedPtr.InitWeakThis w i e = .ok
      { w2 with weak := w.weak.set k { control_ := some c, ptr_ := s.ptr_ } } := by
  have hne : ¬ (w.weak.length = k) := by omega
  have hlen : (w.weak.set k ({ control_ := none, ptr_ := 0 } : WeakPtr)).length = w.weak.length := by
    simp
  have e2 : WeakPtr.moveAssign
      { w with blocks := w.blocks.set c b.IncreaseWeak,
               weak := w.weak ++ [{ control_ := some c, ptr_ := s.ptr_ }] } k w.weak.length = .ok
      { w2 with weak := w.weak.set k { control_ := some c, ptr_ := s.ptr_ } ++
          [{ control_ := none, ptr_ := 0 }] } := by
    simp only [WeakPtr.moveAssign, hne, if_false, hcl, bind, Except.bind]
    simp [World.weakAt, hw2, World.setWeak, List.set_append, hklt, pure, Except.pure]
  simp only [SharedPtr.InitWeakThis, he, weak_from_shared_present_eq hs hc hb hf, e2, bind,
    Except.bind]
  simp [WeakPtr.destroy, WeakPtr.Clear, WeakPtr.ClearK, World.weakAt, World.setWeak,
    World.popWeak, bind, Except.bind, pure, Except.pure, List.set_append]

theorem list_set_self {α : Type} {l : List α} {k : Nat} {x : α} (h : l[k]? = some x) :
    l.set k x = l := by
  apply List.ext_getElem?
  intro j
  by_cases hj : k = j
  · subst hj
    rw [List.getElem?_set_self (Weak.lt_of_getElem? h), h]
  · rw [List.getElem?_set_ne hj]

theorem weak_clear_keep {w : World} {k d : Nat} {m : WeakPtr} {b : ControlBlock}
    (hk : w.weak[k]? = some m) (hm : m.control_ = some d) (hb : w.blocks[d]? = some b)
    (hf : b.freed = false)
    (hno : ¬ (b.destruction_is_locked_ = false ∧ b.cnt_strong_ref_ = 0 ∧
      decSize b.cnt_weak_ref_ = 0)) :
    WeakPtr.Clear w k = .ok
      { w with blocks := w.blocks.set d (b.setWeak (decSize b.cnt_weak_ref_)),
               weak := w.weak.set k { control_ := none, ptr_ := 0 } } := by
  have e1 : DecreaseWeakFuel w.fuel w d = .ok (w.setBlock d (b.setWeak (decSize b.cnt_weak_ref_))) :=
    decrease_weakK_keep hb hf hno
  rw [WeakPtr.Clear, clearK_some hk hm e1]
  rfl

/-- The statement `e->weak_this_ = *this` when `weak_this_` already refers to the block of the
handle: the count of the temporary is given back by the `Clear()` of the member. -/
theorem init_weak_this_same {w : World} {i e k c : Nat} {s : SharedPtr} {m : WeakPtr}
    {b : ControlBlock}
    (hs : w.shared[i]? = some s) (hc : s.control_ = some c) (hb : w.blocks[c]? = some b)
    (hf : b.freed = false) (h0 : b.cnt_strong_ref_ ≠ 0) (hw : b.cnt_weak_ref_ < sizeMod)
    (he : w.weakThis e = .ok k) (hk : w.weak[k]? = some m) (hm : m.control_ = some c) :
    SharedPtr.InitWeakThis w i e = .ok
      { w with weak := w.weak.set k { control_ := some c, ptr_ := s.ptr_ } } := by
  have hklt := Weak.lt_of_getElem? hk
  have hclt := Weak.lt_of_getElem? hb
  have hk1 : (w.weak ++ [({ control_ := some c, ptr_ := s.ptr_ } : WeakPtr)])[k]? = some m := by
    rw [List.getElem?_append_left hklt]; exact hk
  have hb1 : (w.blocks.set c b.IncreaseWeak)[c]? = some b.IncreaseWeak :=
    List.getElem?_set_self hclt
  have hcl := weak_clear_keep
    (w := { w with blocks := w.blocks.set c b.IncreaseWeak,
                   weak := w.weak ++ [{ control_ := some c, ptr_ := s.ptr_ }] })
    hk1 hm hb1 hf (by
      simp [ControlBlock.IncreaseWeak, ControlBlock.setWeak, h0])
  rw [init_weak_this_of_clear hs hc hb hf he hklt hcl rfl]
  have hbb : (b.IncreaseWeak.setWeak (decSize b.IncreaseWeak.cnt_weak_ref_)) = b := by
    simp [ControlBlock.IncreaseWeak, ControlBlock.setWeak, dec_inc_size hw]
  simp [hbb, list_set_self hb]

/-- The statement `e->weak_this_ = *this` when `weak_this_` refers to another block that still has
a strong reference: that block loses the weak reference, the block of the handle gains one. -/
theorem init_weak_this_other {w : World} {i e k c d : Nat} {s : SharedPtr} {m : WeakPtr}
    {b bd : ControlBlock}
    (hs : w.shared[i]? = some s) (hc : s.control_ = some c) (hb : w.blocks[c]? = some b)
    (hf : b.freed = false)
    (he : w.weakThis e = .ok k) (hk : w.weak[k]? = some m) (hm : m.control_ = some d)
    (hdc : d ≠ c) (hbd : w.blocks[d]? = some bd) (hfd : bd.freed = false)
    (h0 : bd.cnt_strong_ref_ ≠ 0) :
    SharedPtr.InitWeakThis w i e = .ok
      { w with blocks := (w.blocks.set c b.IncreaseWeak).set d
                 (bd.setWeak (decSize bd.cnt_weak_ref_)),
               weak := w.weak.set k { control_ := some c, ptr_ := s.ptr_ } } := by
  have hklt := Weak.lt_of_getElem? hk
  have hk1 : (w.weak ++ [({ control_ := some c, ptr_ := s.ptr_ } : WeakPtr)])[k]? = some m := by
    rw [List.getElem?_append_left hklt]; exact hk
  have hb1 : (w.blocks.set c b.IncreaseWeak)[d]? = some bd := by
    rw [List.getElem?_set_ne (Ne.symm hdc)]; exact hbd
  have hcl := weak_clear_keep
    (w := { w with blocks := w.blocks.set c b.IncreaseWeak,
                   weak := w.weak ++ [{ control_ := some c, ptr_ := s.ptr_ }] })
    hk1 hm hb1 hfd (by simp [h0])
  rw [init_weak_this_of_clear hs hc hb hf he hklt hcl rfl]

theorem shared_aliasing_bind_eq {w : World} {i c : Nat} {s : SharedPtr} {b : ControlBlock}
    (p : Nat) (hs : w.shared[i]? = some s) (hc : s.control_ = some c)
    (hb : w.blocks[c]? = some b) (hf : b.freed = false) :
    SharedPtr.aliasing true w i p =
      SharedPtr.InitWeakThis
        { w with blocks := w.blocks.set c b.IncreaseStrong,
                 shared := w.shared ++ [{ control_ := some c, ptr_ := p }] }
        w.shared.length p := by
  simp [SharedPtr.aliasing, hs, hc, SharedPtr.ControlIncreaseStrong, World.sharedAt,
    World.newShared, World.callIf, World.call, World.block, hb, hf, World.setBlock,
    SharedPtr.PerhapsInitWeakThis, bind, Except.bind, pure, Except.pure]

theorem shared_copy_bind_eq {w : World} {i c : Nat} {s : SharedPtr} {b : ControlBlock}
    (hs : w.shared[i]? = some s) (hc : s.control_ = some c)
    (hb : w.blocks[c]? = some b) (hf : b.freed = false) :
    SharedPtr.copy true w i =
      SharedPtr.InitWeakThis
        { w with blocks := w.blocks.set c b.IncreaseStrong,
                 shared := w.shared ++ [{ control_ := some c, ptr_ := s.ptr_ }] }
        w.shared.length s.ptr_ := by
  simp [SharedPtr.copy, hs, hc, SharedPtr.ControlIncreaseStrong, World.sharedAt,
    World.newShared, World.callIf, World.call, World.block, hb, hf, World.setBlock,
    SharedPtr.PerhapsInitWeakThis, bind, Except.bind, pure, Except.pure]

theorem sft_shared_move_eq {w : World} {i : Nat} {s : SharedPtr} (hs : w.shared[i]? = some s) :
    SharedPtr.move w i = .ok
      { w with shared := (w.shared ++ [(s : SharedPtr)]).set i
                          { control_ := none, ptr_ := 0 } } := by
  simp [SharedPtr.move, hs, World.sharedAt, World.newShared, World.setShared, bind, Except.bind,
    pure, Except.pure]

/-- A handle made from a handle on block `c` (by copy, or by the aliasing constructor with a
pointer to the object) while `weak_this_` of the object refers to `c`. -/
theorem bind_again_same {w : World} {e k c : Nat} {b : ControlBlock}
    (hb : w.blocks[c]? = some b) (hf : b.freed = false)
    (h1 : b.cnt_strong_ref_ + 1 < sizeMod) (hw : b.cnt_weak_ref_ < sizeMod)
    (he : w.weakThis e = .ok k) (hk : w.weak[k]? = some { control_ := some c, ptr_ := e }) :
    SharedPtr.InitWeakThis
        { w with blocks := w.blocks.set c b.IncreaseStrong,
                 shared := w.shared ++ [{ control_ := some c, ptr_ := e }] }
        w.shared.length e = .ok
      { w with blocks := w.blocks.set c b.IncreaseStrong,
               shared := w.shared ++ [{ control_ := some c, ptr_ := e }] } := by
  have hclt := Weak.lt_of_getElem? hb
  have h := init_weak_this_same
    (w := { w with blocks := w.blocks.set c b.IncreaseStrong,
                   shared := w.shared ++ [{ control_ := some c, ptr_ := e }] })
    (i := w.shared.length) (e := e) (k := k) (c := c)
    (s := { control_ := some c, ptr_ := e }) (m := { control_ := some c, ptr_ := e })
    (b := b.IncreaseStrong)
    (by simp) rfl (List.getElem?_set_self hclt) hf
    (by simp [ControlBlock.IncreaseStrong, ControlBlock.setStrong, incSize_of_lt h1])
    hw (by simpa [World.weakThis] using he) hk rfl
  rw [h]
  simp [list_set_self hk]

/-- A handle made from a handle on block `c` with a pointer to the object (by copy, or by the
aliasing constructor) while `weak_this_` of the object refers to another block `d` that still has
a strong reference. -/
theorem bind_again_other {w : World} {e k c d : Nat} {m : WeakPtr} {b bd : ControlBlock}
    (hb : w.blocks[c]? = some b) (hf : b.freed = false)
    (he : w.weakThis e = .ok k) (hk : w.weak[k]? = some m) (hm : m.control_ = some d)
    (hdc : d ≠ c) (hbd : w.blocks[d]? = some bd) (hfd : bd.freed = false)
    (h0 : bd.cnt_strong_ref_ ≠ 0) :
    SharedPtr.InitWeakThis
        { w with blocks := w.blocks.set c b.IncreaseStrong,
                 shared := w.shared ++ [{ control_ := some c, ptr_ := e }] }
        w.shared.length e = .ok
      { w with blocks := (w.blocks.set c b.IncreaseStrong.IncreaseWeak).set d
                 (bd.setWeak (decSize bd.cnt_weak_ref_)),
               shared := w.shared ++ [{ control_ := some c, ptr_ := e }],
               weak := w.weak.set k { control_ := some c, ptr_ := e } } := by
  have hclt := Weak.lt_of_getElem? hb
  have h := init_weak_this_other
    (w := { w with blocks := w.blocks.set c b.IncreaseStrong,
                   shared := w.shared ++ [{ control_ := some c, ptr_ := e }] })
    (i := w.shared.length) (e := e) (k := k) (c := c) (d := d)
    (s := { control_ := some c, ptr_ := e }) (m := m)
    (b := b.IncreaseStrong)
    (by simp) rfl (List.getElem?_set_self hclt) hf
    (by simpa [World.weakThis] using he) hk hm hdc
    (by rw [List.getElem?_set_ne (Ne.symm hdc)]; exact hbd) hfd h0
  rw [h]
  simp [List.set_set]

end Sft

/-! ## Claims about `EnableSharedFromThis` -/

/-- C10: immediately after the first `SharedPtr` to a living object of a type deriving from
`EnableSharedFromThis` is constructed, by a raw-pointer wrap of the object whose `weak_this_` is
still null or by `MakeShared`, the `weak_this_` of the object holds the control block and the
object pointer of that handle, and the new block has strong count exactly 1 and weak count
exactly 1; nothing else in the world changes. -/
theorem self_binding_counts (w : Sft.World) (p k a : Nat) (hp : w.weakThis p = .ok k)
    (hk : w.weak[k]? = some { control_ := none, ptr_ := 0 }) (ha : a ≠ 0) :
    Sft.SharedPtr.fromRaw true w p = .ok
      { w with
        blocks := w.blocks ++ [{ cnt_strong_ref_ := 1, cnt_weak_ref_ := 1,
                                 destruction_is_locked_ := false, derived := .pointer p,
                                 managed := true, freed := false, releases := 0, deletes := 0 }],
        shared := w.shared ++ [{ control_ := some w.blocks.length, ptr_ := p }],
        weak := w.weak.set k { control_ := some w.blocks.length, ptr_ := p } } ∧
    Sft.MakeShared true w a = .ok
      { blocks := w.blocks ++ [{ cnt_strong_ref_ := 1, cnt_weak_ref_ := 1,
                                 destruction_is_locked_ := false, derived := .emplace a true,
                                 managed := true, freed := false, releases := 0, deletes := 0 }],
        shared := w.shared ++ [{ control_ := some w.blocks.length, ptr_ := a }],
        weak := w.weak ++ [{ control_ := some w.blocks.length, ptr_ := a }],
        dead := a :: w.dead,
        selfAware := (a, w.weak.length) :: w.selfAware } :=
  ⟨Sft.from_raw_first_eq w p k hp hk, Sft.make_shared_first_eq w a ha⟩

/-- Witness for C10: the object at address 5, just constructed, and a `MakeShared` at address 7. -/
theorem self_binding_counts_witness :
    (Sft.World.empty.newSelfAware 5).weakThis 5 = .ok 0 ∧
    (Sft.World.empty.newSelfAware 5).weak[0]? = some { control_ := none, ptr_ := 0 } ∧
    (7 : Nat) ≠ 0 ∧
    Sft.SharedPtr.fromRaw true (Sft.World.empty.newSelfAware 5) 5 = .ok
      { blocks := [{ cnt_strong_ref_ := 1, cnt_weak_ref_ := 1,
                     destruction_is_locked_ := false, derived := .pointer 5,
                     managed := true, freed := false, releases := 0, deletes := 0 }],
        shared := [{ control_ := some 0, ptr_ := 5 }],
        weak := [{ control_ := some 0, ptr_ := 5 }],
        dead := [], selfAware := [(5, 0)] } :=
  ⟨rfl, rfl, by decide,
    (self_binding_counts (Sft.World.empty.newSelfAware 5) 5 0 7 rfl rfl (by decide)).1⟩

/-- C8: for a living object of a type deriving from `EnableSharedFromThis` that has just been
wrapped in its first `SharedPtr` `h` (raw-pointer wrap, or `MakeShared`), `SharedFromThis()`
returns a present `SharedPtr` `h2` with the control block of `h` and `Get()` equal to `h.Get()`,
and while both live `h.UseCount() == h2.UseCount() == 2`. -/
theorem shared_from_this_after_first_wrap (w : Sft.World) (p k a : Nat)
    (hp : w.weakThis p = .ok k) (hk : w.weak[k]? = some { control_ := none, ptr_ := 0 })
    (ha : a ≠ 0) :
    (∃ w1 w2, Sft.SharedPtr.fromRaw true w p = .ok w1 ∧ Sft.SharedFromThis w1 p = .ok w2 ∧
      w2.shared[w.shared.length]? = some { control_ := some w.blocks.length, ptr_ := p } ∧
      w2.shared[w.shared.length + 1]? = some { control_ := some w.blocks.length, ptr_ := p } ∧
      Sft.SharedPtr.Get w2 w.shared.length = .ok p ∧
      Sft.SharedPtr.Get w2 (w.shared.length + 1) = .ok p ∧
      Sft.SharedPtr.toBool w2 (w.shared.length + 1) = .ok true ∧
      Sft.SharedPtr.UseCount w2 w.shared.length = .ok 2 ∧
      Sft.SharedPtr.UseCount w2 (w.shared.length + 1) = .ok 2) ∧
    (∃ w1 w2, Sft.MakeShared true w a = .ok w1 ∧ Sft.SharedFromThis w1 a = .ok w2 ∧
      w2.shared[w.shared.length]? = some { control_ := some w.blocks.length, ptr_ := a } ∧
      w2.shared[w.shared.length + 1]? = some { control_ := some w.blocks.length, ptr_ := a } ∧
      Sft.SharedPtr.Get w2 w.shared.length = .ok a ∧
      Sft.SharedPtr.Get w2 (w.shared.length + 1) = .ok a ∧
      Sft.SharedPtr.toBool w2 (w.shared.length + 1) = .ok true ∧
      Sft.SharedPtr.UseCount w2 w.shared.length = .ok 2 ∧
      Sft.SharedPtr.UseCount w2 (w.shared.length + 1) = .ok 2) := by
  have hp0 := Sft.weakThis_ne_zero hp
  have hl := Sft.weakThis_lookup hp
  have hlt := Weak.lt_of_getElem? hk
  constructor
  · obtain ⟨w2, h⟩ := Sft.shared_from_this_bound
      (w := Sft.World.mk (w.blocks ++ [Sft.ControlBlock.mk 1 1 false (.pointer p) true false 0 0])
        (w.shared ++ [⟨some w.blocks.length, p⟩]) (w.weak.set k ⟨some w.blocks.length, p⟩)
        w.dead w.selfAware)
      (e := p) (k := k) (c := w.blocks.length) (i := w.shared.length)
      (b := Sft.ControlBlock.mk 1 1 false (.pointer p) true false 0 0)
      (by simp [Sft.World.weakThis, hp0, hl]) (by simp [List.getElem?_set, hlt]) (by simp) rfl rfl
      (by simp)
    refine ⟨_, w2, Sft.from_raw_first_eq w p k hp hk, ?_⟩
    simpa using h
  · obtain ⟨w2, h⟩ := Sft.shared_from_this_bound
      (w := Sft.World.mk (w.blocks ++ [Sft.ControlBlock.mk 1 1 false (.emplace a true) true false 0 0])
        (w.shared ++ [⟨some w.blocks.length, a⟩]) (w.weak ++ [⟨some w.blocks.length, a⟩])
        (a :: w.dead) ((a, w.weak.length) :: w.selfAware))
      (e := a) (k := w.weak.length) (c := w.blocks.length) (i := w.shared.length)
      (b := Sft.ControlBlock.mk 1 1 false (.emplace a true) true false 0 0)
      (by simp [Sft.World.weakThis, ha, List.lookup]) (by simp) (by simp) rfl rfl (by simp)
    refine ⟨_, w2, Sft.make_shared_first_eq w a ha, ?_⟩
    simpa using h

/-- Witness for C8: the object at address 5, just constructed. -/
theorem shared_from_this_after_first_wrap_witness :
    (Sft.World.empty.newSelfAware 5).weakThis 5 = .ok 0 ∧
    (Sft.World.empty.newSelfAware 5).weak[0]? = some { control_ := none, ptr_ := 0 } ∧
    (7 : Nat) ≠ 0 ∧
    ∃ w1 w2, Sft.SharedPtr.fromRaw true (Sft.World.empty.newSelfAware 5) 5 = .ok w1 ∧
      Sft.SharedFromThis w1 5 = .ok w2 ∧
      w2.shared[0]? = some { control_ := some 0, ptr_ := 5 } ∧
      w2.shared[1]? = some { control_ := some 0, ptr_ := 5 } ∧
      Sft.SharedPtr.Get w2 0 = .ok 5 ∧ Sft.SharedPtr.Get w2 1 = .ok 5 ∧
      Sft.SharedPtr.toBool w2 1 = .ok true ∧
      Sft.SharedPtr.UseCount w2 0 = .ok 2 ∧ Sft.SharedPtr.UseCount w2 1 = .ok 2 :=
  ⟨rfl, rfl, by decide,
    (shared_from_this_after_first_wrap (Sft.World.empty.newSelfAware 5) 5 0 7 rfl rfl
      (by decide)).1⟩

/-- C19: re-entrant teardown.  For a living block with strong count 1 and weak count 1, the lock
clear, whose managed object (held through a pointer, or built in place) is self-aware and holds
in its `weak_this_` the only weak reference to the block: the release routine, which
`DecreaseStrong` runs with the destruction lock set, brings the weak count to 0 and returns with
the block not destroyed; the whole `DecreaseStrong` then leaves the block with both counts 0, the
lock clear, the object released once and the block destroyed exactly once. -/
theorem reentrant_teardown (w : Sft.World) (c o k : Nat) (b : Sft.ControlBlock)
    (hb : w.blocks[c]? = some b) (hf : b.freed = false) (hs : b.cnt_strong_ref_ = 1)
    (hw : b.cnt_weak_ref_ = 1) (hl : b.destruction_is_locked_ = false)
    (hd : (b.derived = .pointer o ∧ o ∉ w.dead) ∨ b.derived = .emplace o true)
    (ho : w.weakThis o = .ok k)
    (hwt : w.weak[k]? = some { control_ := some c, ptr_ := o }) :
    (∃ wd bd, Sft.ControlBlock.DeleteSource (w.setBlock c ((b.setStrong 0).setLock true)) c =
        .ok wd ∧ wd.blocks[c]? = some bd ∧ bd.destruction_is_locked_ = true ∧
      bd.cnt_strong_ref_ = 0 ∧ bd.cnt_weak_ref_ = 0 ∧ bd.freed = false ∧
      bd.deletes = b.deletes ∧ bd.releases = b.releases + 1 ∧ bd.derived.live = false) ∧
    Sft.ControlBlock.DecreaseStrong w c = .ok
      { blocks := w.blocks.set c
          { b with cnt_strong_ref_ := 0, cnt_weak_ref_ := 0, derived := b.derived.drop,
                   releases := b.releases + 1, freed := true, deletes := b.deletes + 1 },
        shared := w.shared, weak := w.weak.set k { control_ := none, ptr_ := 0 },
        dead := b.derived.held ++ w.dead,
        selfAware := w.selfAware.filter (fun x => x.1 ≠ o) } := by
  have ho0 := Sft.weakThis_ne_zero ho
  have hk := Sft.weakThis_lookup ho
  have hltc := Weak.lt_of_getElem? hb
  have hbl := Sft.set_block_get (w := w) ((b.setStrong 0).setLock true) hb
  rcases hd with ⟨hd, hdead⟩ | hd
  · constructor
    · refine ⟨_, { (b.setStrong 0).setLock true with
          cnt_weak_ref_ := 0, derived := .pointer 0, releases := b.releases + 1 },
        Sft.delete_source_locked_pointer (b := (b.setStrong 0).setLock true)
        (w.setBlock c ((b.setStrong 0).setLock true)).blocks.length hbl hf hw rfl hd ho0
        (by simpa [Sft.World.setBlock] using hdead) (by simpa [Sft.World.setBlock] using hk)
        (by simpa [Sft.World.setBlock] using hwt), ?_, rfl, rfl, rfl, hf, rfl, rfl, ?_⟩
      · simp [Sft.World.setBlock, List.getElem?_set, hltc, Sft.ControlBlock.setLock,
          Sft.ControlBlock.setStrong]
      · simp [Storage.live]
    · rw [Sft.decrease_strong_self_bound_pointer hb hf hs hw hl hd ho0 hdead hk hwt]
      simp [hd, Storage.drop, Storage.held, ho0]
  · constructor
    · refine ⟨_, { (b.setStrong 0).setLock true with
          cnt_weak_ref_ := 0, derived := .emplace o false, releases := b.releases + 1 },
        Sft.delete_source_locked_emplace (b := (b.setStrong 0).setLock true)
        (w.setBlock c ((b.setStrong 0).setLock true)).blocks.length hbl hf hw rfl hd
        (by simpa [Sft.World.setBlock] using hk)
        (by simpa [Sft.World.setBlock] using hwt), ?_, rfl, rfl, rfl, hf, rfl, rfl, ?_⟩
      · simp [Sft.World.setBlock, List.getElem?_set, hltc, Sft.ControlBlock.setLock,
          Sft.ControlBlock.setStrong]
      · simp [Storage.live]
    · rw [Sft.decrease_strong_self_bound_emplace hb hf hs hw hl hd hk hwt]
      simp [hd, Storage.drop, Storage.held]

/-- Witness for C19: the world right after the first `SharedPtr` to the object at address 5. -/
theorem reentrant_teardown_witness :
    Sft.ControlBlock.DecreaseStrong
      { blocks := [{ cnt_strong_ref_ := 1, cnt_weak_ref_ := 1, destruction_is_locked_ := false,
                     derived := .pointer 5, managed := true, freed := false, releases := 0,
                     deletes := 0 }],
        shared := [{ control_ := some 0, ptr_ := 5 }],
        weak := [{ control_ := some 0, ptr_ := 5 }], dead := [], selfAware := [(5, 0)] } 0 = .ok
      { blocks := [{ cnt_strong_ref_ := 0, cnt_weak_ref_ := 0, destruction_is_locked_ := false,
                     derived := .pointer 0, managed := true, freed := true, releases := 1,
                     deletes := 1 }],
        shared := [{ control_ := some 0, ptr_ := 5 }],
        weak := [{ control_ := none, ptr_ := 0 }], dead := [5], selfAware := [] } :=
  (reentrant_teardown
      { blocks := [{ cnt_strong_ref_ := 1, cnt_weak_ref_ := 1, destruction_is_locked_ := false,
                     derived := .pointer 5, managed := true, freed := false, releases := 0,
                     deletes := 0 }],
        shared := [{ control_ := some 0, ptr_ := 5 }],
        weak := [{ control_ := some 0, ptr_ := 5 }], dead := [], selfAware := [(5, 0)] }
      0 5 0 _ rfl rfl rfl rfl rfl (Or.inl ⟨rfl, by decide⟩) rfl rfl).2

/-- C14: `WeakFromThis()` of a living object of a type deriving from `EnableSharedFromThis`
returns a `WeakPtr` with the control block and the object pointer of `weak_this_`: an absent one,
no block being touched, when `weak_this_` is absent; otherwise, of all blocks only the block of
`weak_this_` changes, its weak count growing by exactly 1 (the counter not being at `2 ^ 64 - 1`)
and its strong count staying.  It throws `BadWeakPtr` in no world. -/
theorem weak_from_this_spec (w : Sft.World) (e k : Nat) (s : WeakPtr)
    (he : w.weakThis e = .ok k) (hk : w.weak[k]? = some s) :
    (s.control_ = none → Sft.WeakFromThis w e = .ok
      { w with weak := w.weak ++ [{ control_ := none, ptr_ := s.ptr_ }] }) ∧
    (∀ (c : Nat) (b : Sft.ControlBlock), s.control_ = some c → w.blocks[c]? = some b →
      b.freed = false →
      Sft.WeakFromThis w e = .ok
        { w with blocks := w.blocks.set c b.IncreaseWeak,
                 weak := w.weak ++ [{ control_ := some c, ptr_ := s.ptr_ }] } ∧
      (b.cnt_weak_ref_ + 1 < sizeMod → b.IncreaseWeak.cnt_weak_ref_ = b.cnt_weak_ref_ + 1) ∧
      b.IncreaseWeak.cnt_strong_ref_ = b.cnt_strong_ref_) ∧
    (∀ (w0 : Sft.World) (e0 : Nat), Sft.WeakFromThis w0 e0 ≠ .error Fault.BadWeakPtr) := by
  refine ⟨fun hc => ?_, fun c b hc hb hf => ⟨?_, fun hlt => ?_, rfl⟩, fun w0 e0 => ?_⟩
  · rw [Sft.weak_from_this_eq he]
    exact Sft.weak_copy_absent_eq hk hc
  · rw [Sft.weak_from_this_eq he]
    exact Sft.weak_copy_present_eq hk hc hb hf
  · simp [Sft.ControlBlock.IncreaseWeak, Sft.ControlBlock.setWeak, incSize_of_lt hlt]
  · cases h : w0.weakThis e0 with
    | error x =>
      have hx : x = Fault.undefined := by
        unfold Sft.World.weakThis at h
        split at h
        · cases h; rfl
        · split at h
          · cases h
          · cases h; rfl
      simp [Sft.WeakFromThis, h, hx, bind, Except.bind]
    | ok j =>
      rw [Sft.weak_from_this_eq h]
      exact Sft.weak_copy_never_throws w0 j

/-- Witness for C14: the object at address 5 after its first `SharedPtr`. -/
theorem weak_from_this_spec_witness :
    (({ blocks := [{ cnt_strong_ref_ := 1, cnt_weak_ref_ := 1, destruction_is_locked_ := false,
                     derived := .pointer 5, managed := true, freed := false, releases := 0,
                     deletes := 0 }],
        shared := [{ control_ := some 0, ptr_ := 5 }],
        weak := [{ control_ := some 0, ptr_ := 5 }], dead := [], selfAware := [(5, 0)] } :
          Sft.World).weakThis 5 = .ok 0) ∧
    Sft.WeakFromThis
      { blocks := [{ cnt_strong_ref_ := 1, cnt_weak_ref_ := 1, destruction_is_locked_ := false,
                     derived := .pointer 5, managed := true, freed := false, releases := 0,
                     deletes := 0 }],
        shared := [{ control_ := some 0, ptr_ := 5 }],
        weak := [{ control_ := some 0, ptr_ := 5 }], dead := [], selfAware := [(5, 0)] } 5 = .ok
      { blocks := [{ cnt_strong_ref_ := 1, cnt_weak_ref_ := 2, destruction_is_locked_ := false,
                     derived := .pointer 5, managed := true, freed := false, releases := 0,
                     deletes := 0 }],
        shared := [{ control_ := some 0, ptr_ := 5 }],
        weak := [{ control_ := some 0, ptr_ := 5 }, { control_ := some 0, ptr_ := 5 }],
        dead := [], selfAware := [(5, 0)] } :=
  ⟨rfl,
    ((weak_from_this_spec
      { blocks := [{ cnt_strong_ref_ := 1, cnt_weak_ref_ := 1, destruction_is_locked_ := false,
                     derived := .pointer 5, managed := true, freed := false, releases := 0,
                     deletes := 0 }],
        shared := [{ control_ := some 0, ptr_ := 5 }],
        weak := [{ control_ := some 0, ptr_ := 5 }], dead := [], selfAware := [(5, 0)] }
      5 0 { control_ := some 0, ptr_ := 5 } rfl rfl).2.1 0 _ rfl rfl rfl).1⟩

/-- C15: `operator==` on two `SharedPtr` returns true exactly when both have a control block and
it is the same block: two handles on one block with different object pointers compare equal, two
handles with the same object pointer on different blocks compare unequal, and an absent handle
compares unequal to every handle, itself included. -/
theorem shared_eq_spec (l r : SharedPtr) :
    (Sft.SharedPtr.eq l r = true ↔ ∃ c, l.control_ = some c ∧ r.control_ = some c) ∧
    (∀ c p q : Nat, Sft.SharedPtr.eq { control_ := some c, ptr_ := p }
      { control_ := some c, ptr_ := q } = true) ∧
    (∀ c d p : Nat, c ≠ d → Sft.SharedPtr.eq { control_ := some c, ptr_ := p }
      { control_ := some d, ptr_ := p } = false) ∧
    (∀ (p : Nat) (x : SharedPtr), Sft.SharedPtr.eq { control_ := none, ptr_ := p } x = false ∧
      Sft.SharedPtr.eq x { control_ := none, ptr_ := p } = false) ∧
    (∀ p : Nat, Sft.SharedPtr.eq { control_ := none, ptr_ := p }
      { control_ := none, ptr_ := p } = false) := by
  refine ⟨?_, ?_, ?_, ?_, ?_⟩
  · cases hl : l.control_ <;> cases hr : r.control_ <;> simp [Sft.SharedPtr.eq, hl, hr, eq_comm]
  · intro c p q
    simp [Sft.SharedPtr.eq]
  · intro c d p hcd
    simp [Sft.SharedPtr.eq, hcd]
  · intro p x
    cases hx : x.control_ <;> simp [Sft.SharedPtr.eq, hx]
  · intro p
    simp [Sft.SharedPtr.eq]

/-- C25 (the code at the failing inputs): for a pointee type deriving from
`EnableSharedFromThis`, default construction and construction from `nullptr`, the raw-pointer
wrap of a null pointer, the construction from `(nullptr, nullptr)` and `Lock()` on an absent or
expired `WeakPtr` all reach `InitWeakThis` with a null `ptr_` and dereference it. -/
theorem null_self_binding_undefined (w : Sft.World) :
    Sft.SharedPtr.construct true w = .error Fault.undefined ∧
    Sft.SharedPtr.fromRaw true w 0 = .error Fault.undefined ∧
    Sft.SharedPtr.fromBlock true w 0 none = .error Fault.undefined ∧
    Sft.WeakPtr.Lock true { w with weak := { control_ := none, ptr_ := 0 } :: w.weak } 0 =
      .error Fault.undefined := by
  refine ⟨?_, ?_, Sft.from_block_null_undefined w none, ?_⟩
  · simp [Sft.SharedPtr.construct, Sft.SharedPtr.PerhapsInitWeakThis, Sft.World.sharedAt,
      Sft.World.newShared, Sft.init_weak_this_null, bind, Except.bind]
  · simp [Sft.SharedPtr.fromRaw, Sft.SharedPtr.PerhapsInitWeakThis, Sft.World.sharedAt,
      Sft.World.newShared, Sft.init_weak_this_null, bind, Except.bind]
  · simp [Sft.WeakPtr.Lock, Sft.World.weakAt, Sft.from_block_null_undefined, bind, Except.bind]

/-- C26 (the code at the failing input): while the release routine of a block runs (strong count
0, destruction lock set, the block not destroyed), the promoting constructor throws `BadWeakPtr`
on every `WeakPtr` to the block, and `Lock()` of a `WeakPtr<T>` appends an absent handle and
changes no block when `T` does not derive from `EnableSharedFromThis`; when `T` does, `Lock()`
constructs `SharedPtr<T>(nullptr, nullptr)`, whose `PerhapsInitWeakThis()` dereferences the null
pointer. -/
theorem lock_during_teardown (w : Sft.World) (j c : Nat) (s : WeakPtr) (b : Sft.ControlBlock)
    (hs : w.weak[j]? = some s) (hc : s.control_ = some c) (hb : w.blocks[c]? = some b)
    (hf : b.freed = false) (h0 : b.cnt_strong_ref_ = 0) (_ : b.destruction_is_locked_ = true) :
    Sft.SharedPtr.fromWeak w j = .error Fault.BadWeakPtr ∧
    Sft.WeakPtr.Lock false w j = .ok
      { w with shared := w.shared ++ [{ control_ := none, ptr_ := 0 }] } ∧
    Sft.WeakPtr.Lock true w j = .error Fault.undefined := by
  refine ⟨Sft.sft_shared_from_weak_dead_eq hs hc hb hf h0, ?_, ?_⟩
  · simp [Sft.WeakPtr.Lock, Sft.sft_weakAt_ok hs, hc, Sft.sft_block_ok hb hf,
      Sft.ControlBlock.IsResourceAlive, h0, Sft.from_block_plain_eq, bind, Except.bind]
  · simp [Sft.WeakPtr.Lock, Sft.sft_weakAt_ok hs, hc, Sft.sft_block_ok hb hf,
      Sft.ControlBlock.IsResourceAlive, h0, Sft.from_block_null_undefined, bind, Except.bind]

/-- Witness for C26: the block of the object at address 5 while `delete` runs on the object, with
one `WeakPtr` to the block. -/
theorem lock_during_teardown_witness :
    Sft.WeakPtr.Lock true
      { blocks := [{ cnt_strong_ref_ := 0, cnt_weak_ref_ := 1, destruction_is_locked_ := true,
                     derived := .pointer 0, managed := true, freed := false, releases := 1,
                     deletes := 0 }],
        shared := [], weak := [{ control_ := some 0, ptr_ := 5 }], dead := [5],
        selfAware := [] } 0 = .error Fault.undefined :=
  (lock_during_teardown
      { blocks := [{ cnt_strong_ref_ := 0, cnt_weak_ref_ := 1, destruction_is_locked_ := true,
                     derived := .pointer 0, managed := true, freed := false, releases := 1,
                     deletes := 0 }],
        shared := [], weak := [{ control_ := some 0, ptr_ := 5 }], dead := [5],
        selfAware := [] } 0 0 { control_ := some 0, ptr_ := 5 } _ rfl rfl rfl rfl rfl rfl).2.2

/-- C11 (counterexample): the object at address 5 is wrapped in its first `SharedPtr`, so its
`weak_this_` refers to block 0; the aliasing constructor applied to the owner of another object
(block 1) and the pointer 5 then makes `weak_this_` refer to block 1. -/
theorem aliasing_rebinds_weak_this :
    ∃ w2 w3 : Sft.World,
      (Sft.SharedPtr.fromRaw true (Sft.World.empty.newSelfAware 5) 5 >>= fun w1 =>
        Sft.SharedPtr.fromRaw false w1 7) = .ok w2 ∧
      w2.weakThis 5 = .ok 0 ∧ w2.weak[0]? = some { control_ := some 0, ptr_ := 5 } ∧
      Sft.SharedPtr.aliasing true w2 1 5 = .ok w3 ∧
      w3.weakThis 5 = .ok 0 ∧ w3.weak[0]? = some { control_ := some 1, ptr_ := 5 } :=
  ⟨{ blocks := [{ cnt_strong_ref_ := 1, cnt_weak_ref_ := 1, destruction_is_locked_ := false,
                  derived := .pointer 5, managed := true, freed := false, releases := 0,
                  deletes := 0 },
                { cnt_strong_ref_ := 1, cnt_weak_ref_ := 0, destruction_is_locked_ := false,
                  derived := .pointer 7, managed := true, freed := false, releases := 0,
                  deletes := 0 }],
     shared := [{ control_ := some 0, ptr_ := 5 }, { control_ := some 1, ptr_ := 7 }],
     weak := [{ control_ := some 0, ptr_ := 5 }], dead := [], selfAware := [(5, 0)] },
   { blocks := [{ cnt_strong_ref_ := 1, cnt_weak_ref_ := 0, destruction_is_locked_ := false,
                  derived := .pointer 5, managed := true, freed := false, releases := 0,
                  deletes := 0 },
                { cnt_strong_ref_ := 2, cnt_weak_ref_ := 1, destruction_is_locked_ := false,
                  derived := .pointer 7, managed := true, freed := false, releases := 0,
                  deletes := 0 }],
     shared := [{ control_ := some 0, ptr_ := 5 }, { control_ := some 1, ptr_ := 7 },
                { control_ := some 1, ptr_ := 5 }],
     weak := [{ control_ := some 1, ptr_ := 5 }], dead := [], selfAware := [(5, 0)] },
   rfl, rfl, rfl, rfl, rfl, rfl⟩

/-- C11 (amended): while `weak_this_` of a living object refers to a block `c` that is not
destroyed and whose counters are below `2 ^ 64 - 1`, the aliasing constructor with a pointer to
the object applied to a handle on `c`, the copy of a handle on `c` to the object, a move
construction and a promotion of `weak_this_` leave `weak_this_` and the weak count of `c` as they
are; the aliasing constructor applied to a handle on another block `d` rebinds `weak_this_` to
`d`, whose weak count grows by 1 while that of `c` drops by 1. -/
theorem weak_this_binding_transitions (w : Sft.World) (e k c : Nat) (b : Sft.ControlBlock)
    (hb : w.blocks[c]? = some b) (hf : b.freed = false) (h0 : b.cnt_strong_ref_ ≠ 0)
    (h1 : b.cnt_strong_ref_ + 1 < sizeMod) (hw : b.cnt_weak_ref_ < sizeMod)
    (he : w.weakThis e = .ok k) (hk : w.weak[k]? = some { control_ := some c, ptr_ := e }) :
    (∀ (i : Nat) (s : SharedPtr), w.shared[i]? = some s → s.control_ = some c →
      Sft.SharedPtr.aliasing true w i e = .ok
        { w with blocks := w.blocks.set c b.IncreaseStrong,
                 shared := w.shared ++ [{ control_ := some c, ptr_ := e }] }) ∧
    (∀ i : Nat, w.shared[i]? = some { control_ := some c, ptr_ := e } →
      Sft.SharedPtr.copy true w i = .ok
        { w with blocks := w.blocks.set c b.IncreaseStrong,
                 shared := w.shared ++ [{ control_ := some c, ptr_ := e }] }) ∧
    b.IncreaseStrong.cnt_weak_ref_ = b.cnt_weak_ref_ ∧
    (∀ (i : Nat) (s : SharedPtr), w.shared[i]? = some s →
      Sft.SharedPtr.move w i = .ok
        { w with shared := (w.shared ++ [s]).set i { control_ := none, ptr_ := 0 } }) ∧
    Sft.SharedFromThis w e = .ok
      { w with blocks := w.blocks.set c b.IncreaseStrong,
               shared := w.shared ++ [{ control_ := some c, ptr_ := e }] } ∧
    (∀ (i d : Nat) (s : SharedPtr) (bd : Sft.ControlBlock), w.shared[i]? = some s →
      s.control_ = some d → d ≠ c → w.blocks[d]? = some bd → bd.freed = false →
      Sft.SharedPtr.aliasing true w i e = .ok
        { w with blocks := (w.blocks.set d bd.IncreaseStrong.IncreaseWeak).set c
                   (b.setWeak (decSize b.cnt_weak_ref_)),
                 shared := w.shared ++ [{ control_ := some d, ptr_ := e }],
                 weak := w.weak.set k { control_ := some d, ptr_ := e } }) := by
  refine ⟨fun i s hs hc => ?_, fun i hs => ?_, rfl, fun i s hs => Sft.sft_shared_move_eq hs, ?_,
    fun i d s bd hs hc hdc hbd hfd => ?_⟩
  · rw [Sft.shared_aliasing_bind_eq e hs hc hb hf]
    exact Sft.bind_again_same hb hf h1 hw he hk
  · rw [Sft.shared_copy_bind_eq hs rfl hb hf]
    exact Sft.bind_again_same hb hf h1 hw he hk
  · rw [Sft.shared_from_this_eq he]
    exact Sft.sft_shared_from_weak_alive_eq hk rfl hb hf h0
  · rw [Sft.shared_aliasing_bind_eq e hs hc hbd hfd]
    exact Sft.bind_again_other hbd hfd he hk rfl (Ne.symm hdc) hb hf h0

/-- Witness for C11 (amended): the object at address 5 bound to block 0, and the owner of block 1
in slot 1. -/
theorem weak_this_binding_transitions_witness :
    Sft.SharedPtr.aliasing true
      { blocks := [{ cnt_strong_ref_ := 1, cnt_weak_ref_ := 1, destruction_is_locked_ := false,
                     derived := .pointer 5, managed := true, freed := false, releases := 0,
                     deletes := 0 },
                   { cnt_strong_ref_ := 1, cnt_weak_ref_ := 0, destruction_is_locked_ := false,
                     derived := .pointer 7, managed := true, freed := false, releases := 0,
                     deletes := 0 }],
        shared := [{ control_ := some 0, ptr_ := 5 }, { control_ := some 1, ptr_ := 7 }],
        weak := [{ control_ := some 0, ptr_ := 5 }], dead := [], selfAware := [(5, 0)] } 0 5 =
      .ok
      { blocks := [{ cnt_strong_ref_ := 2, cnt_weak_ref_ := 1, destruction_is_locked_ := false,
                     derived := .pointer 5, managed := true, freed := false, releases := 0,
                     deletes := 0 },
                   { cnt_strong_ref_ := 1, cnt_weak_ref_ := 0, destruction_is_locked_ := false,
                     derived := .pointer 7, managed := true, freed := false, releases := 0,
                     deletes := 0 }],
        shared := [{ control_ := some 0, ptr_ := 5 }, { control_ := some 1, ptr_ := 7 },
                   { control_ := some 0, ptr_ := 5 }],
        weak := [{ control_ := some 0, ptr_ := 5 }], dead := [], selfAware := [(5, 0)] } :=
  (weak_this_binding_transitions
      { blocks := [{ cnt_strong_ref_ := 1, cnt_weak_ref_ := 1, destruction_is_locked_ := false,
                     derived := .pointer 5, managed := true, freed := false, releases := 0,
                     deletes := 0 },
                   { cnt_strong_ref_ := 1, cnt_weak_ref_ := 0, destruction_is_locked_ := false,
                     derived := .pointer 7, managed := true, freed := false, releases := 0,
                     deletes := 0 }],
        shared := [{ control_ := some 0, ptr_ := 5 }, { control_ := some 1, ptr_ := 7 }],
        weak := [{ control_ := some 0, ptr_ := 5 }], dead := [], selfAware := [(5, 0)] }
      5 0 0 _ rfl rfl (by decide) (by decide) (by decide) rfl rfl).1 0 _ rfl rfl

/-- C12 (counterexample): after an aliasing construction from the owner of block 1 the object
at address 5 is bound to block 1; copying its first handle (slot 0, block 0) makes
`weak_this_` refer to block 0 again: the weak count of block 1 drops from 1 to 0 and that of
block 0 grows from 0 to 1. -/
theorem copy_rebinds_weak_this :
    ∃ w3 w4 : Sft.World,
      (Sft.SharedPtr.fromRaw true (Sft.World.empty.newSelfAware 5) 5 >>= fun w1 =>
        Sft.SharedPtr.fromRaw false w1 7 >>= fun w2 =>
        Sft.SharedPtr.aliasing true w2 1 5) = .ok w3 ∧
      w3.shared[0]? = some { control_ := some 0, ptr_ := 5 } ∧
      w3.weakThis 5 = .ok 0 ∧ w3.weak[0]? = some { control_ := some 1, ptr_ := 5 } ∧
      w3.blocks.map (fun b => b.cnt_weak_ref_) = [0, 1] ∧
      Sft.SharedPtr.copy true w3 0 = .ok w4 ∧
      w4.weak[0]? = some { control_ := some 0, ptr_ := 5 } ∧
      w4.blocks.map (fun b => b.cnt_weak_ref_) = [1, 0] :=
  ⟨{ blocks := [{ cnt_strong_ref_ := 1, cnt_weak_ref_ := 0, destruction_is_locked_ := false,
                  derived := .pointer 5, managed := true, freed := false, releases := 0,
                  deletes := 0 },
                { cnt_strong_ref_ := 2, cnt_weak_ref_ := 1, destruction_is_locked_ := false,
                  derived := .pointer 7, managed := true, freed := false, releases := 0,
                  deletes := 0 }],
     shared := [{ control_ := some 0, ptr_ := 5 }, { control_ := some 1, ptr_ := 7 },
                { control_ := some 1, ptr_ := 5 }],
     weak := [{ control_ := some 1, ptr_ := 5 }], dead := [], selfAware := [(5, 0)] },
   { blocks := [{ cnt_strong_ref_ := 2, cnt_weak_ref_ := 1, destruction_is_locked_ := false,
                  derived := .pointer 5, managed := true, freed := false, releases := 0,
                  deletes := 0 },
                { cnt_strong_ref_ := 2, cnt_weak_ref_ := 0, destruction_is_locked_ := false,
                  derived := .pointer 7, managed := true, freed := false, releases := 0,
                  deletes := 0 }],
     shared := [{ control_ := some 0, ptr_ := 5 }, { control_ := some 1, ptr_ := 7 },
                { control_ := some 1, ptr_ := 5 }, { control_ := some 0, ptr_ := 5 }],
     weak := [{ control_ := some 0, ptr_ := 5 }], dead := [], selfAware := [(5, 0)] },
   rfl, rfl, rfl, rfl, rfl, rfl, rfl, rfl⟩

/-- C12 (amended): for a present handle `h` on block `c` to a living self-aware object, the block
not destroyed and its counters below `2 ^ 64 - 1`.  When `weak_this_` refers to `c`, the copy of
`h` leaves `weak_this_` and the weak count of `c` as they were (the strong count grows by 1);
the move construction from `h` changes no block and no `WeakPtr`.  When `weak_this_` refers to
another block `d` that still has a strong reference, the copy of `h` makes `weak_this_` refer to
`c`: the weak count of `c` grows by 1, that of `d` drops by 1. -/
theorem copy_move_weak_this (w : Sft.World) (i e k c : Nat) (b : Sft.ControlBlock) (m : WeakPtr)
    (hs : w.shared[i]? = some { control_ := some c, ptr_ := e })
    (hb : w.blocks[c]? = some b) (hf : b.freed = false)
    (h1 : b.cnt_strong_ref_ + 1 < sizeMod) (hw : b.cnt_weak_ref_ < sizeMod)
    (he : w.weakThis e = .ok k) (hk : w.weak[k]? = some m) :
    (m = { control_ := some c, ptr_ := e } →
      Sft.SharedPtr.copy true w i = .ok
        { w with blocks := w.blocks.set c b.IncreaseStrong,
                 shared := w.shared ++ [{ control_ := some c, ptr_ := e }] } ∧
      b.IncreaseStrong.cnt_weak_ref_ = b.cnt_weak_ref_ ∧
      b.IncreaseStrong.cnt_strong_ref_ = b.cnt_strong_ref_ + 1) ∧
    Sft.SharedPtr.move w i = .ok
      { w with shared := (w.shared ++ [({ control_ := some c, ptr_ := e } : SharedPtr)]).set i
                 { control_ := none, ptr_ := 0 } } ∧
    (∀ (d : Nat) (bd : Sft.ControlBlock), m.control_ = some d → d ≠ c →
      w.blocks[d]? = some bd → bd.freed = false → bd.cnt_strong_ref_ ≠ 0 →
      Sft.SharedPtr.copy true w i = .ok
        { w with blocks := (w.blocks.set c b.IncreaseStrong.IncreaseWeak).set d
                   (bd.setWeak (decSize bd.cnt_weak_ref_)),
                 shared := w.shared ++ [{ control_ := some c, ptr_ := e }],
                 weak := w.weak.set k { control_ := some c, ptr_ := e } }) := by
  refine ⟨fun hm => ⟨?_, rfl, ?_⟩, Sft.sft_shared_move_eq hs, fun d bd hm hdc hbd hfd h0 => ?_⟩
  · rw [Sft.shared_copy_bind_eq hs rfl hb hf]
    exact Sft.bind_again_same hb hf h1 hw he (hm ▸ hk)
  · simp [Sft.ControlBlock.IncreaseStrong, Sft.ControlBlock.setStrong, incSize_of_lt h1]
  · rw [Sft.shared_copy_bind_eq hs rfl hb hf]
    exact Sft.bind_again_other hb hf he hk hm hdc hbd hfd h0

/-- Witness for C12 (amended): the object at address 5 bound to the block of its only handle. -/
theorem copy_move_weak_this_witness :
    Sft.SharedPtr.copy true
      { blocks := [{ cnt_strong_ref_ := 1, cnt_weak_ref_ := 1, destruction_is_locked_ := false,
                     derived := .pointer 5, managed := true, freed := false, releases := 0,
                     deletes := 0 }],
        shared := [{ control_ := some 0, ptr_ := 5 }],
        weak := [{ control_ := some 0, ptr_ := 5 }], dead := [], selfAware := [(5, 0)] } 0 = .ok
      { blocks := [{ cnt_strong_ref_ := 2, cnt_weak_ref_ := 1, destruction_is_locked_ := false,
                     derived := .pointer 5, managed := true, freed := false, releases := 0,
                     deletes := 0 }],
        shared := [{ control_ := some 0, ptr_ := 5 }, { control_ := some 0, ptr_ := 5 }],
        weak := [{ control_ := some 0, ptr_ := 5 }], dead := [], selfAware := [(5, 0)] } :=
  ((copy_move_weak_this
      { blocks := [{ cnt_strong_ref_ := 1, cnt_weak_ref_ := 1, destruction_is_locked_ := false,
                     derived := .pointer 5, managed := true, freed := false, releases := 0,
                     deletes := 0 }],
        shared := [{ control_ := some 0, ptr_ := 5 }],
        weak := [{ control_ := some 0, ptr_ := 5 }], dead := [], selfAware := [(5, 0)] }
      0 5 0 0 _ _ rfl rfl rfl (by decide) (by decide) rfl rfl).1 rfl).1

namespace Weak

theorem delete_source_shape {b : ControlBlock} {h : List Nat} {r : ControlBlock × List Nat}
    (e : b.DeleteSource h = .ok r) :
    r.1 = { b with derived := r.1.derived, releases := r.1.releases } ∧
    (r.1.derived = b.derived ∨ r.1.derived = b.derived.drop) := by
  unfold ControlBlock.DeleteSource at e
  split at e
  · cases hr : b.derived.release h with
    | error x => simp [hr, bind, Except.bind] at e
    | ok h1 =>
      simp [hr, bind, Except.bind, pure, Except.pure] at e
      subst e
      exact ⟨rfl, Or.inr rfl⟩
  · simp [pure, Except.pure] at e
    subst e
    exact ⟨rfl, Or.inl rfl⟩

theorem delete_this_shape {b : ControlBlock} {h : List Nat} {r : ControlBlock × List Nat}
    (e : b.deleteThis h = .ok r) :
    r.1.derived = b.derived ∨ r.1.derived = b.derived.drop := by
  unfold ControlBlock.deleteThis at e
  cases hr : b.DeleteSource h with
  | error x => simp [hr, bind, Except.bind] at e
  | ok r1 =>
    simp [hr, bind, Except.bind, pure, Except.pure] at e
    subst e
    exact (delete_source_shape hr).2

end Weak

namespace Sft

theorem locked_unlocked (b : ControlBlock) :
    ControlBlock.locked b.unlocked b.destruction_is_locked_ = b := rfl

theorem unlocked_locked (x : Weak.ControlBlock) (l : Bool) :
    (ControlBlock.locked x l).unlocked = x := rfl

theorem unlocked_get (w : World) (c : Nat) :
    w.unlocked.blocks[c]? = (w.blocks[c]?).map ControlBlock.unlocked := by
  simp [World.unlocked]

theorem unlocked_put (w : World) (c : Nat) (x : Weak.ControlBlock) (l : Bool) (h : List Nat) :
    World.unlocked { w with blocks := w.blocks.set c (ControlBlock.locked x l), dead := h } =
      { w.unlocked with blocks := w.unlocked.blocks.set c x, dead := h } := by
  simp [World.unlocked, List.map_set, unlocked_locked]

/-- The destructor of an object that is not self-aware. -/
theorem destructK_plain {d : World → Nat → Except Fault World} {w : World} {p : Nat}
    (hk : w.selfAware.lookup p = none) : destructK d w p = .ok w := by
  simp [destructK, hk, pure, Except.pure]

/-- The release routine of a block whose object is not self-aware, next to the release routine of
the variant without lock. -/
theorem delete_sourceK_plain {d : World → Nat → Except Fault World} {w : World} {c : Nat}
    {b : ControlBlock} (hb : w.blocks[c]? = some b) (hf : b.freed = false)
    (ho : ∀ p, b.derived.object = some p → w.selfAware.lookup p = none) :
    DeleteSourceK d w c =
      (b.unlocked.DeleteSource w.dead).map (fun r =>
        { w with blocks := w.blocks.set c (ControlBlock.locked r.1 b.destruction_is_locked_),
                 dead := r.2 }) := by
  cases hd : b.derived with
  | pointer p =>
    by_cases hp : p = 0
    · subst hp
      simp [DeleteSourceK, sft_block_ok hb hf, hd, Weak.ControlBlock.DeleteSource,
        ControlBlock.unlocked, Storage.live, bind, Except.bind, pure, Except.pure, Except.map]
      have hbb : ControlBlock.locked
          { cnt_strong_ref_ := b.cnt_strong_ref_, cnt_weak_ref_ := b.cnt_weak_ref_,
            derived := Storage.pointer 0, managed := b.managed, freed := b.freed,
            releases := b.releases, deletes := b.deletes } b.destruction_is_locked_ = b := by
        rw [← hd]; rfl
      rw [hbb, list_set_self hb]
    · have hl := ho p (by simp [hd, Storage.object, hp])
      by_cases hdead : p ∈ w.dead
      · simp [DeleteSourceK, sft_block_ok hb hf, hd, Weak.ControlBlock.DeleteSource,
          ControlBlock.unlocked, Storage.live, Storage.release, deleteK, deleteObject, hdead, hp,
          bind, Except.bind, pure, Except.pure, Except.map, World.setBlock]
      · simp [DeleteSourceK, sft_block_ok hb hf, hd, Weak.ControlBlock.DeleteSource,
          ControlBlock.unlocked, Storage.live, Storage.release, deleteK, deleteObject, hdead, hp,
          bind, Except.bind, pure, Except.pure, Except.map, World.setBlock, Storage.drop]
        rw [destructK_plain (by simpa using hl)]
        rfl
  | emplace a alive =>
    cases alive with
    | false =>
      simp [DeleteSourceK, sft_block_ok hb hf, hd, Weak.ControlBlock.DeleteSource,
        ControlBlock.unlocked, Storage.live, bind, Except.bind, pure, Except.pure, Except.map]
      have hbb : ControlBlock.locked
          { cnt_strong_ref_ := b.cnt_strong_ref_, cnt_weak_ref_ := b.cnt_weak_ref_,
            derived := Storage.emplace a false, managed := b.managed, freed := b.freed,
            releases := b.releases, deletes := b.deletes } b.destruction_is_locked_ = b := by
        rw [← hd]; rfl
      rw [hbb, list_set_self hb]
    | true =>
      have hl := ho a (by simp [hd, Storage.object])
      simp [DeleteSourceK, sft_block_ok hb hf, hd, Weak.ControlBlock.DeleteSource,
        ControlBlock.unlocked, Storage.live, Storage.release,
        bind, Except.bind, pure, Except.pure, Except.map, World.setBlock, Storage.drop]
      rw [destructK_plain (by simpa using hl)]
      rfl

/-- The statement `delete this` on such a block, next to the one of the variant without lock. -/
theorem delete_thisK_plain {d : World → Nat → Except Fault World} {w : World} {c : Nat}
    {b : ControlBlock} (hb : w.blocks[c]? = some b) (hf : b.freed = false)
    (ho : ∀ p, b.derived.object = some p → w.selfAware.lookup p = none) :
    deleteThisK d w c =
      (b.unlocked.deleteThis w.dead).map (fun r =>
        { w with blocks := w.blocks.set c (ControlBlock.locked r.1 b.destruction_is_locked_),
                 dead := r.2 }) := by
  have hlt := Weak.lt_of_getElem? hb
  unfold deleteThisK Weak.ControlBlock.deleteThis
  rw [delete_sourceK_plain hb hf ho]
  cases hr : b.unlocked.DeleteSource w.dead with
  | error x => simp [Except.map, bind, Except.bind]
  | ok r =>
    obtain ⟨x, h1⟩ := r
    have hsh := (Weak.delete_source_shape hr).1
    have hfr : x.freed = false := by
      have := congrArg Weak.ControlBlock.freed hsh
      simpa [ControlBlock.unlocked, hf] using this
    have hdel : x.deletes = b.deletes := by
      have := congrArg Weak.ControlBlock.deletes hsh
      simpa [ControlBlock.unlocked] using this
    have hset : ∀ y : ControlBlock, (w.blocks.set c y)[c]? = some y :=
      fun y => List.getElem?_set_self hlt
    simp [Except.map, bind, Except.bind, pure, Except.pure, World.block, hset,
      ControlBlock.locked, hfr, hdel, World.setBlock, List.set_set, ControlBlock.unlocked]
end Sft
namespace Sft

theorem object_drop (s : Storage) : s.drop.object = none := by
  cases s <;> simp [Storage.drop, Storage.object]

theorem decrease_weak_plain {w : World} {c : Nat} {b : ControlBlock}
    (hb : w.blocks[c]? = some b) (hf : b.freed = false) (hl : b.destruction_is_locked_ = false)
    (ho : ∀ p, b.derived.object = some p → w.selfAware.lookup p = none) :
    ControlBlock.DecreaseWeak w c =
      (b.unlocked.DecreaseWeak w.dead).map (fun r =>
        { w with blocks := w.blocks.set c (ControlBlock.locked r.1 false), dead := r.2 }) := by
  have hlt := Weak.lt_of_getElem? hb
  have hset : ∀ y : ControlBlock, (w.blocks.set c y)[c]? = some y :=
    fun y => List.getElem?_set_self hlt
  show DecreaseWeakK (DecreaseWeakFuel w.blocks.length) w c = _
  by_cases hc : b.cnt_strong_ref_ = 0 ∧ decSize b.cnt_weak_ref_ = 0
  · rw [decrease_weakK_last hb hf ⟨hl, hc⟩]
    have h2 := delete_thisK_plain (d := DecreaseWeakFuel w.blocks.length)
      (w := w.setBlock c (b.setWeak (decSize b.cnt_weak_ref_))) (c := c)
      (b := b.setWeak (decSize b.cnt_weak_ref_)) (hset _) hf ho
    rw [h2]
    have hc2 : (b.unlocked.setWeak (decSize b.unlocked.cnt_weak_ref_)).cnt_strong_ref_ = 0 ∧
        (b.unlocked.setWeak (decSize b.unlocked.cnt_weak_ref_)).cnt_weak_ref_ = 0 := hc
    simp only [Weak.ControlBlock.DecreaseWeak, hc2, and_self, if_true]
    have e1 : (b.setWeak (decSize b.cnt_weak_ref_)).unlocked =
        b.unlocked.setWeak (decSize b.unlocked.cnt_weak_ref_) := rfl
    rw [e1]
    simp only [show ∀ y, (w.setBlock c y).dead = w.dead from fun _ => rfl]
    cases (b.unlocked.setWeak (decSize b.unlocked.cnt_weak_ref_)).deleteThis w.dead with
    | error x => rfl
    | ok r => simp [Except.map, World.setBlock, List.set_set, ControlBlock.setWeak, hl]
  · rw [decrease_weakK_keep hb hf (fun h => hc h.2)]
    have hc2 : ¬ ((b.unlocked.setWeak (decSize b.unlocked.cnt_weak_ref_)).cnt_strong_ref_ = 0 ∧
        (b.unlocked.setWeak (decSize b.unlocked.cnt_weak_ref_)).cnt_weak_ref_ = 0) := hc
    simp only [Weak.ControlBlock.DecreaseWeak, hc2, if_false, pure, Except.pure, Except.map]
    simp [World.setBlock, ControlBlock.locked, ControlBlock.setWeak, Weak.ControlBlock.setWeak,
      ControlBlock.unlocked, hl]

theorem locked_set_lock (x : Weak.ControlBlock) (l l2 : Bool) :
    (ControlBlock.locked x l).setLock l2 = ControlBlock.locked x l2 := rfl

theorem locked_freed (x : Weak.ControlBlock) (l : Bool) :
    (ControlBlock.locked x l).freed = x.freed := rfl

theorem locked_lock (x : Weak.ControlBlock) (l : Bool) :
    (ControlBlock.locked x l).destruction_is_locked_ = l := rfl

theorem locked_strong (x : Weak.ControlBlock) (l : Bool) :
    (ControlBlock.locked x l).cnt_strong_ref_ = x.cnt_strong_ref_ := rfl

theorem locked_weak (x : Weak.ControlBlock) (l : Bool) :
    (ControlBlock.locked x l).cnt_weak_ref_ = x.cnt_weak_ref_ := rfl

theorem decrease_strong_plain {w : World} {c : Nat} {b : ControlBlock}
    (hb : w.blocks[c]? = some b) (hf : b.freed = false) (hl : b.destruction_is_locked_ = false)
    (ho : ∀ p, b.derived.object = some p → w.selfAware.lookup p = none) :
    ControlBlock.DecreaseStrong w c =
      (b.unlocked.DecreaseStrong w.dead).map (fun r =>
        { w with blocks := w.blocks.set c (ControlBlock.locked r.1 false), dead := r.2 }) := by
  have hlt := Weak.lt_of_getElem? hb
  have hset : ∀ y : ControlBlock, (w.blocks.set c y)[c]? = some y :=
    fun y => List.getElem?_set_self hlt
  unfold ControlBlock.DecreaseStrong Weak.ControlBlock.DecreaseStrong
  simp only [sft_block_ok hb hf, bind, Except.bind]
  by_cases h0 : decSize b.cnt_strong_ref_ = 0
  · have h0a : (b.setStrong (decSize b.cnt_strong_ref_)).cnt_strong_ref_ = 0 := h0
    have h0b : (b.unlocked.setStrong (decSize b.unlocked.cnt_strong_ref_)).cnt_strong_ref_ = 0 := h0
    simp only [h0a, h0b, if_true]
    have h1 := delete_sourceK_plain (d := DecreaseWeakFuel w.fuel)
      (w := (w.setBlock c (b.setStrong (decSize b.cnt_strong_ref_))).setBlock c
        ((b.setStrong (decSize b.cnt_strong_ref_)).setLock true)) (c := c)
      (b := (b.setStrong (decSize b.cnt_strong_ref_)).setLock true)
      (by simp [World.setBlock, List.set_set, hset]) hf ho
    rw [h1]
    have e1 : ((b.setStrong (decSize b.cnt_strong_ref_)).setLock true).unlocked =
        b.unlocked.setStrong (decSize b.unlocked.cnt_strong_ref_) := rfl
    rw [e1]
    simp only [show ∀ (v : World) y, (v.setBlock c y).dead = v.dead from fun _ _ => rfl]
    cases hr : (b.unlocked.setStrong (decSize b.unlocked.cnt_strong_ref_)).DeleteSource w.dead with
    | error x => rfl
    | ok r =>
      obtain ⟨x, hd⟩ := r
      obtain ⟨hsh, hder⟩ := Weak.delete_source_shape hr
      have hfr : x.freed = false := by
        have := congrArg Weak.ControlBlock.freed hsh
        simpa [ControlBlock.unlocked, Weak.ControlBlock.setStrong, hf] using this
      have hox : ∀ p, x.derived.object = some p → w.selfAware.lookup p = none := by
        intro p hp
        have hder2 : x.derived = b.derived ∨ x.derived = b.derived.drop := hder
        rcases hder2 with h | h
        · rw [h] at hp; exact ho p hp
        · rw [h, object_drop] at hp
          cases hp
      have h2 := delete_thisK_plain (d := DecreaseWeakFuel w.fuel)
        (w := { w with blocks := w.blocks.set c (ControlBlock.locked x false), dead := hd })
        (c := c) (b := ControlBlock.locked x false) (hset _) hfr hox
      simp only [List.set_set, unlocked_locked, locked_lock] at h2
      simp only [Except.map, World.setBlock, List.set_set, World.block, hset,
        locked_set_lock, locked_freed, locked_lock, locked_strong, locked_weak, hfr,
        pure, Except.pure]
      simp only [Bool.false_eq_true, if_false, true_and]
      rw [locked_set_lock]
      rw [h2]
      simp only [hset, locked_freed, locked_lock, locked_strong, locked_weak, hfr,
        Bool.false_eq_true, if_false, true_and]
      by_cases hc : x.cnt_strong_ref_ = 0 ∧ x.cnt_weak_ref_ = 0
      · simp only [hc, and_self, if_true]
        rfl
      · simp only [hc, if_false]
  · have h0a : ¬ (b.setStrong (decSize b.cnt_strong_ref_)).cnt_strong_ref_ = 0 := h0
    have h0b : ¬ (b.unlocked.setStrong (decSize b.unlocked.cnt_strong_ref_)).cnt_strong_ref_ = 0 := h0
    simp only [h0a, h0b, if_false, pure, Except.pure, World.setBlock, World.block, hset]
    have hfr : (b.setStrong (decSize b.cnt_strong_ref_)).freed = false := hf
    simp only [hfr, Bool.false_eq_true, if_false, h0a, false_and, and_false, Except.map]
    simp [ControlBlock.locked, ControlBlock.setStrong, Weak.ControlBlock.setStrong,
      ControlBlock.unlocked, hl]
end Sft
namespace Weak

theorem drop_drop (s : Storage) : s.drop.drop = s.drop := by
  cases s <;> rfl

theorem decrease_weak_shape {b : ControlBlock} {h : List Nat} {r : ControlBlock × List Nat}
    (e : b.DecreaseWeak h = .ok r) :
    r.1.derived = b.derived ∨ r.1.derived = b.derived.drop := by
  unfold ControlBlock.DecreaseWeak at e
  simp only at e
  split at e
  · exact delete_this_shape (b := b.setWeak (decSize b.cnt_weak_ref_)) e
  · simp [pure, Except.pure] at e
    subst e
    exact Or.inl rfl

theorem decrease_strong_shape {b : ControlBlock} {h : List Nat} {r : ControlBlock × List Nat}
    (e : b.DecreaseStrong h = .ok r) :
    r.1.derived = b.derived ∨ r.1.derived = b.derived.drop := by
  unfold ControlBlock.DecreaseStrong at e
  simp only [bind, Except.bind] at e
  have key : ∀ r1 : ControlBlock × List Nat,
      (r1.1.derived = b.derived ∨ r1.1.derived = b.derived.drop) →
      (if r1.1.cnt_strong_ref_ = 0 ∧ r1.1.cnt_weak_ref_ = 0 then r1.1.deleteThis r1.2
        else pure r1) = .ok r → (r.1.derived = b.derived ∨ r.1.derived = b.derived.drop) := by
    intro r1 h1 e1
    split at e1
    · rcases delete_this_shape e1 with h2 | h2
      · rw [h2]; exact h1
      · rcases h1 with h1 | h1
        · rw [h2, h1]; exact Or.inr rfl
        · rw [h2, h1, drop_drop]; exact Or.inr rfl
    · simp [pure, Except.pure] at e1
      subst e1
      exact h1
  by_cases h0 : (b.setStrong (decSize b.cnt_strong_ref_)).cnt_strong_ref_ = 0
  · simp only [h0, if_true] at e
    cases hr : (b.setStrong (decSize b.cnt_strong_ref_)).DeleteSource h with
    | error x => simp [hr] at e
    | ok r1 =>
      simp only [hr] at e
      exact key r1 (delete_source_shape (b := b.setStrong (decSize b.cnt_strong_ref_)) hr).2 e
  · simp only [h0, if_false, pure, Except.pure, false_and] at e
    cases e
    exact Or.inl rfl

end Weak

namespace Sft

theorem unlocked_callDel {w : World} {c : Nat} {b : ControlBlock}
    (hb : w.blocks[c]? = some b) (hf : b.freed = false)
    (f : Weak.ControlBlock → List Nat → Except Fault (Weak.ControlBlock × List Nat)) :
    w.unlocked.callDel c f =
      (f b.unlocked w.dead).map (fun r =>
        { w.unlocked with blocks := w.unlocked.blocks.set c r.1, dead := r.2 }) := by
  have hu : w.unlocked.blocks[c]? = some b.unlocked := by rw [unlocked_get, hb]; rfl
  have hfu : b.unlocked.freed = false := hf
  have hd : w.unlocked.dead = w.dead := rfl
  simp only [Weak.World.callDel, Weak.block_ok hu hfu, bind, Except.bind, hd]
  cases f b.unlocked w.dead <;> rfl

theorem plain_put {w : World} {c : Nat} {b : ControlBlock} {x : Weak.ControlBlock}
    (hb : w.blocks[c]? = some b)
    (ho : ∀ p, b.derived.object = some p → w.selfAware.lookup p = none)
    (hx : x.derived = b.derived ∨ x.derived = b.derived.drop) (h : List Nat) :
    Plain { w with blocks := w.blocks.set c (ControlBlock.locked x false), dead := h } c := by
  intro b2 hb2
  have hlt := Weak.lt_of_getElem? hb
  have e : (w.blocks.set c (ControlBlock.locked x false))[c]? =
      some (ControlBlock.locked x false) := List.getElem?_set_self hlt
  have hb3 : (w.blocks.set c (ControlBlock.locked x false))[c]? = some b2 := hb2
  rw [e] at hb3
  cases hb3
  refine ⟨rfl, fun p hp => ?_⟩
  have hp2 : x.derived.object = some p := hp
  rcases hx with h1 | h1
  · rw [h1] at hp2; exact ho p hp2
  · rw [h1, object_drop] at hp2; cases hp2

theorem map_ok {α β : Type} {f : α → β} {r : Except Fault α} {y : β}
    (h : r.map f = .ok y) : ∃ x, r = .ok x ∧ f x = y := by
  cases r with
  | error e => cases h
  | ok x => exact ⟨x, rfl, by simpa [Except.map] using h⟩

theorem map_map {α β γ : Type} (f : α → β) (g : β → γ) (r : Except Fault α) :
    (r.map f).map g = r.map (fun x => g (f x)) := by
  cases r <;> rfl

/-- One call of a counting method in the two variants. -/
theorem call_block_agree (w : World) (c : Nat) (m : BlockCall) (h : Plain w c) :
    (w.callBlock c m).map World.unlocked = w.unlocked.callBlock c m ∧
    ∀ w2, w.callBlock c m = .ok w2 → Plain w2 c := by
  cases hb : w.blocks[c]? with
  | none =>
    cases m <;>
      simp [World.callBlock, Weak.World.callBlock, World.call, Weak.World.call, World.block,
        Weak.World.block, Weak.World.callDel, ControlBlock.DecreaseStrong,
        ControlBlock.DecreaseWeak, World.fuel, DecreaseWeakFuel, DecreaseWeakK, unlocked_get, hb,
        bind, Except.bind, Except.map]
  | some b =>
    obtain ⟨hl, ho⟩ := h b hb
    have hlt := Weak.lt_of_getElem? hb
    cases hf : b.freed with
    | true =>
      cases m <;>
        simp [World.callBlock, Weak.World.callBlock, World.call, Weak.World.call, World.block,
          Weak.World.block, Weak.World.callDel, ControlBlock.DecreaseStrong,
          ControlBlock.DecreaseWeak, World.fuel, DecreaseWeakFuel, DecreaseWeakK, unlocked_get,
          hb, hf, ControlBlock.unlocked, bind, Except.bind, Except.map]
    | false =>
      cases m with
      | IncreaseStrong =>
        constructor
        · simp [World.callBlock, Weak.World.callBlock, World.call, Weak.World.call, World.block,
            Weak.World.block, unlocked_get, hb, hf, ControlBlock.unlocked, bind, Except.bind,
            Except.map, pure, Except.pure, World.setBlock, World.unlocked, List.map_set,
            ControlBlock.IncreaseStrong, Weak.ControlBlock.IncreaseStrong,
            ControlBlock.setStrong, Weak.ControlBlock.setStrong]
        · intro w2 h2
          simp [World.callBlock, World.call, World.block, hb, hf, bind, Except.bind, pure,
            Except.pure, World.setBlock] at h2
          subst h2
          intro b2 hb2
          simp [List.getElem?_set_self hlt] at hb2
          subst hb2
          exact ⟨hl, ho⟩
      | IncreaseWeak =>
        constructor
        · simp [World.callBlock, Weak.World.callBlock, World.call, Weak.World.call, World.block,
            Weak.World.block, unlocked_get, hb, hf, ControlBlock.unlocked, bind, Except.bind,
            Except.map, pure, Except.pure, World.setBlock, World.unlocked, List.map_set,
            ControlBlock.IncreaseWeak, Weak.ControlBlock.IncreaseWeak,
            ControlBlock.setWeak, Weak.ControlBlock.setWeak]
        · intro w2 h2
          simp [World.callBlock, World.call, World.block, hb, hf, bind, Except.bind, pure,
            Except.pure, World.setBlock] at h2
          subst h2
          intro b2 hb2
          simp [List.getElem?_set_self hlt] at hb2
          subst hb2
          exact ⟨hl, ho⟩
      | DecreaseWeak =>
        have e := decrease_weak_plain hb hf hl ho
        constructor
        · show (ControlBlock.DecreaseWeak w c).map World.unlocked =
            w.unlocked.callDel c Weak.ControlBlock.DecreaseWeak
          rw [e, map_map, unlocked_callDel hb hf]
          simp only [unlocked_put]
        · intro w2 h2
          have h3 : ControlBlock.DecreaseWeak w c = .ok w2 := h2
          rw [e] at h3
          obtain ⟨r, hr, hw2⟩ := map_ok h3
          subst hw2
          exact plain_put hb ho (Weak.decrease_weak_shape hr) r.2
      | DecreaseStrong =>
        have e := decrease_strong_plain hb hf hl ho
        constructor
        · show (ControlBlock.DecreaseStrong w c).map World.unlocked =
            w.unlocked.callDel c Weak.ControlBlock.DecreaseStrong
          rw [e, map_map, unlocked_callDel hb hf]
          simp only [unlocked_put]
        · intro w2 h2
          have h3 : ControlBlock.DecreaseStrong w c = .ok w2 := h2
          rw [e] at h3
          obtain ⟨r, hr, hw2⟩ := map_ok h3
          subst hw2
          exact plain_put hb ho (Weak.decrease_strong_shape hr) r.2

/-- A sequence of calls of counting methods in the two variants. -/
theorem call_seq_agree (c : Nat) (calls : List BlockCall) :
    ∀ w : World, Plain w c →
      (callSeq c calls w).map World.unlocked = Weak.callSeq c calls w.unlocked := by
  induction calls with
  | nil => intro w _; rfl
  | cons m ms ih =>
    intro w h
    obtain ⟨h1, h2⟩ := call_block_agree w c m h
    simp only [callSeq, Weak.callSeq, bind, Except.bind]
    rw [← h1]
    cases hr : w.callBlock c m with
    | error x => rfl
    | ok w1 =>
      simp only [Except.map]
      exact ih w1 (h2 w1 hr)
end Sft

/-- C27: the `ControlBlockBase` of `src/shared-from-this/sw_fwd.h` (with `destruction_is_locked_`)
and the one of `src/shared/sw_fwd.h` (without), run on the same sequence of `IncreaseStrong`,
`DecreaseStrong`, `IncreaseWeak` and `DecreaseWeak` calls on a block `c` whose lock is clear
and whose object is not of a type deriving from `EnableSharedFromThis` (its destructor calls
back into no control block).  Both runs are undefined at the same call, or both end, and then
with the same blocks up to the lock member (strong count, weak count, number of releases of the
object, number of `delete this`, freed or not) and the same record of deleted objects. -/
theorem control_block_variants_agree (c : Nat) (calls : List BlockCall) (w : Sft.World)
    (h : Sft.Plain w c) :
    (Sft.callSeq c calls w).map Sft.World.unlocked = Weak.callSeq c calls w.unlocked ∧
    (∀ e, Sft.callSeq c calls w = .error e → Weak.callSeq c calls w.unlocked = .error e) ∧
    (∀ w2, Sft.callSeq c calls w = .ok w2 →
      Weak.callSeq c calls w.unlocked = .ok w2.unlocked ∧ w2.unlocked.dead = w2.dead ∧
      ∀ b2, w2.blocks[c]? = some b2 →
        w2.unlocked.blocks[c]? = some b2.unlocked ∧
        b2.unlocked.cnt_strong_ref_ = b2.cnt_strong_ref_ ∧
        b2.unlocked.cnt_weak_ref_ = b2.cnt_weak_ref_ ∧
        b2.unlocked.releases = b2.releases ∧ b2.unlocked.deletes = b2.deletes ∧
        b2.unlocked.freed = b2.freed) := by
  have key := Sft.call_seq_agree c calls w h
  refine ⟨key, fun e he => ?_, fun w2 h2 => ⟨?_, rfl, fun b2 hb2 => ⟨?_, rfl, rfl, rfl, rfl, rfl⟩⟩⟩
  · rw [← key, he]; rfl
  · rw [← key, h2]; rfl
  · rw [Sft.unlocked_get, hb2]; rfl

/-- Witness for C27: a block created for the object at address 5, observed by one `WeakPtr`
before the only owner goes away. -/
theorem control_block_variants_agree_witness :
    Weak.callSeq 0 [.IncreaseWeak, .DecreaseStrong, .DecreaseWeak]
      (Sft.World.unlocked
        { blocks := [Sft.ControlBlockPointer 5], shared := [], weak := [], dead := [],
          selfAware := [] }) = .ok
      { blocks := [{ cnt_strong_ref_ := 0, cnt_weak_ref_ := 0, derived := .pointer 0,
                     managed := true, freed := true, releases := 1, deletes := 1 }],
        shared := [], weak := [], dead := [5] } ∧
    (Sft.callSeq 0 [.IncreaseWeak, .DecreaseStrong, .DecreaseWeak]
      { blocks := [Sft.ControlBlockPointer 5], shared := [], weak := [], dead := [],
        selfAware := [] }).map Sft.World.unlocked = .ok
      { blocks := [{ cnt_strong_ref_ := 0, cnt_weak_ref_ := 0, derived := .pointer 0,
                     managed := true, freed := true, releases := 1, deletes := 1 }],
        shared := [], weak := [], dead := [5] } :=
  ⟨rfl,
   (control_block_variants_agree 0 [.IncreaseWeak, .DecreaseStrong, .DecreaseWeak]
      { blocks := [Sft.ControlBlockPointer 5], shared := [], weak := [], dead := [],
        selfAware := [] }
      (by
        intro b hb
        have hb2 : b = Sft.ControlBlockPointer 5 := by
          simpa using hb.symm
        subst hb2
        exact ⟨rfl, fun p _ => rfl⟩)).1.trans rfl⟩

/-! ### What a finished release leaves behind -/

namespace Sft

theorem bind_ok {α β : Type} {x : Except Fault α} {f : α → Except Fault β} {y : β}
    (h : (x >>= f) = .ok y) : ∃ a, x = .ok a ∧ f a = .ok y := by
  cases x with
  | error e => cases h
  | ok a => exact ⟨a, rfl, h⟩

theorem block_of_ok {w : World} {c : Nat} {b : ControlBlock} (h : w.block c = .ok b) :
    w.blocks[c]? = some b ∧ b.freed = false := by
  unfold World.block at h
  cases hb : w.blocks[c]? with
  | none => simp [hb] at h
  | some x =>
    simp only [hb] at h
    by_cases hf : x.freed = true
    · simp [hf] at h
    · simp only [hf, if_false] at h
      cases h
      exact ⟨rfl, by simpa using hf⟩

theorem released_set_other {w : World} {c n k : Nat} (x : ControlBlock) (hk : k ≠ c)
    (h : Released w c n) : Released (w.setBlock k x) c n := by
  obtain ⟨b, hb, h1, h2⟩ := h
  exact ⟨b, by simp [World.setBlock, List.getElem?_set_ne hk, hb], h1, h2⟩

theorem released_set_same {w : World} {c n : Nat} {x : ControlBlock}
    (h : Released w c n) (h1 : x.derived.live = false) (h2 : x.releases = n) :
    Released (w.setBlock c x) c n := by
  obtain ⟨b, hb, _, _⟩ := h
  exact ⟨x, by simp [World.setBlock, List.getElem?_set_self (Weak.lt_of_getElem? hb)], h1, h2⟩

theorem released_of_blocks {w w2 : World} {c n : Nat} (e : w2.blocks = w.blocks)
    (h : Released w c n) : Released w2 c n := by
  obtain ⟨b, hb, h1, h2⟩ := h
  exact ⟨b, by rw [e]; exact hb, h1, h2⟩

theorem released_clearK {d : World → Nat → Except Fault World} {c n : Nat}
    (hd : ∀ w k w2, d w k = .ok w2 → Released w c n → Released w2 c n)
    {w w2 : World} {k : Nat} (e : WeakPtr.ClearK d w k = .ok w2) (h : Released w c n) :
    Released w2 c n := by
  unfold WeakPtr.ClearK at e
  obtain ⟨s, _, e1⟩ := bind_ok e
  obtain ⟨w1, e2, e3⟩ := bind_ok e1
  cases e3
  refine released_of_blocks rfl (w := w1) ?_
  cases hc : s.control_ with
  | none =>
    simp only [hc, pure, Except.pure] at e2
    cases e2
    exact h
  | some j =>
    simp only [hc] at e2
    exact hd _ _ _ e2 h

theorem released_destructK {d : World → Nat → Except Fault World} {c n : Nat}
    (hd : ∀ w k w2, d w k = .ok w2 → Released w c n → Released w2 c n)
    {w w2 : World} {p : Nat} (e : destructK d w p = .ok w2) (h : Released w c n) :
    Released w2 c n := by
  unfold destructK at e
  cases hk : w.selfAware.lookup p with
  | none =>
    simp only [hk, pure, Except.pure] at e
    cases e
    exact h
  | some k =>
    simp only [hk] at e
    obtain ⟨w1, e1, e2⟩ := bind_ok e
    cases e2
    exact released_of_blocks (w := w1) rfl (released_clearK hd e1 h)

theorem released_deleteK {d : World → Nat → Except Fault World} {c n : Nat}
    (hd : ∀ w k w2, d w k = .ok w2 → Released w c n → Released w2 c n)
    {w w2 : World} {p : Nat} (e : deleteK d w p = .ok w2) (h : Released w c n) :
    Released w2 c n := by
  unfold deleteK at e
  obtain ⟨h1, _, e1⟩ := bind_ok e
  exact released_destructK hd e1 (released_of_blocks rfl h)

theorem released_delete_sourceK {d : World → Nat → Except Fault World} {c n : Nat}
    (hd : ∀ w k w2, d w k = .ok w2 → Released w c n → Released w2 c n)
    {w w2 : World} {k : Nat} (e : DeleteSourceK d w k = .ok w2) (h : Released w c n) :
    Released w2 c n := by
  unfold DeleteSourceK at e
  obtain ⟨b, hb, e1⟩ := bind_ok e
  obtain ⟨hb1, _⟩ := block_of_ok hb
  by_cases hk : k = c
  · subst hk
    obtain ⟨b0, hb0, hl, hn⟩ := h
    have hbb : b = b0 := by rw [hb1] at hb0; cases hb0; rfl
    subst hbb
    cases hder : b.derived with
    | pointer p =>
      have hp : p = 0 := by simpa [hder, Storage.live] using hl
      simp only [hder, hp, ne_eq, not_true_eq_false, if_false, pure, Except.pure] at e1
      cases e1
      exact ⟨b, hb0, hl, hn⟩
    | emplace a alive =>
      have hp : alive = false := by simpa [hder, Storage.live] using hl
      simp only [hder, hp, Bool.false_eq_true, if_false, pure, Except.pure] at e1
      cases e1
      exact ⟨b, hb0, hl, hn⟩
  · cases hder : b.derived with
    | pointer p =>
      simp only [hder] at e1
      split at e1
      · exact released_deleteK hd e1 (released_set_other _ hk h)
      · simp only [pure, Except.pure] at e1
        cases e1
        exact h
    | emplace a alive =>
      simp only [hder] at e1
      split at e1
      · exact released_destructK hd e1 (released_set_other _ hk h)
      · simp only [pure, Except.pure] at e1
        cases e1
        exact h

theorem released_delete_thisK {d : World → Nat → Except Fault World} {c n : Nat}
    (hd : ∀ w k w2, d w k = .ok w2 → Released w c n → Released w2 c n)
    {w w2 : World} {k : Nat} (e : deleteThisK d w k = .ok w2) (h : Released w c n) :
    Released w2 c n := by
  unfold deleteThisK at e
  obtain ⟨w1, e1, e2⟩ := bind_ok e
  obtain ⟨b, hb, e3⟩ := bind_ok e2
  cases e3
  have h1 := released_delete_sourceK hd e1 h
  obtain ⟨hb1, _⟩ := block_of_ok hb
  by_cases hk : k = c
  · subst hk
    obtain ⟨b0, hb0, hl, hn⟩ := h1
    have hbb : b = b0 := by rw [hb1] at hb0; cases hb0; rfl
    subst hbb
    exact released_set_same ⟨b, hb0, hl, hn⟩ hl hn
  · exact released_set_other _ hk h1

theorem released_decrease_weakK {d : World → Nat → Except Fault World} {c n : Nat}
    (hd : ∀ w k w2, d w k = .ok w2 → Released w c n → Released w2 c n)
    {w w2 : World} {k : Nat} (e : DecreaseWeakK d w k = .ok w2) (h : Released w c n) :
    Released w2 c n := by
  unfold DecreaseWeakK at e
  obtain ⟨b, hb, e1⟩ := bind_ok e
  obtain ⟨hb1, _⟩ := block_of_ok hb
  have h1 : Released (w.setBlock k (b.setWeak (decSize b.cnt_weak_ref_))) c n := by
    by_cases hk : k = c
    · subst hk
      obtain ⟨b0, hb0, hl, hn⟩ := h
      have hbb : b = b0 := by rw [hb1] at hb0; cases hb0; rfl
      subst hbb
      exact released_set_same ⟨b, hb0, hl, hn⟩ hl hn
    · exact released_set_other _ hk h
  simp only at e1
  split at e1
  · exact released_delete_thisK hd e1 h1
  · simp only [pure, Except.pure] at e1
    cases e1
    exact h1

theorem released_decrease_weak_fuel (c n : Nat) (m : Nat) :
    ∀ w k w2, DecreaseWeakFuel m w k = .ok w2 → Released w c n → Released w2 c n := by
  induction m with
  | zero => intro w k w2 e _; cases e
  | succ m ih =>
    intro w k w2 e h
    exact released_decrease_weakK ih e h
end Sft
namespace Sft

/-- The release routine leaves the block without object, the releases counted once more when it
held one. -/
theorem delete_source_released {w w1 : World} {c : Nat} {b : ControlBlock}
    (hb : w.blocks[c]? = some b) (hf : b.freed = false)
    (e : ControlBlock.DeleteSource w c = .ok w1) :
    Released w1 c (b.releases + (if b.derived.live then 1 else 0)) := by
  have key : ∀ n, n = b.releases + (if b.derived.live then 1 else 0) → Released w1 c n := by
    intro n hn
    have hd := released_decrease_weak_fuel c n w.fuel
    unfold ControlBlock.DeleteSource DeleteSourceK at e
    simp only [sft_block_ok hb hf, bind, Except.bind] at e
    cases hder : b.derived with
    | pointer p =>
      simp only [hder] at e
      rw [hder] at hn
      by_cases hp : p = 0
      · simp only [hp, ne_eq, not_true_eq_false, if_false, pure, Except.pure] at e
        cases e
        exact ⟨b, hb, by simp [hder, hp, Storage.live], by simp [hn, hp, Storage.live]⟩
      · simp only [hp, ne_eq, not_false_eq_true, if_true] at e
        refine released_deleteK hd e ⟨_, set_block_get _ hb, rfl, ?_⟩
        simp [hn, hp, Storage.live]
    | emplace a alive =>
      simp only [hder] at e
      rw [hder] at hn
      cases alive with
      | false =>
        simp only [Bool.false_eq_true, if_false, pure, Except.pure] at e
        cases e
        exact ⟨b, hb, by simp [hder, Storage.live], by simp [hn, Storage.live]⟩
      | true =>
        simp only [if_true] at e
        refine released_destructK hd e ⟨_, set_block_get _ hb, rfl, ?_⟩
        simp [hn, Storage.live]
  exact key _ rfl
end Sft

/-- C20: `DeleteSource` of both derived classes, in the variant without lock
(`src/shared/sw_fwd.h`) and in the variant with lock (`src/shared-from-this/sw_fwd.h`).  The
first call is defined when the object the block holds is not dead (in the second variant: and
it is not self-aware); whenever it is defined it counts one release exactly if the block held an
object, and afterwards a second `DeleteSource`, and the derived destructor run by
`delete this`, change nothing but the freeing of the block: no release is added and the record
of deleted objects stays.  (In the variant with lock the second call needs the block to be still
there: the release of a self-aware object can destroy it when the lock is clear.) -/
theorem delete_source_idempotent (b : Weak.ControlBlock) (h : List Nat) (w : Sft.World) (c : Nat)
    (bs : Sft.ControlBlock) (hb : w.blocks[c]? = some bs) (hf : bs.freed = false) :
    ((∀ p, b.derived = .pointer p → p ≠ 0 → p ∉ h) → ∃ r, b.DeleteSource h = .ok r) ∧
    (∀ r, b.DeleteSource h = .ok r →
      r.1.releases = b.releases + (if b.derived.live then 1 else 0) ∧
      r.1.DeleteSource r.2 = .ok r ∧
      r.1.deleteThis r.2 = .ok ({ r.1 with freed := true, deletes := r.1.deletes + 1 }, r.2)) ∧
    ((∀ p, bs.derived.object = some p → w.selfAware.lookup p = none) →
      (∀ p, bs.derived = .pointer p → p ≠ 0 → p ∉ w.dead) →
      ∃ w1, Sft.ControlBlock.DeleteSource w c = .ok w1) ∧
    (∀ w1, Sft.ControlBlock.DeleteSource w c = .ok w1 →
      ∀ b1, w1.blocks[c]? = some b1 → b1.freed = false →
        b1.releases = bs.releases + (if bs.derived.live then 1 else 0) ∧
        Sft.ControlBlock.DeleteSource w1 c = .ok w1 ∧
        Sft.deleteThisK (Sft.DecreaseWeakFuel w1.fuel) w1 c = .ok
          (w1.setBlock c { b1 with freed := true, deletes := b1.deletes + 1 })) := by
  refine ⟨fun hd => ?_, fun r hr => ?_, fun ho hd => ?_, fun w1 e b1 hb1 hf1 => ?_⟩
  · obtain ⟨b2, h2, e, _⟩ := Weak.delete_source_ok b h hd
    exact ⟨_, e⟩
  · have hl : r.1.derived.live = false ∧
        r.1.releases = b.releases + (if b.derived.live then 1 else 0) := by
      unfold Weak.ControlBlock.DeleteSource at hr
      by_cases hlive : b.derived.live = true
      · simp only [hlive, if_true] at hr
        cases hrel : b.derived.release h with
        | error x => simp [hrel, bind, Except.bind] at hr
        | ok h1 =>
          simp only [hrel, bind, Except.bind, pure, Except.pure] at hr
          cases hr
          exact ⟨live_drop _, by simp [hlive]⟩
      · simp only [hlive, if_false, pure, Except.pure] at hr
        cases hr
        exact ⟨by simpa using hlive, by simp [hlive]⟩
    have e2 : r.1.DeleteSource r.2 = .ok r := Weak.delete_source_idle hl.1
    refine ⟨hl.2, e2, ?_⟩
    simp [Weak.ControlBlock.deleteThis, e2, bind, Except.bind, pure, Except.pure]
  · have e := Sft.delete_sourceK_plain (d := Sft.DecreaseWeakFuel w.fuel) hb hf ho
    obtain ⟨b2, h2, e2, _⟩ := Weak.delete_source_ok bs.unlocked w.dead hd
    exact ⟨_, by rw [Sft.ControlBlock.DeleteSource, e, e2]; rfl⟩
  · obtain ⟨b2, hb2, hl, hn⟩ := Sft.delete_source_released hb hf e
    have hbb : b1 = b2 := by rw [hb1] at hb2; cases hb2; rfl
    subst hbb
    exact ⟨hn, Sft.delete_sourceK_idle hb1 hf1 hl, Sft.delete_thisK_idle hb1 hf1 hl⟩

/-- Witness for C20: the block of the self-aware object at address 5, the release run under the
destruction lock while the object holds the only weak reference. -/
theorem delete_source_idempotent_witness :
    Sft.ControlBlock.DeleteSource
      { blocks := [{ cnt_strong_ref_ := 0, cnt_weak_ref_ := 0, destruction_is_locked_ := true,
                     derived := .pointer 0, managed := true, freed := false, releases := 1,
                     deletes := 0 }],
        shared := [{ control_ := some 0, ptr_ := 5 }],
        weak := [{ control_ := none, ptr_ := 0 }], dead := [5], selfAware := [] } 0 = .ok
      { blocks := [{ cnt_strong_ref_ := 0, cnt_weak_ref_ := 0, destruction_is_locked_ := true,
                     derived := .pointer 0, managed := true, freed := false, releases := 1,
                     deletes := 0 }],
        shared := [{ control_ := some 0, ptr_ := 5 }],
        weak := [{ control_ := none, ptr_ := 0 }], dead := [5], selfAware := [] } :=
  ((delete_source_idempotent (Weak.ControlBlockPointer 5) []
      { blocks := [{ cnt_strong_ref_ := 0, cnt_weak_ref_ := 1, destruction_is_locked_ := true,
                     derived := .pointer 5, managed := true, freed := false, releases := 0,
                     deletes := 0 }],
        shared := [{ control_ := some 0, ptr_ := 5 }],
        weak := [{ control_ := some 0, ptr_ := 5 }], dead := [], selfAware := [(5, 0)] } 0 _
      rfl rfl).2.2.2 _ rfl _ rfl rfl).2.1

/-! ### `Swap`, evaluated -/

namespace Weak

theorem shared_clear_null {w : World} {i : Nat}
    (h : w.shared[i]? = some { control_ := none, ptr_ := 0 }) : SharedPtr.Clear w i = .ok w := by
  simp [SharedPtr.Clear, SharedPtr.ControlDecreaseStrong, World.sharedAt, h, World.callDelIf,
    bind, Except.bind, pure, Except.pure, World.setShared, Sft.list_set_self h]

theorem weak_clear_null {w : World} {i : Nat}
    (h : w.weak[i]? = some { control_ := none, ptr_ := 0 }) : WeakPtr.Clear w i = .ok w := by
  simp [WeakPtr.Clear, WeakPtr.ControlDecreaseWeak, World.weakAt, h, World.callDelIf,
    bind, Except.bind, pure, Except.pure, World.setWeak, Sft.list_set_self h]

/-- `Swap` on two distinct `SharedPtr` instances. -/
theorem shared_swap_eq {w : World} {a b : Nat} {sa sb : SharedPtr} (hab : a ≠ b)
    (ha : w.shared[a]? = some sa) (hb : w.shared[b]? = some sb) :
    SharedPtr.Swap w a b = .ok { w with shared := (w.shared.set a sb).set b sa } := by
  have hla := lt_of_getElem? ha
  have hlb := lt_of_getElem? hb
  have hna : ¬ (w.shared.length = a) := by omega
  have hnb : ¬ (w.shared.length = b) := by omega
  have e1 : SharedPtr.move w a = .ok
      { w with shared := w.shared.set a { control_ := none, ptr_ := 0 } ++ [sa] } := by
    simp [SharedPtr.move, World.sharedAt, ha, World.newShared, World.setShared, bind, Except.bind,
      pure, Except.pure, List.set_append, hla]
  have e2 : SharedPtr.moveAssign
      { w with shared := w.shared.set a { control_ := none, ptr_ := 0 } ++ [sa] } a b = .ok
      { w with shared := ((w.shared.set a sb).set b { control_ := none, ptr_ := 0 }) ++ [sa] } := by
    have hc := shared_clear_null
      (w := { w with shared := w.shared.set a { control_ := none, ptr_ := 0 } ++ [sa] }) (i := a)
      (by simp [List.getElem?_append_left, hla, List.getElem?_set_self])
    simp only [SharedPtr.moveAssign, Ne.symm hab, if_false, hc, bind, Except.bind]
    simp [World.sharedAt, List.getElem?_append_left, hlb, List.getElem?_set_ne hab, hb,
      World.setShared, List.set_append, hla, pure, Except.pure, List.set_set]
  have e3 : SharedPtr.moveAssign
      { w with shared := ((w.shared.set a sb).set b { control_ := none, ptr_ := 0 }) ++ [sa] }
      b w.shared.length = .ok
      { w with shared := ((w.shared.set a sb).set b sa) ++ [{ control_ := none, ptr_ := 0 }] } := by
    have hc := shared_clear_null
      (w := { w with shared := ((w.shared.set a sb).set b { control_ := none, ptr_ := 0 }) ++ [sa] })
      (i := b) (by simp [List.getElem?_append_left, hlb, List.getElem?_set_self])
    simp only [SharedPtr.moveAssign, hnb, if_false, hc, bind, Except.bind]
    have hlen : ((w.shared.set a sb).set b ({ control_ := none, ptr_ := 0 } : SharedPtr)).length =
        w.shared.length := by simp
    have hget : (((w.shared.set a sb).set b ({ control_ := none, ptr_ := 0 } : SharedPtr)) ++
        [sa])[w.shared.length]? = some sa := by
      rw [List.getElem?_append_right (by simp)]
      simp
    simp only [World.sharedAt, hget, World.setShared, pure, Except.pure]
    congr 2
    rw [List.set_append_left _ _ (by simp; omega), List.set_set]
    have : ((w.shared.set a sb).set b sa).length = w.shared.length := by simp
    rw [← this, List.set_append_right _ _ (by simp)]
    simp
  have e4 : SharedPtr.destroy
      { w with shared := ((w.shared.set a sb).set b sa) ++ [{ control_ := none, ptr_ := 0 }] }
      w.shared.length = .ok
      { w with shared := ((w.shared.set a sb).set b sa) ++ [{ control_ := none, ptr_ := 0 }] } := by
    apply shared_clear_null
    have : ((w.shared.set a sb).set b sa).length = w.shared.length := by simp
    simp only
    rw [← this, List.getElem?_append_right (by simp)]
    simp
  simp only [SharedPtr.Swap, e1, e2, e3, e4, bind, Except.bind, pure, Except.pure, World.popShared]
  simp

/-- `Swap` on two distinct `WeakPtr` instances. -/
theorem weak_swap_eq {w : World} {a b : Nat} {sa sb : WeakPtr} (hab : a ≠ b)
    (ha : w.weak[a]? = some sa) (hb : w.weak[b]? = some sb) :
    WeakPtr.Swap w a b = .ok { w with weak := (w.weak.set a sb).set b sa } := by
  have hla := lt_of_getElem? ha
  have hlb := lt_of_getElem? hb
  have hna : ¬ (w.weak.length = a) := by omega
  have hnb : ¬ (w.weak.length = b) := by omega
  have e1 : WeakPtr.move w a = .ok
      { w with weak := w.weak.set a { control_ := none, ptr_ := 0 } ++ [sa] } := by
    simp [WeakPtr.move, World.weakAt, ha, World.newWeak, World.setWeak, bind, Except.bind,
      pure, Except.pure, List.set_append, hla]
  have e2 : WeakPtr.moveAssign
      { w with weak := w.weak.set a { control_ := none, ptr_ := 0 } ++ [sa] } a b = .ok
      { w with weak := ((w.weak.set a sb).set b { control_ := none, ptr_ := 0 }) ++ [sa] } := by
    have hc := weak_clear_null
      (w := { w with weak := w.weak.set a { control_ := none, ptr_ := 0 } ++ [sa] }) (i := a)
      (by simp [List.getElem?_append_left, hla, List.getElem?_set_self])
    simp only [WeakPtr.moveAssign, Ne.symm hab, if_false, hc, bind, Except.bind]
    simp [World.weakAt, List.getElem?_append_left, hlb, List.getElem?_set_ne hab, hb,
      World.setWeak, List.set_append, hla, pure, Except.pure, List.set_set]
  have e3 : WeakPtr.moveAssign
      { w with weak := ((w.weak.set a sb).set b { control_ := none, ptr_ := 0 }) ++ [sa] }
      b w.weak.length = .ok
      { w with weak := ((w.weak.set a sb).set b sa) ++ [{ control_ := none, ptr_ := 0 }] } := by
    have hc := weak_clear_null
      (w := { w with weak := ((w.weak.set a sb).set b { control_ := none, ptr_ := 0 }) ++ [sa] })
      (i := b) (by simp [List.getElem?_append_left, hlb, List.getElem?_set_self])
    simp only [WeakPtr.moveAssign, hnb, if_false, hc, bind, Except.bind]
    have hget : (((w.weak.set a sb).set b ({ control_ := none, ptr_ := 0 } : WeakPtr)) ++
        [sa])[w.weak.length]? = some sa := by
      rw [List.getElem?_append_right (by simp)]
      simp
    simp only [World.weakAt, hget, World.setWeak, pure, Except.pure]
    congr 2
    rw [List.set_append_left _ _ (by simp; omega), List.set_set]
    have : ((w.weak.set a sb).set b sa).length = w.weak.length := by simp
    rw [← this, List.set_append_right _ _ (by simp)]
    simp
  have e4 : WeakPtr.destroy
      { w with weak := ((w.weak.set a sb).set b sa) ++ [{ control_ := none, ptr_ := 0 }] }
      w.weak.length = .ok
      { w with weak := ((w.weak.set a sb).set b sa) ++ [{ control_ := none, ptr_ := 0 }] } := by
    apply weak_clear_null
    have : ((w.weak.set a sb).set b sa).length = w.weak.length := by simp
    simp only
    rw [← this, List.getElem?_append_right (by simp)]
    simp
  simp only [WeakPtr.Swap, e1, e2, e3, e4, bind, Except.bind, pure, Except.pure, World.popWeak]
  simp

end Weak

namespace Intrusive

theorem ptr_clear_null {w : World} {i : Nat} (h : w.ptrs[i]? = some 0) :
    IntrusivePtr.Clear w i = .ok w := by
  simp [IntrusivePtr.Clear, World.ptrAt, h, bind, Except.bind, pure, Except.pure,
    Sft.list_set_self h]

/-- `Swap` on two distinct `IntrusivePtr` instances. -/
theorem ptr_swap_eq {w : World} {a b : Nat} {pa pb : Nat} (hab : a ≠ b)
    (ha : w.ptrs[a]? = some pa) (hb : w.ptrs[b]? = some pb) :
    IntrusivePtr.Swap w a b = .ok { w with ptrs := (w.ptrs.set a pb).set b pa } := by
  have hla := Weak.lt_of_getElem? ha
  have hlb := Weak.lt_of_getElem? hb
  have hna : ¬ (w.ptrs.length = a) := by omega
  have hnb : ¬ (w.ptrs.length = b) := by omega
  have e1 : IntrusivePtr.move w a = .ok { w with ptrs := w.ptrs.set a 0 ++ [pa] } := by
    simp [IntrusivePtr.move, World.ptrAt, ha, bind, Except.bind, pure, Except.pure,
      List.set_append, hla]
  have e2 : IntrusivePtr.moveAssign { w with ptrs := w.ptrs.set a 0 ++ [pa] } a b = .ok
      { w with ptrs := ((w.ptrs.set a pb).set b 0) ++ [pa] } := by
    have hc := ptr_clear_null (w := { w with ptrs := w.ptrs.set a 0 ++ [pa] }) (i := a)
      (by simp [List.getElem?_append_left, hla, List.getElem?_set_self])
    simp only [IntrusivePtr.moveAssign, Ne.symm hab, if_false, hc, bind, Except.bind]
    simp [World.ptrAt, List.getElem?_append_left, hlb, List.getElem?_set_ne hab, hb,
      List.set_append, hla, pure, Except.pure, List.set_set]
  have e3 : IntrusivePtr.moveAssign { w with ptrs := ((w.ptrs.set a pb).set b 0) ++ [pa] }
      b w.ptrs.length = .ok { w with ptrs := ((w.ptrs.set a pb).set b pa) ++ [0] } := by
    have hc := ptr_clear_null (w := { w with ptrs := ((w.ptrs.set a pb).set b 0) ++ [pa] })
      (i := b) (by simp [List.getElem?_append_left, hlb, List.getElem?_set_self])
    simp only [IntrusivePtr.moveAssign, hnb, if_false, hc, bind, Except.bind]
    have hget : (((w.ptrs.set a pb).set b 0) ++ [pa])[w.ptrs.length]? = some pa := by
      rw [List.getElem?_append_right (by simp)]
      simp
    simp only [World.ptrAt, hget, pure, Except.pure]
    congr 2
    rw [List.set_append_left _ _ (by simp; omega), List.set_set]
    have : ((w.ptrs.set a pb).set b pa).length = w.ptrs.length := by simp
    rw [← this, List.set_append_right _ _ (by simp)]
    simp
  have e4 : IntrusivePtr.destroy { w with ptrs := ((w.ptrs.set a pb).set b pa) ++ [0] }
      w.ptrs.length = .ok { w with ptrs := ((w.ptrs.set a pb).set b pa) ++ [0] } := by
    apply ptr_clear_null
    have : ((w.ptrs.set a pb).set b pa).length = w.ptrs.length := by simp
    simp only
    rw [← this, List.getElem?_append_right (by simp)]
    simp
  simp only [IntrusivePtr.Swap, e1, e2, e3, e4, bind, Except.bind, pure, Except.pure,
    World.popPtr]
  simp

theorem swap_back {α : Type} (l : List α) {a b : Nat} {x y : α}
    (ha : l[a]? = some x) (hb : l[b]? = some y) :
    (((l.set a y).set b x).set a x).set b y = l := by
  apply List.ext_getElem?
  intro j
  have hla := Weak.lt_of_getElem? ha
  have hlb := Weak.lt_of_getElem? hb
  by_cases hj : b = j
  · subst hj
    rw [List.getElem?_set_self (by simp; omega), hb]
  · rw [List.getElem?_set_ne hj]
    by_cases hj2 : a = j
    · subst hj2
      rw [List.getElem?_set_self (by simp; omega), ha]
    · rw [List.getElem?_set_ne hj2, List.getElem?_set_ne hj, List.getElem?_set_ne hj2]

end Intrusive

/-- C29: `Swap` on two distinct instances, for `SharedPtr` and `WeakPtr` (`src/weak/shared.h`,
`src/weak/weak.h`) and for `IntrusivePtr`.  The two instances exchange both fields; no control
block (so no strong or weak count, no release count, no `delete this`), no record of deleted
objects, no other instance and no reference count of an object changes; a second `Swap` gives
back the world before the first. -/
theorem swap_exchanges_fields (w : Weak.World) (v : Intrusive.World) (a b : Nat)
    (sa sb : SharedPtr) (ta tb : WeakPtr) (pa pb : Nat) (hab : a ≠ b)
    (hsa : w.shared[a]? = some sa) (hsb : w.shared[b]? = some sb)
    (hta : w.weak[a]? = some ta) (htb : w.weak[b]? = some tb)
    (hpa : v.ptrs[a]? = some pa) (hpb : v.ptrs[b]? = some pb) :
    (∃ w1, Weak.SharedPtr.Swap w a b = .ok w1 ∧
      w1 = { w with shared := (w.shared.set a sb).set b sa } ∧
      w1.shared[a]? = some sb ∧ w1.shared[b]? = some sa ∧
      (∀ j, j ≠ a → j ≠ b → w1.shared[j]? = w.shared[j]?) ∧
      w1.blocks = w.blocks ∧ w1.dead = w.dead ∧ w1.weak = w.weak ∧
      Weak.SharedPtr.Swap w1 a b = .ok w) ∧
    (∃ w1, Weak.WeakPtr.Swap w a b = .ok w1 ∧
      w1 = { w with weak := (w.weak.set a tb).set b ta } ∧
      w1.weak[a]? = some tb ∧ w1.weak[b]? = some ta ∧
      (∀ j, j ≠ a → j ≠ b → w1.weak[j]? = w.weak[j]?) ∧
      w1.blocks = w.blocks ∧ w1.dead = w.dead ∧ w1.shared = w.shared ∧
      Weak.WeakPtr.Swap w1 a b = .ok w) ∧
    (∃ v1, Intrusive.IntrusivePtr.Swap v a b = .ok v1 ∧
      v1 = { v with ptrs := (v.ptrs.set a pb).set b pa } ∧
      v1.ptrs[a]? = some pb ∧ v1.ptrs[b]? = some pa ∧
      (∀ j, j ≠ a → j ≠ b → v1.ptrs[j]? = v.ptrs[j]?) ∧
      v1.objs = v.objs ∧
      Intrusive.IntrusivePtr.Swap v1 a b = .ok v) := by
  have key : ∀ {α : Type} (l : List α) (x y : α), l[a]? = some x → l[b]? = some y →
      ((l.set a y).set b x)[a]? = some y ∧ ((l.set a y).set b x)[b]? = some x ∧
      (∀ j, j ≠ a → j ≠ b → ((l.set a y).set b x)[j]? = l[j]?) := by
    intro α l x y hx hy
    have hla := Weak.lt_of_getElem? hx
    have hlb := Weak.lt_of_getElem? hy
    refine ⟨?_, ?_, fun j hja hjb => ?_⟩
    · rw [List.getElem?_set_ne (Ne.symm hab), List.getElem?_set_self hla]
    · rw [List.getElem?_set_self (by simp; omega)]
    · rw [List.getElem?_set_ne (Ne.symm hjb), List.getElem?_set_ne (Ne.symm hja)]
  refine ⟨?_, ?_, ?_⟩
  · obtain ⟨k1, k2, k3⟩ := key w.shared sa sb hsa hsb
    refine ⟨_, Weak.shared_swap_eq hab hsa hsb, rfl, k1, k2, k3, rfl, rfl, rfl, ?_⟩
    rw [Weak.shared_swap_eq (w := { w with shared := (w.shared.set a sb).set b sa }) hab k1 k2]
    simp [Intrusive.swap_back w.shared hsa hsb]
  · obtain ⟨k1, k2, k3⟩ := key w.weak ta tb hta htb
    refine ⟨_, Weak.weak_swap_eq hab hta htb, rfl, k1, k2, k3, rfl, rfl, rfl, ?_⟩
    rw [Weak.weak_swap_eq (w := { w with weak := (w.weak.set a tb).set b ta }) hab k1 k2]
    simp [Intrusive.swap_back w.weak hta htb]
  · obtain ⟨k1, k2, k3⟩ := key v.ptrs pa pb hpa hpb
    refine ⟨_, Intrusive.ptr_swap_eq hab hpa hpb, rfl, k1, k2, k3, rfl, ?_⟩
    rw [Intrusive.ptr_swap_eq (w := { v with ptrs := (v.ptrs.set a pb).set b pa }) hab k1 k2]
    simp [Intrusive.swap_back v.ptrs hpa hpb]

/-- Witness for C29: two owners of different objects, and two observers. -/
theorem swap_exchanges_fields_witness :
    Weak.SharedPtr.Swap
      { blocks := [Weak.ControlBlockPointer 5, Weak.ControlBlockPointer 7],
        shared := [{ control_ := some 0, ptr_ := 5 }, { control_ := some 1, ptr_ := 7 }],
        weak := [{ control_ := none, ptr_ := 0 }, { control_ := none, ptr_ := 0 }],
        dead := [] } 0 1 = .ok
      { blocks := [Weak.ControlBlockPointer 5, Weak.ControlBlockPointer 7],
        shared := [{ control_ := some 1, ptr_ := 7 }, { control_ := some 0, ptr_ := 5 }],
        weak := [{ control_ := none, ptr_ := 0 }, { control_ := none, ptr_ := 0 }],
        dead := [] } := by
  obtain ⟨w1, h1, h2, _⟩ := (swap_exchanges_fields
      { blocks := [Weak.ControlBlockPointer 5, Weak.ControlBlockPointer 7],
        shared := [{ control_ := some 0, ptr_ := 5 }, { control_ := some 1, ptr_ := 7 }],
        weak := [{ control_ := none, ptr_ := 0 }, { control_ := none, ptr_ := 0 }],
        dead := [] }
      { objs := [], ptrs := [0, 0], adopted := [] } 0 1
      { control_ := some 0, ptr_ := 5 } { control_ := some 1, ptr_ := 7 }
      { control_ := none, ptr_ := 0 } { control_ := none, ptr_ := 0 } 0 0
      (by decide) rfl rfl rfl rfl rfl rfl).1
  rw [h1, h2]
  rfl

/-! ## Intrusive counting over programs -/

namespace Intrusive

end Intrusive
namespace Intrusive

end Intrusive
namespace Intrusive

end Intrusive
namespace Intrusive

end Intrusive

namespace Sft

theorem locked_get (v : Weak.World) (sa : List (Nat × Nat)) (c : Nat) :
    (World.locked v sa).blocks[c]? =
      (v.blocks[c]?).map (fun x => ControlBlock.locked x false) := by
  simp [World.locked]

theorem locked_block (v : Weak.World) (sa : List (Nat × Nat)) (c : Nat) :
    (World.locked v sa).block c = (v.block c).map (fun x => ControlBlock.locked x false) := by
  simp only [World.block, Weak.World.block, locked_get]
  cases h : v.blocks[c]? with
  | none => rfl
  | some x => cases hf : x.freed <;> simp [Except.map, ControlBlock.locked, hf]

theorem locked_put (v : Weak.World) (sa : List (Nat × Nat)) (c : Nat) (x : Weak.ControlBlock) :
    (World.locked v sa).setBlock c (ControlBlock.locked x false) =
      World.locked { v with blocks := v.blocks.set c x } sa := by
  simp [World.locked, World.setBlock, List.map_set]

theorem locked_put_dead (v : Weak.World) (sa : List (Nat × Nat)) (c : Nat)
    (x : Weak.ControlBlock) (h : List Nat) :
    { World.locked v sa with
        blocks := (World.locked v sa).blocks.set c (ControlBlock.locked x false), dead := h } =
      World.locked { v with blocks := v.blocks.set c x, dead := h } sa := by
  simp [World.locked, List.map_set]

theorem locked_unlocked_world (v : Weak.World) (sa : List (Nat × Nat)) :
    (World.locked v sa).unlocked = v := by
  cases v with
  | mk bl sh we de =>
    simp only [World.locked, World.unlocked, List.map_map]
    congr 1
    have : (ControlBlock.unlocked ∘ fun x => ControlBlock.locked x false) = id := by
      funext x; rfl
    rw [this, List.map_id]

theorem unlocked_locked_world {w : World}
    (hl : ∀ b, b ∈ w.blocks → b.destruction_is_locked_ = false) :
    World.locked w.unlocked w.selfAware = w := by
  cases w with
  | mk bl sh we de sa =>
    simp only [World.locked, World.unlocked, List.map_map]
    congr 1
    have : ∀ b, b ∈ bl →
        ((fun x => ControlBlock.locked x false) ∘ ControlBlock.unlocked) b = id b := by
      intro b hb
      have h := hl b hb
      show ControlBlock.locked b.unlocked false = b
      rw [← h]
      rfl
    rw [List.map_congr_left this, List.map_id]

theorem bind_map {α β γ : Type} (r : Except Fault α) (f : α → Except Fault β) (g : β → γ) :
    (r >>= f).map g = r >>= fun x => (f x).map g := by
  cases r <;> rfl

theorem map_bind {α β γ : Type} (r : Except Fault α) (f : α → β) (g : β → Except Fault γ) :
    (r.map f) >>= g = r >>= fun x => g (f x) := by
  cases r <;> rfl

theorem locked_call_strong (v : Weak.World) (sa : List (Nat × Nat)) (c : Nat) :
    (World.locked v sa).call c ControlBlock.IncreaseStrong =
      (v.call c Weak.ControlBlock.IncreaseStrong).map (fun v2 => World.locked v2 sa) := by
  simp only [World.call, Weak.World.call, locked_block]
  cases h : v.block c with
  | error e => rfl
  | ok x =>
    simp only [Except.map, bind, Except.bind, pure, Except.pure]
    exact congrArg Except.ok (locked_put v sa c x.IncreaseStrong)

theorem locked_call_weak (v : Weak.World) (sa : List (Nat × Nat)) (c : Nat) :
    (World.locked v sa).call c ControlBlock.IncreaseWeak =
      (v.call c Weak.ControlBlock.IncreaseWeak).map (fun v2 => World.locked v2 sa) := by
  simp only [World.call, Weak.World.call, locked_block]
  cases h : v.block c with
  | error e => rfl
  | ok x =>
    simp only [Except.map, bind, Except.bind, pure, Except.pure]
    exact congrArg Except.ok (locked_put v sa c x.IncreaseWeak)

theorem locked_callIf_strong (v : Weak.World) (sa : List (Nat × Nat)) (oc : Option Nat) :
    (World.locked v sa).callIf oc ControlBlock.IncreaseStrong =
      (v.callIf oc Weak.ControlBlock.IncreaseStrong).map (fun v2 => World.locked v2 sa) := by
  cases oc with
  | none => rfl
  | some c => exact locked_call_strong v sa c

theorem locked_callIf_weak (v : Weak.World) (sa : List (Nat × Nat)) (oc : Option Nat) :
    (World.locked v sa).callIf oc ControlBlock.IncreaseWeak =
      (v.callIf oc Weak.ControlBlock.IncreaseWeak).map (fun v2 => World.locked v2 sa) := by
  cases oc with
  | none => rfl
  | some c => exact locked_call_weak v sa c

theorem locked_incr_strong (v : Weak.World) (sa : List (Nat × Nat)) (i : Nat) :
    SharedPtr.ControlIncreaseStrong (World.locked v sa) i =
      (Weak.SharedPtr.ControlIncreaseStrong v i).map (fun v2 => World.locked v2 sa) := by
  unfold SharedPtr.ControlIncreaseStrong Weak.SharedPtr.ControlIncreaseStrong
  rw [show (World.locked v sa).sharedAt i = v.sharedAt i from rfl]
  cases v.sharedAt i with
  | error e => rfl
  | ok s => exact locked_callIf_strong v sa s.control_

theorem locked_incr_weak (v : Weak.World) (sa : List (Nat × Nat)) (i : Nat) :
    WeakPtr.ControlIncreaseWeak (World.locked v sa) i =
      (Weak.WeakPtr.ControlIncreaseWeak v i).map (fun v2 => World.locked v2 sa) := by
  unfold WeakPtr.ControlIncreaseWeak Weak.WeakPtr.ControlIncreaseWeak
  rw [show (World.locked v sa).weakAt i = v.weakAt i from rfl]
  cases v.weakAt i with
  | error e => rfl
  | ok s => exact locked_callIf_weak v sa s.control_

/-! ### Constructors that release nothing -/

theorem locked_shared_copy (v : Weak.World) (sa : List (Nat × Nat)) (i : Nat) :
    SharedPtr.copy false (World.locked v sa) i =
      (Weak.SharedPtr.copy v i).map (fun v2 => World.locked v2 sa) := by
  unfold SharedPtr.copy Weak.SharedPtr.copy
  rw [show (World.locked v sa).sharedAt i = v.sharedAt i from rfl]
  cases v.sharedAt i with
  | error e => rfl
  | ok s =>
    simp only [bind, Except.bind]
    rw [show (World.locked v sa).newShared { control_ := s.control_, ptr_ := s.ptr_ } =
      World.locked (v.newShared { control_ := s.control_, ptr_ := s.ptr_ }) sa from rfl,
      show (World.locked v sa).shared.length = v.shared.length from rfl, locked_incr_strong]
    cases Weak.SharedPtr.ControlIncreaseStrong
      (v.newShared { control_ := s.control_, ptr_ := s.ptr_ }) v.shared.length <;> rfl

theorem locked_shared_aliasing (v : Weak.World) (sa : List (Nat × Nat)) (i p : Nat) :
    SharedPtr.aliasing false (World.locked v sa) i p =
      (Weak.SharedPtr.aliasing v i p).map (fun v2 => World.locked v2 sa) := by
  unfold SharedPtr.aliasing Weak.SharedPtr.aliasing
  rw [show (World.locked v sa).sharedAt i = v.sharedAt i from rfl]
  cases v.sharedAt i with
  | error e => rfl
  | ok s =>
    simp only [bind, Except.bind]
    rw [show (World.locked v sa).newShared { control_ := s.control_, ptr_ := p } =
      World.locked (v.newShared { control_ := s.control_, ptr_ := p }) sa from rfl,
      show (World.locked v sa).shared.length = v.shared.length from rfl, locked_incr_strong]
    cases Weak.SharedPtr.ControlIncreaseStrong
      (v.newShared { control_ := s.control_, ptr_ := p }) v.shared.length <;> rfl

theorem locked_shared_move (v : Weak.World) (sa : List (Nat × Nat)) (i : Nat) :
    SharedPtr.move (World.locked v sa) i =
      (Weak.SharedPtr.move v i).map (fun v2 => World.locked v2 sa) := by
  unfold SharedPtr.move Weak.SharedPtr.move
  rw [show (World.locked v sa).sharedAt i = v.sharedAt i from rfl]
  cases v.sharedAt i <;> rfl

theorem locked_shared_construct (v : Weak.World) (sa : List (Nat × Nat)) :
    SharedPtr.construct false (World.locked v sa) =
      .ok (World.locked (Weak.SharedPtr.construct v) sa) := rfl

theorem locked_shared_from_raw (v : Weak.World) (sa : List (Nat × Nat)) (p : Nat) :
    SharedPtr.fromRaw false (World.locked v sa) p =
      .ok (World.locked (Weak.SharedPtr.fromRaw v p) sa) := by
  simp [SharedPtr.fromRaw, Weak.SharedPtr.fromRaw, SharedPtr.PerhapsInitWeakThis, World.locked,
    World.newShared, Weak.World.newShared, pure, Except.pure, ControlBlockPointer,
    Weak.ControlBlockPointer, ControlBlock.locked]

theorem locked_make_shared (v : Weak.World) (sa : List (Nat × Nat)) (a : Nat) :
    MakeShared false (World.locked v sa) a = .ok (World.locked (Weak.MakeShared v a) sa) := by
  simp [MakeShared, Weak.MakeShared, SharedPtr.fromBlock, Weak.SharedPtr.fromBlock,
    SharedPtr.PerhapsInitWeakThis, World.locked, World.newShared, Weak.World.newShared, pure,
    Except.pure, ControlBlockEmplace, Weak.ControlBlockEmplace, ControlBlock.locked,
    ControlBlock.GetPtr, Weak.ControlBlock.GetPtr]

theorem locked_shared_from_weak (v : Weak.World) (sa : List (Nat × Nat)) (j : Nat) :
    SharedPtr.fromWeak (World.locked v sa) j =
      (Weak.SharedPtr.fromWeak v j).map (fun v2 => World.locked v2 sa) := by
  unfold SharedPtr.fromWeak Weak.SharedPtr.fromWeak
  rw [show (World.locked v sa).weakAt j = v.weakAt j from rfl]
  cases v.weakAt j with
  | error e => rfl
  | ok s =>
    simp only [bind, Except.bind]
    cases hc : s.control_ with
    | none => rfl
    | some c =>
      simp only [locked_block]
      cases hb : v.block c with
      | error e => rfl
      | ok x =>
        simp only [Except.map]
        rw [show (ControlBlock.locked x false).IsResourceAlive = x.IsResourceAlive from rfl]
        cases x.IsResourceAlive with
        | false => rfl
        | true =>
          simp only [if_true]
          rw [show (World.locked v sa).newShared { control_ := some c, ptr_ := s.ptr_ } =
            World.locked (v.newShared { control_ := some c, ptr_ := s.ptr_ }) sa from rfl,
            show (World.locked v sa).shared.length = v.shared.length from rfl,
            locked_incr_strong]
          rfl

theorem locked_weak_lock (v : Weak.World) (sa : List (Nat × Nat)) (j : Nat) :
    WeakPtr.Lock false (World.locked v sa) j =
      (Weak.WeakPtr.Lock v j).map (fun v2 => World.locked v2 sa) := by
  unfold WeakPtr.Lock Weak.WeakPtr.Lock
  rw [show (World.locked v sa).weakAt j = v.weakAt j from rfl]
  cases v.weakAt j with
  | error e => rfl
  | ok s =>
    simp only [bind, Except.bind]
    cases hc : s.control_ with
    | none => rfl
    | some c =>
      simp only [locked_block]
      cases hb : v.block c with
      | error e => rfl
      | ok x =>
        simp only [Except.map]
        rw [show (ControlBlock.locked x false).IsResourceAlive = x.IsResourceAlive from rfl]
        cases x.IsResourceAlive with
        | false => rfl
        | true =>
          simp only [if_true, locked_call_strong]
          cases v.call c Weak.ControlBlock.IncreaseStrong <;> rfl

theorem locked_weak_construct (v : Weak.World) (sa : List (Nat × Nat)) :
    WeakPtr.construct (World.locked v sa) = World.locked (Weak.WeakPtr.construct v) sa := rfl

theorem locked_weak_copy (v : Weak.World) (sa : List (Nat × Nat)) (j : Nat) :
    WeakPtr.copy (World.locked v sa) j =
      (Weak.WeakPtr.copy v j).map (fun v2 => World.locked v2 sa) := by
  unfold WeakPtr.copy Weak.WeakPtr.copy
  rw [show (World.locked v sa).weakAt j = v.weakAt j from rfl]
  cases v.weakAt j with
  | error e => rfl
  | ok s =>
    simp only [bind, Except.bind]
    rw [show (World.locked v sa).newWeak { control_ := s.control_, ptr_ := s.ptr_ } =
      World.locked (v.newWeak { control_ := s.control_, ptr_ := s.ptr_ }) sa from rfl,
      show (World.locked v sa).weak.length = v.weak.length from rfl, locked_incr_weak]

theorem locked_weak_from_shared (v : Weak.World) (sa : List (Nat × Nat)) (i : Nat) :
    WeakPtr.fromShared (World.locked v sa) i =
      (Weak.WeakPtr.fromShared v i).map (fun v2 => World.locked v2 sa) := by
  unfold WeakPtr.fromShared Weak.WeakPtr.fromShared
  rw [show (World.locked v sa).sharedAt i = v.sharedAt i from rfl]
  cases v.sharedAt i with
  | error e => rfl
  | ok s =>
    simp only [bind, Except.bind]
    rw [show (World.locked v sa).newWeak { control_ := s.control_, ptr_ := s.ptr_ } =
      World.locked (v.newWeak { control_ := s.control_, ptr_ := s.ptr_ }) sa from rfl,
      show (World.locked v sa).weak.length = v.weak.length from rfl, locked_incr_weak]

theorem locked_weak_move (v : Weak.World) (sa : List (Nat × Nat)) (j : Nat) :
    WeakPtr.move (World.locked v sa) j =
      (Weak.WeakPtr.move v j).map (fun v2 => World.locked v2 sa) := by
  unfold WeakPtr.move Weak.WeakPtr.move
  rw [show (World.locked v sa).weakAt j = v.weakAt j from rfl]
  cases v.weakAt j <;> rfl

end Sft

/-! ## Teardown of a self-aware object in a world without a set lock -/

namespace Weak

theorem idle_of_inv {w : World} (hinv : Inv w) : Idle w := by
  intro d y hy h0
  have hi := hinv d
  rw [hy] at hi
  have hg : Good y _ _ := hi
  obtain ⟨h1, _, _, _, _, h6⟩ := hg
  cases hl : y.derived.live with
  | false => rfl
  | true =>
    have := (h6.1 hl).2
    rw [← h1] at this
    exact absurd h0 this

/-- `DecreaseWeak` on a block that holds no object when its strong count is 0 leaves the record
of dead addresses alone, and does the same whatever the record is. -/
theorem decrease_weak_idle_eq {y : ControlBlock}
    (hid : y.cnt_strong_ref_ = 0 → y.derived.live = false) :
    ∃ r, ∀ h, y.DecreaseWeak h = .ok (r, h) := by
  by_cases hc : y.cnt_strong_ref_ = 0 ∧ decSize y.cnt_weak_ref_ = 0
  · have hl : (y.setWeak (decSize y.cnt_weak_ref_)).derived.live = false := hid hc.1
    have hc2 : (y.setWeak (decSize y.cnt_weak_ref_)).cnt_strong_ref_ = 0 ∧
        (y.setWeak (decSize y.cnt_weak_ref_)).cnt_weak_ref_ = 0 := hc
    refine ⟨{ cnt_strong_ref_ := y.cnt_strong_ref_, cnt_weak_ref_ := decSize y.cnt_weak_ref_,
              derived := y.derived, managed := y.managed, freed := true,
              releases := y.releases, deletes := y.deletes + 1 }, fun h => ?_⟩
    simp only [ControlBlock.DecreaseWeak, hc2, and_self, if_true, ControlBlock.deleteThis,
      delete_source_idle hl, bind, Except.bind, pure, Except.pure]
    simp [ControlBlock.setWeak, hc.1, hc.2]
  · have hc2 : ¬ ((y.setWeak (decSize y.cnt_weak_ref_)).cnt_strong_ref_ = 0 ∧
        (y.setWeak (decSize y.cnt_weak_ref_)).cnt_weak_ref_ = 0) := hc
    exact ⟨y.setWeak (decSize y.cnt_weak_ref_), fun h => by
      simp only [ControlBlock.DecreaseWeak, hc2, if_false, pure, Except.pure]⟩

/-- The last `DecreaseStrong` on a block that holds its object. -/
theorem dec_strong_last_eq {x : ControlBlock} (hs : x.cnt_strong_ref_ = 1)
    (hl : x.derived.live = true) (h : List Nat) :
    x.DecreaseStrong h = (x.derived.release h).map (fun h1 =>
      (if x.cnt_weak_ref_ = 0 then
        { x with cnt_strong_ref_ := 0, derived := x.derived.drop, releases := x.releases + 1,
                 freed := true, deletes := x.deletes + 1 }
       else
        { x with cnt_strong_ref_ := 0, derived := x.derived.drop,
                 releases := x.releases + 1 }, h1)) := by
  have h0 : (x.setStrong (decSize x.cnt_strong_ref_)).cnt_strong_ref_ = 0 := by
    simp [ControlBlock.setStrong, hs, decSize]
  have hl1 : (x.setStrong (decSize x.cnt_strong_ref_)).derived.live = true := hl
  simp only [ControlBlock.DecreaseStrong, h0, if_true, ControlBlock.DeleteSource, hl1, bind,
    Except.bind]
  have hd : (x.setStrong (decSize x.cnt_strong_ref_)).derived = x.derived := rfl
  rw [hd]
  cases x.derived.release h with
  | error e => rfl
  | ok h1 =>
    simp only [pure, Except.pure, Except.map, true_and]
    by_cases hw : x.cnt_weak_ref_ = 0
    · have hw1 : (x.setStrong (decSize x.cnt_strong_ref_)).cnt_weak_ref_ = 0 := hw
      simp only [hw, hw1, if_true, ControlBlock.deleteThis, ControlBlock.DeleteSource, live_drop,
        bind, Except.bind, pure, Except.pure, ControlBlock.setStrong, hs, decSize]
      simp
    · have hw1 : ¬ (x.setStrong (decSize x.cnt_strong_ref_)).cnt_weak_ref_ = 0 := hw
      simp only [hw, hw1, if_false, ControlBlock.setStrong, hs, decSize]

end Weak

namespace Sft

/-- The release routine of a block whose object is self-aware: the object is released, then its
member `weak_this_` is destroyed, then the object is no longer living. -/
theorem delete_sourceK_aware {d : World → Nat → Except Fault World} {w : World} {c p k : Nat}
    {b : ControlBlock} (hb : w.blocks[c]? = some b) (hf : b.freed = false)
    (ho : b.derived.object = some p) (hk : w.selfAware.lookup p = some k) :
    DeleteSourceK d w c =
      (b.derived.release w.dead >>= fun h =>
        WeakPtr.ClearK d
          { w with blocks := w.blocks.set c
                     { b with derived := b.derived.drop, releases := b.releases + 1 },
                   dead := h } k).map
        (fun w1 => { w1 with selfAware := w1.selfAware.filter (fun o => o.1 ≠ p) }) := by
  cases hd : b.derived with
  | pointer q =>
    have hq : q ≠ 0 ∧ q = p := by
      rw [hd] at ho
      by_cases h0 : q = 0
      · simp [Storage.object, h0] at ho
      · simp [Storage.object, h0] at ho
        exact ⟨h0, ho⟩
    obtain ⟨hq0, hqp⟩ := hq
    subst hqp
    rw [delete_sourceK_pointer hb hf hd hq0]
    simp only [deleteK, Storage.release, World.setBlock, Storage.drop]
    cases deleteObject w.dead q with
    | error e => rfl
    | ok h =>
      simp only [bind, Except.bind, destructK, hk]
      cases WeakPtr.ClearK d _ k <;> rfl
  | emplace a alive =>
    have hq : alive = true ∧ a = p := by
      rw [hd] at ho
      cases alive with
      | false => simp [Storage.object] at ho
      | true =>
        simp [Storage.object] at ho
        exact ⟨rfl, ho⟩
    obtain ⟨hal, hap⟩ := hq
    subst hal
    subst hap
    rw [delete_sourceK_emplace hb hf hd]
    simp only [Storage.release, World.setBlock, Storage.drop, bind, Except.bind, destructK, hk]
    cases WeakPtr.ClearK d _ k <;> rfl

theorem object_live {s : Storage} {p : Nat} (h : s.object = some p) : s.live = true := by
  cases s with
  | pointer q =>
    by_cases h0 : q = 0
    · simp [Storage.object, h0] at h
    · simp [Storage.live, h0]
  | emplace a alive =>
    cases alive with
    | false => simp [Storage.object] at h
    | true => rfl

theorem object_none_of_not_live {s : Storage} (h : s.live = false) : s.object = none := by
  cases s with
  | pointer q =>
    have : q = 0 := by simpa [Storage.live] using h
    simp [Storage.object, this]
  | emplace a alive =>
    have : alive = false := by simpa [Storage.live] using h
    simp [Storage.object, this]

/-- `DecreaseWeak` on a block that holds no object when its strong count is 0, next to the method
of the variant without lock. -/
theorem decrease_weak_idle {w : World} {c : Nat} {b : ControlBlock}
    (hb : w.blocks[c]? = some b) (hf : b.freed = false) (hl : b.destruction_is_locked_ = false)
    (hid : b.cnt_strong_ref_ = 0 → b.derived.live = false) :
    ControlBlock.DecreaseWeak w c =
      (b.unlocked.DecreaseWeak w.dead).map (fun r =>
        { w with blocks := w.blocks.set c (ControlBlock.locked r.1 false), dead := r.2 }) := by
  by_cases h0 : b.cnt_strong_ref_ = 0
  · exact decrease_weak_plain hb hf hl (fun p hp => by
      rw [object_none_of_not_live (hid h0)] at hp
      cases hp)
  · show DecreaseWeakK (DecreaseWeakFuel w.blocks.length) w c = _
    rw [decrease_weakK_keep hb hf (fun h => h0 h.2.1)]
    have hc2 : ¬ ((b.unlocked.setWeak (decSize b.unlocked.cnt_weak_ref_)).cnt_strong_ref_ = 0 ∧
        (b.unlocked.setWeak (decSize b.unlocked.cnt_weak_ref_)).cnt_weak_ref_ = 0) :=
      fun h => h0 h.1
    simp only [Weak.ControlBlock.DecreaseWeak, hc2, if_false, pure, Except.pure, Except.map]
    simp [World.setBlock, ControlBlock.locked, ControlBlock.setWeak, Weak.ControlBlock.setWeak,
      ControlBlock.unlocked, hl]

/-- The last `DecreaseStrong` on a block whose object is self-aware, given what the destruction
of the member `weak_this_` does. -/
theorem decrease_strong_aware {w wB : World} {c p k : Nat} {b bB : ControlBlock} {h : List Nat}
    (hb : w.blocks[c]? = some b) (hf : b.freed = false) (hs : b.cnt_strong_ref_ = 1)
    (ho : b.derived.object = some p) (hk : w.selfAware.lookup p = some k)
    (hr : b.derived.release w.dead = .ok h)
    (hclear : WeakPtr.ClearK (DecreaseWeakFuel w.fuel)
      { w with blocks := w.blocks.set c
                 { b with cnt_strong_ref_ := 0, destruction_is_locked_ := true,
                          derived := b.derived.drop, releases := b.releases + 1 },
               dead := h } k = .ok wB)
    (hbB : wB.blocks[c]? = some bB) (hfB : bB.freed = false) (hsB : bB.cnt_strong_ref_ = 0)
    (hdB : bB.derived.live = false) :
    ControlBlock.DecreaseStrong w c = .ok
      { wB with blocks := wB.blocks.set c
                  (if bB.cnt_weak_ref_ = 0 then
                    { bB with destruction_is_locked_ := false, freed := true,
                              deletes := bB.deletes + 1 }
                   else bB.setLock false),
                selfAware := wB.selfAware.filter (fun o => o.1 ≠ p) } := by
  have hlt := Weak.lt_of_getElem? hb
  have hltB := Weak.lt_of_getElem? hbB
  have hbL : ((w.setBlock c (b.setStrong 0)).setBlock c ((b.setStrong 0).setLock true)).blocks[c]? =
      some ((b.setStrong 0).setLock true) := by
    simp [World.setBlock, List.getElem?_set_self, hlt]
  have e1 := delete_sourceK_aware (d := DecreaseWeakFuel w.fuel) hbL hf ho
    (by simpa [World.setBlock] using hk)
  have ew : ({ (w.setBlock c (b.setStrong 0)).setBlock c ((b.setStrong 0).setLock true) with
      blocks := ((w.setBlock c (b.setStrong 0)).setBlock c
        ((b.setStrong 0).setLock true)).blocks.set c
          { (b.setStrong 0).setLock true with
            derived := ((b.setStrong 0).setLock true).derived.drop,
            releases := ((b.setStrong 0).setLock true).releases + 1 },
      dead := h } : World) =
      { w with blocks := w.blocks.set c
                 { b with cnt_strong_ref_ := 0, destruction_is_locked_ := true,
                          derived := b.derived.drop, releases := b.releases + 1 },
               dead := h } := by
    simp [World.setBlock, List.set_set, ControlBlock.setStrong, ControlBlock.setLock]
  have hr2 : ((b.setStrong 0).setLock true).derived.release
      ((w.setBlock c (b.setStrong 0)).setBlock c ((b.setStrong 0).setLock true)).dead = .ok h := hr
  rw [hr2] at e1
  simp only [bind, Except.bind] at e1
  rw [ew, hclear] at e1
  simp only [ControlBlock.DecreaseStrong, sft_block_ok hb hf, bind, Except.bind, hs,
    decSize_succ 0]
  have h0 : (b.setStrong 0).cnt_strong_ref_ = 0 := rfl
  simp only [h0, if_true, e1, Except.map]
  have hset : ∀ (l : List (Nat × Nat)) (y : ControlBlock),
      World.block { wB with blocks := wB.blocks.set c y, selfAware := l } c =
        if y.freed then .error .undefined else .ok y := by
    intro l y
    simp [World.block, List.getElem?_set_self hltB]
  have hblk : World.block { wB with selfAware := wB.selfAware.filter (fun o => o.1 ≠ p) } c =
      .ok bB := by
    simp [World.block, hbB, hfB]
  simp only [hblk, pure, Except.pure, World.setBlock]
  have hfu : (bB.setLock false).freed = false := hfB
  simp only [hset, hfu, Bool.false_eq_true, if_false]
  have hst : (bB.setLock false).cnt_strong_ref_ = 0 := hsB
  have hlk : (bB.setLock false).destruction_is_locked_ = false := rfl
  have hwk : (bB.setLock false).cnt_weak_ref_ = bB.cnt_weak_ref_ := rfl
  simp only [hst, hlk, hwk, true_and]
  by_cases hw : bB.cnt_weak_ref_ = 0
  · simp only [hw, if_true]
    have hbx : ({ wB with blocks := wB.blocks.set c (bB.setLock false),
                          selfAware := wB.selfAware.filter (fun o => o.1 ≠ p) } : World).blocks[c]? =
        some (bB.setLock false) := by
      simp [List.getElem?_set_self hltB]
    rw [delete_thisK_idle hbx hfu hdB]
    simp [World.setBlock, List.set_set, ControlBlock.setLock, hw]
  · simp only [hw, if_false]

end Sft

namespace Weak

theorem callDel_map {w : World} {c : Nat} {b : ControlBlock} (hb : w.blocks[c]? = some b)
    (hf : b.freed = false)
    (f : ControlBlock → List Nat → Except Fault (ControlBlock × List Nat)) :
    w.callDel c f =
      (f b w.dead).map (fun r => { w with blocks := w.blocks.set c r.1, dead := r.2 }) := by
  simp only [World.callDel, block_ok hb hf, bind, Except.bind]
  cases f b w.dead <;> rfl

end Weak

namespace Sft

/-- The last `DecreaseStrong` on a block whose object is self-aware and cannot be released. -/
theorem decrease_strong_aware_fault {w : World} {c p k : Nat} {b : ControlBlock} {e : Fault}
    (hb : w.blocks[c]? = some b) (hf : b.freed = false) (hs : b.cnt_strong_ref_ = 1)
    (ho : b.derived.object = some p) (hk : w.selfAware.lookup p = some k)
    (hr : b.derived.release w.dead = .error e) :
    ControlBlock.DecreaseStrong w c = .error e := by
  have hlt := Weak.lt_of_getElem? hb
  have hbL : ((w.setBlock c (b.setStrong 0)).setBlock c ((b.setStrong 0).setLock true)).blocks[c]? =
      some ((b.setStrong 0).setLock true) := by
    simp [World.setBlock, List.getElem?_set_self, hlt]
  have e1 := delete_sourceK_aware (d := DecreaseWeakFuel w.fuel) hbL hf ho
    (by simpa [World.setBlock] using hk)
  have hr2 : ((b.setStrong 0).setLock true).derived.release
      ((w.setBlock c (b.setStrong 0)).setBlock c ((b.setStrong 0).setLock true)).dead =
        .error e := hr
  rw [hr2] at e1
  simp only [bind, Except.bind, Except.map] at e1
  simp only [ControlBlock.DecreaseStrong, sft_block_ok hb hf, bind, Except.bind, hs,
    decSize_succ 0]
  have h0 : (b.setStrong 0).cnt_strong_ref_ = 0 := rfl
  simp only [h0, if_true, e1]

theorem locked_fuel (v : Weak.World) (sa : List (Nat × Nat)) :
    (World.locked v sa).fuel = v.blocks.length + 1 := by
  simp [World.fuel, World.locked]

/-- The destruction of a `WeakPtr` that references a block without set lock which holds no object
when its strong count is 0. -/
theorem clearK_other {w : World} {n k d : Nat} {m : WeakPtr} {y r : Weak.ControlBlock}
    (hm : w.weak[k]? = some m) (hc : m.control_ = some d)
    (hy : w.blocks[d]? = some (ControlBlock.locked y false)) (hfy : y.freed = false)
    (hid : y.cnt_strong_ref_ = 0 → y.derived.live = false)
    (hr : ∀ h, y.DecreaseWeak h = .ok (r, h)) (hn : n = w.fuel) :
    WeakPtr.ClearK (DecreaseWeakFuel n) w k = .ok
      (World.setWeak { w with blocks := w.blocks.set d (ControlBlock.locked r false) } k
        { control_ := none, ptr_ := 0 }) := by
  have e1 := decrease_weak_idle hy hfy rfl hid
  rw [show (ControlBlock.locked y false).unlocked = y from rfl, hr w.dead] at e1
  simp only [Except.map] at e1
  have e2 : DecreaseWeakFuel n w d = .ok
      { w with blocks := w.blocks.set d (ControlBlock.locked r false) } := by
    rw [hn]
    exact e1
  exact clearK_some hm hc e2

/-- The last `DecreaseStrong` on a block whose object is self-aware, in a world without a set
lock: what the variant without lock does when the member `weak_this_` is destroyed first. -/
theorem locked_decrease_strong_aware {v V1 : Weak.World} {sa : List (Nat × Nat)} {c p k : Nat}
    {x : Weak.ControlBlock} {m : WeakPtr} (hid : Weak.Idle v)
    (hx : v.blocks[c]? = some x) (hf : x.freed = false) (hs : x.cnt_strong_ref_ = 1)
    (ho : x.derived.object = some p) (hk : sa.lookup p = some k) (hm : v.weak[k]? = some m)
    (hV1 : v.callDelIf m.control_ Weak.ControlBlock.DecreaseWeak = .ok V1) :
    ControlBlock.DecreaseStrong (World.locked v sa) c =
      (Weak.World.callDel { V1 with weak := v.weak.set k { control_ := none, ptr_ := 0 } } c
        Weak.ControlBlock.DecreaseStrong).map
        (fun V2 => World.locked V2 (sa.filter (fun o => o.1 ≠ p))) := by
  have hlt := Weak.lt_of_getElem? hx
  have hb : (World.locked v sa).blocks[c]? = some (ControlBlock.locked x false) := by
    rw [locked_get, hx]; rfl
  have hlive := object_live ho
  have hkk : (World.locked v sa).selfAware.lookup p = some k := hk
  cases hc : m.control_ with
  | none =>
    rw [hc] at hV1
    simp only [Weak.World.callDelIf, pure, Except.pure, Except.ok.injEq] at hV1
    subst hV1
    rw [Weak.callDel_map (w := { v with weak := v.weak.set k { control_ := none, ptr_ := 0 } })
      (b := x) hx hf, Weak.dec_strong_last_eq hs hlive, map_map]
    cases hr : x.derived.release v.dead with
    | error e =>
      exact decrease_strong_aware_fault hb hf hs ho hkk hr
    | ok h =>
      have hcl := clearK_none (d := DecreaseWeakFuel (World.locked v sa).fuel)
        (w := { World.locked v sa with
                  blocks := (World.locked v sa).blocks.set c
                    { ControlBlock.locked x false with
                        cnt_strong_ref_ := 0, destruction_is_locked_ := true,
                        derived := (ControlBlock.locked x false).derived.drop,
                        releases := (ControlBlock.locked x false).releases + 1 },
                  dead := h }) (k := k) (s := m) hm hc
      have hbB := List.getElem?_set_self (l := (World.locked v sa).blocks)
        (a := ({ ControlBlock.locked x false with
                        cnt_strong_ref_ := 0, destruction_is_locked_ := true,
                        derived := (ControlBlock.locked x false).derived.drop,
                        releases := (ControlBlock.locked x false).releases + 1 } : ControlBlock))
        (by simpa [World.locked] using hlt : c < (World.locked v sa).blocks.length)
      rw [decrease_strong_aware hb hf hs ho hkk hr hcl hbB hf rfl (live_drop _)]
      simp only [Except.map, World.locked, World.setWeak, List.set_set, List.map_set,
        ControlBlock.locked, ControlBlock.setLock]
      by_cases hw : x.cnt_weak_ref_ = 0 <;> simp [hw]
  | some d =>
    rw [hc] at hV1
    have hV1b : v.callDel d Weak.ControlBlock.DecreaseWeak = .ok V1 := hV1
    obtain ⟨y, hy, hfy⟩ : ∃ y, v.blocks[d]? = some y ∧ y.freed = false := by
      cases hyy : v.blocks[d]? with
      | none => simp [Weak.World.callDel, Weak.World.block, hyy, bind, Except.bind] at hV1b
      | some y =>
        cases hfy : y.freed with
        | true => simp [Weak.World.callDel, Weak.World.block, hyy, hfy, bind, Except.bind] at hV1b
        | false => exact ⟨y, rfl, hfy⟩
    obtain ⟨r, hr⟩ := Weak.decrease_weak_idle_eq (hid d y hy)
    rw [Weak.callDel_map hy hfy, hr v.dead] at hV1b
    simp only [Except.map, Except.ok.injEq] at hV1b
    subst hV1b
    have hltd := Weak.lt_of_getElem? hy
    by_cases hdc : d = c
    · subst hdc
      have hyx : y = x := by
        rw [hx] at hy
        exact (Option.some.inj hy).symm
      subst hyx
      have hrx : r = y.setWeak (decSize y.cnt_weak_ref_) := by
        have h1 := hr []
        have hc2 : ¬ ((y.setWeak (decSize y.cnt_weak_ref_)).cnt_strong_ref_ = 0 ∧
            (y.setWeak (decSize y.cnt_weak_ref_)).cnt_weak_ref_ = 0) := by
          intro h
          have : y.cnt_strong_ref_ = 0 := h.1
          omega
        simp only [Weak.ControlBlock.DecreaseWeak, hc2, if_false, pure, Except.pure,
          Except.ok.injEq, Prod.mk.injEq, and_true] at h1
        exact h1.symm
      subst hrx
      have hbr : ({ ({ v with blocks := v.blocks.set d (y.setWeak (decSize y.cnt_weak_ref_)),
                              dead := v.dead } : Weak.World) with
                    weak := v.weak.set k { control_ := none, ptr_ := 0 } } : Weak.World).blocks[d]? =
          some (y.setWeak (decSize y.cnt_weak_ref_)) := List.getElem?_set_self hlt
      rw [Weak.callDel_map hbr hf,
        Weak.dec_strong_last_eq (x := y.setWeak (decSize y.cnt_weak_ref_)) hs hlive, map_map]
      cases hrel : y.derived.release v.dead with
      | error e =>
        have hrel2 : (y.setWeak (decSize y.cnt_weak_ref_)).derived.release v.dead = .error e :=
          hrel
        rw [hrel2]
        exact decrease_strong_aware_fault hb hf hs ho hkk hrel
      | ok h =>
        have hrel2 : (y.setWeak (decSize y.cnt_weak_ref_)).derived.release v.dead = .ok h := hrel
        rw [hrel2]
        have hbA := List.getElem?_set_self (l := (World.locked v sa).blocks)
          (a := ({ ControlBlock.locked y false with
                        cnt_strong_ref_ := 0, destruction_is_locked_ := true,
                        derived := (ControlBlock.locked y false).derived.drop,
                        releases := (ControlBlock.locked y false).releases + 1 } : ControlBlock))
          (by simpa [World.locked] using hlt : d < (World.locked v sa).blocks.length)
        have e1 := decrease_weakK_keep (d := DecreaseWeakFuel v.blocks.length)
          (w := { World.locked v sa with
                  blocks := (World.locked v sa).blocks.set d
                    { ControlBlock.locked y false with
                        cnt_strong_ref_ := 0, destruction_is_locked_ := true,
                        derived := (ControlBlock.locked y false).derived.drop,
                        releases := (ControlBlock.locked y false).releases + 1 },
                  dead := h }) hbA hf (by simp)
        have hcl := clearK_some (d := DecreaseWeakFuel (World.locked v sa).fuel) (k := k) (s := m)
          (w := { World.locked v sa with
                  blocks := (World.locked v sa).blocks.set d
                    { ControlBlock.locked y false with
                        cnt_strong_ref_ := 0, destruction_is_locked_ := true,
                        derived := (ControlBlock.locked y false).derived.drop,
                        releases := (ControlBlock.locked y false).releases + 1 },
                  dead := h }) hm hc (by rw [locked_fuel]; exact e1)
        have hbB : ((({ World.locked v sa with
                  blocks := (World.locked v sa).blocks.set d
                    { ControlBlock.locked y false with
                        cnt_strong_ref_ := 0, destruction_is_locked_ := true,
                        derived := (ControlBlock.locked y false).derived.drop,
                        releases := (ControlBlock.locked y false).releases + 1 },
                  dead := h } : World).setBlock d
              (({ ControlBlock.locked y false with
                        cnt_strong_ref_ := 0, destruction_is_locked_ := true,
                        derived := (ControlBlock.locked y false).derived.drop,
                        releases := (ControlBlock.locked y false).releases + 1 } :
                  ControlBlock).setWeak (decSize y.cnt_weak_ref_))).setWeak k
              { control_ := none, ptr_ := 0 }).blocks[d]? = some
              (({ ControlBlock.locked y false with
                        cnt_strong_ref_ := 0, destruction_is_locked_ := true,
                        derived := (ControlBlock.locked y false).derived.drop,
                        releases := (ControlBlock.locked y false).releases + 1 } :
                  ControlBlock).setWeak (decSize y.cnt_weak_ref_)) := by
          simp [World.setBlock, World.setWeak, World.locked, hlt]
        rw [decrease_strong_aware hb hf hs ho hkk hrel hcl hbB hf rfl (live_drop _)]
        simp only [Except.map, World.locked, World.setWeak, World.setBlock, List.set_set,
          List.map_set, ControlBlock.locked, ControlBlock.setLock, ControlBlock.setWeak,
          Weak.ControlBlock.setWeak]
        by_cases hw : decSize y.cnt_weak_ref_ = 0 <;> simp [hw]
    · have hbr : ({ ({ v with blocks := v.blocks.set d r, dead := v.dead } : Weak.World) with
                    weak := v.weak.set k { control_ := none, ptr_ := 0 } } : Weak.World).blocks[c]? =
          some x := by
        show (v.blocks.set d r)[c]? = some x
        rw [List.getElem?_set_ne hdc]
        exact hx
      rw [Weak.callDel_map hbr hf, Weak.dec_strong_last_eq hs hlive, map_map]
      cases hrel : x.derived.release v.dead with
      | error e => exact decrease_strong_aware_fault hb hf hs ho hkk hrel
      | ok h =>
        have hyA : ({ World.locked v sa with
                  blocks := (World.locked v sa).blocks.set c
                    { ControlBlock.locked x false with
                        cnt_strong_ref_ := 0, destruction_is_locked_ := true,
                        derived := (ControlBlock.locked x false).derived.drop,
                        releases := (ControlBlock.locked x false).releases + 1 },
                  dead := h } : World).blocks[d]? = some (ControlBlock.locked y false) := by
          show ((World.locked v sa).blocks.set c _)[d]? = _
          rw [List.getElem?_set_ne (fun e => hdc e.symm), locked_get, hy]
          rfl
        have hcl := clearK_other (n := (World.locked v sa).fuel) (k := k) (m := m)
          (w := { World.locked v sa with
                  blocks := (World.locked v sa).blocks.set c
                    { ControlBlock.locked x false with
                        cnt_strong_ref_ := 0, destruction_is_locked_ := true,
                        derived := (ControlBlock.locked x false).derived.drop,
                        releases := (ControlBlock.locked x false).releases + 1 },
                  dead := h }) hm hc hyA hfy (hid d y hy) hr (by simp [World.fuel])
        have hbB : (World.setWeak
            ({ ({ World.locked v sa with
                  blocks := (World.locked v sa).blocks.set c
                    { ControlBlock.locked x false with
                        cnt_strong_ref_ := 0, destruction_is_locked_ := true,
                        derived := (ControlBlock.locked x false).derived.drop,
                        releases := (ControlBlock.locked x false).releases + 1 },
                  dead := h } : World) with
                blocks := (({ World.locked v sa with
                  blocks := (World.locked v sa).blocks.set c
                    { ControlBlock.locked x false with
                        cnt_strong_ref_ := 0, destruction_is_locked_ := true,
                        derived := (ControlBlock.locked x false).derived.drop,
                        releases := (ControlBlock.locked x false).releases + 1 },
                  dead := h } : World).blocks.set d (ControlBlock.locked r false)) } : World)
              k { control_ := none, ptr_ := 0 }).blocks[c]? = some
              ({ ControlBlock.locked x false with
                        cnt_strong_ref_ := 0, destruction_is_locked_ := true,
                        derived := (ControlBlock.locked x false).derived.drop,
                        releases := (ControlBlock.locked x false).releases + 1 } :
                  ControlBlock) := by
          show (((World.locked v sa).blocks.set c _).set d _)[c]? = _
          rw [List.getElem?_set_ne hdc]
          exact List.getElem?_set_self
            (by simpa [World.locked] using hlt : c < (World.locked v sa).blocks.length)
        rw [decrease_strong_aware hb hf hs ho hkk hrel hcl hbB hf rfl (live_drop _)]
        simp only [Except.map, World.locked, World.setWeak, World.setBlock, List.set_set,
          List.map_set, ControlBlock.locked, ControlBlock.setLock]
        rw [List.set_comm _ _ _ (fun e => hdc e.symm)]
        by_cases hw : x.cnt_weak_ref_ = 0 <;> simp [hw, List.set_set]

end Sft

/-! ## Methods of the variant with lock in a world without a set lock -/

namespace Sft

theorem mem_of_lookup {p k : Nat} :
    ∀ {sa : List (Nat × Nat)}, sa.lookup p = some k → (p, k) ∈ sa := by
  intro sa
  induction sa with
  | nil => intro h; simp at h
  | cons a t ih =>
    intro h
    obtain ⟨q, j⟩ := a
    by_cases hq : p = q
    · subst hq
      simp [List.lookup_cons] at h
      simp [h]
    · have hne : (p == q) = false := by simpa using hq
      simp only [List.lookup_cons, hne] at h
      exact List.mem_cons_of_mem _ (ih h)

theorem decSize_eq_zero {n : Nat} : decSize n = 0 ↔ n = 1 := by
  unfold decSize
  by_cases h : n = 0
  · subst h
    simp [sizeMod]
  · simp [h]
    omega

/-- `DecreaseStrong` that releases no self-aware object, next to the method of the variant
without lock. -/
theorem decrease_strong_quiet {w : World} {c : Nat} {b : ControlBlock}
    (hb : w.blocks[c]? = some b) (hf : b.freed = false) (hl : b.destruction_is_locked_ = false)
    (ho : b.cnt_strong_ref_ = 1 → ∀ p, b.derived.object = some p →
      w.selfAware.lookup p = none) :
    ControlBlock.DecreaseStrong w c =
      (b.unlocked.DecreaseStrong w.dead).map (fun r =>
        { w with blocks := w.blocks.set c (ControlBlock.locked r.1 false), dead := r.2 }) := by
  by_cases h0 : decSize b.cnt_strong_ref_ = 0
  · exact decrease_strong_plain hb hf hl (ho (decSize_eq_zero.mp h0))
  · have hlt := Weak.lt_of_getElem? hb
    have hset : ∀ y : ControlBlock, (w.blocks.set c y)[c]? = some y :=
      fun y => List.getElem?_set_self hlt
    unfold ControlBlock.DecreaseStrong Weak.ControlBlock.DecreaseStrong
    simp only [sft_block_ok hb hf, bind, Except.bind]
    have h0a : ¬ (b.setStrong (decSize b.cnt_strong_ref_)).cnt_strong_ref_ = 0 := h0
    have h0b : ¬ (b.unlocked.setStrong (decSize b.unlocked.cnt_strong_ref_)).cnt_strong_ref_ = 0 :=
      h0
    simp only [h0a, h0b, if_false, pure, Except.pure, World.setBlock, World.block, hset]
    have hfr : (b.setStrong (decSize b.cnt_strong_ref_)).freed = false := hf
    simp only [hfr, Bool.false_eq_true, if_false, h0a, false_and, and_false, Except.map]
    simp [ControlBlock.locked, ControlBlock.setStrong, Weak.ControlBlock.setStrong,
      ControlBlock.unlocked, hl]

theorem locked_decrease_strong_quiet {v : Weak.World} {sa : List (Nat × Nat)} {c : Nat}
    (hq : ∀ x, v.blocks[c]? = some x → x.cnt_strong_ref_ = 1 → ∀ p, x.derived.object = some p →
      sa.lookup p = none) :
    ControlBlock.DecreaseStrong (World.locked v sa) c =
      (v.callDel c Weak.ControlBlock.DecreaseStrong).map (fun v2 => World.locked v2 sa) := by
  cases hx : v.blocks[c]? with
  | none =>
    simp [ControlBlock.DecreaseStrong, Weak.World.callDel, locked_block, Weak.World.block, hx,
      bind, Except.bind, Except.map]
  | some x =>
    cases hf : x.freed with
    | true =>
      simp [ControlBlock.DecreaseStrong, Weak.World.callDel, locked_block, Weak.World.block, hx,
        hf, bind, Except.bind, Except.map]
    | false =>
      have hb : (World.locked v sa).blocks[c]? = some (ControlBlock.locked x false) := by
        rw [locked_get, hx]; rfl
      rw [decrease_strong_quiet hb hf rfl (hq x hx), Weak.callDel_map hx hf, map_map]
      rw [show (ControlBlock.locked x false).unlocked = x from rfl,
        show (World.locked v sa).dead = v.dead from rfl]
      cases x.DecreaseStrong v.dead with
      | error e => rfl
      | ok r => exact congrArg Except.ok (locked_put_dead v sa c r.1 r.2)

theorem locked_decrease_weak {v : Weak.World} (sa : List (Nat × Nat)) (d : Nat)
    (hid : Weak.Idle v) :
    ControlBlock.DecreaseWeak (World.locked v sa) d =
      (v.callDel d Weak.ControlBlock.DecreaseWeak).map (fun v2 => World.locked v2 sa) := by
  cases hx : v.blocks[d]? with
  | none =>
    show DecreaseWeakK (DecreaseWeakFuel _) _ _ = _
    simp [DecreaseWeakK, Weak.World.callDel, locked_block, Weak.World.block, hx,
      bind, Except.bind, Except.map]
  | some x =>
    cases hf : x.freed with
    | true =>
      show DecreaseWeakK (DecreaseWeakFuel _) _ _ = _
      simp [DecreaseWeakK, Weak.World.callDel, locked_block, Weak.World.block, hx,
        hf, bind, Except.bind, Except.map]
    | false =>
      have hb : (World.locked v sa).blocks[d]? = some (ControlBlock.locked x false) := by
        rw [locked_get, hx]; rfl
      rw [decrease_weak_idle hb hf rfl (hid d x hx), Weak.callDel_map hx hf, map_map]
      rw [show (ControlBlock.locked x false).unlocked = x from rfl,
        show (World.locked v sa).dead = v.dead from rfl]
      cases x.DecreaseWeak v.dead with
      | error e => rfl
      | ok r => exact congrArg Except.ok (locked_put_dead v sa d r.1 r.2)

/-- `WeakPtr::Clear` does what it does in the variant without lock. -/
theorem locked_weak_clear {v : Weak.World} (sa : List (Nat × Nat)) (k : Nat)
    (hid : Weak.Idle v) :
    WeakPtr.Clear (World.locked v sa) k =
      (Weak.WeakPtr.Clear v k).map (fun v2 => World.locked v2 sa) := by
  unfold WeakPtr.Clear WeakPtr.ClearK Weak.WeakPtr.Clear Weak.WeakPtr.ControlDecreaseWeak
  rw [show (World.locked v sa).weakAt k = v.weakAt k from rfl]
  cases v.weakAt k with
  | error e => rfl
  | ok s =>
    simp only [bind, Except.bind]
    cases hc : s.control_ with
    | none => rfl
    | some d =>
      have e := locked_decrease_weak sa d hid
      have e2 : DecreaseWeakFuel (World.locked v sa).fuel (World.locked v sa) d =
          (v.callDel d Weak.ControlBlock.DecreaseWeak).map (fun v2 => World.locked v2 sa) := e
      simp only [e2, Weak.World.callDelIf]
      cases v.callDel d Weak.ControlBlock.DecreaseWeak <;> rfl

/-- `SharedPtr::Clear` that releases no self-aware object does what it does in the variant
without lock. -/
theorem locked_shared_clear_quiet {v : Weak.World} {sa : List (Nat × Nat)} {i : Nat}
    (hq : ∀ s c x, v.shared[i]? = some s → s.control_ = some c → v.blocks[c]? = some x →
      x.cnt_strong_ref_ = 1 → ∀ p, x.derived.object = some p → sa.lookup p = none) :
    SharedPtr.Clear (World.locked v sa) i =
      (Weak.SharedPtr.Clear v i).map (fun v2 => World.locked v2 sa) := by
  unfold SharedPtr.Clear SharedPtr.ControlDecreaseStrong Weak.SharedPtr.Clear
    Weak.SharedPtr.ControlDecreaseStrong
  rw [show (World.locked v sa).sharedAt i = v.sharedAt i from rfl]
  cases hs : v.shared[i]? with
  | none => simp [Weak.World.sharedAt, hs, bind, Except.bind, Except.map]
  | some s =>
    simp only [Weak.sharedAt_ok hs, bind, Except.bind]
    cases hc : s.control_ with
    | none => rfl
    | some c =>
      simp only [Weak.World.callDelIf]
      rw [locked_decrease_strong_quiet (fun x hx => hq s c x hs hc hx)]
      cases v.callDel c Weak.ControlBlock.DecreaseStrong <;> rfl

/-- `SharedPtr::Clear` keeps the invariant. -/
theorem sft_shared_clear_inv {U : List Nat} {v : Weak.World} {sa : List (Nat × Nat)}
    (hinv : Weak.Safe U v) (hsa : ∀ p k, (p, k) ∈ sa → k < v.weak.length)
    (hbound : v.shared.length < sizeMod) (hbw : v.weak.length < sizeMod)
    {i : Nat} {s : SharedPtr} (hs : v.shared[i]? = some s) :
    ∃ v2 sa2, SharedPtr.Clear (World.locked v sa) i = .ok (World.locked v2 sa2) ∧
      Weak.Safe U v2 ∧ Weak.Extends v v2 ∧
      v2.shared = v.shared.set i { control_ := none, ptr_ := 0 } ∧
      v2.weak.length = v.weak.length ∧ (∀ o, o ∈ sa2 → o ∈ sa) := by
  by_cases hq : ∀ s c x, v.shared[i]? = some s → s.control_ = some c → v.blocks[c]? = some x →
      x.cnt_strong_ref_ = 1 → ∀ p, x.derived.object = some p → sa.lookup p = none
  · obtain ⟨v2, h, h1, h2, h3, h4⟩ := Weak.shared_clear_inv hinv hbound hs
    refine ⟨v2, sa, ?_, h1, h2, h3, by rw [h4], fun _ h => h⟩
    rw [locked_shared_clear_quiet hq, h]
    rfl
  · push_neg at hq
    obtain ⟨s2, c, x, hs2, hc, hx, hst, p, ho, hne⟩ := hq
    rw [hs] at hs2
    cases hs2
    obtain ⟨k, hk⟩ := Option.ne_none_iff_exists'.mp hne
    have hklt := hsa p k (mem_of_lookup hk)
    obtain ⟨m, hm⟩ : ∃ m, v.weak[k]? = some m :=
      ⟨v.weak[k], List.getElem?_eq_getElem hklt⟩
    obtain ⟨bl1, h1, e1, hsafe1, hext1⟩ := Weak.safe_dec_weak hinv m.control_
      (v.weak.set k { control_ := none, ptr_ := 0 })
      (fun d => by
        have := cntW_set d v.weak k m { control_ := none, ptr_ := 0 } hm
        simpa using this) hbw
    obtain ⟨bl2, h2, e2, hsafe2, hext2⟩ := Weak.safe_dec_strong hsafe1 (some c)
      (v.shared.set i { control_ := none, ptr_ := 0 })
      (fun d => by
        have := cntS_set d v.shared i s { control_ := none, ptr_ := 0 } hs
        simpa [hc] using this) hbound
    have hf : x.freed = false := by
      obtain ⟨b, hb, hfb⟩ := Weak.usable_of_shared hinv.1 hs c hc
      rw [hx] at hb
      cases hb
      exact hfb
    have hT := locked_decrease_strong_aware (Weak.idle_of_inv hinv.1) hx hf hst ho hk
      hm e1
    have e2b : Weak.World.callDel
        { ({ blocks := bl1, shared := v.shared, weak := v.weak, dead := h1 } : Weak.World) with
          weak := v.weak.set k { control_ := none, ptr_ := 0 } } c
        Weak.ControlBlock.DecreaseStrong = .ok
          { blocks := bl2, shared := v.shared,
            weak := v.weak.set k { control_ := none, ptr_ := 0 }, dead := h2 } := e2
    rw [e2b] at hT
    refine ⟨{ blocks := bl2, shared := v.shared.set i { control_ := none, ptr_ := 0 },
              weak := v.weak.set k { control_ := none, ptr_ := 0 }, dead := h2 },
      sa.filter (fun o => o.1 ≠ p), ?_, hsafe2, ?_, rfl, by simp,
      fun o ho => (List.mem_filter.mp ho).1⟩
    · simp only [SharedPtr.Clear, SharedPtr.ControlDecreaseStrong,
        show (World.locked v sa).sharedAt i = v.sharedAt i from rfl, Weak.sharedAt_ok hs, hc,
        bind, Except.bind, hT, Except.map, pure, Except.pure]
      rfl
    · exact Weak.extends_trans hext1 hext2

/-- `WeakPtr::Clear` keeps the invariant. -/
theorem sft_weak_clear_inv {U : List Nat} {v : Weak.World} (sa : List (Nat × Nat))
    (hinv : Weak.Safe U v) (hbound : v.weak.length < sizeMod)
    {k : Nat} {s : WeakPtr} (hs : v.weak[k]? = some s) :
    ∃ v2, WeakPtr.Clear (World.locked v sa) k = .ok (World.locked v2 sa) ∧
      Weak.Safe U v2 ∧ Weak.Extends v v2 ∧ v2.shared = v.shared ∧
      v2.weak = v.weak.set k { control_ := none, ptr_ := 0 } := by
  obtain ⟨v2, h, h1, h2, h3, h4⟩ := Weak.weak_clear_inv hinv hbound hs
  refine ⟨v2, ?_, h1, h2, h3, h4⟩
  rw [locked_weak_clear sa k (Weak.idle_of_inv hinv.1), h]
  rfl

end Sft

namespace Weak

theorem idle_of_blocks {w w2 : World} (h : Idle w) (hb : w2.blocks = w.blocks) : Idle w2 := by
  intro d y hy
  rw [hb] at hy
  exact h d y hy

theorem decrease_weak_keeps {y r : ControlBlock} {h g : List Nat}
    (hid : y.cnt_strong_ref_ = 0 → y.derived.live = false)
    (e : y.DecreaseWeak h = .ok (r, g)) :
    r.cnt_strong_ref_ = y.cnt_strong_ref_ ∧ r.derived = y.derived := by
  by_cases hc : y.cnt_strong_ref_ = 0 ∧ decSize y.cnt_weak_ref_ = 0
  · have hl : (y.setWeak (decSize y.cnt_weak_ref_)).derived.live = false := hid hc.1
    have hc2 : (y.setWeak (decSize y.cnt_weak_ref_)).cnt_strong_ref_ = 0 ∧
        (y.setWeak (decSize y.cnt_weak_ref_)).cnt_weak_ref_ = 0 := hc
    simp only [ControlBlock.DecreaseWeak, hc2, and_self, if_true, ControlBlock.deleteThis,
      delete_source_idle hl, bind, Except.bind, pure, Except.pure, Except.ok.injEq,
      Prod.mk.injEq] at e
    obtain ⟨e1, _⟩ := e
    subst e1
    exact ⟨hc.1.symm, rfl⟩
  · have hc2 : ¬ ((y.setWeak (decSize y.cnt_weak_ref_)).cnt_strong_ref_ = 0 ∧
        (y.setWeak (decSize y.cnt_weak_ref_)).cnt_weak_ref_ = 0) := hc
    simp only [ControlBlock.DecreaseWeak, hc2, if_false, pure, Except.pure, Except.ok.injEq,
      Prod.mk.injEq] at e
    obtain ⟨e1, _⟩ := e
    subst e1
    exact ⟨rfl, rfl⟩

theorem idle_set {w : World} (h : Idle w) {d : Nat} {y r : ControlBlock}
    (hy : w.blocks[d]? = some y) (hs : r.cnt_strong_ref_ = y.cnt_strong_ref_)
    (hd : r.derived = y.derived) (sh : List SharedPtr) (we : List WeakPtr) (de : List Nat) :
    Idle { blocks := w.blocks.set d r, shared := sh, weak := we, dead := de } := by
  intro e z hz h0
  have hz2 : (w.blocks.set d r)[e]? = some z := hz
  by_cases hed : d = e
  · subst hed
    rw [List.getElem?_set_self (lt_of_getElem? hy)] at hz2
    cases hz2
    rw [hd]
    exact h d y hy (by rw [← hs]; exact h0)
  · rw [List.getElem?_set_ne hed] at hz2
    exact h e z hz2 h0

theorem idle_weak_clear {w w2 : World} (h : Idle w) {k : Nat}
    (e : WeakPtr.Clear w k = .ok w2) : Idle w2 := by
  unfold WeakPtr.Clear WeakPtr.ControlDecreaseWeak at e
  cases hs : w.weakAt k with
  | error x => simp [hs, bind, Except.bind] at e
  | ok s =>
    simp only [hs, bind, Except.bind] at e
    cases hc : s.control_ with
    | none =>
      simp only [hc, World.callDelIf, pure, Except.pure, Except.ok.injEq] at e
      subst e
      exact idle_of_blocks h rfl
    | some d =>
      simp only [hc, World.callDelIf, World.callDel, bind, Except.bind] at e
      cases hb : w.block d with
      | error x => simp [hb] at e
      | ok y =>
        simp only [hb] at e
        have hy : w.blocks[d]? = some y := by
          unfold World.block at hb
          cases hbb : w.blocks[d]? with
          | none => simp [hbb] at hb
          | some z =>
            simp only [hbb] at hb
            split at hb
            · cases hb
            · cases hb; rfl
        cases hr : y.DecreaseWeak w.dead with
        | error x => simp [hr] at e
        | ok r =>
          simp only [hr, pure, Except.pure, Except.ok.injEq] at e
          subst e
          obtain ⟨h1, h2⟩ := decrease_weak_keeps (h d y hy) (r := r.1) (g := r.2) hr
          exact idle_set h hy h1 h2 _ _ _

theorem idle_call_inc_weak {w w2 : World} (h : Idle w) {oc : Option Nat}
    (e : w.callIf oc ControlBlock.IncreaseWeak = .ok w2) : Idle w2 := by
  cases oc with
  | none =>
    simp only [World.callIf, pure, Except.pure, Except.ok.injEq] at e
    subst e
    exact h
  | some d =>
    simp only [World.callIf, World.call, bind, Except.bind] at e
    cases hb : w.block d with
    | error x => simp [hb] at e
    | ok y =>
      simp only [hb, pure, Except.pure, Except.ok.injEq] at e
      subst e
      have hy : w.blocks[d]? = some y := by
        unfold World.block at hb
        cases hbb : w.blocks[d]? with
        | none => simp [hbb] at hb
        | some z =>
          simp only [hbb] at hb
          split at hb
          · cases hb
          · cases hb; rfl
      exact idle_set (r := y.IncreaseWeak) h hy rfl rfl _ _ _

theorem idle_weak_move_assign {w w2 : World} (h : Idle w) {s o : Nat}
    (e : WeakPtr.moveAssign w s o = .ok w2) : Idle w2 := by
  unfold WeakPtr.moveAssign at e
  by_cases hne : o = s
  · simp only [hne, if_true, pure, Except.pure, Except.ok.injEq] at e
    subst e
    exact h
  · simp only [hne, if_false, bind, Except.bind] at e
    cases h1 : WeakPtr.Clear w s with
    | error x => simp [h1] at e
    | ok w1 =>
      simp only [h1] at e
      cases h2 : w1.weakAt o with
      | error x => simp [h2] at e
      | ok t =>
        simp only [h2, pure, Except.pure, Except.ok.injEq] at e
        subst e
        exact idle_of_blocks (idle_weak_clear h h1) rfl

theorem idle_weak_move {w w2 : World} (h : Idle w) {o : Nat}
    (e : WeakPtr.move w o = .ok w2) : Idle w2 := by
  unfold WeakPtr.move at e
  cases h2 : w.weakAt o with
  | error x => simp [h2, bind, Except.bind] at e
  | ok t =>
    simp only [h2, bind, Except.bind, pure, Except.pure, Except.ok.injEq] at e
    subst e
    exact idle_of_blocks h rfl

theorem idle_weak_from_shared {w w2 : World} (h : Idle w) {i : Nat}
    (e : WeakPtr.fromShared w i = .ok w2) : Idle w2 := by
  unfold WeakPtr.fromShared WeakPtr.ControlIncreaseWeak at e
  cases h2 : w.sharedAt i with
  | error x => simp [h2, bind, Except.bind] at e
  | ok t =>
    simp only [h2, bind, Except.bind] at e
    cases h3 : (w.newWeak { control_ := t.control_, ptr_ := t.ptr_ }).weakAt w.weak.length with
    | error x => simp [h3] at e
    | ok u =>
      simp only [h3] at e
      exact idle_call_inc_weak (w := w.newWeak { control_ := t.control_, ptr_ := t.ptr_ })
        (idle_of_blocks h rfl) e

end Weak

namespace Sft

theorem locked_weak_assign {v : Weak.World} (sa : List (Nat × Nat)) (s o : Nat)
    (hid : Weak.Idle v) :
    WeakPtr.assign (World.locked v sa) s o =
      (Weak.WeakPtr.assign v s o).map (fun v2 => World.locked v2 sa) := by
  unfold WeakPtr.assign Weak.WeakPtr.assign
  by_cases hne : o = s
  · simp only [hne, if_true]
    rfl
  · simp only [hne, if_false, bind, Except.bind]
    rw [locked_weak_clear sa s hid]
    cases Weak.WeakPtr.Clear v s with
    | error e => rfl
    | ok v1 =>
      simp only [Except.map]
      rw [show (World.locked v1 sa).weakAt o = v1.weakAt o from rfl]
      cases v1.weakAt o with
      | error e => rfl
      | ok t =>
        simp only []
        rw [show (World.locked v1 sa).setWeak s { control_ := t.control_, ptr_ := t.ptr_ } =
          World.locked (v1.setWeak s { control_ := t.control_, ptr_ := t.ptr_ }) sa from rfl,
          locked_incr_weak]
        rfl

theorem locked_weak_move_assign {v : Weak.World} (sa : List (Nat × Nat)) (s o : Nat)
    (hid : Weak.Idle v) :
    WeakPtr.moveAssign (World.locked v sa) s o =
      (Weak.WeakPtr.moveAssign v s o).map (fun v2 => World.locked v2 sa) := by
  unfold WeakPtr.moveAssign Weak.WeakPtr.moveAssign
  by_cases hne : o = s
  · simp only [hne, if_true]
    rfl
  · simp only [hne, if_false, bind, Except.bind]
    rw [locked_weak_clear sa s hid]
    cases Weak.WeakPtr.Clear v s with
    | error e => rfl
    | ok v1 =>
      simp only [Except.map]
      rw [show (World.locked v1 sa).weakAt o = v1.weakAt o from rfl]
      cases v1.weakAt o <;> rfl

theorem locked_weak_swap {v : Weak.World} (sa : List (Nat × Nat)) (s o : Nat)
    (hid : Weak.Idle v) :
    WeakPtr.Swap (World.locked v sa) s o =
      (Weak.WeakPtr.Swap v s o).map (fun v2 => World.locked v2 sa) := by
  unfold WeakPtr.Swap Weak.WeakPtr.Swap
  simp only [bind, Except.bind]
  rw [locked_weak_move]
  cases h1 : Weak.WeakPtr.move v s with
  | error e => rfl
  | ok v1 =>
    have hid1 := Weak.idle_weak_move hid h1
    simp only [Except.map]
    rw [locked_weak_move_assign sa s o hid1]
    cases h2 : Weak.WeakPtr.moveAssign v1 s o with
    | error e => rfl
    | ok v2 =>
      have hid2 := Weak.idle_weak_move_assign hid1 h2
      simp only [Except.map]
      rw [show (World.locked v sa).weak.length = v.weak.length from rfl,
        locked_weak_move_assign sa o v.weak.length hid2]
      cases h3 : Weak.WeakPtr.moveAssign v2 o v.weak.length with
      | error e => rfl
      | ok v3 =>
        have hid3 := Weak.idle_weak_move_assign hid2 h3
        simp only [Except.map]
        rw [show WeakPtr.destroy (World.locked v3 sa) v.weak.length =
          WeakPtr.Clear (World.locked v3 sa) v.weak.length from rfl,
          locked_weak_clear sa v.weak.length hid3]
        rw [show Weak.WeakPtr.destroy v3 v.weak.length = Weak.WeakPtr.Clear v3 v.weak.length
          from rfl]
        cases Weak.WeakPtr.Clear v3 v.weak.length <;> rfl

/-- `InitWeakThis` does what the same statements do in the variant without lock. -/
theorem locked_init_weak_this {v : Weak.World} {sa : List (Nat × Nat)} {e k : Nat} (i : Nat)
    (hid : Weak.Idle v) (he : e ≠ 0) (hk : sa.lookup e = some k) :
    SharedPtr.InitWeakThis (World.locked v sa) i e =
      (Weak.WeakPtr.fromShared v i >>= fun v1 =>
        Weak.WeakPtr.moveAssign v1 k v.weak.length >>= fun v2 =>
          Weak.WeakPtr.destroy v2 v.weak.length >>= fun v3 =>
            pure v3.popWeak).map (fun v4 => World.locked v4 sa) := by
  have hwt : (World.locked v sa).weakThis e = .ok k := by
    simp [World.weakThis, he, World.locked, hk]
  unfold SharedPtr.InitWeakThis
  simp only [hwt, bind, Except.bind]
  rw [locked_weak_from_shared]
  cases h1 : Weak.WeakPtr.fromShared v i with
  | error x => rfl
  | ok v1 =>
    have hid1 := Weak.idle_weak_from_shared hid h1
    simp only [Except.map]
    rw [show (World.locked v sa).weak.length = v.weak.length from rfl,
      locked_weak_move_assign sa k v.weak.length hid1]
    cases h2 : Weak.WeakPtr.moveAssign v1 k v.weak.length with
    | error x => rfl
    | ok v2 =>
      have hid2 := Weak.idle_weak_move_assign hid1 h2
      simp only [Except.map]
      rw [show WeakPtr.destroy (World.locked v2 sa) v.weak.length =
        WeakPtr.Clear (World.locked v2 sa) v.weak.length from rfl,
        locked_weak_clear sa v.weak.length hid2]
      rw [show Weak.WeakPtr.destroy v2 v.weak.length = Weak.WeakPtr.Clear v2 v.weak.length
        from rfl]
      cases Weak.WeakPtr.Clear v2 v.weak.length <;> rfl

end Sft

/-! ## The methods of `SharedPtr` of the variant with lock keep the invariant -/

namespace Sft

theorem sft_shared_attach_inv {U : List Nat} {v : Weak.World} (sa : List (Nat × Nat))
    (hinv : Weak.Safe U v) (hbound : v.shared.length + 1 < sizeMod)
    {self : Nat} {old : SharedPtr} (hs : v.shared[self]? = some old) (hold : old.control_ = none)
    (x : SharedPtr) (hpos : ∀ c, x.control_ = some c → cntS c v.shared ≠ 0) :
    ∃ v2, SharedPtr.ControlIncreaseStrong ((World.locked v sa).setShared self x) self =
        .ok (World.locked v2 sa) ∧ Weak.Safe U v2 ∧
      Weak.Extends v v2 ∧ v2.shared = v.shared.set self x ∧ v2.weak = v.weak := by
  obtain ⟨v2, h, h1, h2, h3, h4⟩ := Weak.shared_attach_inv hinv hbound hs hold x hpos
  refine ⟨v2, ?_, h1, h2, h3, h4⟩
  rw [show (World.locked v sa).setShared self x = World.locked (v.setShared self x) sa from rfl,
    locked_incr_strong, h]
  rfl

theorem sft_shared_assign_inv {U : List Nat} {v : Weak.World} {sa : List (Nat × Nat)}
    (hinv : Weak.Safe U v) (hsa : ∀ p k, (p, k) ∈ sa → k < v.weak.length)
    (hbound : v.shared.length + 1 < sizeMod) (hbw : v.weak.length < sizeMod)
    {self other : Nat} {s o : SharedPtr} (hne : other ≠ self) (hs : v.shared[self]? = some s)
    (ho : v.shared[other]? = some o) :
    ∃ v2 sa2, SharedPtr.assign (World.locked v sa) self other = .ok (World.locked v2 sa2) ∧
      Weak.Safe U v2 ∧ Weak.Extends v v2 ∧
      v2.shared = v.shared.set self { control_ := o.control_, ptr_ := o.ptr_ } ∧
      v2.weak.length = v.weak.length ∧ (∀ x, x ∈ sa2 → x ∈ sa) := by
  obtain ⟨v1, sa1, h1, hinv1, hext1, hsh1, hwe1, hsub1⟩ :=
    sft_shared_clear_inv hinv hsa (by omega) hbw hs
  have hlt := Weak.lt_of_getElem? hs
  have ho1 : v1.shared[other]? = some o := by
    rw [hsh1, List.getElem?_set_ne (Ne.symm hne)]; exact ho
  have hs1 : v1.shared[self]? = some { control_ := none, ptr_ := 0 } := by
    rw [hsh1]; simp [List.getElem?_set, hlt]
  have hlen1 : v1.shared.length = v.shared.length := by rw [hsh1]; simp
  obtain ⟨v2, h2, hinv2, hext2, hsh2, hwe2⟩ :=
    sft_shared_attach_inv sa1 hinv1 (by omega) hs1 rfl { control_ := o.control_, ptr_ := o.ptr_ }
      (fun c hc => Nat.pos_iff_ne_zero.mp (cntS_pos_of_mem c v1.shared other o ho1 hc))
  refine ⟨v2, sa1, ?_, hinv2, Weak.extends_trans hext1 hext2, ?_, by rw [hwe2, hwe1], hsub1⟩
  · have ho2 : (World.locked v1 sa1).shared[other]? = some o := ho1
    simp only [SharedPtr.assign, hne, if_false, h1, bind, Except.bind, sft_sharedAt_ok ho2, h2]
  · rw [hsh2, hsh1]; simp

theorem sft_shared_move_assign_inv {U : List Nat} {v : Weak.World} {sa : List (Nat × Nat)}
    (hinv : Weak.Safe U v) (hsa : ∀ p k, (p, k) ∈ sa → k < v.weak.length)
    (hbound : v.shared.length < sizeMod) (hbw : v.weak.length < sizeMod)
    {self other : Nat} {s o : SharedPtr} (hne : other ≠ self) (hs : v.shared[self]? = some s)
    (ho : v.shared[other]? = some o) :
    ∃ v2 sa2, SharedPtr.moveAssign (World.locked v sa) self other =
        .ok (World.locked v2 sa2) ∧
      Weak.Safe U v2 ∧ Weak.Extends v v2 ∧
      v2.shared = (v.shared.set self { control_ := o.control_, ptr_ := o.ptr_ }).set other
        { control_ := none, ptr_ := 0 } ∧
      v2.weak.length = v.weak.length ∧ (∀ x, x ∈ sa2 → x ∈ sa) := by
  obtain ⟨v1, sa1, h1, hinv1, hext1, hsh1, hwe1, hsub1⟩ :=
    sft_shared_clear_inv hinv hsa hbound hbw hs
  have hlt := Weak.lt_of_getElem? hs
  have ho1 : v1.shared[other]? = some o := by
    rw [hsh1, List.getElem?_set_ne (Ne.symm hne)]; exact ho
  have hs1 : v1.shared[self]? = some { control_ := none, ptr_ := 0 } := by
    rw [hsh1]; simp [List.getElem?_set, hlt]
  refine ⟨{ blocks := v1.blocks,
            shared := (v1.shared.set self { control_ := o.control_, ptr_ := o.ptr_ }).set other
              { control_ := none, ptr_ := 0 },
            weak := v1.weak, dead := v1.dead }, sa1, ?_, ?_, ?_, ?_, hwe1, hsub1⟩
  · have ho2 : (World.locked v1 sa1).shared[other]? = some o := ho1
    simp only [SharedPtr.moveAssign, hne, if_false, h1, bind, Except.bind, sft_sharedAt_ok ho2,
      pure, Except.pure]
    rfl
  · exact Weak.safe_same_counts hinv1 _ _
      (fun d => Weak.cntS_transfer d v1.shared self other _ o hne hs1 rfl ho1) (fun _ => rfl)
  · exact Weak.extends_trans hext1 (Weak.extends_of_blocks_eq rfl)
  · simp [hsh1]

/-- The tail shared by `Swap` and `Reset(ptr)`: move-assign from the temporary in the last slot,
destroy the temporary, release its storage. -/
theorem sft_shared_take_tmp_inv {U : List Nat} {v : Weak.World} {sa : List (Nat × Nat)}
    (hinv : Weak.Safe U v) (hsa : ∀ p k, (p, k) ∈ sa → k < v.weak.length)
    (hbound : v.shared.length < sizeMod) (hbw : v.weak.length < sizeMod)
    {self : Nat} {s t : SharedPtr} (hlt : self + 1 < v.shared.length)
    (hs : v.shared[self]? = some s) (ht : v.shared[v.shared.length - 1]? = some t) :
    ∃ w2 w3 v4 sa4, SharedPtr.moveAssign (World.locked v sa) self (v.shared.length - 1) = .ok w2 ∧
      SharedPtr.destroy w2 (v.shared.length - 1) = .ok w3 ∧
      w3.popShared = World.locked v4 sa4 ∧ Weak.Safe U v4 ∧
      Weak.Extends v v4 ∧ v4.shared.length + 1 = v.shared.length ∧
      v4.weak.length = v.weak.length ∧ (∀ x, x ∈ sa4 → x ∈ sa) := by
  have hne : v.shared.length - 1 ≠ self := by omega
  obtain ⟨v2, sa2, h2, hinv2, hext2, hsh2, hwe2, hsub2⟩ :=
    sft_shared_move_assign_inv hinv hsa hbound hbw hne hs ht
  have hlen2 : v2.shared.length = v.shared.length := by rw [hsh2]; simp
  have ht2 : v2.shared[v.shared.length - 1]? = some { control_ := none, ptr_ := 0 } := by
    rw [hsh2]
    exact List.getElem?_set_self (by simp; omega)
  have hsa2 : ∀ p k, (p, k) ∈ sa2 → k < v2.weak.length := fun p k h => by
    rw [hwe2]; exact hsa p k (hsub2 _ h)
  obtain ⟨v3, sa3, h3, hinv3, hext3, hsh3, hwe3, hsub3⟩ :=
    sft_shared_clear_inv hinv2 hsa2 (by omega) (by omega) ht2
  have hlen3 : v3.shared.length = v.shared.length := by rw [hsh3]; simp [hlen2]
  have ht3 : v3.shared[v3.shared.length - 1]? = some { control_ := none, ptr_ := 0 } := by
    rw [hlen3, hsh3]
    exact List.getElem?_set_self (by omega)
  refine ⟨_, _, v3.popShared, sa3, h2, h3, rfl, Weak.inv_pop_shared hinv3 ht3 rfl, ?_, ?_, ?_,
    fun x hx => hsub2 x (hsub3 x hx)⟩
  · exact Weak.extends_trans hext2 (Weak.extends_trans hext3 (Weak.extends_of_blocks_eq rfl))
  · have hl : v3.popShared.shared.length = v3.shared.length - 1 := by
      simp [Weak.World.popShared]
    rw [hl, hlen3]
    omega
  · show v3.weak.length = v.weak.length
    rw [hwe3, hwe2]

theorem sft_shared_move_inv {U : List Nat} {v : Weak.World} (sa : List (Nat × Nat))
    (hinv : Weak.Safe U v) {other : Nat} {o : SharedPtr} (ho : v.shared[other]? = some o) :
    ∃ v2, SharedPtr.move (World.locked v sa) other = .ok (World.locked v2 sa) ∧
      Weak.Safe U v2 ∧ Weak.Extends v v2 ∧
      v2.shared = (v.shared ++ [({ control_ := o.control_, ptr_ := o.ptr_ } : SharedPtr)]).set
        other { control_ := none, ptr_ := 0 } ∧ v2.weak = v.weak := by
  obtain ⟨v2, h, h1, h2, h3, h4⟩ := Weak.shared_move_inv hinv ho
  refine ⟨v2, ?_, h1, h2, h3, h4⟩
  rw [locked_shared_move, h]
  rfl

theorem sft_shared_swap_inv {U : List Nat} {v : Weak.World} {sa : List (Nat × Nat)}
    (hinv : Weak.Safe U v) (hsa : ∀ p k, (p, k) ∈ sa → k < v.weak.length)
    (hbound : v.shared.length + 1 < sizeMod) (hbw : v.weak.length < sizeMod)
    {self other : Nat} {s o : SharedPtr} (hs : v.shared[self]? = some s)
    (ho : v.shared[other]? = some o) :
    ∃ v2 sa2, SharedPtr.Swap (World.locked v sa) self other = .ok (World.locked v2 sa2) ∧
      Weak.Safe U v2 ∧ Weak.Extends v v2 ∧
      v2.shared.length = v.shared.length ∧ v2.weak.length = v.weak.length ∧
      (∀ x, x ∈ sa2 → x ∈ sa) := by
  have hls := Weak.lt_of_getElem? hs
  have hlo := Weak.lt_of_getElem? ho
  obtain ⟨v1, h1, hinv1, hext1, hsh1, hwe1⟩ := sft_shared_move_inv sa hinv hs
  have hlen1 : v1.shared.length = v.shared.length + 1 := by rw [hsh1]; simp
  have hs1 : v1.shared[self]? = some { control_ := none, ptr_ := 0 } := by
    rw [hsh1]; simp [List.getElem?_set]; omega
  have ht1 : v1.shared[v.shared.length]? = some { control_ := s.control_, ptr_ := s.ptr_ } := by
    rw [hsh1, List.getElem?_set_ne (by omega)]
    simp
  have hsa1 : ∀ p k, (p, k) ∈ sa → k < v1.weak.length := fun p k h => by
    rw [hwe1]; exact hsa p k h
  have hstep2 : ∃ v2 sa2, SharedPtr.moveAssign (World.locked v1 sa) self other =
        .ok (World.locked v2 sa2) ∧ Weak.Safe U v2 ∧ Weak.Extends v1 v2 ∧
      v2.shared.length = v.shared.length + 1 ∧
      v2.shared[v.shared.length]? = some { control_ := s.control_, ptr_ := s.ptr_ } ∧
      v2.weak.length = v1.weak.length ∧ (∀ x, x ∈ sa2 → x ∈ sa) := by
    by_cases hne : other = self
    · exact ⟨v1, sa, by simp [SharedPtr.moveAssign, hne, pure, Except.pure], hinv1,
        Weak.extends_refl v1, hlen1, ht1, rfl, fun _ h => h⟩
    · have ho1 : v1.shared[other]? = some o := by
        rw [hsh1, List.getElem?_set_ne (fun h => hne h.symm), List.getElem?_append_left hlo]
        exact ho
      obtain ⟨v2, sa2, h2, hinv2, hext2, hsh2, hwe2, hsub2⟩ :=
        sft_shared_move_assign_inv hinv1 hsa1 (by omega) (by rw [hwe1]; omega) hne hs1 ho1
      refine ⟨v2, sa2, h2, hinv2, hext2, by rw [hsh2]; simp [hlen1], ?_, hwe2, hsub2⟩
      rw [hsh2, List.getElem?_set_ne (by omega), List.getElem?_set_ne (by omega)]
      exact ht1
  obtain ⟨v2, sa2, h2, hinv2, hext2, hlen2, ht2, hwe2, hsub2⟩ := hstep2
  obtain ⟨x, hx⟩ : ∃ x, v2.shared[other]? = some x := by
    have : other < v2.shared.length := by omega
    exact ⟨v2.shared[other], List.getElem?_eq_getElem this⟩
  have ht2b : v2.shared[v2.shared.length - 1]? =
      some { control_ := s.control_, ptr_ := s.ptr_ } := by
    rw [hlen2]; simpa using ht2
  have hsa2 : ∀ p k, (p, k) ∈ sa2 → k < v2.weak.length := fun p k h => by
    rw [hwe2]; exact hsa1 p k (hsub2 _ h)
  obtain ⟨w3, w4, v5, sa5, h3, h4, h5, hinv5, hext5, hlen5, hwe5, hsub5⟩ :=
    sft_shared_take_tmp_inv hinv2 hsa2 (by omega) (by rw [hwe2, hwe1]; omega) (by omega) hx ht2b
  rw [hlen2] at h3 h4
  simp only [Nat.add_sub_cancel] at h3 h4
  refine ⟨v5, sa5, ?_, hinv5, Weak.extends_trans hext1 (Weak.extends_trans hext2 hext5),
    by omega, by rw [hwe5, hwe2, hwe1], fun x hx => hsub2 x (hsub5 x hx)⟩
  simp only [SharedPtr.Swap, h1, h2, bind, Except.bind,
    show (World.locked v sa).shared.length = v.shared.length from rfl, h3, h4, pure,
    Except.pure, h5]

theorem weakThis_fault {w : World} {e : Nat} {x : Fault} (h : w.weakThis e = .error x) :
    x = Fault.undefined := by
  unfold World.weakThis at h
  split at h
  · cases h; rfl
  · split at h
    · cases h
    · cases h; rfl

/-- `PerhapsInitWeakThis` on a handle keeps the invariant; it is undefined when the pointee type
is self-aware and the handle does not point to a living self-aware object. -/
theorem sft_perhaps_init_inv {U : List Nat} {v : Weak.World} {sa : List (Nat × Nat)}
    (hinv : Weak.Safe U v) (hsa : ∀ p k, (p, k) ∈ sa → k < v.weak.length)
    (hbw : v.weak.length + 1 < sizeMod) {i : Nat} {s : SharedPtr}
    (hs : v.shared[i]? = some s) (e : Bool) :
    (e = true ∧
      SharedPtr.PerhapsInitWeakThis e (World.locked v sa) i = .error Fault.undefined) ∨
    ∃ v2, SharedPtr.PerhapsInitWeakThis e (World.locked v sa) i = .ok (World.locked v2 sa) ∧
      Weak.Safe U v2 ∧ Weak.Extends v v2 ∧ v2.shared = v.shared ∧
      v2.weak.length = v.weak.length := by
  cases e with
  | false =>
    exact Or.inr ⟨v, rfl, hinv, Weak.extends_refl v, rfl, rfl⟩
  | true =>
    have hs2 : (World.locked v sa).shared[i]? = some s := hs
    simp only [SharedPtr.PerhapsInitWeakThis, if_true, sft_sharedAt_ok hs2, bind, Except.bind]
    cases hwt : (World.locked v sa).weakThis s.ptr_ with
    | error x =>
      left
      have := weakThis_fault hwt
      subst this
      exact ⟨trivial, by simp [SharedPtr.InitWeakThis, hwt, bind, Except.bind]⟩
    | ok k =>
      right
      have he := weakThis_ne_zero hwt
      have hlk : sa.lookup s.ptr_ = some k := weakThis_lookup hwt
      have hklt := hsa _ _ (mem_of_lookup hlk)
      rw [locked_init_weak_this i (Weak.idle_of_inv hinv.1) he hlk]
      obtain ⟨v1, h1, hinv1, hext1, hsh1, hwe1⟩ := Weak.weak_from_shared_inv hinv hbw hs
      have hlen1 : v1.weak.length = v.weak.length + 1 := by rw [hwe1]; simp
      obtain ⟨sk, hsk⟩ : ∃ sk, v1.weak[k]? = some sk :=
        ⟨v1.weak[k], List.getElem?_eq_getElem (by omega)⟩
      have ht1 : v1.weak[v1.weak.length - 1]? =
          some { control_ := s.control_, ptr_ := s.ptr_ } := by
        rw [hlen1, hwe1]
        simp
      obtain ⟨w2, w3b, e2, e3, hinv5, hext5, hlen5, hsh5⟩ :=
        Weak.weak_take_tmp_inv hinv1 (by omega) (by omega) hsk ht1
      rw [hlen1] at e2 e3
      simp only [Nat.add_sub_cancel] at e2 e3
      refine ⟨w3b.popWeak, ?_, hinv5, Weak.extends_trans hext1 hext5, by rw [hsh5, hsh1],
        by omega⟩
      simp only [h1, e2, e3, bind, Except.bind, pure, Except.pure, Except.map]

end Sft

/-! ## Constructors of the variant with lock keep the invariant -/

namespace Sft

theorem shared_copy_split (e : Bool) (w : World) (o : Nat) :
    SharedPtr.copy e w o =
      SharedPtr.copy false w o >>= fun w1 => SharedPtr.PerhapsInitWeakThis e w1 w.shared.length := by
  unfold SharedPtr.copy
  cases w.sharedAt o with
  | error x => rfl
  | ok s =>
    simp only [bind, Except.bind]
    cases SharedPtr.ControlIncreaseStrong (w.newShared { control_ := s.control_, ptr_ := s.ptr_ })
      w.shared.length <;> rfl

theorem shared_aliasing_split (e : Bool) (w : World) (o p : Nat) :
    SharedPtr.aliasing e w o p =
      SharedPtr.aliasing false w o p >>= fun w1 =>
        SharedPtr.PerhapsInitWeakThis e w1 w.shared.length := by
  unfold SharedPtr.aliasing
  cases w.sharedAt o with
  | error x => rfl
  | ok s =>
    simp only [bind, Except.bind]
    cases SharedPtr.ControlIncreaseStrong (w.newShared { control_ := s.control_, ptr_ := p })
      w.shared.length <;> rfl

theorem weak_lock_split (e : Bool) (w : World) (j : Nat) :
    WeakPtr.Lock e w j =
      WeakPtr.Lock false w j >>= fun w1 => SharedPtr.PerhapsInitWeakThis e w1 w.shared.length := by
  unfold WeakPtr.Lock
  cases w.weakAt j with
  | error x => rfl
  | ok s =>
    simp only [bind, Except.bind]
    cases hc : s.control_ with
    | none => rfl
    | some c =>
      simp only []
      cases hb : w.block c with
      | error x => rfl
      | ok b =>
        simp only []
        cases b.IsResourceAlive with
        | false => rfl
        | true =>
          simp only [if_true, World.call, hb, bind, Except.bind, pure, Except.pure]
          rfl

theorem shared_from_raw_split (e : Bool) (v : Weak.World) (sa : List (Nat × Nat)) (p : Nat) :
    SharedPtr.fromRaw e (World.locked v sa) p =
      SharedPtr.PerhapsInitWeakThis e (World.locked (Weak.SharedPtr.fromRaw v p) sa)
        v.shared.length := by
  unfold SharedPtr.fromRaw
  congr 1
  simp [Weak.SharedPtr.fromRaw, World.locked, World.newShared, Weak.World.newShared,
    ControlBlockPointer, Weak.ControlBlockPointer, ControlBlock.locked]

theorem make_shared_split (e : Bool) (v : Weak.World) (sa : List (Nat × Nat)) (a : Nat) :
    MakeShared e (World.locked v sa) a =
      SharedPtr.PerhapsInitWeakThis e
        (World.locked (Weak.MakeShared (if e then Weak.WeakPtr.construct v else v) a)
          (if e then (a, v.weak.length) :: sa else sa)) v.shared.length := by
  cases e with
  | false =>
    simp [MakeShared, Weak.MakeShared, SharedPtr.fromBlock, Weak.SharedPtr.fromBlock,
      SharedPtr.PerhapsInitWeakThis, World.locked, World.newShared, Weak.World.newShared, pure,
      Except.pure, ControlBlockEmplace, Weak.ControlBlockEmplace, ControlBlock.locked,
      ControlBlock.GetPtr, Weak.ControlBlock.GetPtr]
  | true =>
    simp only [MakeShared, SharedPtr.fromBlock, if_true]
    congr 1
    simp [Weak.MakeShared, Weak.SharedPtr.fromBlock, World.locked, World.newShared,
      Weak.World.newShared, World.newSelfAware, Weak.WeakPtr.construct, Weak.World.newWeak,
      ControlBlockEmplace, Weak.ControlBlockEmplace, ControlBlock.locked,
      ControlBlock.GetPtr, Weak.ControlBlock.GetPtr]

/-- The copy constructor keeps the invariant. -/
theorem sft_shared_copy_inv {U : List Nat} {v : Weak.World} {sa : List (Nat × Nat)}
    (hinv : Weak.Safe U v) (hsa : ∀ p k, (p, k) ∈ sa → k < v.weak.length)
    (hbound : v.shared.length + 1 < sizeMod) (hbw : v.weak.length + 1 < sizeMod)
    {other : Nat} {o : SharedPtr} (ho : v.shared[other]? = some o) (e : Bool) :
    (e = true ∧ SharedPtr.copy e (World.locked v sa) other = .error Fault.undefined) ∨
    ∃ v2, SharedPtr.copy e (World.locked v sa) other = .ok (World.locked v2 sa) ∧
      Weak.Safe U v2 ∧ Weak.Extends v v2 ∧
      v2.shared = v.shared ++ [{ control_ := o.control_, ptr_ := o.ptr_ }] ∧
      v2.weak.length = v.weak.length := by
  obtain ⟨v1, h1, hinv1, hext1, hsh1, hwe1⟩ := Weak.shared_copy_inv hinv hbound ho
  have e1 : SharedPtr.copy false (World.locked v sa) other = .ok (World.locked v1 sa) := by
    rw [locked_shared_copy, h1]; rfl
  rw [shared_copy_split, e1]
  have hs1 : v1.shared[v.shared.length]? = some { control_ := o.control_, ptr_ := o.ptr_ } := by
    rw [hsh1]; simp
  rcases sft_perhaps_init_inv hinv1 (fun p k h => by rw [hwe1]; exact hsa p k h)
    (by rw [hwe1]; exact hbw) hs1 e with ⟨he, herr⟩ | ⟨v2, h2, hinv2, hext2, hsh2, hwe2⟩
  · exact Or.inl ⟨he, herr⟩
  · exact Or.inr ⟨v2, h2, hinv2, Weak.extends_trans hext1 hext2, by rw [hsh2, hsh1],
      by rw [hwe2, hwe1]⟩

/-- The aliasing constructor keeps the invariant. -/
theorem sft_shared_aliasing_inv {U : List Nat} {v : Weak.World} {sa : List (Nat × Nat)}
    (hinv : Weak.Safe U v) (hsa : ∀ p k, (p, k) ∈ sa → k < v.weak.length)
    (hbound : v.shared.length + 1 < sizeMod) (hbw : v.weak.length + 1 < sizeMod)
    {other : Nat} {o : SharedPtr} (q : Nat) (ho : v.shared[other]? = some o) (e : Bool) :
    (e = true ∧ SharedPtr.aliasing e (World.locked v sa) other q = .error Fault.undefined) ∨
    ∃ v2, SharedPtr.aliasing e (World.locked v sa) other q = .ok (World.locked v2 sa) ∧
      Weak.Safe U v2 ∧ Weak.Extends v v2 ∧
      v2.shared = v.shared ++ [{ control_ := o.control_, ptr_ := q }] ∧
      v2.weak.length = v.weak.length := by
  obtain ⟨v1, h1, hinv1, hext1, hsh1, hwe1⟩ := Weak.shared_aliasing_inv hinv hbound q ho
  have e1 : SharedPtr.aliasing false (World.locked v sa) other q = .ok (World.locked v1 sa) := by
    rw [locked_shared_aliasing, h1]; rfl
  rw [shared_aliasing_split, e1]
  have hs1 : v1.shared[v.shared.length]? = some { control_ := o.control_, ptr_ := q } := by
    rw [hsh1]; simp
  rcases sft_perhaps_init_inv hinv1 (fun p k h => by rw [hwe1]; exact hsa p k h)
    (by rw [hwe1]; exact hbw) hs1 e with ⟨he, herr⟩ | ⟨v2, h2, hinv2, hext2, hsh2, hwe2⟩
  · exact Or.inl ⟨he, herr⟩
  · exact Or.inr ⟨v2, h2, hinv2, Weak.extends_trans hext1 hext2, by rw [hsh2, hsh1],
      by rw [hwe2, hwe1]⟩

/-- The constructor from a raw pointer keeps the invariant. -/
theorem sft_shared_from_raw_inv {U U2 : List Nat} {v : Weak.World} {sa : List (Nat × Nat)}
    (hinv : Weak.Safe U v) (hsa : ∀ p k, (p, k) ∈ sa → k < v.weak.length)
    (hbw : v.weak.length + 1 < sizeMod) (p : Nat)
    (hsub : ∀ q, q ∈ U → q ∈ U2) (hfresh : p ≠ 0 → p ∉ U ∧ p ∈ U2) (e : Bool) :
    (e = true ∧ SharedPtr.fromRaw e (World.locked v sa) p = .error Fault.undefined) ∨
    ∃ v2, SharedPtr.fromRaw e (World.locked v sa) p = .ok (World.locked v2 sa) ∧
      Weak.Safe U2 v2 ∧ Weak.Extends v v2 ∧
      v2.shared = v.shared ++ [{ control_ := some v.blocks.length, ptr_ := p }] ∧
      v2.weak.length = v.weak.length := by
  obtain ⟨hinv1, hext1, hsh1, hwe1⟩ := Weak.shared_from_raw_inv hinv p hsub hfresh
  rw [shared_from_raw_split]
  have hs1 : (Weak.SharedPtr.fromRaw v p).shared[v.shared.length]? =
      some { control_ := some v.blocks.length, ptr_ := p } := by
    rw [hsh1]; simp
  rcases sft_perhaps_init_inv hinv1 (fun p k h => by rw [hwe1]; exact hsa p k h)
    (by rw [hwe1]; exact hbw) hs1 e with ⟨he, herr⟩ | ⟨v2, h2, hinv2, hext2, hsh2, hwe2⟩
  · exact Or.inl ⟨he, herr⟩
  · exact Or.inr ⟨v2, h2, hinv2, Weak.extends_trans hext1 hext2, by rw [hsh2, hsh1],
      by rw [hwe2, hwe1]⟩

/-- The function `MakeShared` keeps the invariant. -/
theorem sft_make_shared_inv {U U2 : List Nat} {v : Weak.World} {sa : List (Nat × Nat)}
    (hinv : Weak.Safe U v) (hsa : ∀ p k, (p, k) ∈ sa → k < v.weak.length)
    (hbw : v.weak.length + 2 < sizeMod) (a : Nat)
    (hsub : ∀ q, q ∈ U → q ∈ U2) (hfresh : a ∉ U) (ha : a ∈ U2) (e : Bool) :
    (e = true ∧ MakeShared e (World.locked v sa) a = .error Fault.undefined) ∨
    ∃ v2 sa2, MakeShared e (World.locked v sa) a = .ok (World.locked v2 sa2) ∧
      Weak.Safe U2 v2 ∧ Weak.Extends v v2 ∧
      v2.shared.length = v.shared.length + 1 ∧
      v2.weak.length ≤ v.weak.length + 1 ∧ (∀ p k, (p, k) ∈ sa2 → k < v2.weak.length) := by
  rw [make_shared_split]
  cases e with
  | false =>
    simp only [Bool.false_eq_true, if_false]
    obtain ⟨hinv1, hext1, hsh1, hwe1⟩ := Weak.make_shared_inv hinv a hsub hfresh ha
    exact Or.inr ⟨_, sa, rfl, hinv1, hext1, by rw [hsh1]; simp, by rw [hwe1]; omega,
      fun p k h => by rw [hwe1]; exact hsa p k h⟩
  | true =>
    simp only [if_true]
    obtain ⟨hinv0, hext0⟩ := Weak.weak_construct_inv hinv
    obtain ⟨hinv1, hext1, hsh1, hwe1⟩ := Weak.make_shared_inv hinv0 a hsub hfresh ha
    have hlen0 : (Weak.WeakPtr.construct v).weak.length = v.weak.length + 1 := by
      simp [Weak.WeakPtr.construct, Weak.World.newWeak]
    have hsa1 : ∀ p k, (p, k) ∈ (a, v.weak.length) :: sa →
        k < (Weak.MakeShared (Weak.WeakPtr.construct v) a).weak.length := by
      intro p k h
      rw [hwe1, hlen0]
      rcases List.mem_cons.mp h with h | h
      · cases h; omega
      · have := hsa p k h; omega
    have hs1 : (Weak.MakeShared (Weak.WeakPtr.construct v) a).shared[v.shared.length]? =
        some { control_ := some (Weak.WeakPtr.construct v).blocks.length, ptr_ := a } := by
      rw [hsh1]
      simp [Weak.WeakPtr.construct, Weak.World.newWeak]
    rcases sft_perhaps_init_inv hinv1 hsa1 (by rw [hwe1, hlen0]; omega) hs1 true with
      ⟨he, herr⟩ | ⟨v2, h2, hinv2, hext2, hsh2, hwe2⟩
    · exact Or.inl ⟨trivial, herr⟩
    · refine Or.inr ⟨v2, _, h2, hinv2,
        Weak.extends_trans hext0 (Weak.extends_trans hext1 hext2), ?_, ?_, ?_⟩
      · rw [hsh2, hsh1]; simp [Weak.WeakPtr.construct, Weak.World.newWeak]
      · rw [hwe2, hwe1, hlen0]
      · intro p k h
        rw [hwe2]
        exact hsa1 p k h

/-- The method `Lock` keeps the invariant. -/
theorem sft_weak_lock_inv {U : List Nat} {v : Weak.World} {sa : List (Nat × Nat)}
    (hinv : Weak.Safe U v) (hsa : ∀ p k, (p, k) ∈ sa → k < v.weak.length)
    (hbound : v.shared.length + 1 < sizeMod) (hbw : v.weak.length + 1 < sizeMod)
    {j : Nat} {s : WeakPtr} (hs : v.weak[j]? = some s) (e : Bool) :
    (e = true ∧ WeakPtr.Lock e (World.locked v sa) j = .error Fault.undefined) ∨
    ∃ v2, WeakPtr.Lock e (World.locked v sa) j = .ok (World.locked v2 sa) ∧
      Weak.Safe U v2 ∧ Weak.Extends v v2 ∧
      v2.shared.length = v.shared.length + 1 ∧ v2.weak.length = v.weak.length := by
  obtain ⟨v1, h1, hinv1, hext1, hsh1, hwe1⟩ := Weak.weak_lock_inv hinv hbound hs
  have e1 : WeakPtr.Lock false (World.locked v sa) j = .ok (World.locked v1 sa) := by
    rw [locked_weak_lock, h1]; rfl
  rw [weak_lock_split, e1]
  obtain ⟨t, ht⟩ : ∃ t, v1.shared[v.shared.length]? = some t :=
    ⟨v1.shared[v.shared.length], List.getElem?_eq_getElem (by omega)⟩
  rcases sft_perhaps_init_inv hinv1 (fun p k h => by rw [hwe1]; exact hsa p k h)
    (by rw [hwe1]; exact hbw) ht e with ⟨he, herr⟩ | ⟨v2, h2, hinv2, hext2, hsh2, hwe2⟩
  · exact Or.inl ⟨he, herr⟩
  · exact Or.inr ⟨v2, h2, hinv2, Weak.extends_trans hext1 hext2, by rw [hsh2, hsh1],
      by rw [hwe2, hwe1]⟩

/-- The method `Reset(ptr)` keeps the invariant. -/
theorem sft_shared_reset_ptr_inv {U U2 : List Nat} {v : Weak.World} {sa : List (Nat × Nat)}
    (hinv : Weak.Safe U v) (hsa : ∀ p k, (p, k) ∈ sa → k < v.weak.length)
    (hbound : v.shared.length + 1 < sizeMod) (hbw : v.weak.length + 1 < sizeMod)
    {self : Nat} {s : SharedPtr} (p : Nat) (hs : v.shared[self]? = some s)
    (hsub : ∀ q, q ∈ U → q ∈ U2) (hfresh : p ≠ 0 → p ∉ U ∧ p ∈ U2) (e : Bool) :
    (e = true ∧ SharedPtr.ResetPtr e (World.locked v sa) self p = .error Fault.undefined) ∨
    ∃ v2 sa2, SharedPtr.ResetPtr e (World.locked v sa) self p = .ok (World.locked v2 sa2) ∧
      Weak.Safe U2 v2 ∧ Weak.Extends v v2 ∧
      v2.shared.length = v.shared.length ∧ v2.weak.length = v.weak.length ∧
      (∀ x, x ∈ sa2 → x ∈ sa) := by
  have hls := Weak.lt_of_getElem? hs
  obtain ⟨v1, sa1, h1, hinv1, hext1, hsh1, hwe1, hsub1⟩ :=
    sft_shared_clear_inv hinv hsa (by omega) (by omega) hs
  have hlen1 : v1.shared.length = v.shared.length := by rw [hsh1]; simp
  have hsa1 : ∀ p k, (p, k) ∈ sa1 → k < v1.weak.length := fun p k h => by
    rw [hwe1]; exact hsa p k (hsub1 _ h)
  rcases sft_shared_from_raw_inv hinv1 hsa1 (by rw [hwe1]; exact hbw) p hsub hfresh e with
    ⟨he, herr⟩ | ⟨vr, hr, hinvr, hextr, hshr, hwer⟩
  · left
    refine ⟨he, ?_⟩
    simp only [SharedPtr.ResetPtr, h1, bind, Except.bind, herr]
  · right
    have hlenr : vr.shared.length = v.shared.length + 1 := by
      rw [hshr]; simp [hlen1]
    have hsr : vr.shared[self]? = some { control_ := none, ptr_ := 0 } := by
      rw [hshr, List.getElem?_append_left (by omega), hsh1]
      simp [List.getElem?_set, hls]
    have htr : vr.shared[vr.shared.length - 1]? =
        some { control_ := some v1.blocks.length, ptr_ := p } := by
      rw [hlenr, hshr]
      simp [← hlen1]
    have hsar : ∀ p k, (p, k) ∈ sa1 → k < vr.weak.length := fun p k h => by
      rw [hwer]; exact hsa1 p k h
    obtain ⟨w3, w4, v5, sa5, h3, h4, h5, hinv5, hext5, hlen5, hwe5, hsub5⟩ :=
      sft_shared_take_tmp_inv hinvr hsar (by omega) (by rw [hwer, hwe1]; omega) (by omega)
        hsr htr
    rw [hlenr] at h3 h4
    simp only [Nat.add_sub_cancel] at h3 h4
    refine ⟨v5, sa5, ?_, hinv5, Weak.extends_trans hext1 (Weak.extends_trans hextr hext5),
      by omega, by rw [hwe5, hwer, hwe1], fun x hx => hsub1 x (hsub5 x hx)⟩
    simp only [SharedPtr.ResetPtr, h1, bind, Except.bind, hr,
      show (World.locked v1 sa1).shared.length = v1.shared.length from rfl, hlen1, h3, h4, pure,
      Except.pure, h5]

end Sft
namespace Sft

theorem caught_ok (w w2 : World) : caught w (.ok w2) = .ok w2 := rfl

theorem caught_bad (w : World) : caught w (.error Fault.BadWeakPtr) = .ok w := rfl

/-- The promoting constructor, its exception caught, keeps the invariant. -/
theorem sft_shared_from_weak_inv {U : List Nat} {v : Weak.World} (sa : List (Nat × Nat))
    (hinv : Weak.Safe U v) (hbound : v.shared.length + 1 < sizeMod)
    {j : Nat} {s : WeakPtr} (hs : v.weak[j]? = some s) :
    ∃ v2, caught (World.locked v sa) (SharedPtr.fromWeak (World.locked v sa) j) =
        .ok (World.locked v2 sa) ∧
      Weak.Safe U v2 ∧ Weak.Extends v v2 ∧ v2.shared.length ≤ v.shared.length + 1 ∧
      v2.weak = v.weak := by
  rw [locked_shared_from_weak]
  rcases Weak.shared_from_weak_inv hinv hbound hs with h | ⟨v2, h, h1, h2, h3, h4⟩
  · exact ⟨v, by rw [h]; rfl, hinv, Weak.extends_refl v, by omega, rfl⟩
  · exact ⟨v2, by rw [h]; rfl, h1, h2, by omega, h4⟩

/-- The code of one operation, run in a world that satisfies the invariant and has room for two
more handles of each kind, on objects that were not brought under management before, returns a
world that satisfies the invariant, unless it constructs a `SharedPtr` of a self-aware pointee
type from a pointer to no living self-aware object, which is undefined. -/
theorem sft_exec_inv {U : List Nat} {v : Weak.World} {sa : List (Nat × Nat)}
    (hinv : Weak.Safe U v) (hsa : ∀ p k, (p, k) ∈ sa → k < v.weak.length)
    (hbS : v.shared.length + 1 < sizeMod) (hbW : v.weak.length + 2 < sizeMod) (op : Op)
    (hwf : op.wellFormed (World.locked v sa) = true)
    (hfresh : ∀ q, q ∈ op.objects → q ∉ U) :
    (op.plain = false ∧ op.exec (World.locked v sa) = .error Fault.undefined) ∨
    ∃ v2 sa2, op.exec (World.locked v sa) = .ok (World.locked v2 sa2) ∧
      Weak.Safe (op.objects ++ U) v2 ∧ Weak.Extends v v2 ∧
      (∀ p k, (p, k) ∈ sa2 → k < v2.weak.length) ∧
      v2.shared.length ≤ v.shared.length + 1 ∧ v2.weak.length ≤ v.weak.length + 1 := by
  have hsub : ∀ q, q ∈ U → q ∈ op.objects ++ U := fun q hq => List.mem_append_right _ hq
  have keep : ∀ {v2 : Weak.World} {sa2 : List (Nat × Nat)}, v2.weak.length = v.weak.length →
      (∀ x, x ∈ sa2 → x ∈ sa) → ∀ p k, (p, k) ∈ sa2 → k < v2.weak.length :=
    fun hl hs p k h => by rw [hl]; exact hsa p k (hs _ h)
  have grow : ∀ {v2 : Weak.World}, v2.weak.length = v.weak.length + 1 →
      ∀ p k, (p, k) ∈ sa → k < v2.weak.length :=
    fun hl p k h => by rw [hl]; exact Nat.lt_succ_of_lt (hsa p k h)
  cases op with
  | newObject p =>
    obtain ⟨h1, h2⟩ := Weak.weak_construct_inv hinv
    have hl : (Weak.WeakPtr.construct v).weak.length = v.weak.length + 1 := by
      simp [Weak.WeakPtr.construct, Weak.World.newWeak]
    refine Or.inr ⟨Weak.WeakPtr.construct v, (p, v.weak.length) :: sa, rfl, Weak.safe_mono h1 hsub, h2,
      ?_, by simp [Weak.WeakPtr.construct, Weak.World.newWeak], by omega⟩
    intro q k h
    rcases List.mem_cons.mp h with h | h
    · cases h; omega
    · exact grow hl q k h
  | sharedDefault e =>
    obtain ⟨h1, h2⟩ := Weak.shared_construct_inv hinv
    have hs1 : (Weak.SharedPtr.construct v).shared[v.shared.length]? =
        some { control_ := none, ptr_ := 0 } := by
      simp [Weak.SharedPtr.construct, Weak.World.newShared]
    rcases sft_perhaps_init_inv h1 hsa (by
        show v.weak.length + 1 < sizeMod
        omega) hs1 e with ⟨he, herr⟩ | ⟨v2, e2, hinv2, hext2, hsh2, hwe2⟩
    · exact Or.inl ⟨by simp [Op.plain, he], herr⟩
    · refine Or.inr ⟨v2, sa, e2, Weak.safe_mono hinv2 hsub, Weak.extends_trans h2 hext2,
        keep hwe2 (fun _ h => h), ?_, ?_⟩
      · rw [hsh2]; simp [Weak.SharedPtr.construct, Weak.World.newShared]
      · rw [hwe2]; show v.weak.length ≤ v.weak.length + 1; omega
  | sharedFromRaw e p =>
    rcases sft_shared_from_raw_inv hinv hsa (by omega) p
      hsub (fun h0 => ⟨hfresh p (by simp [Op.objects, h0]), by simp [Op.objects, h0]⟩) e with
      ⟨he, herr⟩ | ⟨v2, e2, hinv2, hext2, hsh2, hwe2⟩
    · exact Or.inl ⟨by simp [Op.plain, he], herr⟩
    · exact Or.inr ⟨v2, sa, e2, hinv2, hext2, keep hwe2 (fun _ h => h), by rw [hsh2]; simp,
        by rw [hwe2]; omega⟩
  | makeShared e a =>
    rcases sft_make_shared_inv hinv hsa hbW a
      hsub (hfresh a (by simp [Op.objects])) (by simp [Op.objects]) e with
      ⟨he, herr⟩ | ⟨v2, sa2, e2, hinv2, hext2, hsh2, hwe2, hsa2⟩
    · exact Or.inl ⟨by simp [Op.plain, he], herr⟩
    · exact Or.inr ⟨v2, sa2, e2, hinv2, hext2, hsa2, by omega, hwe2⟩
  | sharedCopy e o =>
    simp [Op.wellFormed, World.locked] at hwf
    obtain ⟨x, hx⟩ := Weak.exists_getElem? v.shared hwf
    rcases sft_shared_copy_inv hinv hsa hbS (by omega) hx e with
      ⟨he, herr⟩ | ⟨v2, e2, hinv2, hext2, hsh2, hwe2⟩
    · exact Or.inl ⟨by simp [Op.plain, he], herr⟩
    · exact Or.inr ⟨v2, sa, e2, Weak.safe_mono hinv2 hsub, hext2, keep hwe2 (fun _ h => h),
        by rw [hsh2]; simp, by rw [hwe2]; omega⟩
  | sharedMove o =>
    simp [Op.wellFormed, World.locked] at hwf
    obtain ⟨x, hx⟩ := Weak.exists_getElem? v.shared hwf
    obtain ⟨v2, e2, hinv2, hext2, hsh2, hwe2⟩ := sft_shared_move_inv sa hinv hx
    exact Or.inr ⟨v2, sa, e2, Weak.safe_mono hinv2 hsub, hext2,
      keep (by rw [hwe2]) (fun _ h => h), by rw [hsh2]; simp, by rw [hwe2]; omega⟩
  | sharedAliasing e o p =>
    simp [Op.wellFormed, World.locked] at hwf
    obtain ⟨x, hx⟩ := Weak.exists_getElem? v.shared hwf
    rcases sft_shared_aliasing_inv hinv hsa hbS (by omega) p hx e with
      ⟨he, herr⟩ | ⟨v2, e2, hinv2, hext2, hsh2, hwe2⟩
    · exact Or.inl ⟨by simp [Op.plain, he], herr⟩
    · exact Or.inr ⟨v2, sa, e2, Weak.safe_mono hinv2 hsub, hext2, keep hwe2 (fun _ h => h),
        by rw [hsh2]; simp, by rw [hwe2]; omega⟩
  | sharedFromWeak o =>
    simp [Op.wellFormed, World.locked] at hwf
    obtain ⟨x, hx⟩ := Weak.exists_getElem? v.weak hwf
    obtain ⟨v2, e2, hinv2, hext2, hsh2, hwe2⟩ := sft_shared_from_weak_inv sa hinv hbS hx
    exact Or.inr ⟨v2, sa, e2, Weak.safe_mono hinv2 hsub, hext2,
      keep (by rw [hwe2]) (fun _ h => h), hsh2, by rw [hwe2]; omega⟩
  | sharedFromThis e =>
    simp only [Op.wellFormed, World.isSelfAware, Bool.and_eq_true, decide_eq_true_eq] at hwf
    obtain ⟨he, hl⟩ := hwf
    obtain ⟨k, hk⟩ := Option.isSome_iff_exists.mp hl
    have hk2 : sa.lookup e = some k := hk
    have hwt : (World.locked v sa).weakThis e = .ok k := by
      simp [World.weakThis, he, World.locked, hk2]
    obtain ⟨x, hx⟩ := Weak.exists_getElem? v.weak (hsa e k (mem_of_lookup hk2))
    obtain ⟨v2, e2, hinv2, hext2, hsh2, hwe2⟩ := sft_shared_from_weak_inv sa hinv hbS hx
    refine Or.inr ⟨v2, sa, ?_, Weak.safe_mono hinv2 hsub, hext2,
      keep (by rw [hwe2]) (fun _ h => h), hsh2, by rw [hwe2]; omega⟩
    simp only [Op.exec, SharedFromThis, hwt, bind, Except.bind]
    exact e2
  | sharedAssign s o =>
    simp [Op.wellFormed, World.locked] at hwf
    obtain ⟨x, hx⟩ := Weak.exists_getElem? v.shared hwf.1
    obtain ⟨y, hy⟩ := Weak.exists_getElem? v.shared hwf.2
    by_cases hne : o = s
    · exact Or.inr ⟨v, sa, by simp [Op.exec, SharedPtr.assign, hne, pure, Except.pure],
        Weak.safe_mono hinv hsub, Weak.extends_refl v, hsa, by omega, by omega⟩
    · obtain ⟨v2, sa2, e2, hinv2, hext2, hsh2, hwe2, hsub2⟩ :=
        sft_shared_assign_inv hinv hsa hbS (by omega) hne hx hy
      exact Or.inr ⟨v2, sa2, e2, Weak.safe_mono hinv2 hsub, hext2, keep hwe2 hsub2,
        by rw [hsh2]; simp, by omega⟩
  | sharedMoveAssign s o =>
    simp [Op.wellFormed, World.locked] at hwf
    obtain ⟨x, hx⟩ := Weak.exists_getElem? v.shared hwf.1
    obtain ⟨y, hy⟩ := Weak.exists_getElem? v.shared hwf.2
    by_cases hne : o = s
    · exact Or.inr ⟨v, sa, by simp [Op.exec, SharedPtr.moveAssign, hne, pure, Except.pure],
        Weak.safe_mono hinv hsub, Weak.extends_refl v, hsa, by omega, by omega⟩
    · obtain ⟨v2, sa2, e2, hinv2, hext2, hsh2, hwe2, hsub2⟩ :=
        sft_shared_move_assign_inv hinv hsa (by omega) (by omega) hne hx hy
      exact Or.inr ⟨v2, sa2, e2, Weak.safe_mono hinv2 hsub, hext2, keep hwe2 hsub2,
        by rw [hsh2]; simp, by omega⟩
  | sharedReset s =>
    simp [Op.wellFormed, World.locked] at hwf
    obtain ⟨x, hx⟩ := Weak.exists_getElem? v.shared hwf
    obtain ⟨v2, sa2, e2, hinv2, hext2, hsh2, hwe2, hsub2⟩ :=
      sft_shared_clear_inv hinv hsa (by omega) (by omega) hx
    exact Or.inr ⟨v2, sa2, e2, Weak.safe_mono hinv2 hsub, hext2, keep hwe2 hsub2,
      by rw [hsh2]; simp, by omega⟩
  | sharedResetPtr e s p =>
    simp [Op.wellFormed, World.locked] at hwf
    obtain ⟨x, hx⟩ := Weak.exists_getElem? v.shared hwf
    rcases sft_shared_reset_ptr_inv hinv hsa hbS (by omega) p hx hsub
        (fun h0 => ⟨hfresh p (by simp [Op.objects, h0]), by simp [Op.objects, h0]⟩) e with
      ⟨he, herr⟩ | ⟨v2, sa2, e2, hinv2, hext2, hsh2, hwe2, hsub2⟩
    · exact Or.inl ⟨by simp [Op.plain, he], herr⟩
    · exact Or.inr ⟨v2, sa2, e2, hinv2, hext2, keep hwe2 hsub2, by omega, by omega⟩
  | sharedSwap s o =>
    simp [Op.wellFormed, World.locked] at hwf
    obtain ⟨x, hx⟩ := Weak.exists_getElem? v.shared hwf.1
    obtain ⟨y, hy⟩ := Weak.exists_getElem? v.shared hwf.2
    obtain ⟨v2, sa2, e2, hinv2, hext2, hsh2, hwe2, hsub2⟩ :=
      sft_shared_swap_inv hinv hsa hbS (by omega) hx hy
    exact Or.inr ⟨v2, sa2, e2, Weak.safe_mono hinv2 hsub, hext2, keep hwe2 hsub2, by omega, by omega⟩
  | sharedDestroy s =>
    simp [Op.wellFormed, World.locked] at hwf
    obtain ⟨x, hx⟩ := Weak.exists_getElem? v.shared hwf
    obtain ⟨v2, sa2, e2, hinv2, hext2, hsh2, hwe2, hsub2⟩ :=
      sft_shared_clear_inv hinv hsa (by omega) (by omega) hx
    exact Or.inr ⟨v2, sa2, e2, Weak.safe_mono hinv2 hsub, hext2, keep hwe2 hsub2,
      by rw [hsh2]; simp, by omega⟩
  | weakDefault =>
    obtain ⟨h1, h2⟩ := Weak.weak_construct_inv hinv
    have hl : (Weak.WeakPtr.construct v).weak.length = v.weak.length + 1 := by
      simp [Weak.WeakPtr.construct, Weak.World.newWeak]
    exact Or.inr ⟨Weak.WeakPtr.construct v, sa, rfl, Weak.safe_mono h1 hsub, h2, grow hl,
      by simp [Weak.WeakPtr.construct, Weak.World.newWeak], by omega⟩
  | weakCopy o =>
    simp [Op.wellFormed, World.locked] at hwf
    obtain ⟨x, hx⟩ := Weak.exists_getElem? v.weak hwf
    obtain ⟨v2, h, h1, h2, h3, h4⟩ := Weak.weak_copy_inv hinv (by omega) hx
    have hl : v2.weak.length = v.weak.length + 1 := by rw [h4]; simp
    exact Or.inr ⟨v2, sa, by simp only [Op.exec]; rw [locked_weak_copy, h]; rfl,
      Weak.safe_mono h1 hsub, h2, grow hl, by rw [h3]; omega, by omega⟩
  | weakMove o =>
    simp [Op.wellFormed, World.locked] at hwf
    obtain ⟨x, hx⟩ := Weak.exists_getElem? v.weak hwf
    obtain ⟨v2, h, h1, h2, h3, h4⟩ := Weak.weak_move_inv hinv hx
    have hl : v2.weak.length = v.weak.length + 1 := by rw [h4]; simp
    exact Or.inr ⟨v2, sa, by simp only [Op.exec]; rw [locked_weak_move, h]; rfl,
      Weak.safe_mono h1 hsub, h2, grow hl, by rw [h3]; omega, by omega⟩
  | weakFromShared o =>
    simp [Op.wellFormed, World.locked] at hwf
    obtain ⟨x, hx⟩ := Weak.exists_getElem? v.shared hwf
    obtain ⟨v2, h, h1, h2, h3, h4⟩ := Weak.weak_from_shared_inv hinv (by omega) hx
    have hl : v2.weak.length = v.weak.length + 1 := by rw [h4]; simp
    exact Or.inr ⟨v2, sa, by simp only [Op.exec]; rw [locked_weak_from_shared, h]; rfl,
      Weak.safe_mono h1 hsub, h2, grow hl, by rw [h3]; omega, by omega⟩
  | weakFromThis e =>
    simp only [Op.wellFormed, World.isSelfAware, Bool.and_eq_true, decide_eq_true_eq] at hwf
    obtain ⟨he, hl⟩ := hwf
    obtain ⟨k, hk⟩ := Option.isSome_iff_exists.mp hl
    have hk2 : sa.lookup e = some k := hk
    have hwt : (World.locked v sa).weakThis e = .ok k := by
      simp [World.weakThis, he, World.locked, hk2]
    obtain ⟨x, hx⟩ := Weak.exists_getElem? v.weak (hsa e k (mem_of_lookup hk2))
    obtain ⟨v2, h, h1, h2, h3, h4⟩ := Weak.weak_copy_inv hinv (by omega) hx
    have hl : v2.weak.length = v.weak.length + 1 := by rw [h4]; simp
    refine Or.inr ⟨v2, sa, ?_, Weak.safe_mono h1 hsub, h2, grow hl, by rw [h3]; omega, by omega⟩
    simp only [Op.exec, WeakFromThis, hwt, bind, Except.bind]
    rw [locked_weak_copy, h]
    rfl
  | weakAssign s o =>
    simp [Op.wellFormed, World.locked] at hwf
    obtain ⟨x, hx⟩ := Weak.exists_getElem? v.weak hwf.1
    obtain ⟨y, hy⟩ := Weak.exists_getElem? v.weak hwf.2
    by_cases hne : o = s
    · exact Or.inr ⟨v, sa, by simp [Op.exec, WeakPtr.assign, hne, pure, Except.pure],
        Weak.safe_mono hinv hsub, Weak.extends_refl v, hsa, by omega, by omega⟩
    · obtain ⟨v2, h, h1, h2, h3, h4⟩ := Weak.weak_assign_inv hinv (by omega) hne hx hy
      have hl : v2.weak.length = v.weak.length := by rw [h4]; simp
      exact Or.inr ⟨v2, sa, by
          simp only [Op.exec]
          rw [locked_weak_assign sa s o (Weak.idle_of_inv hinv.1), h]
          rfl,
        Weak.safe_mono h1 hsub, h2, keep hl (fun _ h => h), by rw [h3]; omega, by omega⟩
  | weakMoveAssign s o =>
    simp [Op.wellFormed, World.locked] at hwf
    obtain ⟨x, hx⟩ := Weak.exists_getElem? v.weak hwf.1
    obtain ⟨y, hy⟩ := Weak.exists_getElem? v.weak hwf.2
    by_cases hne : o = s
    · exact Or.inr ⟨v, sa, by simp [Op.exec, WeakPtr.moveAssign, hne, pure, Except.pure],
        Weak.safe_mono hinv hsub, Weak.extends_refl v, hsa, by omega, by omega⟩
    · obtain ⟨v2, h, h1, h2, h3, h4⟩ := Weak.weak_move_assign_inv hinv (by omega) hne hx hy
      have hl : v2.weak.length = v.weak.length := by rw [h4]; simp
      exact Or.inr ⟨v2, sa, by
          simp only [Op.exec]
          rw [locked_weak_move_assign sa s o (Weak.idle_of_inv hinv.1), h]
          rfl,
        Weak.safe_mono h1 hsub, h2, keep hl (fun _ h => h), by rw [h3]; omega, by omega⟩
  | weakReset s =>
    simp [Op.wellFormed, World.locked] at hwf
    obtain ⟨x, hx⟩ := Weak.exists_getElem? v.weak hwf
    obtain ⟨v2, e2, h1, h2, h3, h4⟩ := sft_weak_clear_inv sa hinv (by omega) hx
    have hl : v2.weak.length = v.weak.length := by rw [h4]; simp
    exact Or.inr ⟨v2, sa, e2, Weak.safe_mono h1 hsub, h2, keep hl (fun _ h => h),
      by rw [h3]; omega, by omega⟩
  | weakSwap s o =>
    simp [Op.wellFormed, World.locked] at hwf
    obtain ⟨x, hx⟩ := Weak.exists_getElem? v.weak hwf.1
    obtain ⟨y, hy⟩ := Weak.exists_getElem? v.weak hwf.2
    obtain ⟨v2, h, h1, h2, h3, h4⟩ := Weak.weak_swap_inv hinv (by omega) hx hy
    exact Or.inr ⟨v2, sa, by
        simp only [Op.exec]
        rw [locked_weak_swap sa s o (Weak.idle_of_inv hinv.1), h]
        rfl,
      Weak.safe_mono h1 hsub, h2, keep h3 (fun _ h => h), by rw [h4]; omega, by omega⟩
  | weakDestroy s =>
    simp [Op.wellFormed, World.locked] at hwf
    obtain ⟨x, hx⟩ := Weak.exists_getElem? v.weak hwf
    obtain ⟨v2, e2, h1, h2, h3, h4⟩ := sft_weak_clear_inv sa hinv (by omega) hx
    have hl : v2.weak.length = v.weak.length := by rw [h4]; simp
    exact Or.inr ⟨v2, sa, e2, Weak.safe_mono h1 hsub, h2, keep hl (fun _ h => h),
      by rw [h3]; omega, by omega⟩
  | weakLock e s =>
    simp [Op.wellFormed, World.locked] at hwf
    obtain ⟨x, hx⟩ := Weak.exists_getElem? v.weak hwf
    rcases sft_weak_lock_inv hinv hsa hbS (by omega) hx e with
      ⟨he, herr⟩ | ⟨v2, e2, hinv2, hext2, hsh2, hwe2⟩
    · exact Or.inl ⟨by simp [Op.plain, he], herr⟩
    · exact Or.inr ⟨v2, sa, e2, Weak.safe_mono hinv2 hsub, hext2, keep hwe2 (fun _ h => h),
        by omega, by omega⟩

end Sft

/-! ## Programs of the variant with lock keep the invariant -/

namespace Sft

theorem valid_of_locked {U : List Nat} {v : Weak.World} {sa : List (Nat × Nat)}
    (h : Weak.Safe U v) (hsa : ∀ p k, (p, k) ∈ sa → k < v.weak.length) :
    Valid U (World.locked v sa) := by
  refine ⟨by rw [locked_unlocked_world]; exact h, ?_, hsa⟩
  intro b hb
  simp only [World.locked, List.mem_map] at hb
  obtain ⟨x, _, hx⟩ := hb
  rw [← hx]
  rfl

theorem locked_of_valid {U : List Nat} {w : World} (h : Valid U w) :
    ∃ v sa, w = World.locked v sa ∧ Weak.Safe U v ∧ (∀ p k, (p, k) ∈ sa → k < v.weak.length) :=
  ⟨w.unlocked, w.selfAware, (unlocked_locked_world h.2.1).symm, h.1, h.2.2⟩

theorem valid_empty : Valid [] World.empty :=
  ⟨Weak.safe_empty, fun b hb => by simp [World.empty] at hb,
    fun p k h => by simp [World.empty] at h⟩

/-- What the invariant says about one block. -/
theorem valid_block {U : List Nat} {w : World} (h : Valid U w) {c : Nat} {b : ControlBlock}
    (hb : w.blocks[c]? = some b) :
    Weak.Good b.unlocked (cntS c w.shared) (cntW c w.weak) ∧
      b.destruction_is_locked_ = false := by
  have hi := h.1.1 c
  rw [unlocked_get, hb] at hi
  refine ⟨hi, h.2.1 b ?_⟩
  have hlt := Weak.lt_of_getElem? hb
  have e : w.blocks[c] = b := by
    have := List.getElem?_eq_getElem hlt
    rw [hb] at this
    exact (Option.some.inj this).symm
  rw [← e]
  exact List.getElem_mem hlt

/-- One operation of a client keeps the invariant of the world, or is undefined. -/
theorem sft_step_inv {U : List Nat} {c : Client} (hv : Valid U c.world)
    (hbS : c.world.shared.length + 1 < sizeMod) (hbW : c.world.weak.length + 2 < sizeMod)
    (op : Op) (hfresh : ∀ q, q ∈ op.objects → q ∉ U) :
    (op.plain = false ∧ step c op = .error Fault.undefined) ∨
    ∃ c2, step c op = .ok c2 ∧ Valid (op.objects ++ U) c2.world ∧
      Weak.Extends c.world.unlocked c2.world.unlocked ∧
      c2.world.shared.length ≤ c.world.shared.length + 1 ∧
      c2.world.weak.length ≤ c.world.weak.length + 1 := by
  obtain ⟨v, sa, hw, hinv, hsa⟩ := locked_of_valid hv
  by_cases hgo : (op.wellFormed c.world && op.alive c) = true
  · have hwf : op.wellFormed (World.locked v sa) = true := by
      simp only [Bool.and_eq_true] at hgo
      rw [← hw]
      exact hgo.1
    rcases sft_exec_inv hinv hsa (by rw [hw] at hbS; exact hbS) (by rw [hw] at hbW; exact hbW)
      op hwf hfresh with ⟨hp, herr⟩ | ⟨v2, sa2, h, h1, h2, h3, h4, h5⟩
    · left
      refine ⟨hp, ?_⟩
      rw [← hw] at herr
      simp only [step, hgo, herr, bind, Except.bind, if_true]
    · right
      rw [← hw] at h
      refine ⟨{ world := World.locked v2 sa2, endedShared := op.endsShared ++ c.endedShared,
                endedWeak := op.endsWeak ++ goneSlots c.world (World.locked v2 sa2) ++
                  c.endedWeak }, ?_, valid_of_locked h1 h3, ?_, ?_, ?_⟩
      · simp only [step, hgo, h, bind, Except.bind, pure, Except.pure, if_true]
      · rw [hw, locked_unlocked_world, locked_unlocked_world]
        exact h2
      · rw [hw]
        exact h4
      · rw [hw]
        exact h5
  · exact Or.inr ⟨c, by simp [step, hgo, pure, Except.pure],
      ⟨Weak.safe_mono hv.1 (fun q hq => List.mem_append_right _ hq), hv.2.1, hv.2.2⟩,
      Weak.extends_refl _, by omega, by omega⟩

theorem sft_objects_cons (op : Op) (ops : List Op) :
    objects (op :: ops) = op.objects ++ objects ops := rfl

/-- A program of `n` operations, started in a world that satisfies the invariant and has room for
`n + 1` more handles of each kind below `2 ^ 64`, and bringing under management only objects that
are new and pairwise different, either runs to completion and ends in a world that satisfies the
invariant, or is undefined at an operation that constructs a `SharedPtr` of a self-aware pointee
type. -/
theorem sft_run_inv (ops : List Op) :
    ∀ (U : List Nat) (c : Client), Valid U c.world →
      c.world.shared.length + ops.length < sizeMod →
      c.world.weak.length + ops.length + 1 < sizeMod → (objects ops).Nodup →
      (∀ q, q ∈ objects ops → q ∉ U) →
      ((∃ op, op ∈ ops ∧ op.plain = false) ∧ run ops c = .error Fault.undefined) ∨
      ∃ c2 U2, run ops c = .ok c2 ∧ Valid U2 c2.world ∧
        Weak.Extends c.world.unlocked c2.world.unlocked := by
  induction ops with
  | nil =>
    intro U c hv _ _ _ _
    exact Or.inr ⟨c, U, rfl, hv, Weak.extends_refl _⟩
  | cons op ops ih =>
    intro U c hv hS hW hnd hfresh
    simp only [List.length_cons] at hS hW
    rw [sft_objects_cons] at hnd hfresh
    rcases sft_step_inv hv (by omega) (by omega) op
      (fun q hq => hfresh q (List.mem_append_left _ hq)) with
      ⟨hp, herr⟩ | ⟨c1, h1, hv1, hext1, hl1, hl2⟩
    · exact Or.inl ⟨⟨op, List.mem_cons_self _ _, hp⟩, by
        simp only [run, herr, bind, Except.bind]⟩
    · rcases ih (op.objects ++ U) c1 hv1 (by omega) (by omega)
        (List.Nodup.of_append_right hnd) (fun q hq hin => by
          rcases List.mem_append.mp hin with hin | hin
          · exact (List.disjoint_of_nodup_append hnd) hin hq
          · exact hfresh q (List.mem_append_right _ hq) hin) with
        ⟨⟨op2, hm, hp⟩, herr⟩ | ⟨c2, U2, h2, hv2, hext2⟩
      · exact Or.inl ⟨⟨op2, List.mem_cons_of_mem _ hm, hp⟩, by
          simp only [run, h1, herr, bind, Except.bind]⟩
      · exact Or.inr ⟨c2, U2, by simp only [run, h1, h2, bind, Except.bind], hv2,
          Weak.extends_trans hext1 hext2⟩

end Sft

/-! ## Claims about programs of the variant with destruction lock -/

namespace Sft

/-- A program started in the empty world. -/
theorem sft_run_from_empty (ops : List Op) (hlen : ops.length + 1 < sizeMod)
    (hnd : (objects ops).Nodup) :
    ((∃ op, op ∈ ops ∧ op.plain = false) ∧
        run ops (Client.start World.empty) = .error Fault.undefined) ∨
      ∃ c2 U2, run ops (Client.start World.empty) = .ok c2 ∧ Valid U2 c2.world := by
  rcases sft_run_inv ops [] (Client.start World.empty) valid_empty
    (by simp only [Client.start, World.empty, List.length_nil]; omega)
    (by simp only [Client.start, World.empty, List.length_nil]; omega) hnd
    (fun _ _ => by simp) with h | ⟨c2, U2, h, hv, _⟩
  · exact Or.inl h
  · exact Or.inr ⟨c2, U2, h, hv⟩

end Sft

/-- C3: a program of fewer than `2 ^ 64 - 1` handle operations of the variant with destruction
lock, on objects of plain or self-aware type and on blocks made by a raw-pointer wrap
(`ControlBlockPointer`) or by `MakeShared` (`ControlBlockEmplace`), in which every object brought
under management is a different object, either runs to completion or is undefined at an
operation that constructs a `SharedPtr` of a self-aware pointee type (it never exhausts the
recursion budget of the teardown chain).  After a program that ran to completion, every control
block, whatever its weak count and whether or not it was destroyed since, has released its
object exactly once if it was constructed holding one and its strong count is 0, and not at all
otherwise; it still holds the object exactly when its strong count is not 0; its strong count
is the number of `SharedPtr` instances that reference it; its lock is clear. -/
theorem release_exactly_once (ops : List Sft.Op) (hlen : ops.length + 1 < sizeMod)
    (hnd : (Sft.objects ops).Nodup) :
    (((∃ op, op ∈ ops ∧ op.plain = false) ∧
        Sft.run ops (Sft.Client.start Sft.World.empty) = .error Fault.undefined) ∨
      ∃ c2, Sft.run ops (Sft.Client.start Sft.World.empty) = .ok c2) ∧
    ∀ c2, Sft.run ops (Sft.Client.start Sft.World.empty) = .ok c2 →
      ∀ c b, c2.world.blocks[c]? = some b →
        b.cnt_strong_ref_ = cntS c c2.world.shared ∧
        b.releases = (if b.managed = true ∧ b.cnt_strong_ref_ = 0 then 1 else 0) ∧
        (b.derived.live = true ↔ b.managed = true ∧ b.cnt_strong_ref_ ≠ 0) ∧
        (b.freed = true → b.releases = (if b.managed = true then 1 else 0)) ∧
        b.destruction_is_locked_ = false := by
  have key := Sft.sft_run_from_empty ops hlen hnd
  constructor
  · rcases key with h | ⟨c2, _, h, _⟩
    · exact Or.inl h
    · exact Or.inr ⟨c2, h⟩
  · intro c2 h2 c b hb
    rcases key with ⟨_, h⟩ | ⟨c3, U2, h, hv⟩
    · rw [h] at h2
      cases h2
    · have hc : c2 = c3 := by
        rw [h] at h2
        exact (Except.ok.inj h2).symm
      rw [hc] at hb ⊢
      obtain ⟨hg, hl⟩ := Sft.valid_block hv hb
      obtain ⟨g1, g2, g3, g4, g5, g6⟩ := hg
      have e1 : b.cnt_strong_ref_ = cntS c c3.world.shared := g1
      have e5 : b.releases = (if b.managed = true ∧ cntS c c3.world.shared = 0 then 1 else 0) :=
        g5
      have e6 : b.derived.live = true ↔ b.managed = true ∧ cntS c c3.world.shared ≠ 0 := g6
      have e3 : b.freed = true ↔ cntS c c3.world.shared = 0 ∧ cntW c c3.world.weak = 0 := g3
      refine ⟨e1, by rw [e1]; exact e5, by rw [e1]; exact e6, ?_, hl⟩
      intro hf
      have h0 := (e3.mp hf).1
      rw [e5]
      simp [h0]

/-- Witness for C3: a self-aware object is created, wrapped, observed by a `WeakPtr`, shared by a
copy, and both sharers are destroyed while the observer stays. -/
theorem release_exactly_once_witness :
    ([Sft.Op.newObject 7, .sharedFromRaw true 7, .weakFromShared 0, .sharedCopy true 0,
        .makeShared false 9, .sharedDestroy 0, .sharedDestroy 1].length + 1 < sizeMod) ∧
    (Sft.objects [Sft.Op.newObject 7, .sharedFromRaw true 7, .weakFromShared 0,
        .sharedCopy true 0, .makeShared false 9, .sharedDestroy 0, .sharedDestroy 1]).Nodup ∧
    ((((∃ op, op ∈ [Sft.Op.newObject 7, .sharedFromRaw true 7, .weakFromShared 0,
            .sharedCopy true 0, .makeShared false 9, .sharedDestroy 0, .sharedDestroy 1] ∧
          op.plain = false) ∧
        Sft.run [Sft.Op.newObject 7, .sharedFromRaw true 7, .weakFromShared 0,
            .sharedCopy true 0, .makeShared false 9, .sharedDestroy 0, .sharedDestroy 1]
          (Sft.Client.start Sft.World.empty) = .error Fault.undefined) ∨
      ∃ c2, Sft.run [Sft.Op.newObject 7, .sharedFromRaw true 7, .weakFromShared 0,
            .sharedCopy true 0, .makeShared false 9, .sharedDestroy 0, .sharedDestroy 1]
          (Sft.Client.start Sft.World.empty) = .ok c2) ∧
    ∀ c2, Sft.run [Sft.Op.newObject 7, .sharedFromRaw true 7, .weakFromShared 0,
            .sharedCopy true 0, .makeShared false 9, .sharedDestroy 0, .sharedDestroy 1]
          (Sft.Client.start Sft.World.empty) = .ok c2 →
      ∀ c b, c2.world.blocks[c]? = some b →
        b.cnt_strong_ref_ = cntS c c2.world.shared ∧
        b.releases = (if b.managed = true ∧ b.cnt_strong_ref_ = 0 then 1 else 0) ∧
        (b.derived.live = true ↔ b.managed = true ∧ b.cnt_strong_ref_ ≠ 0) ∧
        (b.freed = true → b.releases = (if b.managed = true then 1 else 0)) ∧
        b.destruction_is_locked_ = false) ∧
    (∃ c2, Sft.run [Sft.Op.newObject 7, .sharedFromRaw true 7, .weakFromShared 0,
            .sharedCopy true 0, .makeShared false 9, .sharedDestroy 0, .sharedDestroy 1]
          (Sft.Client.start Sft.World.empty) = .ok c2 ∧
      c2.world.blocks.map (fun b => (b.cnt_strong_ref_, b.cnt_weak_ref_, b.releases, b.freed)) =
        [(0, 1, 1, false), (1, 0, 0, false)]) :=
  ⟨by decide, by decide, release_exactly_once _ (by decide) (by decide), _, rfl, by decide⟩

namespace Weak

/-- A block of a world that satisfies the invariant, and the same block after an operation that
keeps the invariant. -/
theorem good_pair {U U2 : List Nat} {w w2 : World} (h1 : Safe U w) (h2 : Safe U2 w2)
    (hext : Extends w w2) {c : Nat} {x : ControlBlock} (hx : w.blocks[c]? = some x) :
    ∃ x2, w2.blocks[c]? = some x2 ∧ x2.managed = x.managed ∧
      Good x (cntS c w.shared) (cntW c w.weak) ∧
      Good x2 (cntS c w2.shared) (cntW c w2.weak) := by
  obtain ⟨x2, hx2, hm⟩ := hext c x hx
  have g1 := h1.1 c
  rw [hx] at g1
  have g2 := h2.1 c
  rw [hx2] at g2
  exact ⟨x2, hx2, hm, g1, g2⟩

end Weak

namespace Sft

theorem sft_good_pair {U U2 : List Nat} {v v2 : World} (h1 : Valid U v) (h2 : Valid U2 v2)
    (hext : Weak.Extends v.unlocked v2.unlocked) {c : Nat} {x : ControlBlock}
    (hx : v.blocks[c]? = some x) :
    ∃ x2, v2.blocks[c]? = some x2 ∧ x2.managed = x.managed ∧
      Weak.Good x.unlocked (cntS c v.shared) (cntW c v.weak) ∧
      Weak.Good x2.unlocked (cntS c v2.shared) (cntW c v2.weak) := by
  have hxu : v.unlocked.blocks[c]? = some x.unlocked := by rw [unlocked_get, hx]; rfl
  obtain ⟨y, hy, hm, g1, g2⟩ := Weak.good_pair h1.1 h2.1 hext hxu
  rw [unlocked_get] at hy
  cases hx2 : v2.blocks[c]? with
  | none => rw [hx2] at hy; cases hy
  | some x2 =>
    rw [hx2] at hy
    have : x2.unlocked = y := Option.some.inj hy
    subst this
    exact ⟨x2, rfl, hm, g1, g2⟩

/-- The destructor of a `SharedPtr`, on a world that satisfies the invariant. -/
theorem valid_destroy {U : List Nat} {v : World} (hv : Valid U v)
    (hS : v.shared.length < sizeMod) (hW : v.weak.length < sizeMod) {i : Nat}
    {s : SharedPtr} (hs : v.shared[i]? = some s) :
    ∃ v2, SharedPtr.destroy v i = .ok v2 ∧ Valid U v2 ∧
      Weak.Extends v.unlocked v2.unlocked ∧
      v2.shared = v.shared.set i { control_ := none, ptr_ := 0 } ∧
      v2.weak.length = v.weak.length := by
  obtain ⟨x, l, hw, hinv, hsa⟩ := locked_of_valid hv
  subst hw
  obtain ⟨v2, l2, h, h1, h2, h3, h4, h5⟩ := sft_shared_clear_inv hinv hsa hS hW hs
  refine ⟨World.locked v2 l2, h, valid_of_locked h1 (fun p k hk => ?_), ?_, h3, h4⟩
  · rw [h4]; exact hsa p k (h5 _ hk)
  · rw [locked_unlocked_world, locked_unlocked_world]; exact h2

/-- The aliasing constructor, on a world that satisfies the invariant. -/
theorem valid_aliasing {U : List Nat} {v : World} (hv : Valid U v)
    (hS : v.shared.length + 1 < sizeMod) (hW : v.weak.length + 1 < sizeMod) {i : Nat}
    {s : SharedPtr} (q : Nat) (hs : v.shared[i]? = some s) (e : Bool) :
    (e = true ∧ SharedPtr.aliasing e v i q = .error Fault.undefined) ∨
    ∃ v2, SharedPtr.aliasing e v i q = .ok v2 ∧ Valid U v2 ∧
      Weak.Extends v.unlocked v2.unlocked ∧
      v2.shared = v.shared ++ [{ control_ := s.control_, ptr_ := q }] ∧
      v2.weak.length = v.weak.length := by
  obtain ⟨x, l, hw, hinv, hsa⟩ := locked_of_valid hv
  subst hw
  rcases sft_shared_aliasing_inv hinv hsa hS hW q hs e with h | ⟨v2, h, h1, h2, h3, h4⟩
  · exact Or.inl h
  · refine Or.inr ⟨World.locked v2 l, h, valid_of_locked h1 (fun p k hk => ?_), ?_, h3, h4⟩
    · rw [h4]; exact hsa p k hk
    · rw [locked_unlocked_world, locked_unlocked_world]; exact h2

end Sft

namespace Sft

/-- `PerhapsInitWeakThis` returns when the pointee type is not self-aware or the handle points to
a living self-aware object. -/
theorem sft_perhaps_init_ok {U : List Nat} {v : Weak.World} {sa : List (Nat × Nat)}
    (hinv : Weak.Safe U v) (hsa : ∀ p k, (p, k) ∈ sa → k < v.weak.length)
    (hbw : v.weak.length + 1 < sizeMod) {i : Nat} {s : SharedPtr}
    (hs : v.shared[i]? = some s) (e : Bool)
    (hok : e = false ∨ (World.locked v sa).isSelfAware s.ptr_ = true) :
    ∃ v2, SharedPtr.PerhapsInitWeakThis e (World.locked v sa) i = .ok (World.locked v2 sa) ∧
      Weak.Safe U v2 ∧ Weak.Extends v v2 ∧ v2.shared = v.shared ∧
      v2.weak.length = v.weak.length := by
  rcases sft_perhaps_init_inv hinv hsa hbw hs e with ⟨he, herr⟩ | h
  · exfalso
    rcases hok with h0 | h1
    · rw [h0] at he; cases he
    · subst he
      have hs2 : (World.locked v sa).shared[i]? = some s := hs
      simp only [World.isSelfAware, Bool.and_eq_true, decide_eq_true_eq] at h1
      obtain ⟨k, hk⟩ := Option.isSome_iff_exists.mp h1.2
      have hk2 : sa.lookup s.ptr_ = some k := hk
      have hklt := hsa _ _ (mem_of_lookup hk2)
      simp only [SharedPtr.PerhapsInitWeakThis, if_true, sft_sharedAt_ok hs2, bind,
        Except.bind] at herr
      rw [locked_init_weak_this i (Weak.idle_of_inv hinv.1) h1.1 hk2] at herr
      obtain ⟨v1, e1, hinv1, hext1, hsh1, hwe1⟩ := Weak.weak_from_shared_inv hinv hbw hs
      have hlen1 : v1.weak.length = v.weak.length + 1 := by rw [hwe1]; simp
      obtain ⟨sk, hsk⟩ : ∃ sk, v1.weak[k]? = some sk :=
        ⟨v1.weak[k], List.getElem?_eq_getElem (by omega)⟩
      have ht1 : v1.weak[v1.weak.length - 1]? =
          some { control_ := s.control_, ptr_ := s.ptr_ } := by
        rw [hlen1, hwe1]
        simp
      obtain ⟨w2, w3b, e2, e3, _⟩ := Weak.weak_take_tmp_inv hinv1 (by omega) (by omega) hsk ht1
      rw [hlen1] at e2 e3
      simp only [Nat.add_sub_cancel] at e2 e3
      simp only [e1, e2, e3, bind, Except.bind, pure, Except.pure, Except.map] at herr
      cases herr
  · exact h

/-- The aliasing constructor returns when the pointee type is not self-aware or the given pointer
is the address of a living self-aware object. -/
theorem valid_aliasing_ok {U : List Nat} {v : World} (hv : Valid U v)
    (hS : v.shared.length + 1 < sizeMod) (hW : v.weak.length + 1 < sizeMod) {i : Nat}
    {s : SharedPtr} (q : Nat) (hs : v.shared[i]? = some s) (e : Bool)
    (hok : e = false ∨ v.isSelfAware q = true) :
    ∃ v2, SharedPtr.aliasing e v i q = .ok v2 := by
  obtain ⟨x, l, hw, hinv, hsa⟩ := locked_of_valid hv
  subst hw
  obtain ⟨v1, h1, hinv1, hext1, hsh1, hwe1⟩ := Weak.shared_aliasing_inv hinv hS q hs
  have e1 : SharedPtr.aliasing false (World.locked x l) i q = .ok (World.locked v1 l) := by
    rw [locked_shared_aliasing, h1]; rfl
  have hs1 : v1.shared[x.shared.length]? = some { control_ := s.control_, ptr_ := q } := by
    rw [hsh1]; simp
  obtain ⟨v2, h2, _⟩ := sft_perhaps_init_ok hinv1 (fun p k h => by rw [hwe1]; exact hsa p k h)
    (by rw [hwe1]; exact hW) hs1 e hok
  refine ⟨World.locked v2 l, ?_⟩
  rw [shared_aliasing_split, e1]
  exact h2

end Sft

/-! ## Claims about assignment and aliasing in both variants -/

namespace Weak

/-- The chain of C9 on counts: after the aliasing copy the list has one more reference to `c`,
after the owner is destroyed it has as many as at the start, after the aliasing handle is
destroyed one fewer. -/
theorem alias_counts (l : List SharedPtr) (o c q : Nat) (so : SharedPtr)
    (ho : l[o]? = some so) (hc : so.control_ = some c) :
    cntS c (l ++ [{ control_ := some c, ptr_ := q }]) = cntS c l + 1 ∧
    cntS c (List.set (l ++ [{ control_ := some c, ptr_ := q }]) o
      { control_ := none, ptr_ := 0 }) = cntS c l ∧
    cntS c (List.set (List.set (l ++ [{ control_ := some c, ptr_ := q }]) o
      { control_ := none, ptr_ := 0 }) l.length { control_ := none, ptr_ := 0 }) + 1 =
      cntS c l ∧
    1 ≤ cntS c l := by
  have hlt := lt_of_getElem? ho
  have h1 : cntS c (l ++ [({ control_ := some c, ptr_ := q } : SharedPtr)]) = cntS c l + 1 := by
    rw [cntS_push]; simp
  have ho1 : (l ++ [({ control_ := some c, ptr_ := q } : SharedPtr)])[o]? = some so := by
    rw [List.getElem?_append_left hlt]; exact ho
  have h2 := cntS_set c _ o so { control_ := none, ptr_ := 0 } ho1
  simp only [hc, if_true] at h2
  have h2b : cntS c ((l ++ [({ control_ := some c, ptr_ := q } : SharedPtr)]).set o
      { control_ := none, ptr_ := 0 }) = cntS c l := by
    simp at h2
    omega
  have hn : ((l ++ [({ control_ := some c, ptr_ := q } : SharedPtr)]).set o
      { control_ := none, ptr_ := 0 })[l.length]? = some { control_ := some c, ptr_ := q } := by
    rw [List.getElem?_set_ne (by omega)]
    simp
  have h3 := cntS_set c _ l.length _ { control_ := none, ptr_ := 0 } hn
  simp at h3
  exact ⟨h1, h2b, by omega, cntS_pos_of_mem c l o so ho hc⟩

end Weak

/-- C9: the aliasing constructor `a = SharedPtr(o, q)` from a present owner `o` of block `c`, on a
world that satisfies the counting invariant and has room for one more handle, followed by the
destruction of `o` and then of `a`.  In the variant without lock, for every pointer `q`: `a`
references `c` with the strong count increased by 1 and `a.Get() == q`; after `o` is destroyed
the count is the one before the aliasing copy, at least 1, the object was not released and is
still held, and `a.Get()` is still `q`; after `a` is destroyed the count is one less, and the
object was released exactly if that count is 0 (`a` was the last sharer).  In the variant with
lock the same holds whenever the constructor returns, which it does when the pointee type of `a`
is not self-aware or the pointer is the address of a living self-aware object; for a self-aware
pointee type and a null pointer the constructor runs `InitWeakThis(nullptr)`, which is
undefined. -/
theorem aliasing_keeps_alive (U : List Nat) (w : Weak.World) (o q c : Nat) (so : SharedPtr)
    (x : Weak.ControlBlock) (V : List Nat) (v : Sft.World) (e : Bool) (i p d : Nat)
    (si : SharedPtr) (y : Sft.ControlBlock)
    (hw : Weak.Safe U w) (hwl : w.shared.length + 1 < sizeMod)
    (hwo : w.shared[o]? = some so) (hwc : so.control_ = some c) (hwx : w.blocks[c]? = some x)
    (hv : Sft.Valid V v) (hvl : v.shared.length + 1 < sizeMod)
    (hvw : v.weak.length + 1 < sizeMod)
    (hvi : v.shared[i]? = some si) (hvd : si.control_ = some d) (hvy : v.blocks[d]? = some y) :
    (∃ w1 x1, Weak.SharedPtr.aliasing w o q = .ok w1 ∧
      w1.shared[w.shared.length]? = some { control_ := some c, ptr_ := q } ∧
      Weak.SharedPtr.Get w1 w.shared.length = .ok q ∧
      w1.blocks[c]? = some x1 ∧ x1.cnt_strong_ref_ = x.cnt_strong_ref_ + 1 ∧
      ∃ w2 x2, Weak.SharedPtr.destroy w1 o = .ok w2 ∧
        Weak.SharedPtr.Get w2 w.shared.length = .ok q ∧
        w2.blocks[c]? = some x2 ∧ x2.cnt_strong_ref_ = x.cnt_strong_ref_ ∧
        1 ≤ x2.cnt_strong_ref_ ∧ x2.releases = 0 ∧ x2.derived.live = x.managed ∧
        ∃ w3 x3, Weak.SharedPtr.destroy w2 w.shared.length = .ok w3 ∧
          w3.blocks[c]? = some x3 ∧ x3.cnt_strong_ref_ + 1 = x.cnt_strong_ref_ ∧
          x3.releases = (if x.managed = true ∧ x3.cnt_strong_ref_ = 0 then 1 else 0) ∧
          (x3.derived.live = true ↔ x.managed = true ∧ x3.cnt_strong_ref_ ≠ 0)) ∧
    ((e = true ∧ Sft.SharedPtr.aliasing e v i p = .error Fault.undefined) ∨
      ∃ v1 y1, Sft.SharedPtr.aliasing e v i p = .ok v1 ∧
        v1.shared[v.shared.length]? = some { control_ := some d, ptr_ := p } ∧
        Sft.SharedPtr.Get v1 v.shared.length = .ok p ∧
        v1.blocks[d]? = some y1 ∧ y1.cnt_strong_ref_ = y.cnt_strong_ref_ + 1 ∧
        ∃ v2 y2, Sft.SharedPtr.destroy v1 i = .ok v2 ∧
          Sft.SharedPtr.Get v2 v.shared.length = .ok p ∧
          v2.blocks[d]? = some y2 ∧ y2.cnt_strong_ref_ = y.cnt_strong_ref_ ∧
          1 ≤ y2.cnt_strong_ref_ ∧ y2.releases = 0 ∧ y2.derived.live = y.managed ∧
          ∃ v3 y3, Sft.SharedPtr.destroy v2 v.shared.length = .ok v3 ∧
            v3.blocks[d]? = some y3 ∧ y3.cnt_strong_ref_ + 1 = y.cnt_strong_ref_ ∧
            y3.releases = (if y.managed = true ∧ y3.cnt_strong_ref_ = 0 then 1 else 0) ∧
            (y3.derived.live = true ↔ y.managed = true ∧ y3.cnt_strong_ref_ ≠ 0)) ∧
    (e = false ∨ Sft.World.isSelfAware v p = true →
      ∃ v1, Sft.SharedPtr.aliasing e v i p = .ok v1) ∧
    Sft.SharedPtr.aliasing true v i 0 = .error Fault.undefined := by
  -- what the invariant says about a block with at least one strong reference
  have facts : ∀ {b : Weak.ControlBlock} {n m : Nat}, Weak.Good b n m →
      b.cnt_strong_ref_ = n ∧
      b.releases = (if b.managed = true ∧ b.cnt_strong_ref_ = 0 then 1 else 0) ∧
      (b.derived.live = true ↔ b.managed = true ∧ b.cnt_strong_ref_ ≠ 0) := by
    intro b n m g
    obtain ⟨g1, _, _, _, g5, g6⟩ := g
    exact ⟨g1, by rw [g1]; exact g5, by rw [g1]; exact g6⟩
  have alive : ∀ {b : Weak.ControlBlock} {n m : Nat}, Weak.Good b n m → 1 ≤ n →
      b.releases = 0 ∧ b.derived.live = b.managed := by
    intro b n m g hn
    obtain ⟨g1, _, _, _, g5, g6⟩ := g
    have hn0 : n ≠ 0 := by omega
    refine ⟨by rw [g5]; simp [hn0], ?_⟩
    cases hm : b.managed with
    | false =>
      cases hl : b.derived.live with
      | false => rfl
      | true => have := (g6.mp hl).1; rw [hm] at this; cases this
    | true => exact g6.mpr ⟨hm, hn0⟩
  refine ⟨?_, ?_, ?_, ?_⟩
  · obtain ⟨w1, h1, hs1, he1, hsh1, hwe1⟩ := Weak.shared_aliasing_inv hw hwl q hwo
    rw [hwc] at hsh1
    obtain ⟨c1, c2, c3, c4⟩ := Weak.alias_counts w.shared o c q so hwo hwc
    obtain ⟨x1, hx1, hm1, g0, g1⟩ := Weak.good_pair hw hs1 he1 hwx
    have hn1 : w1.shared[w.shared.length]? = some { control_ := some c, ptr_ := q } := by
      rw [hsh1]; simp
    have ho1 : w1.shared[o]? = some so := by
      rw [hsh1, List.getElem?_append_left (Weak.lt_of_getElem? hwo)]; exact hwo
    obtain ⟨w2, h2, hs2, he2, hsh2, hwe2⟩ :=
      Weak.shared_clear_inv hs1 (by rw [hsh1]; simp; omega) ho1
    obtain ⟨x2, hx2, hm2, _, g2⟩ := Weak.good_pair hs1 hs2 he2 hx1
    have hno : o ≠ w.shared.length := by
      have := Weak.lt_of_getElem? hwo; omega
    have hn2 : w2.shared[w.shared.length]? = some { control_ := some c, ptr_ := q } := by
      rw [hsh2, List.getElem?_set_ne hno]; exact hn1
    obtain ⟨w3, h3, hs3, he3, hsh3, hwe3⟩ :=
      Weak.shared_clear_inv hs2 (by rw [hsh2, hsh1]; simp; omega) hn2
    obtain ⟨x3, hx3, hm3, _, g3⟩ := Weak.good_pair hs2 hs3 he3 hx2
    rw [hsh1] at g1
    rw [hsh2, hsh1] at g2
    rw [hsh3, hsh2, hsh1] at g3
    have f0 := facts g0
    have f1 := facts g1
    have f2 := facts g2
    have f3 := facts g3
    have a2 := alive g2 (by rw [c2]; exact c4)
    refine ⟨w1, x1, h1, hn1, by simp [Weak.SharedPtr.Get, Weak.sharedAt_ok hn1, bind,
      Except.bind, pure, Except.pure], hx1, by rw [f1.1, f0.1, c1], w2, x2, h2,
      by simp [Weak.SharedPtr.Get, Weak.sharedAt_ok hn2, bind, Except.bind, pure, Except.pure],
      hx2, by rw [f2.1, f0.1, c2], by rw [f2.1, c2]; exact c4, a2.1,
      by rw [a2.2, hm2, hm1], w3, x3, h3, hx3, by rw [f3.1, f0.1]; exact c3, ?_, ?_⟩
    · rw [f3.2.1, hm3, hm2, hm1]
    · rw [f3.2.2, hm3, hm2, hm1]
  · rcases Sft.valid_aliasing hv hvl hvw p hvi e with h | ⟨v1, h1, hs1, he1, hsh1, hwe1⟩
    · exact Or.inl h
    · right
      rw [hvd] at hsh1
      obtain ⟨c1, c2, c3, c4⟩ := Weak.alias_counts v.shared i d p si hvi hvd
      obtain ⟨y1, hy1, hm1, g0, g1⟩ := Sft.sft_good_pair hv hs1 he1 hvy
      have hn1 : v1.shared[v.shared.length]? = some { control_ := some d, ptr_ := p } := by
        rw [hsh1]; simp
      have ho1 : v1.shared[i]? = some si := by
        rw [hsh1, List.getElem?_append_left (Weak.lt_of_getElem? hvi)]; exact hvi
      obtain ⟨v2, h2, hs2, he2, hsh2, hwe2⟩ :=
        Sft.valid_destroy hs1 (by rw [hsh1]; simp; omega) (by omega) ho1
      obtain ⟨y2, hy2, hm2, _, g2⟩ := Sft.sft_good_pair hs1 hs2 he2 hy1
      have hno : i ≠ v.shared.length := by
        have := Weak.lt_of_getElem? hvi; omega
      have hn2 : v2.shared[v.shared.length]? = some { control_ := some d, ptr_ := p } := by
        rw [hsh2, List.getElem?_set_ne hno]; exact hn1
      obtain ⟨v3, h3, hs3, he3, hsh3, hwe3⟩ :=
        Sft.valid_destroy hs2 (by rw [hsh2, hsh1]; simp; omega) (by omega) hn2
      obtain ⟨y3, hy3, hm3, _, g3⟩ := Sft.sft_good_pair hs2 hs3 he3 hy2
      rw [hsh1] at g1
      rw [hsh2, hsh1] at g2
      rw [hsh3, hsh2, hsh1] at g3
      have f0 := facts g0
      have f1 := facts g1
      have f2 := facts g2
      have f3 := facts g3
      have a2 := alive g2 (by rw [c2]; exact c4)
      have e0 : y.cnt_strong_ref_ = cntS d v.shared := f0.1
      have e1 : y1.cnt_strong_ref_ = _ := f1.1
      have e2 : y2.cnt_strong_ref_ = _ := f2.1
      have e3 : y3.cnt_strong_ref_ = _ := f3.1
      have r2 : y2.releases = 0 := a2.1
      have l2 : y2.derived.live = y2.managed := a2.2
      have r3 : y3.releases = (if y3.managed = true ∧ y3.cnt_strong_ref_ = 0 then 1 else 0) :=
        f3.2.1
      have l3 : y3.derived.live = true ↔ y3.managed = true ∧ y3.cnt_strong_ref_ ≠ 0 := f3.2.2
      refine ⟨v1, y1, h1, hn1, by simp [Sft.SharedPtr.Get, Sft.sft_sharedAt_ok hn1, bind,
        Except.bind, pure, Except.pure], hy1, by rw [e1, e0, c1], v2, y2, h2,
        by simp [Sft.SharedPtr.Get, Sft.sft_sharedAt_ok hn2, bind, Except.bind, pure,
          Except.pure],
        hy2, by rw [e2, e0, c2], by rw [e2, c2]; exact c4, r2,
        by rw [l2, hm2, hm1], v3, y3, h3, hy3, by rw [e3, e0]; exact c3, ?_, ?_⟩
      · rw [r3, hm3, hm2, hm1]
      · rw [l3, hm3, hm2, hm1]
  · intro he
    exact Sft.valid_aliasing_ok hv hvl hvw p hvi e he
  · rcases Sft.valid_aliasing hv hvl hvw 0 hvi false with h | ⟨v1, h1, _, _, hsh1, _⟩
    · cases h.1
    · have hn1 : v1.shared[v.shared.length]? = some { control_ := si.control_, ptr_ := 0 } := by
        rw [hsh1]; simp
      rw [Sft.shared_aliasing_split, h1]
      simp only [bind, Except.bind, Sft.SharedPtr.PerhapsInitWeakThis, if_true,
        Sft.sft_sharedAt_ok hn1, Sft.init_weak_this_null]

/-- Witness for C9: in each variant the only handle of a wrapped raw pointer is the owner of an
aliasing copy that points to another address. -/
theorem aliasing_keeps_alive_witness :
    Weak.Safe [5] (Weak.SharedPtr.fromRaw Weak.World.empty 5) ∧
    ((Weak.SharedPtr.fromRaw Weak.World.empty 5).shared.length + 1 < sizeMod) ∧
    ((Weak.SharedPtr.fromRaw Weak.World.empty 5).shared[0]? =
        some ({ control_ := some 0, ptr_ := 5 } : SharedPtr)) ∧
    (({ control_ := some 0, ptr_ := 5 } : SharedPtr).control_ = some 0) ∧
    ((Weak.SharedPtr.fromRaw Weak.World.empty 5).blocks[0]? = some (Weak.ControlBlockPointer 5)) ∧
    Sft.Valid [5] (Sft.World.locked (Weak.SharedPtr.fromRaw Weak.World.empty 5) []) ∧
    ((Sft.World.locked
        (Weak.SharedPtr.fromRaw Weak.World.empty 5) []).shared.length + 1 < sizeMod) ∧
    ((Sft.World.locked (Weak.SharedPtr.fromRaw Weak.World.empty 5) []).weak.length + 1 < sizeMod) ∧
    ((Sft.World.locked (Weak.SharedPtr.fromRaw Weak.World.empty 5) []).shared[0]? =
        some ({ control_ := some 0, ptr_ := 5 } : SharedPtr)) ∧
    (({ control_ := some 0, ptr_ := 5 } : SharedPtr).control_ = some 0) ∧
    ((Sft.World.locked (Weak.SharedPtr.fromRaw Weak.World.empty 5) []).blocks[0]? =
        some (Sft.ControlBlockPointer 5)) ∧
    (
    (∃ w1 x1, Weak.SharedPtr.aliasing (Weak.SharedPtr.fromRaw Weak.World.empty 5) 0 9 = .ok w1 ∧
      w1.shared[(Weak.SharedPtr.fromRaw Weak.World.empty 5).shared.length]? =
          some { control_ := some 0, ptr_ := 9 } ∧
      Weak.SharedPtr.Get w1 (Weak.SharedPtr.fromRaw Weak.World.empty 5).shared.length = .ok 9 ∧
      w1.blocks[0]? = some x1 ∧ x1.cnt_strong_ref_ =
          (Weak.ControlBlockPointer 5).cnt_strong_ref_ + 1 ∧
      ∃ w2 x2, Weak.SharedPtr.destroy w1 0 = .ok w2 ∧
        Weak.SharedPtr.Get w2 (Weak.SharedPtr.fromRaw Weak.World.empty 5).shared.length = .ok 9 ∧
        w2.blocks[0]? = some x2 ∧ x2.cnt_strong_ref_ =
            (Weak.ControlBlockPointer 5).cnt_strong_ref_ ∧
        1 ≤ x2.cnt_strong_ref_ ∧ x2.releases = 0 ∧ x2.derived.live =
            (Weak.ControlBlockPointer 5).managed ∧
        ∃ w3 x3, Weak.SharedPtr.destroy w2
            (Weak.SharedPtr.fromRaw Weak.World.empty 5).shared.length = .ok w3 ∧
          w3.blocks[0]? = some x3 ∧ x3.cnt_strong_ref_ + 1 =
              (Weak.ControlBlockPointer 5).cnt_strong_ref_ ∧
          x3.releases = (if (Weak.ControlBlockPointer 5).managed = true ∧ x3.cnt_strong_ref_ =
              0 then 1 else 0) ∧
          (x3.derived.live = true ↔ (Weak.ControlBlockPointer 5).managed = true ∧
              x3.cnt_strong_ref_ ≠ 0)) ∧
    ((false = true ∧
        Sft.SharedPtr.aliasing false (Sft.World.locked
            (Weak.SharedPtr.fromRaw Weak.World.empty 5) []) 0 9 = .error Fault.undefined) ∨
      ∃ v1 y1, Sft.SharedPtr.aliasing false (Sft.World.locked
          (Weak.SharedPtr.fromRaw Weak.World.empty 5) []) 0 9 = .ok v1 ∧
        v1.shared[(Sft.World.locked
            (Weak.SharedPtr.fromRaw Weak.World.empty 5) []).shared.length]? =
                some { control_ := some 0, ptr_ := 9 } ∧
        Sft.SharedPtr.Get v1 (Sft.World.locked
            (Weak.SharedPtr.fromRaw Weak.World.empty 5) []).shared.length = .ok 9 ∧
        v1.blocks[0]? = some y1 ∧ y1.cnt_strong_ref_ =
            (Sft.ControlBlockPointer 5).cnt_strong_ref_ + 1 ∧
        ∃ v2 y2, Sft.SharedPtr.destroy v1 0 = .ok v2 ∧
          Sft.SharedPtr.Get v2 (Sft.World.locked
              (Weak.SharedPtr.fromRaw Weak.World.empty 5) []).shared.length = .ok 9 ∧
          v2.blocks[0]? = some y2 ∧ y2.cnt_strong_ref_ =
              (Sft.ControlBlockPointer 5).cnt_strong_ref_ ∧
          1 ≤ y2.cnt_strong_ref_ ∧ y2.releases = 0 ∧ y2.derived.live =
              (Sft.ControlBlockPointer 5).managed ∧
          ∃ v3 y3, Sft.SharedPtr.destroy v2 (Sft.World.locked
              (Weak.SharedPtr.fromRaw Weak.World.empty 5) []).shared.length = .ok v3 ∧
            v3.blocks[0]? = some y3 ∧ y3.cnt_strong_ref_ + 1 =
                (Sft.ControlBlockPointer 5).cnt_strong_ref_ ∧
            y3.releases = (if (Sft.ControlBlockPointer 5).managed = true ∧ y3.cnt_strong_ref_ =
                0 then 1 else 0) ∧
            (y3.derived.live = true ↔ (Sft.ControlBlockPointer 5).managed = true ∧
                y3.cnt_strong_ref_ ≠ 0)) ∧
    (false = false ∨ Sft.World.isSelfAware (Sft.World.locked
        (Weak.SharedPtr.fromRaw Weak.World.empty 5) []) 9 = true →
      ∃ v1, Sft.SharedPtr.aliasing false (Sft.World.locked
          (Weak.SharedPtr.fromRaw Weak.World.empty 5) []) 0 9 = .ok v1) ∧
    Sft.SharedPtr.aliasing true (Sft.World.locked
        (Weak.SharedPtr.fromRaw Weak.World.empty 5) []) 0 0 = .error Fault.undefined) :=
  have hs : Weak.Safe [5] (Weak.SharedPtr.fromRaw Weak.World.empty 5) :=
    (Weak.shared_from_raw_inv Weak.safe_empty 5 (fun _ h => by simp at h)
      (fun _ => ⟨by simp, by simp⟩)).1
  have hv : Sft.Valid [5] (Sft.World.locked (Weak.SharedPtr.fromRaw Weak.World.empty 5) []) :=
    Sft.valid_of_locked hs (fun _ _ h => by simp at h)
  ⟨hs, by decide, rfl, rfl, rfl, hv, by decide, by decide, rfl, rfl, rfl,
    aliasing_keeps_alive [5] _ 0 9 0 _ _ [5] _ false 0 9 0 _ _ hs (by decide) rfl rfl rfl hv
      (by decide) (by decide) rfl rfl rfl⟩

/-! ## Consistency of the two fields of a handle -/

namespace Weak

/-- Both handle lists hold only instances whose two fields are both present or both absent. -/
theorem consistent_iff (w : World) :
    w.consistent = true ↔
      (∀ s, s ∈ w.shared → bothOrNeither s.control_ s.ptr_ = true) ∧
      (∀ s, s ∈ w.weak → bothOrNeither s.control_ s.ptr_ = true) := by
  simp [World.consistent, List.all_eq_true]

theorem consistent_of_eq {w w2 : World} (h : w.consistent = true)
    (hs : w2.shared = w.shared) (hw : w2.weak = w.weak) : w2.consistent = true := by
  simp only [World.consistent] at h ⊢
  rw [hs, hw]
  exact h

theorem consistent_new_shared {w : World} {s : SharedPtr} (h : w.consistent = true)
    (hs : bothOrNeither s.control_ s.ptr_ = true) : (w.newShared s).consistent = true := by
  rw [consistent_iff] at h ⊢
  refine ⟨fun x hx => ?_, h.2⟩
  simp only [World.newShared, List.mem_append, List.mem_singleton] at hx
  rcases hx with hx | hx
  · exact h.1 x hx
  · rw [hx]; exact hs

theorem consistent_new_weak {w : World} {s : WeakPtr} (h : w.consistent = true)
    (hs : bothOrNeither s.control_ s.ptr_ = true) : (w.newWeak s).consistent = true := by
  rw [consistent_iff] at h ⊢
  refine ⟨h.1, fun x hx => ?_⟩
  simp only [World.newWeak, List.mem_append, List.mem_singleton] at hx
  rcases hx with hx | hx
  · exact h.2 x hx
  · rw [hx]; exact hs

theorem consistent_set_shared {w : World} {s : SharedPtr} (i : Nat) (h : w.consistent = true)
    (hs : bothOrNeither s.control_ s.ptr_ = true) : (w.setShared i s).consistent = true := by
  rw [consistent_iff] at h ⊢
  refine ⟨fun x hx => ?_, h.2⟩
  rcases List.mem_or_eq_of_mem_set hx with hx | hx
  · exact h.1 x hx
  · rw [hx]; exact hs

theorem consistent_set_weak {w : World} {s : WeakPtr} (i : Nat) (h : w.consistent = true)
    (hs : bothOrNeither s.control_ s.ptr_ = true) : (w.setWeak i s).consistent = true := by
  rw [consistent_iff] at h ⊢
  refine ⟨h.1, fun x hx => ?_⟩
  rcases List.mem_or_eq_of_mem_set hx with hx | hx
  · exact h.2 x hx
  · rw [hx]; exact hs

theorem consistent_pop_shared {w : World} (h : w.consistent = true) :
    w.popShared.consistent = true := by
  rw [consistent_iff] at h ⊢
  exact ⟨fun x hx => h.1 x (List.mem_of_mem_dropLast hx), h.2⟩

theorem consistent_pop_weak {w : World} (h : w.consistent = true) :
    w.popWeak.consistent = true := by
  rw [consistent_iff] at h ⊢
  exact ⟨h.1, fun x hx => h.2 x (List.mem_of_mem_dropLast hx)⟩

theorem consistent_shared_at {w : World} {i : Nat} {s : SharedPtr} (h : w.consistent = true)
    (hs : w.sharedAt i = .ok s) : bothOrNeither s.control_ s.ptr_ = true := by
  unfold World.sharedAt at hs
  cases hi : w.shared[i]? with
  | none => rw [hi] at hs; cases hs
  | some x =>
    rw [hi] at hs
    cases hs
    exact ((consistent_iff w).mp h).1 _ (List.getElem?_mem hi)

theorem consistent_weak_at {w : World} {i : Nat} {s : WeakPtr} (h : w.consistent = true)
    (hs : w.weakAt i = .ok s) : bothOrNeither s.control_ s.ptr_ = true := by
  unfold World.weakAt at hs
  cases hi : w.weak[i]? with
  | none => rw [hi] at hs; cases hs
  | some x =>
    rw [hi] at hs
    cases hs
    exact ((consistent_iff w).mp h).2 _ (List.getElem?_mem hi)

/-- A call of a counting method leaves the handles alone. -/
theorem consistent_call {w w2 : World} {c : Nat} {f : ControlBlock → ControlBlock}
    (h : w.consistent = true) (he : w.call c f = .ok w2) : w2.consistent = true := by
  unfold World.call at he
  cases hb : w.block c with
  | error x => rw [hb] at he; cases he
  | ok b =>
    rw [hb] at he
    cases he
    exact h

theorem consistent_callIf {w w2 : World} {c : Option Nat} {f : ControlBlock → ControlBlock}
    (h : w.consistent = true) (he : w.callIf c f = .ok w2) : w2.consistent = true := by
  cases c with
  | none => cases he; exact h
  | some d => exact consistent_call h he

theorem consistent_callDel {w w2 : World} {c : Nat}
    {f : ControlBlock → List Nat → Except Fault (ControlBlock × List Nat)}
    (h : w.consistent = true) (he : w.callDel c f = .ok w2) : w2.consistent = true := by
  unfold World.callDel at he
  cases hb : w.block c with
  | error x => rw [hb] at he; cases he
  | ok b =>
    rw [hb] at he
    simp only [bind, Except.bind] at he
    cases hr : f b w.dead with
    | error x => rw [hr] at he; cases he
    | ok r =>
      rw [hr] at he
      cases he
      exact h

theorem consistent_callDelIf {w w2 : World} {c : Option Nat}
    {f : ControlBlock → List Nat → Except Fault (ControlBlock × List Nat)}
    (h : w.consistent = true) (he : w.callDelIf c f = .ok w2) : w2.consistent = true := by
  cases c with
  | none => cases he; exact h
  | some d => exact consistent_callDel h he

theorem bind_ok_elim {α β : Type} {x : Except Fault α} {f : α → Except Fault β} {b : β}
    (h : (x >>= f) = .ok b) : ∃ a, x = .ok a ∧ f a = .ok b := by
  cases x with
  | error e => cases h
  | ok a => exact ⟨a, rfl, h⟩

theorem consistent_inc_strong {w w2 : World} {i : Nat} (h : w.consistent = true)
    (he : SharedPtr.ControlIncreaseStrong w i = .ok w2) : w2.consistent = true := by
  obtain ⟨s, _, h2⟩ := bind_ok_elim he
  exact consistent_callIf h h2

theorem consistent_inc_weak {w w2 : World} {i : Nat} (h : w.consistent = true)
    (he : WeakPtr.ControlIncreaseWeak w i = .ok w2) : w2.consistent = true := by
  obtain ⟨s, _, h2⟩ := bind_ok_elim he
  exact consistent_callIf h h2

theorem both_null : bothOrNeither none 0 = true := rfl

theorem consistent_shared_clear {w w2 : World} {i : Nat} (h : w.consistent = true)
    (he : SharedPtr.Clear w i = .ok w2) : w2.consistent = true := by
  obtain ⟨w1, h1, h2⟩ := bind_ok_elim he
  obtain ⟨s, _, h3⟩ := bind_ok_elim h1
  cases h2
  exact consistent_set_shared i (consistent_callDelIf h h3) both_null

theorem consistent_weak_clear {w w2 : World} {i : Nat} (h : w.consistent = true)
    (he : WeakPtr.Clear w i = .ok w2) : w2.consistent = true := by
  obtain ⟨w1, h1, h2⟩ := bind_ok_elim he
  obtain ⟨s, _, h3⟩ := bind_ok_elim h1
  cases h2
  exact consistent_set_weak i (consistent_callDelIf h h3) both_null

theorem consistent_shared_copy {w w2 : World} {o : Nat} (h : w.consistent = true)
    (he : SharedPtr.copy w o = .ok w2) : w2.consistent = true := by
  obtain ⟨s, h1, h2⟩ := bind_ok_elim he
  exact consistent_inc_strong (consistent_new_shared h (consistent_shared_at h h1)) h2

theorem consistent_shared_move {w w2 : World} {o : Nat} (h : w.consistent = true)
    (he : SharedPtr.move w o = .ok w2) : w2.consistent = true := by
  obtain ⟨s, h1, h2⟩ := bind_ok_elim he
  cases h2
  exact consistent_set_shared o (consistent_new_shared h (consistent_shared_at h h1)) both_null

theorem consistent_weak_copy {w w2 : World} {o : Nat} (h : w.consistent = true)
    (he : WeakPtr.copy w o = .ok w2) : w2.consistent = true := by
  obtain ⟨s, h1, h2⟩ := bind_ok_elim he
  exact consistent_inc_weak (consistent_new_weak h (consistent_weak_at h h1)) h2

theorem consistent_weak_move {w w2 : World} {o : Nat} (h : w.consistent = true)
    (he : WeakPtr.move w o = .ok w2) : w2.consistent = true := by
  obtain ⟨s, h1, h2⟩ := bind_ok_elim he
  cases h2
  exact consistent_set_weak o (consistent_new_weak h (consistent_weak_at h h1)) both_null

theorem consistent_weak_from_shared {w w2 : World} {o : Nat} (h : w.consistent = true)
    (he : WeakPtr.fromShared w o = .ok w2) : w2.consistent = true := by
  obtain ⟨s, h1, h2⟩ := bind_ok_elim he
  exact consistent_inc_weak (consistent_new_weak h (consistent_shared_at h h1)) h2

theorem consistent_shared_assign {w w2 : World} {i o : Nat} (h : w.consistent = true)
    (he : SharedPtr.assign w i o = .ok w2) : w2.consistent = true := by
  unfold SharedPtr.assign at he
  split at he
  · cases he; exact h
  · obtain ⟨w1, h1, h2⟩ := bind_ok_elim he
    obtain ⟨s, h3, h4⟩ := bind_ok_elim h2
    have c1 := consistent_shared_clear h h1
    exact consistent_inc_strong (consistent_set_shared i c1 (consistent_shared_at c1 h3)) h4

theorem consistent_shared_move_assign {w w2 : World} {i o : Nat} (h : w.consistent = true)
    (he : SharedPtr.moveAssign w i o = .ok w2) : w2.consistent = true := by
  unfold SharedPtr.moveAssign at he
  split at he
  · cases he; exact h
  · obtain ⟨w1, h1, h2⟩ := bind_ok_elim he
    obtain ⟨s, h3, h4⟩ := bind_ok_elim h2
    have c1 := consistent_shared_clear h h1
    cases h4
    exact consistent_set_shared o (consistent_set_shared i c1 (consistent_shared_at c1 h3))
      both_null

theorem consistent_weak_assign {w w2 : World} {i o : Nat} (h : w.consistent = true)
    (he : WeakPtr.assign w i o = .ok w2) : w2.consistent = true := by
  unfold WeakPtr.assign at he
  split at he
  · cases he; exact h
  · obtain ⟨w1, h1, h2⟩ := bind_ok_elim he
    obtain ⟨s, h3, h4⟩ := bind_ok_elim h2
    have c1 := consistent_weak_clear h h1
    exact consistent_inc_weak (consistent_set_weak i c1 (consistent_weak_at c1 h3)) h4

theorem consistent_weak_move_assign {w w2 : World} {i o : Nat} (h : w.consistent = true)
    (he : WeakPtr.moveAssign w i o = .ok w2) : w2.consistent = true := by
  unfold WeakPtr.moveAssign at he
  split at he
  · cases he; exact h
  · obtain ⟨w1, h1, h2⟩ := bind_ok_elim he
    obtain ⟨s, h3, h4⟩ := bind_ok_elim h2
    have c1 := consistent_weak_clear h h1
    cases h4
    exact consistent_set_weak o (consistent_set_weak i c1 (consistent_weak_at c1 h3))
      both_null

theorem consistent_from_raw {w : World} {p : Nat} (h : w.consistent = true) (hp : p ≠ 0) :
    (SharedPtr.fromRaw w p).consistent = true := by
  have h1 : ({ w with blocks := w.blocks ++ [ControlBlockPointer p] } : World).consistent =
    true := h
  exact consistent_new_shared h1 (by simp [bothOrNeither, hp])

theorem consistent_make_shared {w : World} {a : Nat} (h : w.consistent = true) (ha : a ≠ 0) :
    (MakeShared w a).consistent = true := by
  have h1 : ({ w with blocks := w.blocks ++ [ControlBlockEmplace a],
                       dead := a :: w.dead } : World).consistent = true := h
  exact consistent_new_shared h1 (by simp [bothOrNeither, ControlBlock.GetPtr,
    ControlBlockEmplace, ha])

theorem consistent_reset_ptr {w w2 : World} {i p : Nat} (h : w.consistent = true) (hp : p ≠ 0)
    (he : SharedPtr.ResetPtr w i p = .ok w2) : w2.consistent = true := by
  obtain ⟨w1, h1, h2⟩ := bind_ok_elim he
  obtain ⟨w3, h3, h4⟩ := bind_ok_elim h2
  obtain ⟨w4, h5, h6⟩ := bind_ok_elim h4
  cases h6
  exact consistent_pop_shared (consistent_shared_clear
    (consistent_shared_move_assign (consistent_from_raw (consistent_shared_clear h h1) hp) h3)
    h5)

theorem consistent_shared_swap {w w2 : World} {i o : Nat} (h : w.consistent = true)
    (he : SharedPtr.Swap w i o = .ok w2) : w2.consistent = true := by
  obtain ⟨w1, h1, h2⟩ := bind_ok_elim he
  obtain ⟨w3, h3, h4⟩ := bind_ok_elim h2
  obtain ⟨w4, h5, h6⟩ := bind_ok_elim h4
  obtain ⟨w5, h7, h8⟩ := bind_ok_elim h6
  cases h8
  exact consistent_pop_shared (consistent_shared_clear (consistent_shared_move_assign
    (consistent_shared_move_assign (consistent_shared_move h h1) h3) h5) h7)

theorem consistent_weak_swap {w w2 : World} {i o : Nat} (h : w.consistent = true)
    (he : WeakPtr.Swap w i o = .ok w2) : w2.consistent = true := by
  obtain ⟨w1, h1, h2⟩ := bind_ok_elim he
  obtain ⟨w3, h3, h4⟩ := bind_ok_elim h2
  obtain ⟨w4, h5, h6⟩ := bind_ok_elim h4
  obtain ⟨w5, h7, h8⟩ := bind_ok_elim h6
  cases h8
  exact consistent_pop_weak (consistent_weak_clear (consistent_weak_move_assign
    (consistent_weak_move_assign (consistent_weak_move h h1) h3) h5) h7)

theorem consistent_from_weak {w w2 : World} {o : Nat} (h : w.consistent = true)
    (he : SharedPtr.fromWeak w o = .ok w2) : w2.consistent = true := by
  obtain ⟨s, h1, h2⟩ := bind_ok_elim he
  have hs := consistent_weak_at h h1
  cases hc : s.control_ with
  | none => rw [hc] at h2; cases h2
  | some c =>
    rw [hc] at h2
    obtain ⟨b, _, h4⟩ := bind_ok_elim h2
    split at h4
    · exact consistent_inc_strong (consistent_new_shared h (by rw [hc] at hs; exact hs)) h4
    · cases h4

theorem consistent_lock {w w2 : World} {o : Nat} (h : w.consistent = true)
    (he : WeakPtr.Lock w o = .ok w2) : w2.consistent = true := by
  obtain ⟨s, h1, h2⟩ := bind_ok_elim he
  have hs := consistent_weak_at h h1
  cases hc : s.control_ with
  | none =>
    rw [hc] at h2
    cases h2
    exact consistent_new_shared h both_null
  | some c =>
    rw [hc] at h2
    obtain ⟨b, _, h4⟩ := bind_ok_elim h2
    split at h4
    · obtain ⟨w1, h5, h6⟩ := bind_ok_elim h4
      cases h6
      exact consistent_new_shared (consistent_call h h5) (by rw [hc] at hs; exact hs)
    · cases h4
      exact consistent_new_shared h both_null

/-- The code of an operation other than the aliasing constructor, given no null address to
manage, keeps the fields of every handle consistent. -/
theorem consistent_exec {w w2 : World} (op : Op) (h : w.consistent = true)
    (hna : op.nonAliasing = true) (he : op.exec w = .ok w2) : w2.consistent = true := by
  cases op with
  | sharedDefault => cases he; exact consistent_new_shared h both_null
  | sharedFromRaw p =>
    cases he
    exact consistent_from_raw h (by simpa [Op.nonAliasing] using hna)
  | makeShared a =>
    cases he
    exact consistent_make_shared h (by simpa [Op.nonAliasing] using hna)
  | sharedCopy o => exact consistent_shared_copy h he
  | sharedMove o => exact consistent_shared_move h he
  | sharedAliasing o p => cases hna
  | sharedFromWeak o =>
    simp only [Op.exec] at he
    cases hf : SharedPtr.fromWeak w o with
    | error x =>
      rw [hf] at he
      cases x with
      | BadWeakPtr => cases he; exact h
      | undefined => cases he
      | outOfFuel => cases he
    | ok w3 =>
      rw [hf] at he
      cases he
      exact consistent_from_weak h hf
  | sharedAssign s o => exact consistent_shared_assign h he
  | sharedMoveAssign s o => exact consistent_shared_move_assign h he
  | sharedReset s => exact consistent_shared_clear h he
  | sharedResetPtr s p => exact consistent_reset_ptr h (by simpa [Op.nonAliasing] using hna) he
  | sharedSwap s o => exact consistent_shared_swap h he
  | sharedDestroy s => exact consistent_shared_clear h he
  | weakDefault => cases he; exact consistent_new_weak h both_null
  | weakCopy o => exact consistent_weak_copy h he
  | weakMove o => exact consistent_weak_move h he
  | weakFromShared o => exact consistent_weak_from_shared h he
  | weakAssign s o => exact consistent_weak_assign h he
  | weakMoveAssign s o => exact consistent_weak_move_assign h he
  | weakReset s => exact consistent_weak_clear h he
  | weakSwap s o => exact consistent_weak_swap h he
  | weakDestroy s => exact consistent_weak_clear h he
  | weakLock s => exact consistent_lock h he

theorem consistent_step {c c2 : Client} (op : Op) (h : c.world.consistent = true)
    (hna : op.nonAliasing = true) (he : step c op = .ok c2) : c2.world.consistent = true := by
  unfold step at he
  split at he
  · obtain ⟨w, h1, h2⟩ := bind_ok_elim he
    cases h2
    exact consistent_exec op h hna h1
  · cases he; exact h

/-- A program without aliasing constructor and without null address to manage keeps the fields
of every handle consistent. -/
theorem consistent_run (ops : List Op) :
    ∀ (c c2 : Client), c.world.consistent = true → (∀ op, op ∈ ops → op.nonAliasing = true) →
      run ops c = .ok c2 → c2.world.consistent = true := by
  induction ops with
  | nil =>
    intro c c2 h _ he
    cases he
    exact h
  | cons op ops ih =>
    intro c c2 h hna he
    obtain ⟨c1, h1, h2⟩ := bind_ok_elim he
    exact ih c1 c2 (consistent_step op h (hna op (List.mem_cons_self _ _)) h1)
      (fun o ho => hna o (List.mem_cons_of_mem _ ho)) h2

end Weak

/-! ## Claim about the consistency of the two fields -/

/-- C21 (counterexample): `SharedPtr<T>(static_cast<T*>(nullptr))` in the empty world is a
non-aliasing operation, and the handle it constructs has a control block and a null `ptr_`:
`operator bool` is `true` while `Get()` is null.  A copy of that handle has the same fields. -/
theorem null_wrap_fields :
    (Weak.Op.sharedFromRaw 0).exec Weak.World.empty =
      .ok (Weak.SharedPtr.fromRaw Weak.World.empty 0) ∧
    (Weak.SharedPtr.fromRaw Weak.World.empty 0).shared = [{ control_ := some 0, ptr_ := 0 }] ∧
    Weak.SharedPtr.toBool (Weak.SharedPtr.fromRaw Weak.World.empty 0) 0 = .ok true ∧
    Weak.SharedPtr.Get (Weak.SharedPtr.fromRaw Weak.World.empty 0) 0 = .ok 0 ∧
    (Weak.SharedPtr.fromRaw Weak.World.empty 0).consistent = false ∧
    (Weak.run [.sharedFromRaw 0, .sharedCopy 0] (Weak.Client.start Weak.World.empty)).map
      (fun c => c.world.shared) =
      .ok [{ control_ := some 0, ptr_ := 0 }, { control_ := some 0, ptr_ := 0 }] := by
  refine ⟨rfl, rfl, rfl, rfl, rfl, rfl⟩

/-- C21 (amended): a program of fewer than `2 ^ 64 - 1` operations, started in the empty world,
that brings only pairwise different objects under management, never uses the aliasing
constructor and never passes a null pointer to `SharedPtr(Y*)` or `Reset(Y*)`, runs to
completion, and then in every `SharedPtr` and every `WeakPtr` instance `control_` and `ptr_` are
both present or both absent; `operator bool` of a `SharedPtr` is `Get() != nullptr`. -/
theorem fields_consistent (ops : List Weak.Op) (hlen : ops.length + 1 < sizeMod)
    (hnd : (Weak.objects ops).Nodup) (hna : ∀ op, op ∈ ops → op.nonAliasing = true) :
    ∃ c, Weak.run ops (Weak.Client.start Weak.World.empty) = .ok c ∧
      (∀ (i : Nat) (s : SharedPtr), c.world.shared[i]? = some s →
        (s.control_ = none ↔ s.ptr_ = 0) ∧
        Weak.SharedPtr.Get c.world i = .ok s.ptr_ ∧
        Weak.SharedPtr.toBool c.world i = .ok (decide (s.ptr_ ≠ 0))) ∧
      (∀ (i : Nat) (s : WeakPtr), c.world.weak[i]? = some s →
        (s.control_ = none ↔ s.ptr_ = 0)) := by
  obtain ⟨c, U2, h, _, _⟩ := Weak.run_inv ops [] (Weak.Client.start Weak.World.empty)
    Weak.safe_empty
    (by simp only [Weak.Client.start, Weak.World.empty, List.length_nil]; omega)
    (by simp only [Weak.Client.start, Weak.World.empty, List.length_nil]; omega) hnd
    (fun _ _ => by simp)
  have hc := Weak.consistent_run ops (Weak.Client.start Weak.World.empty) c rfl hna h
  rw [Weak.consistent_iff] at hc
  have key : ∀ (o : Option Nat) (p : Nat), Weak.bothOrNeither o p = true →
      (o = none ↔ p = 0) ∧ o.isSome = decide (p ≠ 0) := by
    intro o p hb
    cases o with
    | none =>
      by_cases hp : p = 0
      · simp [hp]
      · simp [Weak.bothOrNeither, hp] at hb
    | some d =>
      by_cases hp : p = 0
      · simp [Weak.bothOrNeither, hp] at hb
      · simp [hp]
  refine ⟨c, h, fun i s hs => ?_, fun i s hs => ?_⟩
  · have hk := key _ _ (hc.1 s (List.getElem?_mem hs))
    refine ⟨hk.1, ?_, ?_⟩
    · simp [Weak.SharedPtr.Get, Weak.sharedAt_ok hs, bind, Except.bind, pure, Except.pure]
    · simp only [Weak.SharedPtr.toBool, Weak.sharedAt_ok hs, bind, Except.bind, pure,
        Except.pure, hk.2]
  · exact (key _ _ (hc.2 s (List.getElem?_mem hs))).1

/-- Witness for C21 (amended): a program that wraps two objects, copies, moves, promotes, resets
and destroys handles. -/
theorem fields_consistent_witness :
    ([Weak.Op.sharedFromRaw 5, .weakFromShared 0, .sharedCopy 0, .makeShared 7, .weakLock 0,
      .sharedMove 1, .sharedDestroy 0, .sharedResetPtr 2 9, .sharedDefault,
      .sharedFromWeak 0].length + 1 < sizeMod) ∧
    (Weak.objects [Weak.Op.sharedFromRaw 5, .weakFromShared 0, .sharedCopy 0, .makeShared 7,
      .weakLock 0, .sharedMove 1, .sharedDestroy 0, .sharedResetPtr 2 9, .sharedDefault,
      .sharedFromWeak 0]).Nodup ∧
    (∀ op, op ∈ [Weak.Op.sharedFromRaw 5, .weakFromShared 0, .sharedCopy 0, .makeShared 7,
      .weakLock 0, .sharedMove 1, .sharedDestroy 0, .sharedResetPtr 2 9, .sharedDefault,
      .sharedFromWeak 0] → op.nonAliasing = true) ∧
    ∃ c, Weak.run [Weak.Op.sharedFromRaw 5, .weakFromShared 0, .sharedCopy 0, .makeShared 7,
        .weakLock 0, .sharedMove 1, .sharedDestroy 0, .sharedResetPtr 2 9, .sharedDefault,
        .sharedFromWeak 0] (Weak.Client.start Weak.World.empty) = .ok c ∧
      (∀ (i : Nat) (s : SharedPtr), c.world.shared[i]? = some s →
        (s.control_ = none ↔ s.ptr_ = 0) ∧
        Weak.SharedPtr.Get c.world i = .ok s.ptr_ ∧
        Weak.SharedPtr.toBool c.world i = .ok (decide (s.ptr_ ≠ 0))) ∧
      (∀ (i : Nat) (s : WeakPtr), c.world.weak[i]? = some s →
        (s.control_ = none ↔ s.ptr_ = 0)) :=
  ⟨by decide, by decide, by decide, fields_consistent _ (by decide) (by decide) (by decide)⟩

/-- C33: `UniquePtr::Release()` returns the pointer the handle held, leaves the handle holding
null with `operator bool` false, invokes no deleter, and the destruction that follows invokes no
deleter either. -/
theorem unique_release_no_deleter (w : Unique.World) (self : Nat) :
    (Unique.Release w self).1 = Unique.Get w self ∧
    Unique.Get (Unique.Release w self).2 self = 0 ∧
    Unique.toBool (Unique.Release w self).2 self = false ∧
    (Unique.Release w self).2.calls = w.calls ∧
    (Unique.destroy (Unique.Release w self).2 self).calls = w.calls := by
  simp [Unique.Release, Unique.Get, Unique.toBool, Unique.destroy, Unique.Clear, Unique.setFirst]

/-- C32: `UniquePtr::Reset(p)` on a handle holding `q` leaves the handle holding `p`; the deleter
calls added are exactly one call on `q`, made while the handle already holds `p`, when `q` is not
null, and none when `q` is null (so `p` is passed to the deleter only if `p = q`). -/
theorem unique_reset_deleter_calls (w : Unique.World) (self p : Nat) :
    Unique.Get (Unique.Reset w self p) self = p ∧
    (Unique.Reset w self p).calls =
      w.calls ++ (if Unique.Get w self ≠ 0 then
        [{ deleter := (w.mem self).second, arg := Unique.Get w self, held := p }] else []) := by
  by_cases h : (w.mem self).first = 0 <;>
    simp [Unique.Reset, Unique.Get, Unique.setFirst, Unique.invokeDeleter, h]

/-- C31: `RefCounted::operator=` between two distinct objects leaves the count of the destination at
exactly 1 whatever both counts were, leaves the source untouched, and self-assignment changes
nothing. -/
theorem refcounted_assign_count_one (objs : Nat → Intrusive.RefCounted) (dst src : Nat)
    (h : dst ≠ src) :
    ((Intrusive.RefCounted.assign objs dst src) dst).RefCount = 1 ∧
    (Intrusive.RefCounted.assign objs dst src) src = objs src ∧
    Intrusive.RefCounted.assign objs dst dst = objs := by
  refine ⟨?_, ?_, ?_⟩
  · simp [Intrusive.RefCounted.assign, Ne.symm h, Intrusive.RefCounted.resetToOne,
      Intrusive.RefCounted.RefCount, Intrusive.SimpleCounter.RefCount,
      Intrusive.SimpleCounter.Reset, Intrusive.SimpleCounter.IncRef, incSize, sizeMod]
  · simp [Intrusive.RefCounted.assign, Ne.symm h, Function.update_noteq (Ne.symm h)]
  · simp [Intrusive.RefCounted.assign]

/-- Witness for C31: an object with count 7 assigned from an object with count 3. -/
theorem refcounted_assign_count_one_witness :
    (0 : Nat) ≠ 1 ∧
    ((Intrusive.RefCounted.assign
        (fun a => if a = 0 then { counter_ := { count_ := 7 }, destroys := 0 }
          else { counter_ := { count_ := 3 }, destroys := 0 }) 0 1) 0).RefCount = 1 ∧
    (Intrusive.RefCounted.assign
        (fun a => if a = 0 then { counter_ := { count_ := 7 }, destroys := 0 }
          else { counter_ := { count_ := 3 }, destroys := 0 }) 0 1) 1 =
      (fun a => if a = 0 then ({ counter_ := { count_ := 7 }, destroys := 0 } : Intrusive.RefCounted)
          else { counter_ := { count_ := 3 }, destroys := 0 }) 1 ∧
    Intrusive.RefCounted.assign
        (fun a => if a = 0 then { counter_ := { count_ := 7 }, destroys := 0 }
          else { counter_ := { count_ := 3 }, destroys := 0 }) 0 0 =
      (fun a => if a = 0 then ({ counter_ := { count_ := 7 }, destroys := 0 } : Intrusive.RefCounted)
          else { counter_ := { count_ := 3 }, destroys := 0 }) :=
  ⟨by decide, refcounted_assign_count_one _ 0 1 (by decide)⟩

